import Mathlib

/-!
# jCard: a shallow embedding of `internal/entities`

The development follows `jcard.go` (decoder, card operations, property validation entry
points), `cnames.go` (property names) and the type descriptors declared in the `p*.go` files.

Conventions of the embedding.

* A Go `interface{}` holding a decoded JSON value is an `Any`.
* A Go `error` is its message: `GoError := Option String`, `none` being `nil`.
* A Go function with results `(x, err)` returns a pair; the pointer result `*VCard` is an
  `Option VCard`, `none` being the `nil` pointer.
* A Go `map[string]T` is an association list with pairwise distinct keys; for the maps built by
  the code this is kept by `mapSet`, for maps received as input it is a stated hypothesis.
* A `*VCardProperty` is a `PropertyRef`: the address of the object together with the object.
* A run-time panic is the `Run.panic` outcome.
* Functions of the Go libraries that render a `float64`, an error or a pointer, the parser
  of language tags, and the property validators whose bodies are not part of this
  development, are fields of `Deps`.
* A Go `int` is an `Int`; the platform is taken to have 64-bit integers.
* A Go `string` is a `String`: the text functions are followed on valid UTF-8.
* A compiled pattern of package `regexp` is a `Regex`, the syntax tree of its source text;
  `MatchString` is `Regex.MatchString`.
* A layout of package `time` is the list of the pieces `time.Parse` cuts it into.
-/

namespace JCard

/-! ## Values -/

/-- A Go `float64`, kept as its IEEE-754 bit pattern; no arithmetic is done on it. -/
structure Float64 where
  bits : Nat
deriving DecidableEq

/-- A Go `interface{}` as the decoder and the builders see it: `nil`, `bool`, `float64`,
`string`, `[]interface{}`, `map[string]interface{}` and `[]string`. -/
inductive Any where
  | null
  | bool (b : Bool)
  | num (x : Float64)
  | str (s : String)
  | arr (xs : List Any)
  | obj (kvs : List (String × Any))
  | strs (xs : List String)

/-- A Go `error`: `none` is `nil`, `some msg` an error with message `msg`. -/
abbrev GoError := Option String

/-- Outcome of Go code that may abort with a run-time panic. -/
inductive Run (α : Type) where
  | done (a : α)
  | panic

/-- The Go type `map[string][]string`. The list holds the entries of the map in the order in
which a `range` visits them in the run at hand; Go fixes no order, and another `range` over
the same map may visit the entries in the order of any other list with the same entries. -/
abbrev Params := List (String × List String)

/-- The expression `m[k]` on a `map[string][]string`: the zero value (nil slice) when absent. -/
def mapGet (m : Params) (k : String) : List String :=
  (m.lookup k).getD []

/-- The statement `m[k] = v`. -/
def mapSet : Params → String → List String → Params
  | [], k, v => [(k, v)]
  | (k1, v1) :: rest, k, v => if k1 = k then (k, v) :: rest else (k1, v1) :: mapSet rest k v

/-- The function `vCardError`: `fmt.Errorf("jCard error: %s", e)`. -/
def vCardError (e : String) : String :=
  "jCard error: " ++ e

/-! ## Property names (`cnames.go`) -/

def Adr : String := "adr"
def Anniversary : String := "anniversary"
def BDay : String := "bday"
def CalAdrURI : String := "caladruri"
def CalURI : String := "caluri"
def Categories : String := "categories"
def ClientPIDMap : String := "clientpidmap"
def Email : String := "email"
def FbURL : String := "fburl"
def Fn : String := "fn"
def Gender : String := "gender"
def Geo : String := "geo"
def IMPP : String := "impp"
def Key : String := "key"
def Kind : String := "kind"
def Lang : String := "lang"
def Logo : String := "logo"
def Member : String := "member"
def N : String := "n"
def Nickname : String := "nickname"
def Note : String := "note"
def Org : String := "org"
def Photo : String := "photo"
def ProdID : String := "prodid"
def Related : String := "related"
def Rev : String := "rev"
def Role : String := "role"
def Sound : String := "sound"
def Tel : String := "tel"
def Title : String := "title"
def Tz : String := "tz"
def UID : String := "uid"
def URL : String := "url"
def Version : String := "version"
def URI : String := "uri"
def Text : String := "text"

/-! ## Data model -/

/-- The type `Cardinality` (a Go `int`); the zero value is none of the four constants. -/
abbrev Cardinality := Int

def Many : Cardinality := 1
def OneOrMany : Cardinality := 2
def OneOrZero : Cardinality := 3
def One : Cardinality := 4

/-- The four exported fields of `VCardProperty`, which is all a validator reads
(`Type_` is the field `Type`, a reserved word here). -/
structure VCardPropertyData where
  Name : String
  Parameters : Params
  Type_ : String
  Value : Any

/-- A value of the Go type `func(v *VCardProperty) error`. -/
abbrev Validator := VCardPropertyData → Run GoError

/-- The struct `VPropertyTypeInfo`; `Validate = none` is the nil function value. -/
structure VPropertyTypeInfo where
  Name : String
  Cardinal : Cardinality
  Specification : String
  Validate : Option Validator

/-- The zero value of `VPropertyTypeInfo`, which a property has until a descriptor is set. -/
def VPropertyTypeInfo.zero : VPropertyTypeInfo :=
  { Name := "", Cardinal := 0, Specification := "", Validate := none }

/-- The struct `VCardProperty`. -/
structure VCardProperty extends VCardPropertyData where
  typeInfo : VPropertyTypeInfo

/-- A `*VCardProperty`: `addr` is what Go compares with `==`, `obj` the object pointed to. -/
structure PropertyRef where
  addr : Nat
  obj : VCardProperty

/-- The struct `VCard`; `Errors` is the `map[string]error`, keyed by diagnostic text. -/
structure VCard where
  Properties : List PropertyRef
  Errors : List (String × String)

/-- What the embedding takes from outside: the renderings of a `float64`, of an error of
`strconv.Atoi` and of a pointer done by package `fmt`, the parser of language tags, and the
validator functions of the `p*.go` files whose bodies are not developed here. -/
structure Deps where
  /-- The call `strconv.FormatFloat(v, 'f', -1, 64)`. -/
  FormatFloat : Float64 → String
  /-- The call `fmt.Sprintf("%v", v)` on a `float64`. -/
  SprintFloat : Float64 → String
  /-- The text `fmt.Sprintf` prints with the verb `%w` for the error that `strconv.Atoi`
  returns on a text. -/
  SprintAtoiError : String → String
  /-- The text `fmt.Sprintf` prints with the verb `%v` for a pointer to a string: its
  address. -/
  SprintPointer : String → String
  /-- The call `language.Parse(v)` of package `golang.org/x/text/language`, as the error it
  returns: `none` is `nil`. -/
  ParseLanguage : String → GoError
  ValidateCategories : Validator
  ValidateFn : Validator
  ValidateGender : Validator
  ValidateImpp : Validator
  ValidateKey : Validator
  ValidateLang : Validator
  ValidateLogo : Validator
  ValidateMember : Validator
  ValidateN : Validator
  ValidateNickname : Validator
  ValidateNote : Validator
  ValidateOrg : Validator
  ValidateProdid : Validator
  ValidateRelated : Validator
  ValidateRev : Validator
  ValidateRole : Validator
  ValidateSound : Validator
  ValidateTitle : Validator
  ValidateURL : Validator

/-! ## Flattening: `Values` -/

mutual
/-- The method `appendValueStrings`; the accumulator is the slice behind `strings`.
The `default` branch panics. -/
def appendValueStrings (L : Deps) : Any → List String → Run (List String)
  | .null, strings => .done (strings ++ [""])
  | .bool v, strings => .done (strings ++ [if v then "true" else "false"])
  | .num v, strings => .done (strings ++ [L.FormatFloat v])
  | .str v, strings => .done (strings ++ [v])
  | .arr v, strings => appendValueStringsRange L v strings
  | .obj _, _ => .panic
  | .strs _, _ => .panic
/-- The loop `for _, v2 := range v` of `appendValueStrings`. -/
def appendValueStringsRange (L : Deps) : List Any → List String → Run (List String)
  | [], strings => .done strings
  | v2 :: rest, strings =>
    match appendValueStrings L v2 strings with
    | .done strings1 => appendValueStringsRange L rest strings1
    | .panic => .panic
end

/-- The method `Values`. -/
def VCardProperty.Values (L : Deps) (p : VCardProperty) : Run (List String) :=
  appendValueStrings L p.Value []

/-! ## Decoding -/

mutual
/-- The function `readValue`. `depth` is a Go `int` that starts at 0 and only grows by one per
array level, so a natural number. -/
def readValue : Any → Nat → Any × GoError
  | .null, _ => (.null, none)
  | .str value, _ => (.str value, none)
  | .bool value, _ => (.bool value, none)
  | .num value, _ => (.num value, none)
  | .arr value, depth =>
    if depth = 3 then (.str "", some (vCardError "Structured value too deep"))
    else readValueRange value depth []
  | .obj _, _ => (.null, some (vCardError "Unknown JSON datatype in jCard value"))
  | .strs _, _ => (.null, some (vCardError "Unknown JSON datatype in jCard value"))
/-- The loop `for _, v2 := range value` of `readValue`, with `result` built so far. -/
def readValueRange : List Any → Nat → List Any → Any × GoError
  | [], _, result => (.arr result, none)
  | v2 :: rest, depth, result =>
    match readValue v2 (depth + 1) with
    | (v3, none) => readValueRange rest depth (result ++ [v3])
    | (_, some err) => (.null, some err)
end

/-- The inner loop of `readParameters` over the members of an array value. -/
def readParametersArr (k : String) : List Any → Params → Params
  | [], params => params
  | .str s :: rest, params => readParametersArr k rest (mapSet params k (mapGet params k ++ [s]))
  | _ :: rest, params => readParametersArr k rest params

/-- The loop `for k, v := range p.(map[string]interface{})` of `readParameters`. -/
def readParametersRange : List (String × Any) → Params → Params
  | [], params => params
  | (k, .str s) :: rest, params =>
    readParametersRange rest (mapSet params k (mapGet params k ++ [s]))
  | (k, .arr arr) :: rest, params => readParametersRange rest (readParametersArr k arr params)
  | _ :: rest, params => readParametersRange rest params

/-- The function `readParameters`; the nil map of the failure case is the empty list. -/
def readParameters : Any → Params × GoError
  | .obj kvs => (readParametersRange kvs [], none)
  | _ => ([], some (vCardError "jCard parameters invalid"))

/-- The body of the loop of `newVCardImpl` up to the construction of the property:
one element `p` of the property list gives a property object or the error returned. -/
def newVCardImplProperty : Any → Option VCardProperty × GoError
  | .arr (a0 :: a1 :: a2 :: a3 :: rest) =>
    match a0 with
    | .str name =>
      match readParameters a1 with
      | (parameters, none) =>
        match a2 with
        | .str propertyType =>
          match (if rest.length + 4 = 4 then readValue a3 0
                 else readValue (.arr (a3 :: rest)) 0) with
          | (value, none) =>
            (some { Name := name, Type_ := propertyType, Parameters := parameters,
                    Value := value, typeInfo := VPropertyTypeInfo.zero }, none)
          | (_, some err) => (none, some err)
        | _ => (none, some (vCardError "jCard property type invalid"))
      | (_, some err) => (none, some err)
    | _ => (none, some (vCardError "jCard property name invalid"))
  | .arr _ => (none, some (vCardError "jCard property too short (>=4 array elements required)"))
  | _ => (none, some (vCardError "jCard property was not an array"))

/-- The loop `for _, p = range top[1]` of `newVCardImpl`; `v` is the card built so far.
Each `&VCardProperty{...}` is a new object: its address is the number of objects allocated
before it. -/
def newVCardImplRange : List Any → VCard → Option VCard × GoError
  | [], v => (some v, none)
  | p :: rest, v =>
    match newVCardImplProperty p with
    | (some property, none) =>
      newVCardImplRange rest
        { v with Properties := v.Properties ++ [{ addr := v.Properties.length, obj := property }] }
    | (_, err) => (none, err)

/-- The function `newVCardImpl`. -/
def newVCardImpl : Any → Option VCard × GoError
  | .arr [top0, top1] =>
    match top0 with
    | .str s =>
      if s = "vcard" then
        match top1 with
        | .arr properties => newVCardImplRange properties { Properties := [], Errors := [] }
        | _ => (none, some (vCardError "structure is not a jCard (bad properties array)"))
      else (none, some (vCardError "structure is not a jCard (missing 'vcard')"))
    | _ => (none, some (vCardError "structure is not a jCard (missing 'vcard')"))
  | _ => (none, some (vCardError "structure is not a jCard (expected len=2 top level array)"))

/-! ## Card operations -/

/-- The method `Get`: the loop appends each property whose name matches. -/
def VCard.Get (v : VCard) (name : String) : List PropertyRef :=
  v.Properties.foldl (fun properties p => if p.obj.Name = name then properties ++ [p] else properties) []

/-- The method `GetFirst`; `none` is the nil pointer. -/
def VCard.GetFirst (v : VCard) (name : String) : Option PropertyRef :=
  match v.Get name with
  | [] => none
  | p :: _ => some p

/-- The method `VCardProperty.Validate`; calling the nil function value panics. -/
def VCardProperty.Validate (p : VCardProperty) : Run GoError :=
  if ¬ (p.Name = p.typeInfo.Name) then
    .done (some (vCardError
      ("Property '" ++ p.Name ++ "' has bad typeInfo '" ++ p.typeInfo.Name ++ "'")))
  else
    match p.typeInfo.Validate with
    | some validate => validate p.toVCardPropertyData
    | none => .panic

/-- The method `append`: the card after the call and the error returned. -/
def VCard.append (v : VCard) (prop : PropertyRef) : Run (VCard × GoError) :=
  match prop.obj.Validate with
  | .panic => .panic
  | .done (some error) => .done (v, some ("Adding " ++ prop.obj.Name ++ " failed: " ++ error))
  | .done none => .done ({ v with Properties := v.Properties ++ [prop] }, none)

/-! ## Rendering with `%v` -/

/-- Insert a rendered map entry into a list kept in increasing key order. -/
def insertByKey (kv : String × String) : List (String × String) → List (String × String)
  | [] => [kv]
  | kv1 :: rest => if kv.1 < kv1.1 then kv :: kv1 :: rest else kv1 :: insertByKey kv rest

/-- The text `fmt` prints for a map whose entries are already rendered: `map[k:v k:v]`, the
keys in increasing order. -/
def sprintMap (entries : List (String × String)) : String :=
  "map[" ++ " ".intercalate ((entries.foldr insertByKey []).map (fun kv => kv.1 ++ ":" ++ kv.2))
    ++ "]"

/-- The text `fmt` prints for a slice whose members are already rendered: `[a b c]`. -/
def sprintSlice (members : List String) : String :=
  "[" ++ " ".intercalate members ++ "]"

mutual
/-- The call `fmt.Sprintf("%v", v)` on an `interface{}`. -/
def Sprint (L : Deps) : Any → String
  | .null => "<nil>"
  | .bool b => if b then "true" else "false"
  | .num x => L.SprintFloat x
  | .str s => s
  | .arr xs => sprintSlice (SprintMembers L xs)
  | .obj kvs => sprintMap (SprintEntries L kvs)
  | .strs xs => sprintSlice xs
/-- The members of a `[]interface{}`, each rendered with `%v`. -/
def SprintMembers (L : Deps) : List Any → List String
  | [] => []
  | v :: rest => Sprint L v :: SprintMembers L rest
/-- The entries of a `map[string]interface{}`, each value rendered with `%v`. -/
def SprintEntries (L : Deps) : List (String × Any) → List (String × String)
  | [] => []
  | (k, v) :: rest => (k, Sprint L v) :: SprintEntries L rest
end

/-- The call `fmt.Sprintf("%v", m)` on a `map[string][]string`. -/
def SprintParams (m : Params) : String :=
  sprintMap (m.map (fun kv => (kv.1, sprintSlice kv.2)))

/-! ## Integers as text, and splitting -/

/-- The decimal text of a Go `int`, as `%v` and `strconv.Itoa` print it. -/
def Itoa (k : Int) : String :=
  match k with
  | .ofNat n => String.mk (Nat.toDigits 10 n)
  | .negSucc n => String.mk ('-' :: Nat.toDigits 10 (n + 1))

/-- The digit loop of `strconv.Atoi`: the number read so far is `n`; a character that is not
a decimal digit is an error. -/
def atoiDigits : List Char → Nat → Option Nat
  | [], n => some n
  | c :: rest, n =>
    if c.isDigit then atoiDigits rest (n * 10 + (c.toNat - 48)) else none

/-- The function `strconv.Atoi`, `none` being a non-nil error: an optional sign, then at
least one decimal digit and nothing else, the value within the 64-bit range. -/
def Atoi (s : String) : Option Int :=
  match s.data with
  | [] => none
  | c :: rest =>
    match (if c = '-' ∨ c = '+' then rest else c :: rest) with
    | [] => none
    | d :: ds =>
      match atoiDigits (d :: ds) 0 with
      | none => none
      | some n =>
        if c = '-' then (if n ≤ 2 ^ 63 then some (-(n : Int)) else none)
        else (if n < 2 ^ 63 then some (n : Int) else none)

/-- The pieces of a text between the occurrences of the separator character. -/
def splitChars (sep : Char) : List Char → List (List Char)
  | [] => [[]]
  | c :: rest =>
    if c = sep then [] :: splitChars sep rest
    else
      match splitChars sep rest with
      | piece :: pieces => (c :: piece) :: pieces
      | [] => [[c]]

/-- The call `strings.Split(s, sep)` for a separator of one character. -/
def Split (s : String) (sep : Char) : List String :=
  (splitChars sep s.data).map String.mk

/-! ## Regular expressions (package `regexp`) -/

/-- A character class given by its ranges: `[a-z0-9.]` is `[('a','z'), ('0','9'), ('.','.')]`. -/
def inClass (ranges : List (Char × Char)) (c : Char) : Bool :=
  ranges.any (fun r => decide (r.1 ≤ c) && decide (c ≤ r.2))

/-- The regular expressions of package `regexp`, as far as the patterns of this package use
them: the empty pattern, a character class, `.` (any character but a newline; no flag `s` is
set), concatenation, `|`, `*`, and the two assertions `^` and `$` (beginning and end of the
text; no flag `m` is set). -/
inductive Regex where
  | eps
  | cls (ranges : List (Char × Char))
  | dot
  | cat (a b : Regex)
  | alt (a b : Regex)
  | star (a : Regex)
  | bot
  | eot

/-- A sequence of patterns written one after the other. -/
def Regex.seq : List Regex → Regex
  | [] => .eps
  | [a] => a
  | a :: b :: rest => .cat a (Regex.seq (b :: rest))

/-- The pattern of a literal text. -/
def Regex.lit (s : String) : Regex :=
  Regex.seq (s.data.map (fun c => Regex.cls [(c, c)]))

/-- The pattern `a+`. -/
def Regex.plus (a : Regex) : Regex := .cat a (.star a)

/-- The pattern `a?`. -/
def Regex.opt (a : Regex) : Regex := .alt a .eps

/-- The class `\d`. -/
def Regex.digit : Regex := .cls [('0', '9')]

/-- The class `\s`: tab, newline, form feed, carriage return and space. -/
def Regex.space : Regex :=
  .cls [('\t', '\t'), ('\n', '\n'), (Char.ofNat 12, Char.ofNat 12), ('\r', '\r'), (' ', ' ')]

/-- The iterations of `a*` from the text `s` on: `step` gives the texts left after one match
of `a`; an iteration that takes no character is not repeated. The count bounds the number of
iterations by the length of the text. -/
def starStep (step : Bool → List Char → List (List Char)) :
    Nat → Bool → List Char → List (List Char)
  | 0, _, s => [s]
  | n + 1, st, s =>
    s :: ((step st s).filter (fun s1 => decide (s1.length < s.length))).flatMap
      (fun s1 => starStep step n false s1)

/-- The texts that can be left when the pattern matches at the front of `s`: `s2` is listed
when `s = s1 ++ s2` and the pattern matches `s1`. The flag `st` says that `s` is the whole
text, so that `^` holds here; `$` holds when nothing is left. -/
def Regex.step : Regex → Bool → List Char → List (List Char)
  | .eps, _, s => [s]
  | .cls ranges, _, s =>
    match s with
    | c :: rest => if inClass ranges c then [rest] else []
    | [] => []
  | .dot, _, s =>
    match s with
    | c :: rest => if c ≠ '\n' then [rest] else []
    | [] => []
  | .cat a b, st, s =>
    (a.step st s).flatMap (fun s1 => b.step (st && decide (s1.length = s.length)) s1)
  | .alt a b, st, s => a.step st s ++ b.step st s
  | .star a, st, s => starStep (fun st1 t => a.step st1 t) s.length st s
  | .bot, st, s => if st then [s] else []
  | .eot, _, s => if s.isEmpty then [s] else []

/-- The search of `MatchString`: a match may begin at any position of the text. -/
def matchFrom (r : Regex) : Bool → List Char → Bool
  | st, [] => !(r.step st []).isEmpty
  | st, c :: rest => !(r.step st (c :: rest)).isEmpty || matchFrom r false rest

/-- The method `MatchString` of a compiled pattern: the text contains a match. -/
def Regex.MatchString (r : Regex) (s : String) : Bool :=
  matchFrom r true s.data

/-! ## The patterns of `jcard.go` and `pcommunication.go` -/

/-- The pattern `validPid`, compiled from `^\d+(.\d+)*$`; the dot stands as it is written, not
escaped. -/
def validPid : Regex :=
  .seq [.bot, .plus .digit, .star (.cat .dot (.plus .digit)), .eot]

/-- The characters of the class `[0-9A-Za-z!#$%&'*+.^_|~-]` of `regexpMedia`, which also
holds the backquote (character 96); the apostrophe is character 39. -/
def mediaTokenRanges : List (Char × Char) :=
  [('0', '9'), ('A', 'Z'), ('a', 'z'), ('!', '!'), ('#', '#'), ('$', '$'), ('%', '%'),
    ('&', '&'), (Char.ofNat 39, Char.ofNat 39), ('*', '*'), ('+', '+'), ('.', '.'), ('^', '^'),
    ('_', '_'), (Char.ofNat 96, Char.ofNat 96), ('|', '|'), ('~', '~'), ('-', '-')]

/-- The class `[0-9A-Za-z!#$%&'*+.^_|~-]` of `regexpMedia`. -/
def mediaToken : Regex :=
  .cls mediaTokenRanges

/-- The first group of `regexpMedia`: one of ten names, or `x-` and a token. -/
def mediaType : Regex :=
  .alt (.lit "application") (.alt (.lit "audio") (.alt (.lit "font") (.alt (.lit "example")
    (.alt (.lit "image") (.alt (.lit "message") (.alt (.lit "model") (.alt (.lit "multipart")
    (.alt (.lit "text") (.alt (.lit "video") (.cat (.lit "x-") (.plus mediaToken)))))))))))

/-- The pattern `validMedia`, compiled from `regexpMedia`: `(type)/(token)`, with no `^` and
no `$`. -/
def validMedia : Regex :=
  .seq [mediaType, .lit "/", .plus mediaToken]

/-- The pattern `validUtcOffset`, compiled from `^Z|[+-][01]\d[0-5]\d$`: the `|` is the
outermost operator, so `^` belongs to the first branch and `$` to the second. -/
def validUtcOffset : Regex :=
  .alt (.cat .bot (.lit "Z"))
    (.seq [.cls [('+', '+'), ('-', '-')], .cls [('0', '0'), ('1', '1')], .digit,
      .cls [('0', '5')], .digit, .eot])

/-- The pattern `preferedGeo`, compiled from `^(geo:)?\-?\d+\.\d+?,\s*\-?\d+\.\d+?$`; the
non-greedy `+?` matches the same texts as `+`. -/
def preferedGeo : Regex :=
  .seq [.bot, .opt (.lit "geo:"), .opt (.lit "-"), .plus .digit, .lit ".", .plus .digit,
    .lit ",", .star .space, .opt (.lit "-"), .plus .digit, .lit ".", .plus .digit, .eot]

/-- The class `[a-zA-Z0-9._%+\-]` of `regexpMail`. -/
def mailLocal : Regex :=
  .cls [('a', 'z'), ('A', 'Z'), ('0', '9'), ('.', '.'), ('_', '_'), ('%', '%'), ('+', '+'),
    ('-', '-')]

/-- The class `[a-z0-9.\-]` of `regexpMail`. -/
def mailHost : Regex :=
  .cls [('a', 'z'), ('0', '9'), ('.', '.'), ('-', '-')]

/-- The class `[a-z]`. -/
def Regex.lower : Regex := .cls [('a', 'z')]

/-- The pattern `validMail`, compiled from `^[a-zA-Z0-9._%+\-]+@[a-z0-9.\-]+\.[a-z]{2,4}$`. -/
def validMail : Regex :=
  .seq [.bot, .plus mailLocal, .lit "@", .plus mailHost, .lit ".", .lower, .lower, .opt .lower,
    .opt .lower, .eot]

/-- The class `[\d().-]` of `regexTel`. -/
def telVisual : Regex :=
  .cls [('0', '9'), ('(', '('), (')', ')'), ('.', '.'), ('-', '-')]

/-- The global number of `regexTel`: `\+[\d().-]*\d[\d().-]*`. -/
def telGlobal : Regex :=
  .seq [.lit "+", .star telVisual, .digit, .star telVisual]

/-- The class `[0-9A-F*#().-]` of `regexTel`. -/
def telLocalChar : Regex :=
  .cls [('0', '9'), ('A', 'F'), ('*', '*'), ('#', '#'), ('(', '('), (')', ')'), ('.', '.'),
    ('-', '-')]

/-- The class `[0-9A-F*#]` of `regexTel`. -/
def telLocalDigit : Regex :=
  .cls [('0', '9'), ('A', 'F'), ('*', '*'), ('#', '#')]

/-- The local number of `regexTel`: `[0-9A-F*#().-]*[0-9A-F*#][0-9A-F*#().-]*`. -/
def telLocal : Regex :=
  .seq [.star telLocalChar, telLocalDigit, .star telLocalChar]

/-- The class `[a-z\d\[\]\/:&+$_!~*'().-]` of `regexTel`; the apostrophe is character 39. -/
def telParChar : Regex :=
  .cls [('a', 'z'), ('0', '9'), ('[', '['), (']', ']'), ('/', '/'), (':', ':'), ('&', '&'),
    ('+', '+'), ('$', '$'), ('_', '_'), ('!', '!'), ('~', '~'), ('*', '*'),
    (Char.ofNat 39, Char.ofNat 39), ('(', '('), (')', ')'), ('.', '.'), ('-', '-')]

/-- The class `[\dA-F]` of `regexTel`. -/
def telHex : Regex :=
  .cls [('0', '9'), ('A', 'F')]

/-- The class `[a-z\d-]`, also written `[a-z0-9-]`, of `regexTel`. -/
def telAlnumHyphen : Regex :=
  .cls [('a', 'z'), ('0', '9'), ('-', '-')]

/-- The class `[a-z0-9]` of `regexTel`. -/
def telAlnum : Regex :=
  .cls [('a', 'z'), ('0', '9')]

/-- A parameter of `regexTel`:
`;[a-z\d-]+(?:=(?:[a-z\d\[\]\/:&+$_!~*'().-]|%[\dA-F]\x7b2\x7d)+)?`. -/
def telPar : Regex :=
  .seq [.lit ";", .plus telAlnumHyphen,
    .opt (.cat (.lit "=") (.plus (.alt telParChar (.seq [.lit "%", telHex, telHex]))))]

/-- The domain name of `regexTel`:
`(?:[a-z0-9]\.|[a-z0-9][a-z0-9-]*[a-z0-9]\.)*(?:[a-z]|[a-z][a-z0-9-]*[a-z0-9])`. -/
def telDomain : Regex :=
  .cat
    (.star (.alt (.cat telAlnum (.lit "."))
      (.seq [telAlnum, .star telAlnumHyphen, telAlnum, .lit "."])))
    (.alt .lower (.seq [.lower, .star telAlnumHyphen, telAlnum]))

/-- The pattern `validTelNumber`, compiled from `regexTel`: `^tel:(`, a first number, its
parameters, further numbers each after a comma, `)$`. The first number is global, or local
with parameters and a `;phone-context=` that is a global number or a domain name; a further
number is global, or local with a `;phone-context=` that is a global number. -/
def validTelNumber : Regex :=
  .seq [.bot, .lit "tel:",
    .alt telGlobal
      (.seq [telLocal, .star telPar, .lit ";phone-context=", .alt telGlobal telDomain]),
    .star telPar,
    .star (.seq [.lit ",",
      .alt telGlobal (.seq [telLocal, .star telPar, .lit ";phone-context=", telGlobal]),
      .star telPar]),
    .eot]

/-- The class `[a-z]` under the flag `i` of `regexpURI`: with a letter also the characters
that fold to it, which are the capital letters, U+017F (for `s`) and U+212A (for `k`). -/
def foldedLetters : List (Char × Char) :=
  [('a', 'z'), ('A', 'Z'), (Char.ofNat 0x17F, Char.ofNat 0x17F),
   (Char.ofNat 0x212A, Char.ofNat 0x212A)]

/-- The class `[a-z0-9+.-]` of `regexpURI`, under the flag `i`. -/
def uriScheme : Regex :=
  .cls (foldedLetters ++ [('0', '9'), ('+', '+'), ('.', '.'), ('-', '-')])

/-- The characters `a-z0-9-._~!$&'()*+,;=`, with which each of the other classes of
`regexpURI` begins, under the flag `i`; the apostrophe is character 39. -/
def uriCommon : List (Char × Char) :=
  foldedLetters ++ [('0', '9'), ('-', '-'), ('.', '.'), ('_', '_'), ('~', '~'), ('!', '!'),
    ('$', '$'), ('&', '&'), (Char.ofNat 39, Char.ofNat 39), ('(', '('), (')', ')'), ('*', '*'),
    ('+', '+'), (',', ','), (';', ';'), ('=', '=')]

/-- The class `[0-9A-F]` of `regexpURI`, under the flag `i`. -/
def uriHex : Regex :=
  .cls [('0', '9'), ('A', 'F'), ('a', 'f')]

/-- The group `(?:[a-z0-9-._~!$&'()*+,;=...]|%[0-9A-F]\x7b2\x7d)` of `regexpURI`, where
`extra` are the characters that the class has behind `=`. -/
def uriChar (extra : List Char) : Regex :=
  .alt (.cls (uriCommon ++ extra.map (fun c => (c, c)))) (.seq [.lit "%", uriHex, uriHex])

/-- The pattern `validURI`, compiled from `regexpURI`: `^`, the scheme, a colon, then either
`//` with an optional user part and `@`, a host, an optional colon and port, an optional path
from `/` on, or else an optional path without `//`; then an optional `?` and query, an
optional `#` and fragment, `$`. The flag `i` is set. -/
def validURI : Regex :=
  .seq [.bot, .plus uriScheme, .lit ":",
    .alt
      (.seq [.lit "//",
        .opt (.cat (.star (uriChar [':'])) (.lit "@")),
        .star (uriChar []),
        .opt (.cat (.lit ":") (.star .digit)),
        .opt (.cat (.lit "/") (.star (uriChar [':', '@', '/'])))])
      (.opt (.seq [.opt (.lit "/"), .plus (uriChar [':', '@']),
        .star (uriChar [':', '@', '/'])])),
    .opt (.cat (.lit "?") (.star (uriChar [':', '/', '?', '@']))),
    .opt (.cat (.lit "#") (.star (uriChar [':', '/', '?', '@']))),
    .eot]

/-! ## Parameter rules (`jcard.go`) -/

/-- The function `validatePrefParam`; `params[0]` is read only when the length is 1. -/
def validatePrefParam (params : List String) : GoError :=
  match params with
  | [p0] =>
    if (Atoi p0).isNone ∨ (Atoi p0).getD 0 < 0 ∨ (Atoi p0).getD 0 > 100 then
      some (vCardError ("pref must be an integer between 0 and 100 but is " ++ p0 ++ " "))
    else none
  | _ =>
    some (vCardError ("only one value (1-100) allowed for pref, but is " ++ sprintSlice params))

/-- The function `validatePidParam`. -/
def validatePidParam : List String → GoError
  | [] => none
  | v :: rest =>
    if !validPid.MatchString v then
      some (vCardError ("PID value invalid. Positive <int>.<int> but is " ++ v))
    else validatePidParam rest

/-- The function `validateTypeParam`. -/
def validateTypeParam : List String → GoError
  | [] => none
  | v :: rest =>
    if !(v = "work" ∨ v = "home") then
      some (vCardError ("Type must be one of 'work|home', but is " ++ v))
    else validateTypeParam rest

/-- The function `validateAltidParam`: both exits return `nil`. -/
def validateAltidParam : List String → GoError
  | [] => none
  | v :: rest => if v ≠ "" then none else validateAltidParam rest

/-- The function `validateDefaultParam`. -/
def validateDefaultParam (key : String) (value : List String) : GoError :=
  if key = "type" then validateTypeParam value
  else if key = "pref" then validatePrefParam value
  else if key = "pid" then validatePidParam value
  else if key = "altid" then validateAltidParam value
  else some (vCardError ("unknown parameter type: " ++ key))

/-- The loop of the method `validateDefaultParam` over the entries of the map. Go visits the
entries of a map in no fixed order; here they are visited in the order of the list, which
settles only which of several errors is the one returned. -/
def validateDefaultParamRange : Params → GoError
  | [] => none
  | (k, v) :: rest =>
    match validateDefaultParam k v with
    | some err => some err
    | none => validateDefaultParamRange rest

/-- The method `validateDefaultParam` of a property. -/
def VCardPropertyData.validateDefaultParam (p : VCardPropertyData) : GoError :=
  validateDefaultParamRange p.Parameters

/-- The function `validateMediatypeParam`. -/
def validateMediatypeParam : List String → GoError
  | [] => none
  | v :: rest =>
    if !validMedia.MatchString v then some (vCardError ("invalid media type: " ++ v))
    else validateMediatypeParam rest

/-- The function `validateURI`. -/
def validateURI (sURI : String) : Bool :=
  validURI.MatchString sURI

/-- The function `validateUtcOffset`. -/
def validateUtcOffset (s : String) : Bool :=
  validUtcOffset.MatchString s

/-- The function `validateGeo`; the line it writes to the log is not modelled. -/
def validateGeo (g : String) : Bool :=
  if !preferedGeo.MatchString g then false else true

/-! ## Times (package `time`) -/

/-- The pieces into which `time.Parse` cuts a layout (`nextStdChunk`), as far as the layouts
of this package have them: a literal character, `2006` (the year, four digits), `01` (the
month, two digits), `02` (the day, two digits), `15` (the hour), `04` (the minute, two
digits), `05` (the second, two digits), `Z07:00` and `-07` (the zone). -/
inductive Chunk where
  | lit (c : Char)
  | stdLongYear
  | stdZeroMonth
  | stdZeroDay
  | stdHour
  | stdZeroMinute
  | stdZeroSecond
  | stdISO8601ColonTZ
  | stdNumShortTZ

/-- The function `getnum` of package `time`: a number of one or two digits at the front of
the text, of exactly two when `fixed`; `none` is the error. -/
def getnum (s : List Char) (fixed : Bool) : Option (Nat × List Char) :=
  match s with
  | [] => none
  | c0 :: rest =>
    if !c0.isDigit then none
    else
      match rest with
      | c1 :: rest1 =>
        if c1.isDigit then some ((c0.toNat - 48) * 10 + (c1.toNat - 48), rest1)
        else if fixed then none else some (c0.toNat - 48, rest)
      | [] => if fixed then none else some (c0.toNat - 48, rest)

/-- The number written by a run of decimal digits. -/
def leadingInt (cs : List Char) : Nat :=
  cs.foldl (fun x c => x * 10 + (c.toNat - 48)) 0

/-- The function `atoi` of package `time` on the two characters of an hour or a minute of a
zone, `true` when no error is returned: two digits, or a sign and one digit. -/
def atoiTwo (a b : Char) : Bool :=
  (a.isDigit && b.isDigit) || ((a == '+' || a == '-') && b.isDigit)

/-- The function `isLeap` of package `time`. -/
def isLeap (year : Nat) : Bool :=
  year % 4 == 0 && (year % 100 != 0 || year % 400 == 0)

/-- The function `daysIn` of package `time`, for a month from 1 to 12. -/
def daysIn (month year : Nat) : Nat :=
  if month = 2 then (if isLeap year then 29 else 28)
  else if month = 4 ∨ month = 6 ∨ month = 9 ∨ month = 11 then 30
  else 31

/-- The loop of `time.Parse` over the pieces of a layout, `true` when no error is returned;
`year`, `month` and `day` are the variables of that name as they stand. A literal must be the
next character of the value; a number must be in its range; at the end of the layout nothing
may be left and the day must be one of its month. After the seconds a `.` with a digit behind
it opens a fractional second although the layout has none: the digits that follow are taken,
and they must write a number below 1e9. A zone `Z07:00` is a `Z`, or a sign, an hour, a colon
and a minute; a zone `-07` is a sign and an hour. This is the parser of the Go releases on
which the table of `TestTime` holds, where a comma does not open a fraction. -/
def parseFrom : List Chunk → Nat → Nat → Nat → List Char → Bool
  | [], year, month, day, value =>
    value.isEmpty && decide (1 ≤ day) && decide (day ≤ daysIn month year)
  | .lit c :: layout, year, month, day, value =>
    match value with
    | v :: rest => v == c && parseFrom layout year month day rest
    | [] => false
  | .stdLongYear :: layout, _, month, day, value =>
    match value with
    | c0 :: c1 :: c2 :: c3 :: rest =>
      c0.isDigit && c1.isDigit && c2.isDigit && c3.isDigit
        && parseFrom layout (leadingInt [c0, c1, c2, c3]) month day rest
    | _ => false
  | .stdZeroMonth :: layout, year, _, day, value =>
    match getnum value true with
    | some (month, rest) =>
      decide (0 < month) && decide (month ≤ 12) && parseFrom layout year month day rest
    | none => false
  | .stdZeroDay :: layout, year, month, _, value =>
    match getnum value true with
    | some (day, rest) => parseFrom layout year month day rest
    | none => false
  | .stdHour :: layout, year, month, day, value =>
    match getnum value false with
    | some (hour, rest) => decide (hour < 24) && parseFrom layout year month day rest
    | none => false
  | .stdZeroMinute :: layout, year, month, day, value =>
    match getnum value true with
    | some (min, rest) => decide (min < 60) && parseFrom layout year month day rest
    | none => false
  | .stdZeroSecond :: layout, year, month, day, value =>
    match getnum value true with
    | some (sec, rest) =>
      if 60 ≤ sec then false
      else
        match rest with
        | p :: c :: more =>
          if p = '.' ∧ c.isDigit = true then
            decide (leadingInt ((c :: more).takeWhile Char.isDigit) < 10 ^ 9)
              && parseFrom layout year month day ((c :: more).dropWhile Char.isDigit)
          else parseFrom layout year month day rest
        | _ => parseFrom layout year month day rest
    | none => false
  | .stdISO8601ColonTZ :: layout, year, month, day, value =>
    match value with
    | [] => false
    | sign :: rest0 =>
      if sign = 'Z' then parseFrom layout year month day rest0
      else
        match rest0 with
        | h0 :: h1 :: c :: m0 :: m1 :: rest =>
          decide (c = ':') && atoiTwo h0 h1 && atoiTwo m0 m1 && (sign == '+' || sign == '-')
            && parseFrom layout year month day rest
        | _ => false
  | .stdNumShortTZ :: layout, year, month, day, value =>
    match value with
    | sign :: h0 :: h1 :: rest =>
      atoiTwo h0 h1 && (sign == '+' || sign == '-') && parseFrom layout year month day rest
    | _ => false

/-- The call `time.Parse(layout, value)`, `true` when no error is returned: the loop is
entered with the year 0, the month 1 and the day 1. -/
def parseChunks (layout : List Chunk) (value : List Char) : Bool :=
  parseFrom layout 0 1 1 value

/-- The function `validateTemporal`: some layout parses the text. -/
def validateTemporal (layouts : List (List Chunk)) (t : String) : Bool :=
  layouts.any (fun s => parseChunks s t.data)

/-- The layout `15:04:05`. -/
def layoutHourMinuteSecond : List Chunk :=
  [.stdHour, .lit ':', .stdZeroMinute, .lit ':', .stdZeroSecond]

/-- The layout `-04:05`. -/
def layoutMinuteSecond : List Chunk :=
  [.lit '-', .stdZeroMinute, .lit ':', .stdZeroSecond]

/-- The layout `--05`. -/
def layoutSecond : List Chunk :=
  [.lit '-', .lit '-', .stdZeroSecond]

/-- The function `validateTime`, with its layouts `15:04:05`, `15:04`, `15`, `-04`, `-04:05`
and `--05`. -/
def validateTime (date : String) : Bool :=
  validateTemporal
    [layoutHourMinuteSecond, [.stdHour, .lit ':', .stdZeroMinute], [.stdHour],
     [.lit '-', .stdZeroMinute], layoutMinuteSecond, layoutSecond] date

/-- The layout `time.RFC3339`, which is `2006-01-02T15:04:05Z07:00`. -/
def layoutRFC3339 : List Chunk :=
  [.stdLongYear, .lit '-', .stdZeroMonth, .lit '-', .stdZeroDay, .lit 'T', .stdHour, .lit ':',
   .stdZeroMinute, .lit ':', .stdZeroSecond, .stdISO8601ColonTZ]

/-- The function `validateDate`, with its layouts `time.RFC3339`, `2006-01-02`, `2006-01`,
`2006`, `--01-02`, `---02` and `--01`. -/
def validateDate (date : String) : Bool :=
  validateTemporal
    [layoutRFC3339,
     [.stdLongYear, .lit '-', .stdZeroMonth, .lit '-', .stdZeroDay],
     [.stdLongYear, .lit '-', .stdZeroMonth],
     [.stdLongYear],
     [.lit '-', .lit '-', .stdZeroMonth, .lit '-', .stdZeroDay],
     [.lit '-', .lit '-', .lit '-', .stdZeroDay],
     [.lit '-', .lit '-', .stdZeroMonth]] date

/-- The function `validateDateTime`, with its layouts `time.RFC3339` and
`2006-01-02T15:04:05-07`, and then the split at `T`. -/
def validateDateTime (dt : String) : Bool :=
  if validateTemporal
      [layoutRFC3339,
       [.stdLongYear, .lit '-', .stdZeroMonth, .lit '-', .stdZeroDay, .lit 'T', .stdHour,
        .lit ':', .stdZeroMinute, .lit ':', .stdZeroSecond, .stdNumShortTZ]] dt then true
  else
    match Split dt 'T' with
    | [sa0, sa1] => validateDate sa0 && validateTime sa1
    | _ => false

/-- The function `validateDateAndOrTime`. -/
def validateDateAndOrTime (date : String) : Bool :=
  validateDate date || validateTime date || validateDateTime date

/-! ## E-mail addresses and telephone numbers: the validators (`pcommunication.go`) -/

/-- The map `allowed` of `ValidateTel`. -/
def telTypes : List String :=
  ["home", "work", "text", "voice", "fax", "cell", "video", "pager", "textphone"]

/-- The loop of `ValidateTel` over the values of the parameter `type`. -/
def validateTelTypes : List String → GoError
  | [] => none
  | s :: rest =>
    if ¬ (s ∈ telTypes) then some (vCardError ("unknown tel type: " ++ s))
    else validateTelTypes rest

/-- The loop of `ValidateTel` over the entries of the parameter map, visited in the order of
the list. -/
def validateTelParams : Params → GoError
  | [] => none
  | (k, v) :: rest =>
    match (if k = "type" then validateTelTypes v else validateDefaultParam k v) with
    | some err => some err
    | none => validateTelParams rest

/-- The function `ValidateTel`. -/
def ValidateTel (L : Deps) : Validator := fun p =>
  if !validTelNumber.MatchString (Sprint L p.Value) then
    .done (some (vCardError ("Tel value is invalid (rfc3966#section3): " ++ Sprint L p.Value)))
  else .done (validateTelParams p.Parameters)

/-- The function `ValidateEmail`. -/
def ValidateEmail (L : Deps) : Validator := fun p =>
  if !validMail.MatchString (Sprint L p.Value) then
    .done (some (vCardError
      ("Email value is invalid (https://tools.ietf.org/html/rfc6350#section-6.4.2): "
        ++ Sprint L p.Value)))
  else .done p.validateDefaultParam

/-! ## The validators of `pgeo.go`, `pcalendar.go`, `pexplanatory.go`, `pidentification.go`
and `pdelivery.go` that are developed here -/

/-- The loop `for k, v := range p.Parameters` of `ValidateTz`, `ValidateGeo`, `ValidateFburl`,
`ValidateCaladruri` and `ValidateCaluri`, which is the same in the five; the entries are
visited in the order of the list. At the key `mediatype` the function returns what
`validateMediatypeParam` returns, `nil` included: the entries behind it are not visited, so
that the result for one map may be `nil` in one order of visit and an error in another. -/
def validateMediaParamRange : Params → GoError
  | [] => none
  | (k, v) :: rest =>
    if k = "mediatype" then validateMediatypeParam v
    else
      match validateDefaultParam k v with
      | some err => some err
      | none => validateMediaParamRange rest

/-- The function `ValidateTz`. -/
def ValidateTz : Validator := fun p =>
  .done (validateMediaParamRange p.Parameters)

/-- The function `ValidateGeo`; the type assertion `p.Value.(string)` panics on a value that
is not a string. -/
def ValidateGeo (L : Deps) : Validator := fun p =>
  match p.Value with
  | .str s =>
    if !validateGeo s then
      .done (some (vCardError ("Valid geo uri expected, but got " ++ Sprint L p.Value)))
    else .done (validateMediaParamRange p.Parameters)
  | _ => .panic

/-- The function `ValidateFburl`. -/
def ValidateFburl : Validator := fun p =>
  match p.Value with
  | .str url =>
    if !validateURI url then .done (some (vCardError ("'" ++ url ++ "' is not a valid uri")))
    else .done (validateMediaParamRange p.Parameters)
  | _ => .panic

/-- The function `ValidateCaladruri`. -/
def ValidateCaladruri : Validator := fun p =>
  match p.Value with
  | .str url =>
    if !validateURI url then .done (some (vCardError ("'" ++ url ++ "' is not a valid uri")))
    else .done (validateMediaParamRange p.Parameters)
  | _ => .panic

/-- The function `ValidateCaluri`. -/
def ValidateCaluri : Validator := fun p =>
  match p.Value with
  | .str url =>
    if !validateURI url then .done (some (vCardError ("'" ++ url ++ "' is not a valid uri")))
    else .done (validateMediaParamRange p.Parameters)
  | _ => .panic

/-- The function `ValidateUID`. -/
def ValidateUID : Validator := fun p =>
  if p.Parameters.length ≠ 0 then
    .done (some (vCardError
      ("UID must not have parameter, but got " ++ SprintParams p.Parameters)))
  else
    match p.Value with
    | .str val =>
      if p.Type_ = URI then
        if !validateURI val then
          .done (some (vCardError ("Valid uri expected, but got " ++ val)))
        else .done none
      else if p.Type_ ≠ Text then
        .done (some (vCardError ("type 'uri' or 'text' expected, but is " ++ p.Type_)))
      else .done none
    | _ => .panic

/-- The function `ValidateClientPIDMap`. Each of the three type assertions panics on a value
of another type. The verb `%w` prints `%!w(<nil>)` for the nil error. -/
def ValidateClientPIDMap (L : Deps) : Validator := fun p =>
  if p.Parameters.length ≠ 0 then
    .done (some (vCardError
      ("clientPIDMap must not have parameter, but got " ++ SprintParams p.Parameters)))
  else
    match p.Value with
    | .arr aval =>
      if aval.length ≠ 2 then
        .done (some (vCardError
          ("a pair of values epxected (digit,uri), but got " ++ Sprint L (.arr aval))))
      else
        match aval with
        | [.str a0, a1] =>
          if (Atoi a0).isNone ∨ (Atoi a0).getD 0 < 1 then
            .done (some (vCardError
              ("The first field is a small integer (>0) corresponding to the second field of "
                ++ "a PID parameter instance, but got " ++ a0 ++ ". ("
                ++ (if (Atoi a0).isNone then L.SprintAtoiError a0 else "%!w(<nil>)") ++ ")")))
          else
            match a1 with
            | .str uri =>
              if !validateURI uri then
                .done (some (vCardError
                  ("The second field must be a uri, but is " ++ p.Type_ ++ ".")))
              else .done none
            | _ => .panic
        | _ => .panic
    | _ => .panic

/-- The loop `for k, v := range p.Parameters` of `ValidatePhoto`. -/
def validatePhotoParamRange : Params → GoError
  | [] => none
  | (k, v) :: rest =>
    match (if k = "mediatype" then validateMediatypeParam v else validateDefaultParam k v) with
    | some err => some err
    | none => validatePhotoParamRange rest

/-- The function `ValidatePhoto`. -/
def ValidatePhoto : Validator := fun p =>
  match p.Value with
  | .str photo =>
    if !validateURI photo then
      .done (some (vCardError ("'" ++ photo ++ "' is not a valid uri")))
    else .done (validatePhotoParamRange p.Parameters)
  | _ => .panic

/-- The function `validateCalscaleParam`. -/
def validateCalscaleParam : List String → GoError
  | [] => none
  | v :: rest =>
    if v ≠ "gregorian" then
      some (vCardError ("Can only handle gregorian calender, but got " ++ v))
    else validateCalscaleParam rest

/-- The loop `for k, v := range p.Parameters` of `validateAnniversaryAndBDate`. -/
def validateBDateParamRange : Params → GoError
  | [] => none
  | (k, v) :: rest =>
    if k = "altid" then
      match validateAltidParam v with
      | some err => some err
      | none => validateBDateParamRange rest
    else if k = "calscale" then
      match validateCalscaleParam v with
      | some err => some err
      | none => validateBDateParamRange rest
    else some (vCardError ("Unknown parameter type: " ++ sprintSlice v))

/-- The function `validateAnniversaryAndBDate`; its argument `name` is not used. -/
def validateAnniversaryAndBDate (p : VCardPropertyData) (_ : String) : Run GoError :=
  if p.Type_ = "date-and-or-time" then
    match p.Value with
    | .str birthdate =>
      if !validateDateAndOrTime birthdate then
        .done (some (vCardError ("'" ++ birthdate ++ "' is not a valid date-and-or-time.")))
      else .done (validateBDateParamRange p.Parameters)
    | _ => .panic
  else if p.Type_ ≠ "text" then
    .done (some (vCardError
      ("Only 'text' and 'date-and-or-time' allowed, but got " ++ p.Type_)))
  else .done (validateBDateParamRange p.Parameters)

/-- The function `ValidateBDay`. -/
def ValidateBDay : Validator := fun p =>
  validateAnniversaryAndBDate p BDay

/-- The function `ValidateAnniversary`. -/
def ValidateAnniversary : Validator := fun p =>
  validateAnniversaryAndBDate p Anniversary

/-- The loop of `validateLanguageParam` over its values. -/
def validateLanguageRange (L : Deps) : List String → GoError
  | [] => none
  | v :: rest =>
    match L.ParseLanguage v with
    | some err =>
      some (vCardError
        ("Unknown language (https://tools.ietf.org/html/rfc5646): " ++ v ++ " :" ++ err))
    | none => validateLanguageRange L rest

/-- The function `validateLanguageParam`. -/
def validateLanguageParam (L : Deps) (params : List String) : GoError :=
  if params.length > 1 then
    some (vCardError ("Only one language tag expected, but got " ++ Itoa params.length))
  else validateLanguageRange L params

/-- The loop `for k, v := range p.Parameters` of `ValidateAdr`; the expression `v[0]` panics
on an empty slice. -/
def validateAdrParamRange (L : Deps) : Params → Run GoError
  | [] => .done none
  | (k, v) :: rest =>
    if k = "label" ∨ k = "tz" then validateAdrParamRange L rest
    else if k = "geo" then
      match v with
      | v0 :: _ =>
        if !validateGeo v0 then
          .done (some (vCardError ("Invalid geo coordinates: " ++ L.SprintPointer v0)))
        else validateAdrParamRange L rest
      | [] => .panic
    else if k = "lang" then
      match validateLanguageParam L v with
      | some err => .done (some err)
      | none => validateAdrParamRange L rest
    else
      match validateDefaultParam k v with
      | some err => .done (some err)
      | none => validateAdrParamRange L rest

/-- The text `fmt` prints for a value with the verb `%T`: the name of its type. -/
def typeName : Any → String
  | .null => "<nil>"
  | .bool _ => "bool"
  | .num _ => "float64"
  | .str _ => "string"
  | .arr _ => "[]interface \x7b\x7d"
  | .obj _ => "map[string]interface \x7b\x7d"
  | .strs _ => "[]string"

/-- The function `ValidateAdr`; the line it writes to the log is not modelled. -/
def ValidateAdr (L : Deps) : Validator := fun p =>
  match validateAdrParamRange L p.Parameters with
  | .panic => .panic
  | .done (some err) => .done (some err)
  | .done none =>
    if p.Type_ ≠ Text then
      .done (some (vCardError ("type must be 'text' but is " ++ p.Type_)))
    else
      match p.Value with
      | .strs sa =>
        if sa.length ≠ 7 then
          .done (some (vCardError
            (" The adr must have 7 items:\n\t\tthe post office box;\n\t\tthe extended address "
              ++ "(e.g., apartment or suite number);\n\t\tthe street address;\n\t\tthe locality "
              ++ "(e.g., city);\n\t\tthe region (e.g., state or province);\n\t\tthe postal "
              ++ "code;\n\t\tthe country name; \n\t\tbut number of items is "
              ++ Itoa sa.length)))
        else .done none
      | value =>
        .done (some (vCardError ("value must be '[]string' but is " ++ typeName value)))

/-! ## The `kind` and `version` properties (`pgeneral.go`) -/

/-- The function `ValidateKind`. The map `valids` has the keys individual, group, org and
location, each with an empty slice, and prints as in the message below. -/
def ValidateKind (L : Deps) : Validator := fun p =>
  if ¬ (Sprint L p.Value ∈ ["individual", "group", "org", "location"]) then
    .done (some (vCardError ("invalid kind value. Expected one of "
      ++ "map[group:[] individual:[] location:[] org:[]]" ++ " but got " ++ Sprint L p.Value)))
  else if p.Parameters.length ≠ 0 then
    .done (some (vCardError
      ("No parameters allowed for 'kind', but got " ++ SprintParams p.Parameters)))
  else .done none

/-- The function `ValidateVersion`; the type assertion `p.Value.(string)` panics on a value
that is not a string. -/
def ValidateVersion : Validator := fun p =>
  if p.Parameters.length ≠ 0 then
    .done (some (vCardError
      ("Version must not have parameters, but has " ++ SprintParams p.Parameters)))
  else
    match p.Value with
    | .str sValue =>
      if sValue ≠ "4.0" then
        .done (some (vCardError ("Only version 4.0 is supported, but version is " ++ sValue)))
      else .done none
    | _ => .panic

/-! ## The registry of type descriptors -/

def adrTypeInfo (L : Deps) : VPropertyTypeInfo :=
  { Name := Adr, Cardinal := Many,
    Specification := "https://tools.ietf.org/html/rfc6350#section-6.3.1",
    Validate := some (ValidateAdr L) }

def anniversaryTypeInfo (_ : Deps) : VPropertyTypeInfo :=
  { Name := Anniversary, Cardinal := OneOrZero,
    Specification := "https://tools.ietf.org/html/rfc6350#section-6.2.6",
    Validate := some (ValidateAnniversary) }

def bdayTypeInfo (_ : Deps) : VPropertyTypeInfo :=
  { Name := BDay, Cardinal := OneOrZero,
    Specification := "https://tools.ietf.org/html/rfc6350#section-6.2.5",
    Validate := some (ValidateBDay) }

def caladruriTypeInfo (_ : Deps) : VPropertyTypeInfo :=
  { Name := CalAdrURI, Cardinal := Many,
    Specification := "https://tools.ietf.org/html/rfc6350#section-6.9.2",
    Validate := some (ValidateCaladruri) }

def caluriTypeInfo (_ : Deps) : VPropertyTypeInfo :=
  { Name := CalURI, Cardinal := Many,
    Specification := "https://tools.ietf.org/html/rfc6350#section-6.9.3",
    Validate := some (ValidateCaluri) }

def categoriesTypeInfo (L : Deps) : VPropertyTypeInfo :=
  { Name := Categories, Cardinal := Many,
    Specification := "https://tools.ietf.org/html/rfc6350#section-6.7.1",
    Validate := some (L.ValidateCategories) }

def clientPIDMapTypeInfo (L : Deps) : VPropertyTypeInfo :=
  { Name := ClientPIDMap, Cardinal := Many,
    Specification := "https://tools.ietf.org/html/rfc6350#section-6.7.7",
    Validate := some (ValidateClientPIDMap L) }

def emailTypeInfo (L : Deps) : VPropertyTypeInfo :=
  { Name := Email, Cardinal := Many,
    Specification := "https://tools.ietf.org/html/rfc6350#section-6.4.2",
    Validate := some (ValidateEmail L) }

def fburlTypeInfo (_ : Deps) : VPropertyTypeInfo :=
  { Name := FbURL, Cardinal := Many,
    Specification := "https://tools.ietf.org/html/rfc6350#section-6.9.1",
    Validate := some (ValidateFburl) }

def fnTypeInfo (L : Deps) : VPropertyTypeInfo :=
  { Name := Fn, Cardinal := OneOrMany,
    Specification := "https://tools.ietf.org/html/rfc6350#section-6.2.1",
    Validate := some (L.ValidateFn) }

def genderTypeInfo (L : Deps) : VPropertyTypeInfo :=
  { Name := Gender, Cardinal := OneOrZero,
    Specification := "https://tools.ietf.org/html/rfc6350#section-6.2.7",
    Validate := some (L.ValidateGender) }

def geoTypeInfo (L : Deps) : VPropertyTypeInfo :=
  { Name := Geo, Cardinal := Many,
    Specification := "https://tools.ietf.org/html/rfc6350#section-6.5.2",
    Validate := some (ValidateGeo L) }

def imppTypeInfo (L : Deps) : VPropertyTypeInfo :=
  { Name := IMPP, Cardinal := Many,
    Specification := "https://tools.ietf.org/html/rfc6350#section-6.4.3",
    Validate := some (L.ValidateImpp) }

def keyTypeInfo (L : Deps) : VPropertyTypeInfo :=
  { Name := Key, Cardinal := Many,
    Specification := "https://tools.ietf.org/html/rfc6350#section-6.8.1",
    Validate := some (L.ValidateKey) }

def kindTypeInfo (L : Deps) : VPropertyTypeInfo :=
  { Name := Kind, Cardinal := OneOrZero,
    Specification := "https://tools.ietf.org/html/rfc6350#section-6.1.4",
    Validate := some (ValidateKind L) }

def langTypeInfo (L : Deps) : VPropertyTypeInfo :=
  { Name := Lang, Cardinal := Many,
    Specification := "https://tools.ietf.org/html/rfc6350#section-6.4.4",
    Validate := some (L.ValidateLang) }

def logoTypeInfo (L : Deps) : VPropertyTypeInfo :=
  { Name := Logo, Cardinal := Many,
    Specification := "https://tools.ietf.org/html/rfc6350#section-6.6.3",
    Validate := some (L.ValidateLogo) }

def memberTypeInfo (L : Deps) : VPropertyTypeInfo :=
  { Name := Member, Cardinal := Many,
    Specification := "https://tools.ietf.org/html/rfc6350#section-6.6.5",
    Validate := some (L.ValidateMember) }

def nTypeInfo (L : Deps) : VPropertyTypeInfo :=
  { Name := N, Cardinal := OneOrZero,
    Specification := "https://tools.ietf.org/html/rfc6350#section-6.2.2",
    Validate := some (L.ValidateN) }

def nickNameTypeInfo (L : Deps) : VPropertyTypeInfo :=
  { Name := Nickname, Cardinal := Many,
    Specification := "https://tools.ietf.org/html/rfc6350#section-6.2.3",
    Validate := some (L.ValidateNickname) }

def noteTypeInfo (L : Deps) : VPropertyTypeInfo :=
  { Name := Note, Cardinal := Many,
    Specification := "https://tools.ietf.org/html/rfc6350#section-6.7.2",
    Validate := some (L.ValidateNote) }

def orgTypeInfo (L : Deps) : VPropertyTypeInfo :=
  { Name := Org, Cardinal := Many,
    Specification := "https://tools.ietf.org/html/rfc6350#section-6.6.4",
    Validate := some (L.ValidateOrg) }

def photoTypeInfo (_ : Deps) : VPropertyTypeInfo :=
  { Name := Photo, Cardinal := Many,
    Specification := "https://tools.ietf.org/html/rfc6350#section-6.2.4",
    Validate := some (ValidatePhoto) }

def prodIDTypeInfo (L : Deps) : VPropertyTypeInfo :=
  { Name := ProdID, Cardinal := OneOrZero,
    Specification := "https://tools.ietf.org/html/rfc6350#section-6.7.3",
    Validate := some (L.ValidateProdid) }

def relatedTypeInfo (L : Deps) : VPropertyTypeInfo :=
  { Name := Related, Cardinal := Many,
    Specification := "https://tools.ietf.org/html/rfc6350#section-6.6.6",
    Validate := some (L.ValidateRelated) }

def revTypeInfo (L : Deps) : VPropertyTypeInfo :=
  { Name := Rev, Cardinal := OneOrZero,
    Specification := "https://tools.ietf.org/html/rfc6350#section-6.7.4",
    Validate := some (L.ValidateRev) }

def roleTypeInfo (L : Deps) : VPropertyTypeInfo :=
  { Name := Role, Cardinal := Many,
    Specification := "https://tools.ietf.org/html/rfc6350#section-6.6.2",
    Validate := some (L.ValidateRole) }

def soundTypeInfo (L : Deps) : VPropertyTypeInfo :=
  { Name := Sound, Cardinal := Many,
    Specification := "https://tools.ietf.org/html/rfc6350#section-6.7.5",
    Validate := some (L.ValidateSound) }

def telTypeInfo (L : Deps) : VPropertyTypeInfo :=
  { Name := Tel, Cardinal := Many,
    Specification := "https://tools.ietf.org/html/rfc6350#section-6.4.1",
    Validate := some (ValidateTel L) }

def titleTypeInfo (L : Deps) : VPropertyTypeInfo :=
  { Name := Title, Cardinal := Many,
    Specification := "https://tools.ietf.org/html/rfc6350#section-6.6.1",
    Validate := some (L.ValidateTitle) }

def tzTypeInfo (_ : Deps) : VPropertyTypeInfo :=
  { Name := Tz, Cardinal := Many,
    Specification := "https://tools.ietf.org/html/rfc6350#section-6.5.1",
    Validate := some (ValidateTz) }

def uidTypeInfo (_ : Deps) : VPropertyTypeInfo :=
  { Name := UID, Cardinal := OneOrZero,
    Specification := "https://tools.ietf.org/html/rfc6350#section-6.7.6",
    Validate := some (ValidateUID) }

def urlTypeInfo (L : Deps) : VPropertyTypeInfo :=
  { Name := URL, Cardinal := Many,
    Specification := "https://tools.ietf.org/html/rfc6350#section-6.7.7",
    Validate := some (L.ValidateURL) }

def versionTypeInfo (_ : Deps) : VPropertyTypeInfo :=
  { Name := Version, Cardinal := One,
    Specification := "https://tools.ietf.org/html/rfc6350#section-6.7.9",
    Validate := some ValidateVersion }

/-- The `switch p.Name` of `addTypeInfo` as a table, in source order: each case label with
the descriptor its branch assigns. -/
def addTypeInfoCases (L : Deps) : List (String × VPropertyTypeInfo) :=
  [(Adr, adrTypeInfo L), (Anniversary, anniversaryTypeInfo L), (BDay, bdayTypeInfo L),
   (CalAdrURI, caladruriTypeInfo L), (CalURI, caluriTypeInfo L),
   (Categories, categoriesTypeInfo L), (ClientPIDMap, clientPIDMapTypeInfo L),
   (Email, emailTypeInfo L), (FbURL, fburlTypeInfo L), (Fn, fnTypeInfo L),
   (Gender, genderTypeInfo L), (Geo, geoTypeInfo L), (IMPP, imppTypeInfo L),
   (Key, keyTypeInfo L), (Kind, kindTypeInfo L), (Lang, langTypeInfo L),
   (Logo, logoTypeInfo L), (Member, memberTypeInfo L), (N, nTypeInfo L),
   (Nickname, nickNameTypeInfo L), (Note, noteTypeInfo L), (Org, orgTypeInfo L),
   (Photo, photoTypeInfo L), (ProdID, prodIDTypeInfo L), (Related, relatedTypeInfo L),
   (Rev, revTypeInfo L), (Role, roleTypeInfo L), (Sound, soundTypeInfo L),
   (Tel, telTypeInfo L), (Title, titleTypeInfo L), (Tz, tzTypeInfo L), (UID, uidTypeInfo L),
   (URL, urlTypeInfo L), (Version, versionTypeInfo L)]

/-- The method `addTypeInfo`: the property after the call and the error returned. The
`default` branch leaves the property as it is. -/
def VCardProperty.addTypeInfo (L : Deps) (p : VCardProperty) : VCardProperty × GoError :=
  match (addTypeInfoCases L).lookup p.Name with
  | some info => ({ p with typeInfo := info }, none)
  | none => (p, some (vCardError ("unknown property name " ++ p.Name)))

/-- The function `NewVCard`, from the outcome of `json.Unmarshal(jsonBlob, &top)`: the slice
`top` and the error `err`. The error returned by `addTypeInfo` is not looked at. -/
def NewVCard (L : Deps) (top : List Any) (err : GoError) : Option VCard × GoError :=
  match err with
  | some e => (none, some e)
  | none =>
    match newVCardImpl (.arr top) with
    | (some vcard, none) =>
      (some { vcard with Properties :=
          vcard.Properties.map (fun p => { p with obj := (p.obj.addTypeInfo L).1 }) }, none)
    | (vcard, err1) => (vcard, err1)

/-- The statement `property := &VCardProperty{...}` of `AddKind`; `addr` is the address of
the object it allocates. -/
def kindCandidate (L : Deps) (addr : Nat) (value : String) : PropertyRef :=
  { addr := addr,
    obj := { Name := Kind, Type_ := Text, Parameters := [], Value := .str value,
             typeInfo := kindTypeInfo L } }

/-- The method `AddKind`. -/
def VCard.AddKind (L : Deps) (v : VCard) (addr : Nat) (value : String) : Run (VCard × GoError) :=
  v.append (kindCandidate L addr value)

/-- The statement `property := &VCardProperty\x7b...\x7d` of `AddEmail`. -/
def emailCandidate (L : Deps) (addr : Nat) (value : String) (params : Params) : PropertyRef :=
  { addr := addr,
    obj := { Name := Email, Type_ := URI, Parameters := params, Value := .str value,
             typeInfo := emailTypeInfo L } }

/-- The method `AddEmail`. -/
def VCard.AddEmail (L : Deps) (v : VCard) (addr : Nat) (value : String) (params : Params) :
    Run (VCard × GoError) :=
  v.append (emailCandidate L addr value params)

/-! ## Removal -/

/-- The loop of the method `index`; `pos` is the position of the head of the list. Two
pointers are equal when their addresses are. The result -1 is the not-found value. -/
def indexFrom (value : PropertyRef) : List PropertyRef → Int → Int
  | [], _ => -1
  | p :: rest, pos => if p.addr = value.addr then pos else indexFrom value rest (pos + 1)

/-- The method `index`. -/
def VCard.index (v : VCard) (value : PropertyRef) : Int :=
  indexFrom value v.Properties 0

/-- The method `Remove`: the card after the call and the result. The last element is written
over position `i` and the list is cut by one; an index out of range would panic. -/
def VCard.Remove (v : VCard) (property : PropertyRef) : Run (VCard × Bool) :=
  if v.index property = -1 then .done (v, false)
  else
    match v.Properties.getLast? with
    | none => .panic
    | some last =>
      if 0 ≤ v.index property ∧ (v.index property).toNat < v.Properties.length then
        .done ({ v with Properties :=
                  (v.Properties.set (v.index property).toNat last).dropLast }, true)
      else .panic

/-- The loop `for _, p := range v.Get(name)` of `RemoveAll`, with the card and the variables
`result` and `ok` as they stand. -/
def removeAllRange : List PropertyRef → VCard → Bool → Bool → Run (VCard × Bool × Bool)
  | [], v, result, ok => .done (v, result, ok)
  | p :: rest, v, _, ok =>
    match v.Remove p with
    | .panic => .panic
    | .done (v1, result) => removeAllRange rest v1 result (if !result then false else ok)

/-- The method `RemoveAll`: the card after the call and the result `result && ok`. -/
def VCard.RemoveAll (v : VCard) (name : String) : Run (VCard × Bool) :=
  match removeAllRange (v.Get name) v false true with
  | .panic => .panic
  | .done (v1, result, ok) => .done (v1, result && ok)

/-- Pointers are coherent: two references of the card with the same address are the same
reference (they point to the same object). -/
def VCard.Coherent (v : VCard) : Prop :=
  ∀ p ∈ v.Properties, ∀ q ∈ v.Properties, p.addr = q.addr → p = q

/-! ## Tests on values -/

/-- The value is the string `s`. -/
def Any.isText (v : Any) (s : String) : Bool :=
  match v with
  | .str t => t == s
  | _ => false

/-! ## Validation (`Validate` and its passes) -/

/-- The statement `v.Errors[k] = e`. -/
def errSet : List (String × String) → String → String → List (String × String)
  | [], k, e => [(k, e)]
  | (k1, e1) :: rest, k, e =>
    if k1 = k then (k, e) :: rest else (k1, e1) :: errSet rest k e

/-- The method `hasErrors`. -/
def VCard.hasErrors (v : VCard) : Bool :=
  decide (v.Errors.length > 0)

/-- The method `validateMandatoryProperties`. -/
def VCard.validateMandatoryProperties (v : VCard) : VCard :=
  match v.GetFirst Version with
  | none =>
    { v with Errors := errSet v.Errors "missing_property_version" (vCardError "Version expected") }
  | some _ => v

/-- The loop of `validateProperties`; `i` is the index of the head of the list. -/
def validatePropertiesRange :
    List PropertyRef → Int → List (String × String) → Run (List (String × String))
  | [], _, errors => .done errors
  | prop :: rest, i, errors =>
    match prop.obj.Validate with
    | .panic => .panic
    | .done none => validatePropertiesRange rest (i + 1) errors
    | .done (some err) =>
      validatePropertiesRange rest (i + 1)
        (errSet errors (Itoa i ++ "_" ++ prop.obj.Name ++ " validationError") err)

/-- The method `validateProperties`. -/
def VCard.validateProperties (v : VCard) : Run VCard :=
  match validatePropertiesRange v.Properties 0 v.Errors with
  | .panic => .panic
  | .done errors => .done { v with Errors := errors }

/-- The method `validateMemberGroup`. The comparison `prop.Value != "group"` is true for every
value that is not the string `group`. -/
def VCard.validateMemberGroup (L : Deps) (v : VCard) : VCard :=
  if (v.Get Member).length ≠ 0 then
    match v.GetFirst Kind with
    | none =>
      { v with Errors := errSet v.Errors "kindIsNil" (vCardError
          "Property 'kind' with value 'group' must exists if 'member' exists but is 'nil' ") }
    | some prop =>
      if prop.obj.Value.isText "group" = false then
        { v with Errors := errSet v.Errors "kindValueNotGroup" (vCardError
            ("Kind value must be 'group' but is '" ++ Sprint L prop.obj.Value
              ++ "' if member exist.")) }
      else v
  else v

/-- The body of the loop of `validateCardinality` for one property: the `switch` on the
cardinality of its descriptor, against the number of properties of the card with its name. -/
def validateCardinalityStep (v : VCard) (prop : PropertyRef) (errors : List (String × String)) :
    List (String × String) :=
  if prop.obj.typeInfo.Cardinal = Many then errors
  else if prop.obj.typeInfo.Cardinal = One then
    if (v.Get prop.obj.Name).length ≠ 1 then
      errSet errors (prop.obj.Name ++ "_cardinality") (vCardError
        (prop.obj.Name ++ " cardinalitry is 1 but found "
          ++ Itoa (v.Get prop.obj.Name).length ++ " occurence"))
    else errors
  else if prop.obj.typeInfo.Cardinal = OneOrMany then
    if (v.Get prop.obj.Name).length = 0 then
      errSet errors (prop.obj.Name ++ "_cardinality") (vCardError
        (prop.obj.Name ++ " cardinalitry is 1* but found no occurence"))
    else errors
  else if prop.obj.typeInfo.Cardinal = OneOrZero then
    if (v.Get prop.obj.Name).length > 1 then
      errSet errors (prop.obj.Name ++ "_cardinality") (vCardError
        (prop.obj.Name ++ " cardinalitry is 01 but found "
          ++ Itoa (v.Get prop.obj.Name).length ++ " occurence"))
    else errors
  else
    errSet errors (prop.obj.Name ++ "_cardinality") (vCardError
      (prop.obj.Name ++ " cardinalitry is unknown: " ++ Itoa prop.obj.typeInfo.Cardinal))

/-- The method `validateCardinality`. -/
def VCard.validateCardinality (v : VCard) : VCard :=
  { v with Errors :=
      v.Properties.foldl (fun errors prop => validateCardinalityStep v prop errors) v.Errors }

/-- The Go type `map[int]*VCardProperty`. -/
abbrev PidMap := List (Int × PropertyRef)

/-- The statement `result[k] = p` on a `map[int]*VCardProperty`. -/
def pidSet : PidMap → Int → PropertyRef → PidMap
  | [], k, p => [(k, p)]
  | (k1, p1) :: rest, k, p => if k1 = k then (k, p) :: rest else (k1, p1) :: pidSet rest k p

/-- The loop of `getCpms` over the `clientpidmap` properties. The type assertions on the
value and on its first element panic when they do not hold. -/
def getCpmsRange : List PropertyRef → PidMap → Run PidMap
  | [], result => .done result
  | cpm :: rest, result =>
    match cpm.obj.Value with
    | .arr [a0, _] =>
      match a0 with
      | .str s =>
        match Atoi s with
        | some i => getCpmsRange rest (pidSet result i cpm)
        | none => getCpmsRange rest result
      | _ => .panic
    | .arr _ => getCpmsRange rest result
    | _ => .panic

/-- The method `getCpms`. -/
def VCard.getCpms (v : VCard) : Run PidMap :=
  getCpmsRange (v.Get ClientPIDMap) []

/-- The loop of `getPIDs` over the values of the parameter `pid` of one property. -/
def getPIDsValues (p : PropertyRef) : List String → PidMap → PidMap
  | [], result => result
  | j :: rest, result =>
    match Split j '.' with
    | [_, second] =>
      match Atoi second with
      | some k => getPIDsValues p rest (pidSet result k p)
      | none => getPIDsValues p rest result
    | _ => getPIDsValues p rest result

/-- The method `getPIDs`. -/
def VCard.getPIDs (v : VCard) : PidMap :=
  v.Properties.foldl (fun result p => getPIDsValues p (mapGet p.obj.Parameters "pid") result) []

/-- The method `VCardProperty.String`. -/
def VCardProperty.String (L : Deps) (p : VCardProperty) : String :=
  "  " ++ p.Name ++ " (type=" ++ p.Type_ ++ ", parameters=" ++ SprintParams p.Parameters
    ++ "): " ++ Sprint L p.Value

/-- The method `validateClientPIDMap`; the keys of `pids` are visited in the order of the
list that stands for the map. -/
def VCard.validateClientPIDMap (L : Deps) (v : VCard) : Run VCard :=
  match v.getCpms with
  | .panic => .panic
  | .done cpms =>
    .done { v with Errors :=
      v.getPIDs.foldl (fun errors kp =>
        if (cpms.lookup kp.1).isNone then
          errSet errors ("Pid " ++ Itoa kp.1 ++ " has no ClientPIDMapping")
            (vCardError (kp.2.obj.String L))
        else errors) v.Errors }

/-- The method `Validate`: the error mapping is made anew, then the five passes run. -/
def VCard.Validate (L : Deps) (v : VCard) : Run VCard :=
  match ({ v with Errors := [] } : VCard).validateMandatoryProperties.validateProperties with
  | .panic => .panic
  | .done v2 => ((v2.validateMemberGroup L).validateCardinality).validateClientPIDMap L

/-! ## Telephone numbers (`pcommunication.go`) -/

/-- The function `unicode.IsSpace`, which `strings.TrimSpace` and `strings.Fields` use: the
characters with the Unicode property White_Space. -/
def isSpace (c : Char) : Bool :=
  (9 ≤ c.toNat && c.toNat ≤ 13) || c.toNat == 32 || c.toNat == 0x85 || c.toNat == 0xA0
    || c.toNat == 0x1680 || (0x2000 ≤ c.toNat && c.toNat ≤ 0x200A) || c.toNat == 0x2028
    || c.toNat == 0x2029 || c.toNat == 0x202F || c.toNat == 0x205F || c.toNat == 0x3000

/-- The function `strings.TrimSpace`. -/
def TrimSpace (s : List Char) : List Char :=
  ((s.dropWhile isSpace).reverse.dropWhile isSpace).reverse

/-- The scan of `strings.ReplaceAll` for a non-empty `old`: the occurrences are taken from
left to right without overlap; `skip` counts the characters of an occurrence still to be
passed over. -/
def replaceAllFrom (old new : List Char) : Nat → List Char → List Char
  | _, [] => []
  | skip + 1, _ :: rest => replaceAllFrom old new skip rest
  | 0, c :: rest =>
    if old.isPrefixOf (c :: rest) then new ++ replaceAllFrom old new (old.length - 1) rest
    else c :: replaceAllFrom old new 0 rest

/-- The function `strings.ReplaceAll`, for a non-empty `old`. -/
def ReplaceAll (s old new : List Char) : List Char :=
  replaceAllFrom old new 0 s

/-- The call `strings.Replace(s, old, new, 1)` for a non-empty `old`: the first occurrence
only. -/
def replaceFirst (old new : List Char) : List Char → List Char
  | [] => []
  | c :: rest =>
    if old.isPrefixOf (c :: rest) then new ++ (c :: rest).drop old.length
    else c :: replaceFirst old new rest

/-- The call `strings.SplitN(s, sep, 2)` for a separator of one character: the text before
the first separator, and the text after it when there is a separator. -/
def splitFirst (sep : Char) : List Char → List Char × Option (List Char)
  | [] => ([], none)
  | c :: rest =>
    if c = sep then ([], some rest)
    else ((c :: (splitFirst sep rest).1), (splitFirst sep rest).2)

/-- The scan of `strings.Fields`; `cur` holds the current field, last character first. -/
def fieldsFrom : List Char → List Char → List (List Char)
  | cur, [] => if cur.isEmpty then [] else [cur.reverse]
  | cur, c :: rest =>
    if isSpace c then
      (if cur.isEmpty then fieldsFrom [] rest else cur.reverse :: fieldsFrom [] rest)
    else fieldsFrom (c :: cur) rest

/-- The function `strings.Fields`. -/
def Fields (s : List Char) : List (List Char) :=
  fieldsFrom [] s

/-- The two statements of `normalizeTel` on `s[0]`: the fields joined by one space, then
every space replaced by a hyphen. -/
def hyphenate (s0 : List Char) : List Char :=
  ReplaceAll ([' '].intercalate (Fields s0)) [' '] ['-']

/-- The function `normalizeTel`. The test `len(s[0]) > 1 && s[0][0:2] == "00"` holds when the
first two characters are zeros. -/
def normalizeTel (number : String) : String :=
  match splitFirst ';' (ReplaceAll (TrimSpace number.data) ['t', 'e', 'l', ':'] []) with
  | (s0, some s1) =>
    String.mk (['t', 'e', 'l', ':'] ++ (hyphenate s0 ++ ';' :: ReplaceAll s1 [' '] []))
  | (s0, none) =>
    if s0.take 2 = ['0', '0'] then
      String.mk (['t', 'e', 'l', ':']
        ++ hyphenate (replaceFirst ['(', '0', ')'] [] (replaceFirst ['0', '0'] ['+'] s0)))
    else String.mk (['t', 'e', 'l', ':'] ++ hyphenate s0)

/-! ## Further builders -/

/-- The statement `property := &VCardProperty\x7b...\x7d` of `AddTel`. -/
def telCandidate (L : Deps) (addr : Nat) (value : String) (params : Params) : PropertyRef :=
  { addr := addr,
    obj := { Name := Tel, Type_ := URI, Parameters := params, Value := .str (normalizeTel value),
             typeInfo := telTypeInfo L } }

/-- The method `AddTel`. -/
def VCard.AddTel (L : Deps) (v : VCard) (addr : Nat) (value : String) (params : Params) :
    Run (VCard × GoError) :=
  v.append (telCandidate L addr value params)

/-- The variable `stype` of `AddTz` when the property is built. -/
def tzType (value : String) : String :=
  if validateURI value then URI
  else if validateUtcOffset value then "utc-offset"
  else Text

/-- The statement `property := &VCardProperty\x7b...\x7d` of `AddTz`. -/
def tzCandidate (L : Deps) (addr : Nat) (value : String) (params : Params) : PropertyRef :=
  { addr := addr,
    obj := { Name := Tz, Type_ := tzType value, Parameters := params, Value := .str value,
             typeInfo := tzTypeInfo L } }

/-- The method `AddTz`. -/
def VCard.AddTz (L : Deps) (v : VCard) (addr : Nat) (value : String) (params : Params) :
    Run (VCard × GoError) :=
  v.append (tzCandidate L addr value params)

/-- The statement `property := &VCardProperty\x7b...\x7d` of `AddFburl`. -/
def fburlCandidate (L : Deps) (addr : Nat) (url : String) (params : Params) : PropertyRef :=
  { addr := addr,
    obj := { Name := FbURL, Type_ := URI, Parameters := params, Value := .str url,
             typeInfo := fburlTypeInfo L } }

/-- The method `AddFburl`. -/
def VCard.AddFburl (L : Deps) (v : VCard) (addr : Nat) (url : String) (params : Params) :
    Run (VCard × GoError) :=
  v.append (fburlCandidate L addr url params)

/-- The variable `stype` of `AddBDay` and of `AddAnniversary` when the property is built. -/
def bdayType (svalue : String) : String :=
  if validateDateAndOrTime svalue then "date-and-or-time" else Text

/-- The statement `property := &VCardProperty\x7b...\x7d` of `AddBDay`, for a value that is
the string `svalue`. -/
def bdayCandidate (L : Deps) (addr : Nat) (svalue : String) (params : Params) : PropertyRef :=
  { addr := addr,
    obj := { Name := BDay, Type_ := bdayType svalue, Parameters := params, Value := .str svalue,
             typeInfo := bdayTypeInfo L } }

/-- The method `AddBDay`; the type assertion `value.(string)` panics on a value that is not a
string. -/
def VCard.AddBDay (L : Deps) (v : VCard) (addr : Nat) (value : Any) (params : Params) :
    Run (VCard × GoError) :=
  match value with
  | .str svalue => v.append (bdayCandidate L addr svalue params)
  | _ => .panic

/-- The statement `property := &VCardProperty\x7b...\x7d` of `AddAnniversary`, for a value
that is the string `svalue`. -/
def anniversaryCandidate (L : Deps) (addr : Nat) (svalue : String) (params : Params) :
    PropertyRef :=
  { addr := addr,
    obj := { Name := Anniversary, Type_ := bdayType svalue, Parameters := params,
             Value := .str svalue, typeInfo := anniversaryTypeInfo L } }

/-- The method `AddAnniversary`. -/
def VCard.AddAnniversary (L : Deps) (v : VCard) (addr : Nat) (value : Any) (params : Params) :
    Run (VCard × GoError) :=
  match value with
  | .str svalue => v.append (anniversaryCandidate L addr svalue params)
  | _ => .panic

/-- The variable `stype` of `AddUID` when the property is built. -/
def uidType (svalue : String) : String :=
  if validateURI svalue then URI else Text

/-- The statement `property := &VCardProperty\x7b...\x7d` of `AddUID`, for a value that is
the string `svalue`. -/
def uidCandidate (L : Deps) (addr : Nat) (svalue : String) (params : Params) : PropertyRef :=
  { addr := addr,
    obj := { Name := UID, Type_ := uidType svalue, Parameters := params, Value := .str svalue,
             typeInfo := uidTypeInfo L } }

/-- The method `AddUID`. -/
def VCard.AddUID (L : Deps) (v : VCard) (addr : Nat) (value : Any) (params : Params) :
    Run (VCard × GoError) :=
  match value with
  | .str svalue => v.append (uidCandidate L addr svalue params)
  | _ => .panic

/-! ## A card from a directory entry (`NewVCardFromLdap`) -/

/-- The struct `ldap.InetOrgPerson`. -/
structure InetOrgPerson where
  DisplayName : String
  Sn : String
  Cn : String
  PersonalTitle : String
  Ou : String
  PostalAddress : String
  Mail : String
  TelephoneNumber : String
  FacsimileTelephoneNumber : String
  Mobile : String
  UserPassword : String
  UniqueIdentifier : String
  EmployeeType : String

/-- The first property that `NewVCardFromLdap` appends; no descriptor is set. -/
def ldapVersion : PropertyRef :=
  { addr := 0,
    obj := { Name := "version", Type_ := "text", Parameters := [], Value := .str "4.0",
             typeInfo := VPropertyTypeInfo.zero } }

/-- The second property that `NewVCardFromLdap` appends; no descriptor is set. -/
def ldapFn (person : InetOrgPerson) : PropertyRef :=
  { addr := 1,
    obj := { Name := Fn, Type_ := Text, Parameters := [], Value := .str person.DisplayName,
             typeInfo := VPropertyTypeInfo.zero } }

/-- The third property that `NewVCardFromLdap` appends; no descriptor is set. -/
def ldapEmail (person : InetOrgPerson) : PropertyRef :=
  { addr := 2,
    obj := { Name := Email, Type_ := Text, Parameters := [("type", ["work"]), ("pref", ["1"])],
             Value := .str person.Mail, typeInfo := VPropertyTypeInfo.zero } }

/-- The card of `NewVCardFromLdap` when its three statements `append` are done; the map
`Errors` is nil. -/
def ldapStart (person : InetOrgPerson) : VCard :=
  { Properties := [ldapVersion, ldapFn person, ldapEmail person], Errors := [] }

/-- The function `NewVCardFromLdap`, for a pointer `person` that is not nil: the card and the
error returned. The objects it allocates have the addresses 0 to 5. The errors that the three
calls of `AddTel` return are dropped. -/
def NewVCardFromLdap (L : Deps) (person : InetOrgPerson) : Run (VCard × GoError) :=
  match (ldapStart person).AddTel L 3 person.Mobile
      [("type", ["voice", "cell"]), ("pref", ["1"])] with
  | .panic => .panic
  | .done (v1, _) =>
    match v1.AddTel L 4 person.TelephoneNumber [("type", ["work", "voice"]), ("pref", ["2"])] with
    | .panic => .panic
    | .done (v2, _) =>
      match v2.AddTel L 5 person.FacsimileTelephoneNumber
          [("type", ["work", "fax"]), ("pref", ["3"])] with
      | .panic => .panic
      | .done (v3, _) => .done (v3, none)

/-! ## An environment for concrete inputs -/

/-- An environment at which the definitions can be evaluated: the two renderings of a
`float64` know the numbers 42 and 43 of the repository's test data (given by their bit
patterns), an error and a pointer are printed as a fixed text, and the parser of language
tags and the validators taken from outside accept everything. -/
def testDeps : Deps :=
  { FormatFloat := (fun x =>
      if x.bits = 0x4045000000000000 then "42"
      else if x.bits = 0x4045800000000000 then "43" else "0"),
    SprintFloat := (fun x =>
      if x.bits = 0x4045000000000000 then "42"
      else if x.bits = 0x4045800000000000 then "43" else "0"),
    SprintAtoiError := (fun _ => "%!w(*strconv.NumError)"),
    SprintPointer := (fun _ => "0xc000010000"),
    ParseLanguage := (fun _ => none),
    ValidateCategories := (fun _ => .done none),
    ValidateFn := (fun _ => .done none),
    ValidateGender := (fun _ => .done none),
    ValidateImpp := (fun _ => .done none),
    ValidateKey := (fun _ => .done none),
    ValidateLang := (fun _ => .done none),
    ValidateLogo := (fun _ => .done none),
    ValidateMember := (fun _ => .done none),
    ValidateN := (fun _ => .done none),
    ValidateNickname := (fun _ => .done none),
    ValidateNote := (fun _ => .done none),
    ValidateOrg := (fun _ => .done none),
    ValidateProdid := (fun _ => .done none),
    ValidateRelated := (fun _ => .done none),
    ValidateRev := (fun _ => .done none),
    ValidateRole := (fun _ => .done none),
    ValidateSound := (fun _ => .done none),
    ValidateTitle := (fun _ => .done none),
    ValidateURL := (fun _ => .done none) }

/-- The value of the property `mixed` of the test `TestVCardMixedDatatypes`. -/
def mixedValue : Any :=
  .arr [.str "abc", .bool true, .num ⟨0x4045000000000000⟩, .null,
        .arr [.str "def", .bool false, .num ⟨0x4045800000000000⟩]]

/-- The property `mixed` as the test `TestVCardMixedDatatypes` expects it decoded. -/
def mixedProperty : VCardProperty :=
  { Name := "mixed", Parameters := [], Type_ := "text", Value := mixedValue,
    typeInfo := VPropertyTypeInfo.zero }

/-! ## Specification-side definitions -/

mutual
/-- A property value tree: null, bool, number and text leaves under arbitrarily nested and
mixed sequences (no map, no typed string slice). -/
def Any.isValueTree : Any → Bool
  | .null => true
  | .bool _ => true
  | .num _ => true
  | .str _ => true
  | .arr xs => Any.areValueTrees xs
  | .obj _ => false
  | .strs _ => false
/-- All members are value trees. -/
def Any.areValueTrees : List Any → Bool
  | [] => true
  | v :: rest => Any.isValueTree v && Any.areValueTrees rest
end

mutual
/-- The leaves of a value tree, depth first and left to right, each rendered as a string:
null as the empty string, a bool as true or false, a number as its decimal text, a text as
itself. -/
def Any.leaves (L : Deps) : Any → List String
  | .null => [""]
  | .bool b => [if b then "true" else "false"]
  | .num x => [L.FormatFloat x]
  | .str s => [s]
  | .arr xs => Any.leavesOfMembers L xs
  | .obj _ => []
  | .strs _ => []
/-- The leaves of the members of a sequence, member after member. -/
def Any.leavesOfMembers (L : Deps) : List Any → List String
  | [] => []
  | v :: rest => Any.leaves L v ++ Any.leavesOfMembers L rest
end

mutual
/-- The number of leaves (null, bool, number, text) of a value tree. -/
def Any.leafCount : Any → Nat
  | .null => 1
  | .bool _ => 1
  | .num _ => 1
  | .str _ => 1
  | .arr xs => Any.leafCountOfMembers xs
  | .obj _ => 0
  | .strs _ => 0
/-- The number of leaves below the members of a sequence. -/
def Any.leafCountOfMembers : List Any → Nat
  | [] => 0
  | v :: rest => Any.leafCount v + Any.leafCountOfMembers rest
end

/-- The value is an array (`[]interface{}`). -/
def Any.isArr : Any → Bool
  | .arr _ => true
  | _ => false

/-- The value is a string. -/
def Any.isStr : Any → Bool
  | .str _ => true
  | _ => false

/-- The value is a JSON object (`map[string]interface{}`). -/
def Any.isObj : Any → Bool
  | .obj _ => true
  | _ => false

/-- The value is null, a bool, a number, a string or an array. -/
def Any.isKnown : Any → Bool
  | .obj _ => false
  | .strs _ => false
  | _ => true

mutual
/-- The values that occur in `v` at nesting depth `d`: `v` itself is at depth 0, and the
members of an array at depth `d` are at depth `d + 1`. -/
def Any.valuesAt : Any → Nat → List Any
  | .null, d => if d = 0 then [.null] else []
  | .bool b, d => if d = 0 then [.bool b] else []
  | .num x, d => if d = 0 then [.num x] else []
  | .str s, d => if d = 0 then [.str s] else []
  | .arr xs, d => if d = 0 then [.arr xs] else Any.membersAt xs (d - 1)
  | .obj kvs, d => if d = 0 then [.obj kvs] else []
  | .strs xs, d => if d = 0 then [.strs xs] else []
/-- The values that occur at depth `d` in one of the members `vs`. -/
def Any.membersAt : List Any → Nat → List Any
  | [], _ => []
  | v :: rest, d => Any.valuesAt v d ++ Any.membersAt rest d
end

/-- The value `v` has an array at depth `n`, or has at depth at most `n` a value that is not
null, bool, number, string or array. -/
def Any.Unreadable (v : Any) (n : Nat) : Prop :=
  (∃ w ∈ v.valuesAt n, w.isArr = true) ∨ (∃ d, d ≤ n ∧ ∃ w ∈ v.valuesAt d, w.isKnown = false)

/-- The value is nested too deeply: it has an array at nesting depth 3. -/
def Any.nestedTooDeeply (v : Any) : Bool :=
  (v.valuesAt 3).any Any.isArr

/-- What a property array gives as the source of its value: the fourth element when there
are exactly four, and the sequence of the elements from the fourth on when there are more. -/
def valueSource (a3 : Any) (rest : List Any) : Any :=
  match rest with
  | [] => a3
  | _ :: _ => .arr (a3 :: rest)

/-- A property that is malformed in one of the listed ways: not an array, fewer than four
elements, a name that is not a string, a parameter element that is not an object, a declared
type that is not a string, or a value nested too deeply. -/
def malformedProperty : Any → Bool
  | .arr (a0 :: a1 :: a2 :: a3 :: rest) =>
    !a0.isStr || !a1.isObj || !a2.isStr || (valueSource a3 rest).nestedTooDeeply
  | _ => true

/-- A decoded JSON input that is malformed in one of the listed ways: not a 2-element array,
first element not the string vcard, second element not an array, or a malformed property. -/
def malformed : Any → Bool
  | .arr [top0, top1] =>
    !top0.isText "vcard" ||
      (match top1 with
       | .arr properties => properties.any malformedProperty
       | _ => true)
  | _ => true

/-- The input of the end-to-end example: a card with the one property `n`. -/
def nExample : Any :=
  .arr [.str "vcard", .arr [.arr [.str "n", .obj [], .str "text",
    .arr [.str "Perreault", .str "Simon", .str "", .str "",
          .arr [.str "ing. jr", .str "M.Sc."]]]]]

/-- The property names of the registry: the case labels of `addTypeInfo`. -/
def registryNames : List String :=
  [Adr, Anniversary, BDay, CalAdrURI, CalURI, Categories, ClientPIDMap, Email, FbURL, Fn,
   Gender, Geo, IMPP, Key, Kind, Lang, Logo, Member, N, Nickname, Note, Org, Photo, ProdID,
   Related, Rev, Role, Sound, Tel, Title, Tz, UID, URL, Version]

/-- The decoded JSON of a card whose one property is named `mixed`, a name outside the
registry, with the value of the test `TestVCardMixedDatatypes`. -/
def mixedTop : List Any :=
  [.str "vcard", .arr [.arr [.str "mixed", .obj [], .str "text", mixedValue]]]

/-- The string members of an array, in order; members that are not strings are dropped. -/
def stringMembers : List Any → List String
  | [] => []
  | .str s :: rest => s :: stringMembers rest
  | _ :: rest => stringMembers rest

/-- What the parameter mapping holds for a key, given the value of the key in the object:
the one-element list for a string, the string members for an array that has some, and
nothing otherwise. -/
def paramOf : Any → Option (List String)
  | .str s => some [s]
  | .arr xs => if stringMembers xs = [] then none else some (stringMembers xs)
  | _ => none

/-- A parameter object with a string, arrays with and without string members, and a number. -/
def paramsExample : List (String × Any) :=
  [("pref", .str "1"), ("type", .arr [.str "work", .null, .str "voice"]),
   ("x", .arr [.bool true]), ("y", .num ⟨0⟩)]

/-- A card with the one decoded property `mixed`, at address 0. -/
def mixedCard : VCard :=
  { Properties := [{ addr := 0, obj := mixedProperty }], Errors := [] }

/-- A card input whose one property has a value with an array at nesting depth 3. -/
def tooDeepExample : Any :=
  .arr [.str "vcard", .arr [.arr [.str "n", .obj [], .str "text",
    .arr [.arr [.arr [.arr [.str "x"]]]]]]]

/-- A card input whose one property has three elements only. -/
def tooShortExample : Any :=
  .arr [.str "vcard", .arr [.arr [.str "fn", .obj [], .str "text"]]]

/-- A property list with one property of six elements. -/
def longExample : List Any :=
  [.arr [.str "categories", .obj [], .str "text", .str "a", .str "b", .arr [.str "c"]]]

/-- A decoded property with a text value and no parameter, as `newVCardImpl` builds it. -/
def textProperty (name value : String) : VCardProperty :=
  { Name := name, Parameters := [], Type_ := "text", Value := .str value,
    typeInfo := VPropertyTypeInfo.zero }

/-- A card with two `tel` properties around an `fn` property, at the addresses 0, 1 and 2. -/
def telCard : VCard :=
  { Properties := [{ addr := 0, obj := textProperty "tel" "tel:+1-555-1" },
                   { addr := 1, obj := textProperty "fn" "Joe" },
                   { addr := 2, obj := textProperty "tel" "tel:+1-555-2" }],
    Errors := [] }

/-- The keys of the error mapping. -/
def errKeys (m : List (String × String)) : List String :=
  m.map Prod.fst

/-- The last character of a text, if it has one. -/
def lastChar (s : String) : Option Char :=
  s.data.getLast?

/-- The number that a list of decimal digits stands for. -/
def digitsValue (cs : List Char) : Nat :=
  cs.foldl (fun n c => n * 10 + (c.toNat - 48)) 0

/-- The integer that a decimal text with an optional minus sign stands for. -/
def decimalValue (cs : List Char) : Int :=
  if cs.head? = some '-' then -(digitsValue cs.tail : Int) else (digitsValue cs : Int)

/-- The cardinality of the descriptor of `p` is broken in the card `v`: what the `switch` of
`validateCardinality` tests, against the number of properties with the name of `p`. -/
def cardinalityFails (v : VCard) (p : PropertyRef) : Prop :=
  (p.obj.typeInfo.Cardinal = One ∧ (v.Get p.obj.Name).length ≠ 1)
    ∨ (p.obj.typeInfo.Cardinal = OneOrMany ∧ (v.Get p.obj.Name).length = 0)
    ∨ (p.obj.typeInfo.Cardinal = OneOrZero ∧ (v.Get p.obj.Name).length > 1)
    ∨ (p.obj.typeInfo.Cardinal ≠ Many ∧ p.obj.typeInfo.Cardinal ≠ One
        ∧ p.obj.typeInfo.Cardinal ≠ OneOrMany ∧ p.obj.typeInfo.Cardinal ≠ OneOrZero)

/-- The key under which `validateClientPIDMap` records the failure for the integer `k`. -/
def pidKey (k : Int) : String :=
  "Pid " ++ Itoa k ++ " has no ClientPIDMapping"

/-- A property as the decoder and `addTypeInfo` leave it: text value, no parameter, the
registry descriptor of its name when there is one. -/
def registered (L : Deps) (name value : String) : VCardProperty :=
  ((textProperty name value).addTypeInfo L).1

/-- A card with the one property `fn`. -/
def fnCard : VCard :=
  { Properties := [{ addr := 0, obj := registered testDeps "fn" "Joe" }], Errors := [] }

/-- A card with the one property `version`, of value 4.0. -/
def versionCard : VCard :=
  { Properties := [{ addr := 0, obj := registered testDeps "version" "4.0" }], Errors := [] }

/-- A card with two `version` properties. -/
def twoVersionsCard : VCard :=
  { Properties := [{ addr := 0, obj := registered testDeps "version" "4.0" },
                   { addr := 1, obj := registered testDeps "version" "4.0" }],
    Errors := [] }

/-- The decoded JSON of a card with the one property `version`, of value 4.0. -/
def versionTop : List Any :=
  [.str "vcard", .arr [.arr [.str "version", .obj [], .str "text", .str "4.0"]]]

/-- A card with a `member` property and no `kind` property. -/
def memberCard : VCard :=
  { Properties := [{ addr := 0, obj := registered testDeps "version" "4.0" },
                   { addr := 1, obj := registered testDeps "member" "urn:uuid:1" }],
    Errors := [] }

/-- A card with a `member` property and a `kind` property of value `group`. -/
def groupCard : VCard :=
  { Properties := [{ addr := 0, obj := registered testDeps "version" "4.0" },
                   { addr := 1, obj := registered testDeps "kind" "group" },
                   { addr := 2, obj := registered testDeps "member" "urn:uuid:1" }],
    Errors := [] }

/-- Some property of the card has a `pid` parameter value of exactly two dot-separated
components whose second component reads as the integer `k`. -/
def hasPidSource (v : VCard) (k : Int) : Prop :=
  ∃ p ∈ v.Properties, ∃ j ∈ mapGet p.obj.Parameters "pid",
    ∃ a b, Split j '.' = [a, b] ∧ Atoi b = some k

/-- Some `clientpidmap` property of the card has a two-element value whose first element is a
text that reads as the integer `k`. -/
def hasClientPidMap (v : VCard) (k : Int) : Prop :=
  ∃ c ∈ v.Properties, c.obj.Name = "clientpidmap"
    ∧ ∃ x y, c.obj.Value = .arr [.str x, y] ∧ Atoi x = some k

/-- A `tel` property with the parameter `pid` of value `4.2`, carrying its descriptor. -/
def pidProperty : VCardProperty :=
  { Name := "tel", Parameters := [("pid", ["4.2"])], Type_ := "uri",
    Value := .str "tel:+1-555-1", typeInfo := telTypeInfo testDeps }

/-- A `clientpidmap` property of value `["2", "urn:uuid:1"]`, carrying its descriptor. -/
def cpmProperty : VCardProperty :=
  { Name := "clientpidmap", Parameters := [], Type_ := "text",
    Value := .arr [.str "2", .str "urn:uuid:1"], typeInfo := clientPIDMapTypeInfo testDeps }

/-- A card with a version and a `tel` property of `pid` 4.2, without `clientpidmap`. -/
def pidCard : VCard :=
  { Properties := [{ addr := 0, obj := registered testDeps "version" "4.0" },
                   { addr := 1, obj := pidProperty }],
    Errors := [] }

/-- The card `pidCard` with the `clientpidmap` property for 2 added at the end. -/
def pidMappedCard : VCard :=
  { Properties := [{ addr := 0, obj := registered testDeps "version" "4.0" },
                   { addr := 1, obj := pidProperty },
                   { addr := 2, obj := cpmProperty }],
    Errors := [] }

/-- The card `fnCard` with an error mapping left over from elsewhere. -/
def staleCard : VCard :=
  { fnCard with Errors := [("kindIsNil", "stale"), ("x", "y")] }

/-- The text in which `normalizeTel` looks for a `;` and for two leading zeros: the number
trimmed, with every `tel:` taken out. -/
def telBody (number : String) : List Char :=
  ReplaceAll (TrimSpace number.data) ['t', 'e', 'l', ':'] []

/-- What `validateUtcOffset` accepts: a text that begins with `Z`, or a text that ends with a
sign, a digit 0 or 1, a digit, a digit from 0 to 5, and a digit. -/
def utcOffsetAccepted (s : List Char) : Prop :=
  s.head? = some 'Z'
    ∨ ∃ pre c1 c2 c3 c4 c5, s = pre ++ [c1, c2, c3, c4, c5]
        ∧ (c1 = '+' ∨ c1 = '-') ∧ (c2 = '0' ∨ c2 = '1') ∧ c3.isDigit = true
        ∧ ('0' ≤ c4 ∧ c4 ≤ '5') ∧ c5.isDigit = true

/-- The ten type names of `regexpMedia`. -/
def mediaNames : List String :=
  ["application", "audio", "font", "example", "image", "message", "model", "multipart", "text",
   "video"]

/-- A token of `regexpMedia`: one or more characters of its class. -/
def isMediaToken (t : List Char) : Prop :=
  t ≠ [] ∧ ∀ c ∈ t, inClass mediaTokenRanges c = true

/-- A type of `regexpMedia`: one of the ten names, or `x-` and a token. -/
def isMediaType (t : List Char) : Prop :=
  t ∈ mediaNames.map String.data ∨ ∃ x, isMediaToken x ∧ t = 'x' :: '-' :: x

/-- The text contains a type, a slash and a token, somewhere. -/
def containsMediaPair (s : List Char) : Prop :=
  ∃ pre t sub post, s = pre ++ (t ++ '/' :: (sub ++ post)) ∧ isMediaType t ∧ isMediaToken sub

/-- The characters of the class `\s`. -/
def patternSpaces : List Char :=
  ['\t', '\n', Char.ofNat 12, '\r', ' ']

/-- A coordinate of `regexpGeo`: an optional `-`, digits, a `.`, digits. -/
def isGeoNumber (t : List Char) : Prop :=
  ∃ sign whole frac, t = sign ++ (whole ++ '.' :: frac) ∧ (sign = [] ∨ sign = ['-'])
    ∧ (whole ≠ [] ∧ ∀ c ∈ whole, c.isDigit = true)
    ∧ (frac ≠ [] ∧ ∀ c ∈ frac, c.isDigit = true)

/-- A text of the form of `regexpGeo`: an optional `geo:`, a coordinate, a comma, white space
or none, a coordinate. -/
def isGeoText (s : List Char) : Prop :=
  ∃ pre lat ws lon, s = pre ++ (lat ++ ',' :: (ws ++ lon))
    ∧ (pre = [] ∨ pre = ['g', 'e', 'o', ':'])
    ∧ isGeoNumber lat ∧ (∀ c ∈ ws, c ∈ patternSpaces) ∧ isGeoNumber lon

/-- A character of the local part in `regexpMail`: an ASCII letter, a digit, or one of
`._%+-`. -/
def isMailLocalChar (c : Char) : Prop :=
  ('a' ≤ c ∧ c ≤ 'z') ∨ ('A' ≤ c ∧ c ≤ 'Z') ∨ ('0' ≤ c ∧ c ≤ '9')
    ∨ c = '.' ∨ c = '_' ∨ c = '%' ∨ c = '+' ∨ c = '-'

/-- A character of the host in `regexpMail`: a lowercase ASCII letter, a digit, `.` or `-`. -/
def isMailHostChar (c : Char) : Prop :=
  ('a' ≤ c ∧ c ≤ 'z') ∨ ('0' ≤ c ∧ c ≤ '9') ∨ c = '.' ∨ c = '-'

/-- The form of an address in `regexpMail`: a local part, `@`, and a host that ends in a dot
and a label of two to four lowercase ASCII letters. -/
def isMailText (s : List Char) : Prop :=
  ∃ loc host lab, s = loc ++ '@' :: (host ++ '.' :: lab)
    ∧ (loc ≠ [] ∧ ∀ c ∈ loc, isMailLocalChar c)
    ∧ (host ≠ [] ∧ ∀ c ∈ host, isMailHostChar c)
    ∧ (2 ≤ lab.length ∧ lab.length ≤ 4 ∧ ∀ c ∈ lab, 'a' ≤ c ∧ c ≤ 'z')
/-- The property `email` with a text value, as the decoder and `AddEmail` build it. -/
def emailData (value : String) (params : Params) : VCardPropertyData :=
  { Name := Email, Parameters := params, Type_ := URI, Value := .str value }

/-- The property `tel` with a text value, as the decoder and `AddTel` build it. -/
def telData (value : String) (params : Params) : VCardPropertyData :=
  { Name := Tel, Parameters := params, Type_ := URI, Value := .str value }

/-- A layout on which a text without `.` that parses still parses with a fraction added. -/
def TakesFraction (frac : List Char) (layout : List Chunk) : Prop :=
  ∀ (year month day : Nat) (t : List Char), parseFrom layout year month day t = true → '.' ∉ t →
    parseFrom layout year month day (t ++ '.' :: frac) = true

/-- The parameters that a birthday or an anniversary may carry, in the words of the
specification: each key is `altid`, or it is `calscale` with no value but `gregorian`. -/
def bdateParamsAccepted (params : Params) : Prop :=
  ∀ kv ∈ params, kv.1 = "altid" ∨ (kv.1 = "calscale" ∧ ∀ x ∈ kv.2, x = "gregorian")

/-- The card without properties and without errors. -/
def emptyCard : VCard := { Properties := [], Errors := [] }

/-- A `tel` property at the address `addr`, without descriptor, for examples about order. -/
def telAt (addr : Nat) (value : String) : PropertyRef :=
  { addr := addr,
    obj := { Name := Tel, Type_ := URI, Parameters := [], Value := .str value,
             typeInfo := VPropertyTypeInfo.zero } }

/-- A card with three `tel` properties, inserted in the order of their addresses. -/
def threeTels : VCard :=
  { Properties := [telAt 0 "tel:+1", telAt 1 "tel:+2", telAt 2 "tel:+3"], Errors := [] }

/-- In the words of the specification: the normalized form of `number` passes `ValidateTel`
when it is the value of a `tel` property with the parameters `params`. -/
def telPasses (L : Deps) (number : String) (params : Params) : Bool :=
  match ValidateTel L
      { Name := "tel", Parameters := params, Type_ := "uri",
        Value := .str (normalizeTel number) } with
  | .done none => true
  | _ => false

/-- In the words of the specification: what a telephone number of a person record adds to
the card, one `tel` property with the given parameters when its normalized form passes
`ValidateTel`, and nothing otherwise. -/
def ldapTelData (L : Deps) (number : String) (params : Params) : List VCardPropertyData :=
  if telPasses L number params then
    [{ Name := "tel", Parameters := params, Type_ := "uri",
       Value := .str (normalizeTel number) }]
  else []

/-- The person record of the test `TestNewVcardFromLdap`, with a display name, a mail
address, a mobile and a work number, and no fax number. -/
def arthur : InetOrgPerson :=
  { DisplayName := "Arthur Dent", Sn := "", Cn := "", PersonalTitle := "", Ou := "",
    PostalAddress := "", Mail := "arthur@dent.de", TelephoneNumber := "0049 3866 307",
    FacsimileTelephoneNumber := "", Mobile := "+49 170 1895281", UserPassword := "",
    UniqueIdentifier := "", EmployeeType := "" }

/-- The decoded JSON `["vcard", [["version", \x7b\x7d, "text", 4]]]`: a card whose `version`
has the number 4 as its value. -/
def numericVersionTop : List Any :=
  [.str "vcard", .arr [.arr [.str "version", .obj [], .str "text",
      .num ⟨0x4010000000000000⟩]]]

/-- The decoded JSON of a card with a version and a `clientpidmap` whose value is one text,
not a sequence. -/
def textClientPidMapTop : List Any :=
  [.str "vcard", .arr [.arr [.str "version", .obj [], .str "text", .str "4.0"],
      .arr [.str "clientpidmap", .obj [], .str "text",
        .str "1;urn:uuid:3df403f4-5924-4bb7-b077-3c711d9eb34b"]]]

/-- The decoded JSON of a card with a version and a `photo` whose value is a sequence of two
addresses. -/
def photoSequenceTop : List Any :=
  [.str "vcard", .arr [.arr [.str "version", .obj [], .str "text", .str "4.0"],
      .arr [.str "photo", .obj [], .str "uri", .str "http://www.example.com/a.jpg",
        .str "http://www.example.com/b.jpg"]]]

/-- The decoded JSON of a card with a version and a property whose name is the empty
string. -/
def emptyNameTop : List Any :=
  [.str "vcard", .arr [.arr [.str "version", .obj [], .str "text", .str "4.0"],
      .arr [.str "", .obj [], .str "text", .str "x"]]]


/-- The decoded JSON of a card with a version and an `adr` of seven text components,
without parameters. -/
def adrTop : List Any :=
  [.str "vcard", .arr [.arr [.str "version", .obj [], .str "text", .str "4.0"],
      .arr [.str "adr", .obj [], .str "text",
        .arr [.str "", .str "", .str "123 Main Street", .str "Any Town", .str "CA",
              .str "91921-1234", .str "U.S.A."]]]]

/-- The decoded JSON of a card with a numeric `version` in front of the `adr` of `adrTop`. -/
def numericVersionAdrTop : List Any :=
  [.str "vcard", .arr [.arr [.str "version", .obj [], .str "text",
        .num ⟨0x4010000000000000⟩],
      .arr [.str "adr", .obj [], .str "text",
        .arr [.str "", .str "", .str "123 Main Street", .str "Any Town", .str "CA",
              .str "91921-1234", .str "U.S.A."]]]]

mutual
/-- A value of the specification with sequences nested at most `n` deep: a null, a bool, a
number or a text, or, when `n` is not 0, a sequence of such values for `n - 1`. -/
def Any.fits : Any → Nat → Bool
  | .null, _ => true
  | .bool _, _ => true
  | .num _, _ => true
  | .str _, _ => true
  | .arr _, 0 => false
  | .arr xs, n + 1 => Any.allFit xs n
  | .obj _, _ => false
  | .strs _, _ => false
/-- All members are values with sequences nested at most `n` deep. -/
def Any.allFit : List Any → Nat → Bool
  | [], _ => true
  | v :: rest, n => Any.fits v n && Any.allFit rest n
end

/-- A well-formed property of the input: an array of at least four elements whose first
element is a string, whose second is an object, whose third is a string, and whose value
(the fourth element, or the sequence of the elements from the fourth on) is a value of the
specification with sequences nested at most three deep. -/
def wellFormedProperty : Any → Bool
  | .arr (a0 :: a1 :: a2 :: a3 :: rest) =>
    a0.isStr && a1.isObj && a2.isStr && (valueSource a3 rest).fits 3
  | _ => false

/-- Three properties of the card of the test `TestVCardExample`: the version, the name with
its nested sequence, and the first telephone number with its two parameters. -/
def exampleProperties : List Any :=
  [.arr [.str "version", .obj [], .str "text", .str "4.0"],
   .arr [.str "n", .obj [], .str "text",
     .arr [.str "Perreault", .str "Simon", .str "", .str "",
           .arr [.str "ing. jr", .str "M.Sc."]]],
   .arr [.str "tel", .obj [("type", .arr [.str "work", .str "voice"]), ("pref", .str "1")],
     .str "uri", .str "tel:+1-418-656-9254;ext=102"]]

/-- The parameters that the loop of `ValidateTz`, `ValidateGeo`, `ValidateFburl`,
`ValidateCaladruri` and `ValidateCaluri` tests for, as `ValidatePhoto` has them: under the
key `mediatype` only media types, and under every other key what `validateDefaultParam`
accepts. -/
def mediaParamsAccepted (params : Params) : Prop :=
  ∀ kv ∈ params,
    if kv.1 = "mediatype" then validateMediatypeParam kv.2 = none
    else validateDefaultParam kv.1 kv.2 = none

/-- A parameter map on which the loop that stops at `mediatype` gives one verdict or the
other by the order of the visit: under `mediatype` it has media types only, and it has
another entry that `validateDefaultParam` refuses. -/
def orderSensitive (params : Params) : Prop :=
  (∃ kv ∈ params, kv.1 = "mediatype" ∧ validateMediatypeParam kv.2 = none)
    ∧ ∃ kv ∈ params, kv.1 ≠ "mediatype" ∧ validateDefaultParam kv.1 kv.2 ≠ none

/-- The verdict of a validator on a property: nothing when it aborts, otherwise whether it
accepts the property. -/
def verdict : Run GoError → Option Bool
  | .panic => none
  | .done none => some true
  | .done (some _) => some false

/-- A list of parameters stands for a Go map together with the order in which one `range`
visits its entries; another `range` over the same map may visit them in the order of any
other list with the same entries. This is the property `p` with its map in the order
`params2`. -/
def VCardProperty.visited (p : VCardProperty) (params2 : Params) : VCardProperty :=
  { p with Parameters := params2 }

/-- The validator of the property gives the same verdict in whatever order it visits the
parameters. -/
def orderFree (p : VCardProperty) : Prop :=
  ∀ params2 : Params, params2.Perm p.Parameters →
    verdict (p.visited params2).Validate = verdict p.Validate

/-- The reference `q` is the reference `p` as another run sees it: the same address and the
same object, with the parameter map visited in another order. -/
def sameObject (p q : PropertyRef) : Prop :=
  q.addr = p.addr ∧ q.obj = p.obj.visited q.obj.Parameters
    ∧ q.obj.Parameters.Perm p.obj.Parameters

/-- The card `w` is the card `v` as another run sees it: the same properties in the same
places, each parameter map visited in an order of its own. The error mappings are not
compared. -/
def sameCard (v w : VCard) : Prop :=
  List.Forall₂ sameObject v.Properties w.Properties

/-- The decoded JSON of a card with a version and a time zone `Zulu` that has the parameters
`mediatype` and `unknown`. -/
def tzTop : List Any :=
  [.str "vcard", .arr [.arr [.str "version", .obj [], .str "text", .str "4.0"],
      .arr [.str "tz", .obj [("mediatype", .str "text/calendar"), ("unknown", .str "0")],
        .str "utc-offset", .str "Zulu"]]]

/-- The card of `tzTop` in a run that visits the parameter `mediatype` of the time zone
first. -/
def tzCardMediatypeFirst : VCard :=
  { Properties := [{ addr := 0, obj := registered testDeps "version" "4.0" },
                   { addr := 1,
                     obj := { Name := "tz",
                              Parameters := [("mediatype", ["text/calendar"]),
                                             ("unknown", ["0"])],
                              Type_ := "utc-offset", Value := .str "Zulu",
                              typeInfo := tzTypeInfo testDeps } }],
    Errors := [] }

/-- The card of `tzTop` in a run that visits the parameter `unknown` of the time zone
first. -/
def tzCardUnknownFirst : VCard :=
  { Properties := [{ addr := 0, obj := registered testDeps "version" "4.0" },
                   { addr := 1,
                     obj := { Name := "tz",
                              Parameters := [("unknown", ["0"]),
                                             ("mediatype", ["text/calendar"])],
                              Type_ := "utc-offset", Value := .str "Zulu",
                              typeInfo := tzTypeInfo testDeps } }],
    Errors := [] }

/-- A card with a version and a telephone number that has the parameters `type` and `pref`,
in a run that visits `type` first; the error mapping holds a key left from elsewhere. -/
def telCardTypeFirst : VCard :=
  { Properties := [{ addr := 0, obj := registered testDeps "version" "4.0" },
                   { addr := 1,
                     obj := { Name := "tel",
                              Parameters := [("type", ["work", "voice"]), ("pref", ["1"])],
                              Type_ := "uri", Value := .str "tel:+1-418-656-9254",
                              typeInfo := telTypeInfo testDeps } }],
    Errors := [("kindIsNil", "stale")] }

/-- The card `telCardTypeFirst` in a run that visits `pref` first, with an empty error
mapping. -/
def telCardPrefFirst : VCard :=
  { Properties := [{ addr := 0, obj := registered testDeps "version" "4.0" },
                   { addr := 1,
                     obj := { Name := "tel",
                              Parameters := [("pref", ["1"]), ("type", ["work", "voice"])],
                              Type_ := "uri", Value := .str "tel:+1-418-656-9254",
                              typeInfo := telTypeInfo testDeps } }],
    Errors := [] }

/-! # Theorems -/

/-! ## Flattening -/

mutual
theorem appendValueStrings_leaves (L : Deps) :
    ∀ (v : Any) (strings : List String), v.isValueTree = true →
      appendValueStrings L v strings = .done (strings ++ v.leaves L)
  | .null, _, _ => by simp [appendValueStrings, Any.leaves]
  | .bool _, _, _ => by simp [appendValueStrings, Any.leaves]
  | .num _, _, _ => by simp [appendValueStrings, Any.leaves]
  | .str _, _, _ => by simp [appendValueStrings, Any.leaves]
  | .arr xs, strings, h => by
    rw [appendValueStrings, Any.leaves]
    exact appendValueStringsRange_leaves L xs strings (by simpa [Any.isValueTree] using h)
  | .obj _, _, h => by simp [Any.isValueTree] at h
  | .strs _, _, h => by simp [Any.isValueTree] at h
theorem appendValueStringsRange_leaves (L : Deps) :
    ∀ (vs : List Any) (strings : List String), Any.areValueTrees vs = true →
      appendValueStringsRange L vs strings = .done (strings ++ Any.leavesOfMembers L vs)
  | [], _, _ => by simp [appendValueStringsRange, Any.leavesOfMembers]
  | v :: rest, strings, h => by
    simp only [Any.areValueTrees, Bool.and_eq_true] at h
    rw [appendValueStringsRange, appendValueStrings_leaves L v strings h.1]
    simp only
    rw [appendValueStringsRange_leaves L rest _ h.2, Any.leavesOfMembers, List.append_assoc]
end

mutual
theorem leaves_length (L : Deps) : ∀ v : Any, (v.leaves L).length = v.leafCount
  | .null => by simp [Any.leaves, Any.leafCount]
  | .bool _ => by simp [Any.leaves, Any.leafCount]
  | .num _ => by simp [Any.leaves, Any.leafCount]
  | .str _ => by simp [Any.leaves, Any.leafCount]
  | .arr xs => by
    rw [Any.leaves, Any.leafCount]
    exact leavesOfMembers_length L xs
  | .obj _ => by simp [Any.leaves, Any.leafCount]
  | .strs _ => by simp [Any.leaves, Any.leafCount]
theorem leavesOfMembers_length (L : Deps) :
    ∀ vs : List Any, (Any.leavesOfMembers L vs).length = Any.leafCountOfMembers vs
  | [] => by simp [Any.leavesOfMembers, Any.leafCountOfMembers]
  | v :: rest => by
    rw [Any.leavesOfMembers, Any.leafCountOfMembers, List.length_append, leaves_length L v,
      leavesOfMembers_length L rest]
end

/-- C1. For every property whose value is a value tree, `Values()` returns (without panic)
exactly the depth-first, left-to-right list of its leaves rendered as strings; the length of
the result is the number of leaves; and an empty sequence adds nothing to the strings
collected so far. -/
theorem values_eq_leaves (L : Deps) (p : VCardProperty) (h : p.Value.isValueTree = true) :
    p.Values L = .done (p.Value.leaves L)
      ∧ (p.Value.leaves L).length = p.Value.leafCount
      ∧ ∀ strings : List String, appendValueStrings L (.arr []) strings = .done strings := by
  refine ⟨?_, leaves_length L p.Value, ?_⟩
  · simpa [VCardProperty.Values] using appendValueStrings_leaves L p.Value [] h
  · intro strings
    simp [appendValueStrings, appendValueStringsRange]

/-- C1, at the value of the test `TestVCardMixedDatatypes`: seven leaves, in order. -/
theorem values_eq_leaves_witness :
    mixedProperty.Value.isValueTree = true
      ∧ mixedProperty.Values testDeps = .done ["abc", "true", "42", "", "def", "false", "43"]
      ∧ mixedProperty.Value.leafCount = 7 :=
  ⟨by decide, (values_eq_leaves testDeps mixedProperty (by decide)).1, by decide⟩

/-! ## The value decoder -/

theorem mem_membersAt (w : Any) (d : Nat) :
    ∀ vs : List Any, w ∈ Any.membersAt vs d ↔ ∃ v ∈ vs, w ∈ v.valuesAt d
  | [] => by simp [Any.membersAt]
  | v :: rest => by
    rw [Any.membersAt, List.mem_append, mem_membersAt w d rest]
    simp

theorem valuesAt_zero (v : Any) : v.valuesAt 0 = [v] := by
  cases v <;> simp [Any.valuesAt]

theorem unreadable_arr_zero (xs : List Any) : (Any.arr xs).Unreadable 0 :=
  Or.inl ⟨.arr xs, by simp [valuesAt_zero], rfl⟩

theorem unreadable_arr_succ (xs : List Any) (n : Nat) :
    (Any.arr xs).Unreadable (n + 1) ↔ ∃ x ∈ xs, x.Unreadable n := by
  unfold Any.Unreadable
  constructor
  · rintro (⟨w, hw, ha⟩ | ⟨d, hd, w, hw, hk⟩)
    · simp only [Any.valuesAt, Nat.add_one_ne_zero, if_false, Nat.add_sub_cancel] at hw
      obtain ⟨x, hx, hwx⟩ := (mem_membersAt w n xs).1 hw
      exact ⟨x, hx, Or.inl ⟨w, hwx, ha⟩⟩
    · cases d with
      | zero =>
        rw [valuesAt_zero] at hw
        simp only [List.mem_singleton] at hw
        subst hw
        simp [Any.isKnown] at hk
      | succ d =>
        simp only [Any.valuesAt, Nat.add_one_ne_zero, if_false, Nat.add_sub_cancel] at hw
        obtain ⟨x, hx, hwx⟩ := (mem_membersAt w d xs).1 hw
        exact ⟨x, hx, Or.inr ⟨d, Nat.le_of_succ_le_succ hd, w, hwx, hk⟩⟩
  · rintro ⟨x, hx, (⟨w, hw, ha⟩ | ⟨d, hd, w, hw, hk⟩)⟩
    · refine Or.inl ⟨w, ?_, ha⟩
      simp only [Any.valuesAt, Nat.add_one_ne_zero, if_false, Nat.add_sub_cancel]
      exact (mem_membersAt w n xs).2 ⟨x, hx, hw⟩
    · refine Or.inr ⟨d + 1, Nat.succ_le_succ hd, w, ?_, hk⟩
      simp only [Any.valuesAt, Nat.add_one_ne_zero, if_false, Nat.add_sub_cancel]
      exact (mem_membersAt w d xs).2 ⟨x, hx, hw⟩

theorem not_unreadable_of_leaf (v : Any) (n : Nat) (hk : v.isKnown = true)
    (ha : v.isArr = false) : ¬ v.Unreadable n := by
  have hnil : ∀ d, d ≠ 0 → v.valuesAt d = [] := by
    intro d hd
    cases v <;> simp_all [Any.valuesAt, Any.isArr]
  rintro (⟨w, hw, hwa⟩ | ⟨d, _, w, hw, hwk⟩)
  · by_cases h0 : n = 0
    · subst h0
      rw [valuesAt_zero] at hw
      simp only [List.mem_singleton] at hw
      subst hw
      simp [ha] at hwa
    · simp [hnil n h0] at hw
  · by_cases h0 : d = 0
    · subst h0
      rw [valuesAt_zero] at hw
      simp only [List.mem_singleton] at hw
      subst hw
      simp [hk] at hwk
    · simp [hnil d h0] at hw

theorem unreadable_of_unknown (v : Any) (n : Nat) (hk : v.isKnown = false) : v.Unreadable n :=
  Or.inr ⟨0, Nat.zero_le n, v, by simp [valuesAt_zero], hk⟩

mutual
theorem readValue_err_iff :
    ∀ (v : Any) (depth n : Nat), depth + n = 3 →
      ((readValue v depth).2 ≠ none ↔ v.Unreadable n)
  | .null, _, n, _ => by
    simpa [readValue] using not_unreadable_of_leaf .null n rfl rfl
  | .bool b, _, n, _ => by
    simpa [readValue] using not_unreadable_of_leaf (.bool b) n rfl rfl
  | .num x, _, n, _ => by
    simpa [readValue] using not_unreadable_of_leaf (.num x) n rfl rfl
  | .str s, _, n, _ => by
    simpa [readValue] using not_unreadable_of_leaf (.str s) n rfl rfl
  | .obj kvs, _, n, _ => by
    simpa [readValue] using unreadable_of_unknown (.obj kvs) n rfl
  | .strs xs, _, n, _ => by
    simpa [readValue] using unreadable_of_unknown (.strs xs) n rfl
  | .arr xs, depth, n, h => by
    cases n with
    | zero =>
      have hd : depth = 3 := by omega
      simpa [readValue, hd] using unreadable_arr_zero xs
    | succ n =>
      have hd : depth ≠ 3 := by omega
      rw [unreadable_arr_succ, readValue, if_neg hd]
      exact readValueRange_err_iff xs depth n [] (by omega)
theorem readValueRange_err_iff :
    ∀ (vs : List Any) (depth n : Nat) (result : List Any), depth + 1 + n = 3 →
      ((readValueRange vs depth result).2 ≠ none ↔ ∃ x ∈ vs, x.Unreadable n)
  | [], _, _, _, _ => by simp [readValueRange]
  | v :: rest, depth, n, result, h => by
    have hv := readValue_err_iff v (depth + 1) n h
    rw [readValueRange]
    rcases hr : readValue v (depth + 1) with ⟨v3, _ | err⟩
    · rw [hr] at hv
      have hv1 : ¬ v.Unreadable n := by simpa using hv
      simp only
      rw [readValueRange_err_iff rest depth n (result ++ [v3]) h]
      simp [hv1]
    · rw [hr] at hv
      have hv1 : v.Unreadable n := by simpa using hv
      simp [hv1]
end

/-- C3. `readValue(v, 0)` returns an error if and only if `v` has an array at nesting depth
3 or has, at depth at most 3, a value that is not null, bool, number, string or array; in
every other case the error is nil. -/
theorem readValue_error_iff (v : Any) :
    (readValue v 0).2 ≠ none ↔
      ((∃ w ∈ v.valuesAt 3, w.isArr = true)
        ∨ (∃ d, d ≤ 3 ∧ ∃ w ∈ v.valuesAt d, w.isKnown = false)) :=
  readValue_err_iff v 0 3 rfl

mutual
theorem readValue_ok (v : Any) (depth : Nat) (h : (readValue v depth).2 = none) :
    (readValue v depth).1 = v := by
  match v with
  | .null => simp [readValue]
  | .bool _ => simp [readValue]
  | .num _ => simp [readValue]
  | .str _ => simp [readValue]
  | .obj _ => simp [readValue] at h
  | .strs _ => simp [readValue] at h
  | .arr xs =>
    by_cases hd : depth = 3
    · simp [readValue, hd] at h
    · rw [readValue, if_neg hd] at h ⊢
      simpa using readValueRange_ok xs depth [] h
theorem readValueRange_ok (vs : List Any) (depth : Nat) (result : List Any)
    (h : (readValueRange vs depth result).2 = none) :
    (readValueRange vs depth result).1 = .arr (result ++ vs) := by
  match vs with
  | [] => simp [readValueRange]
  | v :: rest =>
    have hv := readValue_ok v (depth + 1)
    rw [readValueRange] at h ⊢
    rcases hr : readValue v (depth + 1) with ⟨v3, _ | err⟩
    · rw [hr] at hv h
      simp only at hv h ⊢
      rw [readValueRange_ok rest depth (result ++ [v3]) h, hv trivial]
      simp
    · rw [hr] at h
      simp at h
end

/-! ## The structural decoder -/

theorem readParameters_err_iff (p : Any) : (readParameters p).2 ≠ none ↔ p.isObj = false := by
  cases p <;> simp [readParameters, Any.isObj]

/-- A property array decodes exactly when its name and declared type are strings, its
parameter element an object and its value readable; the property is then built from these. -/
theorem newVCardImplProperty_ok (p : Any) (q : VCardProperty)
    (h : (newVCardImplProperty p).1 = some q) :
    ∃ name kvs ty a3 rest, p = .arr (.str name :: .obj kvs :: .str ty :: a3 :: rest)
      ∧ (readValue (valueSource a3 rest) 0).2 = none
      ∧ q = { Name := name, Parameters := readParametersRange kvs [], Type_ := ty,
              Value := valueSource a3 rest, typeInfo := VPropertyTypeInfo.zero } := by
  unfold newVCardImplProperty at h
  split at h
  · rename_i a0 a1 a2 a3 rest
    split at h
    · rename_i name
      split at h
      · rename_i parameters hp
        split at h
        · rename_i ty
          have hsrc : (if rest.length + 4 = 4 then readValue a3 0
              else readValue (.arr (a3 :: rest)) 0) = readValue (valueSource a3 rest) 0 := by
            cases rest <;> simp [valueSource]
          rw [hsrc] at h
          split at h
          · rename_i value hv
            cases a1 with
            | obj kvs =>
              refine ⟨name, kvs, ty, a3, rest, rfl, by rw [hv], ?_⟩
              have hval := readValue_ok (valueSource a3 rest) 0 (by rw [hv])
              rw [hv] at hval
              simp only [readParameters, Prod.mk.injEq, and_true] at hp
              simp only [Option.some.injEq] at h
              rw [← h, hp]
              simp only at hval
              rw [hval]
            | _ => simp [readParameters] at hp
          · simp at h
        · simp at h
      · simp at h
    · simp at h
  · simp at h
  · simp at h

theorem newVCardImplProperty_total (p : Any) :
    (∃ q, newVCardImplProperty p = (some q, none))
      ∨ (∃ e, newVCardImplProperty p = (none, some e)) := by
  unfold newVCardImplProperty
  repeat' split
  all_goals simp

theorem newVCardImplRange_total :
    ∀ (ps : List Any) (v : VCard),
      (∃ v1, newVCardImplRange ps v = (some v1, none))
        ∨ (∃ e, newVCardImplRange ps v = (none, some e))
  | [], v => Or.inl ⟨v, rfl⟩
  | p :: rest, v => by
    rw [newVCardImplRange]
    rcases newVCardImplProperty_total p with ⟨q, hq⟩ | ⟨e, he⟩
    · rw [hq]
      exact newVCardImplRange_total rest _
    · rw [he]
      exact Or.inr ⟨e, rfl⟩

/-- A successful run of the decoding loop appends one property per input element, in input
order, each decoded from its element and placed at the next address. -/
theorem newVCardImplRange_ok :
    ∀ (ps : List Any) (v v1 : VCard), (newVCardImplRange ps v).1 = some v1 →
      ∃ qs : List PropertyRef, v1.Properties = v.Properties ++ qs ∧ v1.Errors = v.Errors
        ∧ List.Forall₂ (fun p q => (newVCardImplProperty p).1 = some q.obj) ps qs
        ∧ qs.map (fun q => q.addr) = List.range' v.Properties.length ps.length
  | [], v, v1, h => by
    simp only [newVCardImplRange, Option.some.injEq] at h
    subst h
    exact ⟨[], by simp, rfl, List.Forall₂.nil, by simp⟩
  | p :: rest, v, v1, h => by
    rw [newVCardImplRange] at h
    rcases newVCardImplProperty_total p with ⟨q, hq⟩ | ⟨e, he⟩
    · rw [hq] at h
      obtain ⟨qs, hP, hE, hF, hA⟩ := newVCardImplRange_ok rest _ v1 h
      refine ⟨{ addr := v.Properties.length, obj := q } :: qs, ?_, hE, ?_, ?_⟩
      · simpa using hP
      · exact List.Forall₂.cons (by rw [hq]) hF
      · simp only [List.length_append, List.length_singleton] at hA
        simp [List.range', hA]
    · rw [he] at h
      simp at h

theorem newVCardImplRange_malformed :
    ∀ (ps : List Any) (v : VCard), (∃ p ∈ ps, (newVCardImplProperty p).1 = none) →
      (newVCardImplRange ps v).1 = none
  | [], _, h => by simp at h
  | p :: rest, v, h => by
    rw [newVCardImplRange]
    rcases newVCardImplProperty_total p with ⟨q, hq⟩ | ⟨e, he⟩
    · rw [hq]
      refine newVCardImplRange_malformed rest _ ?_
      obtain ⟨p1, hp1, hn⟩ := h
      rcases List.mem_cons.1 hp1 with rfl | hr
      · rw [hq] at hn
        simp at hn
      · exact ⟨p1, hr, hn⟩
    · rw [he]

theorem nestedTooDeeply_unreadable (v : Any) (h : v.nestedTooDeeply = true) :
    v.Unreadable 3 := by
  simp only [Any.nestedTooDeeply, List.any_eq_true] at h
  exact Or.inl h

theorem newVCardImplProperty_malformed (p : Any) (h : malformedProperty p = true) :
    (newVCardImplProperty p).1 = none := by
  rcases newVCardImplProperty_total p with ⟨q, hq⟩ | ⟨e, he⟩
  · exfalso
    obtain ⟨name, kvs, ty, a3, rest, rfl, hv, -⟩ := newVCardImplProperty_ok p q (by rw [hq])
    simp only [malformedProperty, Any.isStr, Any.isObj, Bool.not_true, Bool.false_or] at h
    exact (readValue_err_iff _ 0 3 rfl).not.1 (by simp [hv]) (nestedTooDeeply_unreadable _ h)
  · rw [he]

theorem newVCardImpl_total (src : Any) :
    (∃ v, newVCardImpl src = (some v, none)) ∨ (∃ e, newVCardImpl src = (none, some e)) := by
  unfold newVCardImpl
  split
  · split
    · split
      · split
        · exact newVCardImplRange_total _ _
        · exact Or.inr ⟨_, rfl⟩
      · exact Or.inr ⟨_, rfl⟩
    · exact Or.inr ⟨_, rfl⟩
  · exact Or.inr ⟨_, rfl⟩

theorem newVCardImpl_malformed (src : Any) (h : malformed src = true) :
    (newVCardImpl src).1 = none := by
  unfold newVCardImpl
  split
  · rename_i top0 top1
    split
    · rename_i s
      split
      · rename_i hs
        split
        · rename_i properties
          simp only [malformed, Any.isText, hs, beq_self_eq_true, Bool.not_true, Bool.false_or,
            List.any_eq_true] at h
          obtain ⟨p, hp, hm⟩ := h
          exact newVCardImplRange_malformed _ _ ⟨p, hp, newVCardImplProperty_malformed p hm⟩
        · rfl
      · rfl
    · rfl
  · rfl

theorem NewVCard_total (L : Deps) (top : List Any) (err : GoError) :
    (∃ v, NewVCard L top err = (some v, none)) ∨ (∃ e, NewVCard L top err = (none, some e)) := by
  unfold NewVCard
  cases err with
  | some e => exact Or.inr ⟨e, rfl⟩
  | none =>
    rcases newVCardImpl_total (.arr top) with ⟨v, hv⟩ | ⟨e, he⟩
    · rw [hv]
      exact Or.inl ⟨_, rfl⟩
    · rw [he]
      exact Or.inr ⟨e, rfl⟩

/-- C2. Decoding is all-or-nothing. An input that is malformed in one of the listed ways
makes `newVCardImpl` return no card together with a non-nil error, and so does `NewVCard`,
also when the JSON decoding itself failed; and whenever either of them returns a card the
error is nil. -/
theorem decode_all_or_nothing :
    (∀ src : Any, malformed src = true →
        (newVCardImpl src).1 = none ∧ (newVCardImpl src).2 ≠ none)
      ∧ (∀ src : Any, (newVCardImpl src).1 ≠ none → (newVCardImpl src).2 = none)
      ∧ (∀ (L : Deps) (top : List Any) (err : GoError),
          (err ≠ none ∨ malformed (.arr top) = true) →
            (NewVCard L top err).1 = none ∧ (NewVCard L top err).2 ≠ none)
      ∧ (∀ (L : Deps) (top : List Any) (err : GoError),
          (NewVCard L top err).1 ≠ none → (NewVCard L top err).2 = none) := by
  have key : ∀ src : Any, (newVCardImpl src).1 = none → (newVCardImpl src).2 ≠ none := by
    intro src h
    rcases newVCardImpl_total src with ⟨v, hv⟩ | ⟨e, he⟩
    · rw [hv] at h
      simp at h
    · rw [he]
      simp
  refine ⟨fun src h => ⟨newVCardImpl_malformed src h, key src (newVCardImpl_malformed src h)⟩,
    ?_, ?_, ?_⟩
  · intro src h
    rcases newVCardImpl_total src with ⟨v, hv⟩ | ⟨e, he⟩
    · rw [hv]
    · rw [he] at h
      simp at h
  · intro L top err h
    rcases NewVCard_total L top err with ⟨v, hv⟩ | ⟨e, he⟩
    · exfalso
      unfold NewVCard at hv
      cases err with
      | some e => simp at hv
      | none =>
        rcases h with h | h
        · exact h rfl
        · have hm := newVCardImpl_malformed _ h
          rcases newVCardImpl_total (.arr top) with ⟨v1, hv1⟩ | ⟨e1, he1⟩
          · rw [hv1] at hm
            simp at hm
          · rw [he1] at hv
            simp at hv
    · rw [he]
      simp
  · intro L top err h
    rcases NewVCard_total L top err with ⟨v, hv⟩ | ⟨e, he⟩
    · rw [hv]
    · rw [he] at h
      simp at h

theorem newVCardImpl_vcard (ps : List Any) :
    newVCardImpl (.arr [.str "vcard", .arr ps])
      = newVCardImplRange ps { Properties := [], Errors := [] } := by
  simp [newVCardImpl]

/-- A decoded card has one property per input element: the property at position `i` is
decoded from the element at position `i` and lives at address `i`. -/
theorem newVCardImpl_ok_get (ps : List Any) (v : VCard)
    (h : newVCardImpl (.arr [.str "vcard", .arr ps]) = (some v, none)) :
    v.Properties.length = ps.length
      ∧ ∀ (i : Nat) (p : Any) (q : PropertyRef), ps[i]? = some p → v.Properties[i]? = some q →
          (newVCardImplProperty p).1 = some q.obj ∧ q.addr = i := by
  rw [newVCardImpl_vcard] at h
  obtain ⟨qs, hP, -, hF, hA⟩ := newVCardImplRange_ok ps _ v (by rw [h])
  simp only [List.nil_append, List.length_nil] at hP hA
  subst hP
  obtain ⟨hlen, hget⟩ := List.forall₂_iff_get.1 hF
  refine ⟨hlen.symm, ?_⟩
  intro i p q hp hq
  obtain ⟨h1, rfl⟩ := List.getElem?_eq_some.1 hp
  obtain ⟨h2, rfl⟩ := List.getElem?_eq_some.1 hq
  refine ⟨hget i h1 h2, ?_⟩
  have hi : (v.Properties.map (fun q => q.addr))[i]? = some i := by
    rw [hA, List.getElem?_range' _ _ h1]
    simp
  rw [List.getElem?_map] at hi
  simpa [List.getElem?_eq_getElem h2] using hi

theorem newVCardImplProperty_err_iff (name : String) (kvs : List (String × Any)) (ty : String)
    (a3 : Any) (rest : List Any) :
    (newVCardImplProperty (.arr (.str name :: .obj kvs :: .str ty :: a3 :: rest))).2 ≠ none
      ↔ (readValue (valueSource a3 rest) 0).2 ≠ none := by
  have hsrc : (if rest.length + 4 = 4 then readValue a3 0
      else readValue (.arr (a3 :: rest)) 0) = readValue (valueSource a3 rest) 0 := by
    cases rest <;> simp [valueSource]
  simp only [newVCardImplProperty, readParameters, hsrc]
  rcases readValue (valueSource a3 rest) 0 with ⟨value, _ | err⟩ <;> simp

/-- C6. In a decoded card, a property array with more than four elements has as value the
sequence of its elements from the fourth on, in order, and one with exactly four elements
has the fourth element itself. The implicit sequence is at nesting depth 0: with more than
four elements the decoding fails exactly when some element is unreadable within two further
levels, with exactly four when the fourth is unreadable within three. -/
theorem decode_value_of_long_property :
    (∀ (ps : List Any) (v : VCard),
        newVCardImpl (.arr [.str "vcard", .arr ps]) = (some v, none) →
          ∀ (i : Nat) (q : PropertyRef), v.Properties[i]? = some q →
            (∀ a0 a1 a2 e4 e5 rest, ps[i]? = some (.arr (a0 :: a1 :: a2 :: e4 :: e5 :: rest)) →
                q.obj.Value = .arr (e4 :: e5 :: rest))
              ∧ (∀ a0 a1 a2 e4, ps[i]? = some (.arr [a0, a1, a2, e4]) → q.obj.Value = e4))
      ∧ (∀ (name : String) (kvs : List (String × Any)) (ty : String) (e4 e5 : Any)
          (rest : List Any),
          (newVCardImplProperty
              (.arr (.str name :: .obj kvs :: .str ty :: e4 :: e5 :: rest))).2 ≠ none
            ↔ ∃ e ∈ e4 :: e5 :: rest, e.Unreadable 2)
      ∧ (∀ (name : String) (kvs : List (String × Any)) (ty : String) (e4 : Any),
          (newVCardImplProperty (.arr [.str name, .obj kvs, .str ty, e4])).2 ≠ none
            ↔ e4.Unreadable 3) := by
  refine ⟨?_, ?_, ?_⟩
  · intro ps v h i q hq
    obtain ⟨-, hget⟩ := newVCardImpl_ok_get ps v h
    constructor
    · intro a0 a1 a2 e4 e5 rest hp
      obtain ⟨hdec, -⟩ := hget i _ q hp hq
      obtain ⟨name, kvs, ty, a3, rest1, hp1, -, hq1⟩ := newVCardImplProperty_ok _ _ hdec
      simp only [Any.arr.injEq, List.cons.injEq] at hp1
      obtain ⟨-, -, -, rfl, rfl⟩ := hp1
      simp [hq1, valueSource]
    · intro a0 a1 a2 e4 hp
      obtain ⟨hdec, -⟩ := hget i _ q hp hq
      obtain ⟨name, kvs, ty, a3, rest1, hp1, -, hq1⟩ := newVCardImplProperty_ok _ _ hdec
      simp only [Any.arr.injEq, List.cons.injEq] at hp1
      obtain ⟨-, -, -, rfl, rfl⟩ := hp1
      simp [hq1, valueSource]
  · intro name kvs ty e4 e5 rest
    rw [newVCardImplProperty_err_iff, readValue_err_iff _ 0 3 rfl]
    simp only [valueSource]
    exact unreadable_arr_succ _ 2
  · intro name kvs ty e4
    rw [newVCardImplProperty_err_iff, readValue_err_iff _ 0 3 rfl]
    simp only [valueSource]

/-! ## The registry -/

theorem lookup_eq_none_iff_not_mem {β : Type} (k : String) :
    ∀ l : List (String × β), l.lookup k = none ↔ k ∉ l.map Prod.fst
  | [] => by simp
  | (k1, b) :: rest => by
    rw [List.lookup_cons]
    by_cases h : k = k1
    · simp [h]
    · have hb : (k == k1) = false := by simpa using h
      rw [hb]
      simp [lookup_eq_none_iff_not_mem k rest, h]

theorem addTypeInfoCases_names (L : Deps) :
    (addTypeInfoCases L).map Prod.fst = registryNames := rfl

theorem addTypeInfo_err_iff (L : Deps) (p : VCardProperty) :
    (p.addTypeInfo L).2 ≠ none ↔ p.Name ∉ registryNames := by
  rw [← addTypeInfoCases_names L, ← lookup_eq_none_iff_not_mem]
  unfold VCardProperty.addTypeInfo
  cases (addTypeInfoCases L).lookup p.Name <;> simp

theorem addTypeInfo_data (L : Deps) (p : VCardProperty) :
    (p.addTypeInfo L).1.toVCardPropertyData = p.toVCardPropertyData := by
  unfold VCardProperty.addTypeInfo
  cases (addTypeInfoCases L).lookup p.Name <;> rfl

theorem addTypeInfo_unknown (L : Deps) (p : VCardProperty) (h : p.Name ∉ registryNames) :
    (p.addTypeInfo L).1 = p := by
  rw [← addTypeInfoCases_names L, ← lookup_eq_none_iff_not_mem] at h
  unfold VCardProperty.addTypeInfo
  rw [h]

theorem newVCardImpl_ok_shape (src : Any) (v : VCard)
    (h : newVCardImpl src = (some v, none)) : ∃ ps, src = .arr [.str "vcard", .arr ps] := by
  unfold newVCardImpl at h
  split at h
  · split at h
    · split at h
      · rename_i hs
        split at h
        · exact ⟨_, by rw [hs]⟩
        · simp at h
      · simp at h
    · simp at h
  · simp at h

/-- Every property of a card returned by `newVCardImpl` has the zero descriptor. -/
theorem newVCardImpl_typeInfo_zero (src : Any) (v : VCard)
    (h : newVCardImpl src = (some v, none)) :
    ∀ q ∈ v.Properties, q.obj.typeInfo = VPropertyTypeInfo.zero := by
  obtain ⟨ps, rfl⟩ := newVCardImpl_ok_shape src v h
  obtain ⟨hlen, hget⟩ := newVCardImpl_ok_get ps v h
  intro q hq
  obtain ⟨i, hi, rfl⟩ := List.mem_iff_getElem.1 hq
  obtain ⟨hdec, -⟩ := hget i ps[i] v.Properties[i]
    (List.getElem?_eq_getElem (by omega)) (List.getElem?_eq_getElem hi)
  obtain ⟨name, kvs, ty, a3, rest, -, -, hq1⟩ := newVCardImplProperty_ok _ _ hdec
  rw [hq1]

/-- C4, as the code has it. `NewVCard` does not fail on a property name outside the
registry: whenever the structural decoding of the input succeeds, `NewVCard` returns a card
and a nil error; the card has the decoded properties, at the same addresses and with the same
name, parameters, declared type and value, and a property whose name is not in the registry
keeps the zero descriptor. -/
theorem NewVCard_keeps_unknown_names (L : Deps) (top : List Any) (v : VCard)
    (h : newVCardImpl (.arr top) = (some v, none)) :
    ∃ v1 : VCard, NewVCard L top none = (some v1, none)
      ∧ v1.Properties.map (fun q => (q.addr, q.obj.toVCardPropertyData))
          = v.Properties.map (fun q => (q.addr, q.obj.toVCardPropertyData))
      ∧ ∀ q ∈ v1.Properties, q.obj.Name ∉ registryNames →
          q.obj.typeInfo = VPropertyTypeInfo.zero := by
  refine ⟨{ v with Properties :=
      v.Properties.map (fun p => { p with obj := (p.obj.addTypeInfo L).1 }) },
    by simp only [NewVCard, h], ?_, ?_⟩
  · simp only [List.map_map]
    refine List.map_congr_left ?_
    intro q _
    simp [addTypeInfo_data]
  · intro q hq hn
    simp only [List.mem_map] at hq
    obtain ⟨q0, hq0, rfl⟩ := hq
    have hd : (q0.obj.addTypeInfo L).1.Name = q0.obj.Name :=
      congrArg VCardPropertyData.Name (addTypeInfo_data L q0.obj)
    simp only at hn ⊢
    rw [hd] at hn
    rw [addTypeInfo_unknown L q0.obj hn]
    exact newVCardImpl_typeInfo_zero _ v h q0 hq0

/-- C4 at the card of the test `TestVCardMixedDatatypes`: decoding succeeds, with the
property `mixed` left without a descriptor. -/
theorem NewVCard_keeps_unknown_names_witness :
    ∃ v1 : VCard, NewVCard testDeps mixedTop none = (some v1, none)
      ∧ v1.Properties.map (fun q => (q.addr, q.obj.toVCardPropertyData))
          = [(0, mixedProperty.toVCardPropertyData)]
      ∧ ∀ q ∈ v1.Properties, q.obj.Name ∉ registryNames →
          q.obj.typeInfo = VPropertyTypeInfo.zero :=
  NewVCard_keeps_unknown_names testDeps mixedTop
    { Properties := [{ addr := 0, obj := mixedProperty }], Errors := [] } rfl

/-- C4 fails as stated: the name `mixed` is not in the registry, `addTypeInfo` reports it,
and still `NewVCard` returns a card with that property and a nil error. -/
theorem NewVCard_unknown_name_counterexample :
    "mixed" ∉ registryNames
      ∧ (mixedProperty.addTypeInfo testDeps).2
          = some "jCard error: unknown property name mixed"
      ∧ (NewVCard testDeps mixedTop none).2 = none
      ∧ ((NewVCard testDeps mixedTop none).1.map
          (fun v => v.Properties.map (fun q => q.obj.Name))) = some ["mixed"]
      ∧ ¬ ((NewVCard testDeps mixedTop none).1 = none
            ∧ (NewVCard testDeps mixedTop none).2 ≠ none) := by
  refine ⟨by decide, by decide, rfl, rfl, ?_⟩
  rintro ⟨-, h⟩
  exact h rfl

/-! ## Parameters -/

theorem lookup_mapSet_self (k : String) (v : List String) :
    ∀ m : Params, (mapSet m k v).lookup k = some v
  | [] => by simp [mapSet, List.lookup_cons]
  | (k1, v1) :: rest => by
    by_cases h : k1 = k
    · simp [mapSet, h, List.lookup_cons]
    · have hb : (k == k1) = false := by simpa using fun h1 : k = k1 => h h1.symm
      simp [mapSet, h, List.lookup_cons, hb, lookup_mapSet_self k v rest]

theorem lookup_mapSet_ne (k k2 : String) (v : List String) (hne : k2 ≠ k) :
    ∀ m : Params, (mapSet m k v).lookup k2 = m.lookup k2
  | [] => by
    have hb : (k2 == k) = false := by simpa using hne
    simp [mapSet, List.lookup_cons, hb]
  | (k1, v1) :: rest => by
    by_cases h : k1 = k
    · have hb : (k2 == k) = false := by simpa using hne
      subst h
      simp [mapSet, List.lookup_cons, hb]
    · simp only [mapSet, h, if_false, List.lookup_cons]
      rw [lookup_mapSet_ne k k2 v hne rest]

theorem readParametersArr_lookup_ne (k k2 : String) (hne : k2 ≠ k) :
    ∀ (xs : List Any) (params : Params),
      (readParametersArr k xs params).lookup k2 = params.lookup k2
  | [], _ => by simp [readParametersArr]
  | x :: rest, params => by
    cases x <;>
      simp [readParametersArr, readParametersArr_lookup_ne k k2 hne rest,
        lookup_mapSet_ne k k2 _ hne]

theorem readParametersArr_lookup_self (k : String) :
    ∀ (xs : List Any) (params : Params),
      (readParametersArr k xs params).lookup k
        = if stringMembers xs = [] then params.lookup k
          else some (mapGet params k ++ stringMembers xs)
  | [], _ => by simp [readParametersArr, stringMembers]
  | x :: rest, params => by
    cases x <;>
      simp [readParametersArr, stringMembers, readParametersArr_lookup_self k rest,
        lookup_mapSet_self, mapGet]

/-- One step of the loop of `readParameters` leaves the other keys alone. -/
theorem readParametersRange_lookup_not_mem (k2 : String) :
    ∀ (kvs : List (String × Any)) (params : Params), k2 ∉ kvs.map Prod.fst →
      (readParametersRange kvs params).lookup k2 = params.lookup k2
  | [], _, _ => by simp [readParametersRange]
  | (k, v) :: rest, params, h => by
    simp only [List.map_cons, List.mem_cons, not_or] at h
    cases v <;>
      simp [readParametersRange, readParametersRange_lookup_not_mem k2 rest _ h.2,
        lookup_mapSet_ne k k2 _ h.1, readParametersArr_lookup_ne k k2 h.1]

theorem readParametersRange_lookup_mem :
    ∀ (kvs : List (String × Any)) (params : Params), (kvs.map Prod.fst).Nodup →
      ∀ (k : String) (v : Any), (k, v) ∈ kvs → params.lookup k = none →
        (readParametersRange kvs params).lookup k = paramOf v
  | [], _, _, _, _, h, _ => by simp at h
  | (k0, v0) :: rest, params, hnd, k, v, hmem, hnone => by
    simp only [List.map_cons, List.nodup_cons] at hnd
    rcases List.mem_cons.1 hmem with heq | hrest
    · simp only [Prod.mk.injEq] at heq
      obtain ⟨rfl, rfl⟩ := heq
      cases v <;>
        simp [readParametersRange, readParametersRange_lookup_not_mem k rest _ hnd.1, hnone,
          paramOf, lookup_mapSet_self, mapGet, readParametersArr_lookup_self]
    · have hne : k ≠ k0 := by
        rintro rfl
        exact hnd.1 (List.mem_map.2 ⟨(k, v), hrest, rfl⟩)
      have ih := readParametersRange_lookup_mem rest
      cases v0 <;> simp only [readParametersRange]
      all_goals first
        | exact ih _ hnd.2 k v hrest hnone
        | exact ih _ hnd.2 k v hrest (by rw [lookup_mapSet_ne k0 k _ hne, hnone])
        | exact ih _ hnd.2 k v hrest (by rw [readParametersArr_lookup_ne k0 k hne, hnone])

theorem paramOf_ne_nil (v : Any) (l : List String) (h : paramOf v = some l) : l ≠ [] := by
  cases v with
  | str s =>
    simp only [paramOf, Option.some.injEq] at h
    subst h
    simp
  | arr xs =>
    simp only [paramOf] at h
    split_ifs at h with hs
    simp only [Option.some.injEq] at h
    subst h
    exact hs
  | _ => simp [paramOf] at h

/-- C7. `readParameters` fails exactly when its input is not a JSON object. For an object
(a map, so with distinct keys) the mapping returned sends a key whose value is a string `s`
to `[s]`, a key whose value is an array to the in-order list of the array's string members
when there is one, and has no entry for a key whose value is an array without string member
or is neither string nor array; so every entry is a non-empty list. -/
theorem readParameters_spec :
    (∀ p : Any, (readParameters p).2 ≠ none ↔ p.isObj = false)
      ∧ ∀ kvs : List (String × Any), (kvs.map Prod.fst).Nodup →
          (∀ k s, (k, Any.str s) ∈ kvs → (readParameters (.obj kvs)).1.lookup k = some [s])
            ∧ (∀ k xs, (k, Any.arr xs) ∈ kvs → stringMembers xs ≠ [] →
                (readParameters (.obj kvs)).1.lookup k = some (stringMembers xs))
            ∧ (∀ k xs, (k, Any.arr xs) ∈ kvs → stringMembers xs = [] →
                (readParameters (.obj kvs)).1.lookup k = none)
            ∧ (∀ k v, (k, v) ∈ kvs → v.isStr = false → v.isArr = false →
                (readParameters (.obj kvs)).1.lookup k = none)
            ∧ (∀ k l, (readParameters (.obj kvs)).1.lookup k = some l → l ≠ []) := by
  refine ⟨readParameters_err_iff, ?_⟩
  intro kvs hnd
  have key : ∀ k v, (k, v) ∈ kvs → (readParameters (.obj kvs)).1.lookup k = paramOf v :=
    fun k v h => readParametersRange_lookup_mem kvs [] hnd k v h rfl
  refine ⟨?_, ?_, ?_, ?_, ?_⟩
  · intro k s h
    rw [key k _ h, paramOf]
  · intro k xs h hs
    rw [key k _ h, paramOf, if_neg hs]
  · intro k xs h hs
    rw [key k _ h, paramOf, if_pos hs]
  · intro k v h h1 h2
    rw [key k _ h]
    cases v <;> simp_all [paramOf, Any.isStr, Any.isArr]
  · intro k l h
    by_cases hk : k ∈ kvs.map Prod.fst
    · obtain ⟨⟨k1, v⟩, hmem, rfl⟩ := List.mem_map.1 hk
      rw [key _ v hmem] at h
      exact paramOf_ne_nil v l h
    · have := readParametersRange_lookup_not_mem k kvs [] hk
      simp only [readParameters] at h
      rw [this] at h
      simp at h

/-- C7 at an object with a string, an array with a member that is not a string, an array
without string member and a number. -/
theorem readParameters_spec_witness :
    (paramsExample.map Prod.fst).Nodup
      ∧ (readParameters (.obj paramsExample)).1.lookup "pref" = some ["1"]
      ∧ (readParameters (.obj paramsExample)).1.lookup "type" = some ["work", "voice"]
      ∧ (readParameters (.obj paramsExample)).1.lookup "x" = none
      ∧ (readParameters (.obj paramsExample)).1.lookup "y" = none :=
  ⟨by decide,
   (readParameters_spec.2 paramsExample (by decide)).1 "pref" "1" (by simp [paramsExample]),
   (readParameters_spec.2 paramsExample (by decide)).2.1 "type"
     [.str "work", .null, .str "voice"] (by simp [paramsExample]) (by simp [stringMembers]),
   (readParameters_spec.2 paramsExample (by decide)).2.2.1 "x" [.bool true]
     (by simp [paramsExample]) (by simp [stringMembers]),
   (readParameters_spec.2 paramsExample (by decide)).2.2.2.1 "y" (.num ⟨0⟩)
     (by simp [paramsExample]) rfl rfl⟩

/-! ## Card operations -/

/-- C8. Validated append is atomic. If the validator of the candidate fails, `append`
returns an error and the card is unchanged; if it succeeds, `append` returns nil and the
property list is the old list with the candidate added at the end. -/
theorem append_atomic (v : VCard) (prop : PropertyRef) :
    (∀ e : String, prop.obj.Validate = .done (some e) →
        ∃ e1 : String, v.append prop = .done (v, some e1))
      ∧ (prop.obj.Validate = .done none →
          v.append prop = .done ({ v with Properties := v.Properties ++ [prop] }, none)) := by
  constructor
  · intro e h
    exact ⟨"Adding " ++ prop.obj.Name ++ " failed: " ++ e, by simp only [VCard.append, h]⟩
  · intro h
    simp only [VCard.append, h]

/-- C8 at a card with one property: a `kind` candidate with the value `x` is rejected and
the card stays as it was, one with the value `group` is added at the end. -/
theorem append_atomic_witness :
    (∃ e1 : String, mixedCard.append (kindCandidate testDeps 1 "x") = .done (mixedCard, some e1))
      ∧ mixedCard.append (kindCandidate testDeps 1 "group")
          = .done ({ Properties := [{ addr := 0, obj := mixedProperty },
                                    kindCandidate testDeps 1 "group"],
                     Errors := [] }, none) :=
  ⟨(append_atomic mixedCard (kindCandidate testDeps 1 "x")).1 _ rfl,
   (append_atomic mixedCard (kindCandidate testDeps 1 "group")).2 rfl⟩

/-- C9, as the code has it. When `append`, through which every builder adds its candidate,
rejects the candidate, the error it returns is a new error whose message is the text
`Adding <name> failed: ` followed by the message of the validator's error; for `AddKind` the
name is `kind`. -/
theorem builder_error_wraps_validator_error :
    (∀ (v : VCard) (prop : PropertyRef) (e : String), prop.obj.Validate = .done (some e) →
        v.append prop = .done (v, some ("Adding " ++ prop.obj.Name ++ " failed: " ++ e)))
      ∧ (∀ (L : Deps) (v : VCard) (addr : Nat) (value : String) (e : String),
          (kindCandidate L addr value).obj.Validate = .done (some e) →
            v.AddKind L addr value = .done (v, some ("Adding kind failed: " ++ e))) := by
  have h1 : ∀ (v : VCard) (prop : PropertyRef) (e : String),
      prop.obj.Validate = .done (some e) →
        v.append prop = .done (v, some ("Adding " ++ prop.obj.Name ++ " failed: " ++ e)) := by
    intro v prop e h
    simp only [VCard.append, h]
  refine ⟨h1, ?_⟩
  intro L v addr value e h
  rw [VCard.AddKind, h1 v _ e h]
  rfl

/-- C9 for `AddKind` with the value `x` on the empty card. -/
theorem builder_error_wraps_validator_error_witness :
    VCard.AddKind testDeps { Properties := [], Errors := [] } 0 "x"
      = .done ({ Properties := [], Errors := [] },
          some ("Adding kind failed: " ++ ("jCard error: invalid kind value. Expected one of "
            ++ "map[group:[] individual:[] location:[] org:[]] but got x"))) :=
  builder_error_wraps_validator_error.2 testDeps { Properties := [], Errors := [] } 0 "x" _ rfl

/-- C9 fails as stated: `AddKind` with the value `x` is rejected, and the error it returns is
not the error of the validator but that error behind the text `Adding kind failed: `. -/
theorem builder_error_counterexample :
    (kindCandidate testDeps 0 "x").obj.Validate
        = .done (some ("jCard error: invalid kind value. Expected one of "
            ++ "map[group:[] individual:[] location:[] org:[]] but got x"))
      ∧ VCard.AddKind testDeps { Properties := [], Errors := [] } 0 "x"
          = .done ({ Properties := [], Errors := [] },
              some ("Adding kind failed: jCard error: invalid kind value. Expected one of "
                ++ "map[group:[] individual:[] location:[] org:[]] but got x"))
      ∧ ("Adding kind failed: jCard error: invalid kind value. Expected one of "
            ++ "map[group:[] individual:[] location:[] org:[]] but got x")
          ≠ ("jCard error: invalid kind value. Expected one of "
            ++ "map[group:[] individual:[] location:[] org:[]] but got x") :=
  ⟨rfl, rfl, by decide⟩

theorem Get_foldl (name : String) :
    ∀ (l acc : List PropertyRef),
      l.foldl (fun properties p => if p.obj.Name = name then properties ++ [p] else properties)
          acc
        = acc ++ l.filter (fun p => decide (p.obj.Name = name))
  | [], acc => by simp
  | p :: rest, acc => by
    rw [List.foldl_cons, Get_foldl name rest]
    by_cases h : p.obj.Name = name <;> simp [h, List.filter_cons]

/-- C10. `Get(name)` returns exactly the properties of the card whose name is `name`, each
once per occurrence and in the order of the property list: it is the filter of the list by
name. `Get` only reads the card. -/
theorem Get_eq_filter (v : VCard) (name : String) :
    v.Get name = v.Properties.filter (fun p => decide (p.obj.Name = name)) := by
  simp [VCard.Get, Get_foldl]

/-! ## Instances at concrete inputs -/

/-- C2 at a value nested too deeply and at a property with three elements: no card and an
error, from `newVCardImpl` and from `NewVCard`. -/
theorem decode_all_or_nothing_witness :
    (malformed tooDeepExample = true
        ∧ (newVCardImpl tooDeepExample).1 = none ∧ (newVCardImpl tooDeepExample).2 ≠ none)
      ∧ (malformed tooShortExample = true
        ∧ (newVCardImpl tooShortExample).1 = none ∧ (newVCardImpl tooShortExample).2 ≠ none)
      ∧ ((NewVCard testDeps [.str "vcard", .arr [.str "fn"]] none).1 = none
        ∧ (NewVCard testDeps [.str "vcard", .arr [.str "fn"]] none).2 ≠ none) :=
  ⟨⟨by decide, decode_all_or_nothing.1 tooDeepExample (by decide)⟩,
   ⟨by decide, decode_all_or_nothing.1 tooShortExample (by decide)⟩,
   decode_all_or_nothing.2.2.1 testDeps [.str "vcard", .arr [.str "fn"]] none
     (Or.inr (by decide))⟩

/-- C6 at a property of six elements: the value is the sequence of the last three. -/
theorem decode_value_of_long_property_witness :
    ∃ (v : VCard) (q : PropertyRef),
      newVCardImpl (.arr [.str "vcard", .arr longExample]) = (some v, none)
        ∧ v.Properties[0]? = some q
        ∧ q.obj.Value = .arr [.str "a", .str "b", .arr [.str "c"]] :=
  ⟨_, _, rfl, rfl,
   ((decode_value_of_long_property.1 longExample _ rfl 0 _ rfl).1
     (.str "categories") (.obj []) (.str "text") (.str "a") (.str "b") [.arr [.str "c"]] rfl)⟩

/-! ## Removal -/

theorem indexFrom_not_found (value : PropertyRef) :
    ∀ (l : List PropertyRef) (pos : Int), 0 ≤ pos → (∀ p ∈ l, p.addr ≠ value.addr) →
      indexFrom value l pos = -1
  | [], _, _, _ => rfl
  | p :: rest, pos, hpos, h => by
    have hp : p.addr ≠ value.addr := h p (List.mem_cons_self _ _)
    rw [indexFrom, if_neg hp]
    exact indexFrom_not_found value rest (pos + 1) (by omega)
      (fun q hq => h q (List.mem_cons_of_mem _ hq))

/-- When some element has the address looked for, `index` gives the first position of one:
the list splits there. -/
theorem indexFrom_found (value : PropertyRef) :
    ∀ (l : List PropertyRef) (pos : Int), (∃ p ∈ l, p.addr = value.addr) →
      ∃ (l1 : List PropertyRef) (q : PropertyRef) (l2 : List PropertyRef),
        l = l1 ++ q :: l2 ∧ q.addr = value.addr ∧ (∀ p ∈ l1, p.addr ≠ value.addr)
          ∧ indexFrom value l pos = pos + (l1.length : Int)
  | [], _, h => by simp at h
  | p :: rest, pos, h => by
    by_cases hp : p.addr = value.addr
    · exact ⟨[], p, rest, rfl, hp, by simp, by simp [indexFrom, hp]⟩
    · have hrest : ∃ q ∈ rest, q.addr = value.addr := by
        obtain ⟨q, hq, hqa⟩ := h
        rcases List.mem_cons.1 hq with rfl | hq1
        · exact absurd hqa hp
        · exact ⟨q, hq1, hqa⟩
      obtain ⟨l1, q, l2, hl, hq, hl1, hi⟩ := indexFrom_found value rest (pos + 1) hrest
      refine ⟨p :: l1, q, l2, by rw [hl]; rfl, hq, ?_, ?_⟩
      · intro x hx
        rcases List.mem_cons.1 hx with rfl | hx1
        · exact hp
        · exact hl1 x hx1
      · rw [indexFrom, if_neg hp, hi]
        simp only [List.length_cons, Nat.cast_add, Nat.cast_one]
        omega

/-- Writing the last element over position `|l1|` and cutting the list by one leaves, up to
order, the list without the element at that position. -/
theorem swapRemove_perm (l1 : List PropertyRef) (q : PropertyRef) (l2 : List PropertyRef)
    (last : PropertyRef) (h : (l1 ++ q :: l2).getLast? = some last) :
    (((l1 ++ q :: l2).set l1.length last).dropLast).Perm (l1 ++ l2) := by
  have hset : (l1 ++ q :: l2).set l1.length last = l1 ++ last :: l2 := by
    simp [List.set_append]
  rw [hset]
  rcases List.eq_nil_or_concat l2 with rfl | ⟨l3, x, hl2⟩
  · simp [List.dropLast_append_of_ne_nil]
  · rw [List.concat_eq_append] at hl2
    subst hl2
    have hx : x = last := by
      have : (l1 ++ q :: (l3 ++ [x])).getLast? = some x := by
        rw [show l1 ++ q :: (l3 ++ [x]) = (l1 ++ q :: l3) ++ [x] by simp]
        exact List.getLast?_concat _
      rw [this] at h
      exact Option.some.inj h
    subst hx
    have hd : (l1 ++ x :: (l3 ++ [x])).dropLast = l1 ++ x :: l3 := by
      rw [show l1 ++ x :: (l3 ++ [x]) = (l1 ++ x :: l3) ++ [x] by simp]
      exact List.dropLast_concat
    rw [hd]
    refine List.Perm.append_left l1 ?_
    exact (List.perm_append_singleton x l3).symm

theorem Remove_not_found (v : VCard) (p : PropertyRef)
    (h : ∀ q ∈ v.Properties, q.addr ≠ p.addr) : v.Remove p = .done (v, false) := by
  have hi : v.index p = -1 := indexFrom_not_found p v.Properties 0 (le_refl 0) h
  simp [VCard.Remove, hi]

theorem Remove_found (v : VCard) (p : PropertyRef)
    (h : ∃ q ∈ v.Properties, q.addr = p.addr) :
    ∃ (l1 : List PropertyRef) (q : PropertyRef) (l2 l3 : List PropertyRef),
      v.Properties = l1 ++ q :: l2 ∧ q.addr = p.addr ∧ (∀ x ∈ l1, x.addr ≠ p.addr)
        ∧ l3.Perm (l1 ++ l2) ∧ v.Remove p = .done ({ v with Properties := l3 }, true) := by
  obtain ⟨l1, q, l2, hl, hq, hl1, hi⟩ := indexFrom_found p v.Properties 0 h
  have hidx : v.index p = (l1.length : Int) := by
    rw [VCard.index, hi]
    simp
  have hne : v.Properties ≠ [] := by
    rw [hl]
    simp
  obtain ⟨last, hlast⟩ : ∃ last, v.Properties.getLast? = some last :=
    ⟨v.Properties.getLast hne, List.getLast?_eq_getLast _ hne⟩
  refine ⟨l1, q, l2, (v.Properties.set l1.length last).dropLast, hl, hq, hl1, ?_, ?_⟩
  · rw [hl] at hlast ⊢
    exact swapRemove_perm l1 q l2 last hlast
  · have hlen : l1.length < v.Properties.length := by
      rw [hl]
      simp
    have hneg : ¬ ((l1.length : Int) = -1) := by omega
    simp only [VCard.Remove, hidx, hneg, if_false, hlast, Int.toNat_ofNat]
    rw [if_pos ⟨by omega, hlen⟩]

/-- C11. `Remove(p)` returns true exactly when the card's list has a reference with the
address of `p`. When it returns true the list is one shorter: one occurrence of `p` (the
first) is gone and what remains is, up to order, the rest of the list, every other reference
as often as before. When it returns false the card is unchanged. `Remove` never panics. -/
theorem Remove_spec (v : VCard) (p : PropertyRef) :
    ∃ (v1 : VCard) (b : Bool), v.Remove p = .done (v1, b) ∧ v1.Errors = v.Errors
      ∧ (b = true ↔ ∃ q ∈ v.Properties, q.addr = p.addr)
      ∧ (b = true →
          v1.Properties.length + 1 = v.Properties.length
            ∧ ∃ (l1 : List PropertyRef) (q : PropertyRef) (l2 : List PropertyRef),
                v.Properties = l1 ++ q :: l2 ∧ q.addr = p.addr
                  ∧ v1.Properties.Perm (l1 ++ l2))
      ∧ (b = false → v1 = v) := by
  by_cases h : ∃ q ∈ v.Properties, q.addr = p.addr
  · obtain ⟨l1, q, l2, l3, hl, hq, -, hperm, hr⟩ := Remove_found v p h
    refine ⟨_, true, hr, rfl, by simp [h], ?_, by simp⟩
    intro _
    refine ⟨?_, l1, q, l2, hl, hq, hperm⟩
    simp only [hperm.length_eq, hl, List.length_append, List.length_cons]
    omega
  · have hn : ∀ q ∈ v.Properties, q.addr ≠ p.addr := fun q hq hqa => h ⟨q, hq, hqa⟩
    exact ⟨v, false, Remove_not_found v p hn, rfl, by simp [h], by simp, fun _ => rfl⟩

theorem Get_as_filter (v : VCard) (name : String) :
    v.Get name = v.Properties.filter (fun p => decide (p.obj.Name = name)) := by
  simp [VCard.Get, Get_foldl]

/-- The loop of `RemoveAll` removes every reference it is given, as long as they are all in
the card: what stays is, up to order, the rest of the list; every `Remove` returns true. -/
theorem removeAllRange_spec :
    ∀ (todo : List PropertyRef) (v : VCard) (keep : List PropertyRef) (result ok : Bool),
      v.Properties.Perm (todo ++ keep) → v.Coherent →
        ∃ v1 : VCard, v1.Properties.Perm keep ∧ v1.Errors = v.Errors
          ∧ removeAllRange todo v result ok
              = .done (v1, (if todo.isEmpty then result else true), ok)
  | [], v, keep, result, ok, hperm, _ => ⟨v, by simpa using hperm, rfl, rfl⟩
  | p :: rest, v, keep, result, ok, hperm, hc => by
    have hp : p ∈ v.Properties := hperm.symm.subset (by simp)
    obtain ⟨l1, q, l2, l3, hl, hq, -, hl3, hr⟩ := Remove_found v p ⟨p, hp, rfl⟩
    have hqmem : q ∈ v.Properties := by
      rw [hl]
      simp
    have hqp : q = p := hc q hqmem p hp hq
    subst hqp
    have h1 : (q :: (l1 ++ l2)).Perm (q :: (rest ++ keep)) := by
      refine List.Perm.trans ?_ hperm
      rw [hl]
      exact List.perm_middle.symm
    have h2 : l3.Perm (rest ++ keep) := hl3.trans h1.cons_inv
    have hsub : ∀ x ∈ l3, x ∈ v.Properties := by
      intro x hx
      have hx1 : x ∈ l1 ++ l2 := hl3.subset hx
      rw [hl]
      rcases List.mem_append.1 hx1 with h | h
      · exact List.mem_append.2 (Or.inl h)
      · exact List.mem_append.2 (Or.inr (List.mem_cons_of_mem _ h))
    have hc1 : VCard.Coherent { v with Properties := l3 } :=
      fun x hx y hy hxy => hc x (hsub x hx) y (hsub y hy) hxy
    obtain ⟨v1, hv1, he, hrun⟩ :=
      removeAllRange_spec rest { v with Properties := l3 } keep true ok h2 hc1
    refine ⟨v1, hv1, he, ?_⟩
    rw [removeAllRange, hr]
    simp only [Bool.not_true, Bool.false_eq_true, if_false, List.isEmpty_cons]
    rw [hrun]
    cases rest <;> simp

theorem RemoveAll_core (v : VCard) (name : String) (hc : v.Coherent) :
    ∃ (v1 : VCard) (b : Bool), v.RemoveAll name = .done (v1, b) ∧ v1.Coherent
      ∧ v1.Errors = v.Errors
      ∧ (b = true ↔ ∃ p ∈ v.Properties, p.obj.Name = name)
      ∧ v1.Properties.Perm (v.Properties.filter (fun p => !decide (p.obj.Name = name))) := by
  have hperm : v.Properties.Perm
      (v.Get name ++ v.Properties.filter (fun p => !decide (p.obj.Name = name))) := by
    rw [Get_as_filter]
    exact (List.filter_append_perm _ _).symm
  obtain ⟨v1, hv1, he, hrun⟩ := removeAllRange_spec (v.Get name) v _ false true hperm hc
  refine ⟨v1, (if (v.Get name).isEmpty then false else true) && true,
    by simp only [VCard.RemoveAll, hrun], ?_, he, ?_, hv1⟩
  · intro x hx y hy hxy
    exact hc x (List.mem_filter.1 (hv1.subset hx)).1 y (List.mem_filter.1 (hv1.subset hy)).1 hxy
  · rw [Get_as_filter]
    by_cases hex : ∃ p ∈ v.Properties, p.obj.Name = name
    · obtain ⟨p, hp, hn⟩ := hex
      have hne : v.Properties.filter (fun p => decide (p.obj.Name = name)) ≠ [] := by
        intro h0
        have : p ∈ v.Properties.filter (fun p => decide (p.obj.Name = name)) :=
          List.mem_filter.2 ⟨hp, by simpa using hn⟩
        rw [h0] at this
        simp at this
      have hemp : (v.Properties.filter (fun p => decide (p.obj.Name = name))).isEmpty = false := by
        cases hf : v.Properties.filter (fun p => decide (p.obj.Name = name)) with
        | nil => exact absurd hf hne
        | cons _ _ => rfl
      simp only [hemp]
      simp only [Bool.false_eq_true, if_false, Bool.and_self, true_iff]
      exact ⟨p, hp, hn⟩
    · have hnil : v.Properties.filter (fun p => decide (p.obj.Name = name)) = [] := by
        rw [List.filter_eq_nil_iff]
        intro p hp
        simpa using fun hn => hex ⟨p, hp, hn⟩
      simp [hnil, hex]

theorem coherent_of_nodup (v : VCard) (h : (v.Properties.map (fun p => p.addr)).Nodup) :
    v.Coherent :=
  fun _ hp _ hq hpq => List.inj_on_of_nodup_map h hp hq hpq

/-- A card returned by `newVCardImpl` has its properties at pairwise distinct addresses. -/
theorem newVCardImpl_coherent (src : Any) (v : VCard)
    (h : newVCardImpl src = (some v, none)) : v.Coherent := by
  obtain ⟨ps, rfl⟩ := newVCardImpl_ok_shape src v h
  rw [newVCardImpl_vcard] at h
  obtain ⟨qs, hP, -, -, hA⟩ := newVCardImplRange_ok ps _ v (by rw [h])
  simp only [List.nil_append] at hP
  refine coherent_of_nodup v ?_
  rw [hP, hA]
  exact List.nodup_range' _ _

/-- C11 at the card `telCard`, for the reference at address 0. -/
theorem Remove_spec_witness :
    ∃ (v1 : VCard) (b : Bool),
      telCard.Remove { addr := 0, obj := textProperty "tel" "tel:+1-555-1" } = .done (v1, b)
        ∧ v1.Errors = telCard.Errors
        ∧ (b = true ↔ ∃ q ∈ telCard.Properties, q.addr = 0)
        ∧ (b = true →
            v1.Properties.length + 1 = telCard.Properties.length
              ∧ ∃ (l1 : List PropertyRef) (q : PropertyRef) (l2 : List PropertyRef),
                  telCard.Properties = l1 ++ q :: l2 ∧ q.addr = 0
                    ∧ v1.Properties.Perm (l1 ++ l2))
        ∧ (b = false → v1 = telCard) :=
  Remove_spec telCard { addr := 0, obj := textProperty "tel" "tel:+1-555-1" }

/-- C12. On a card with coherent pointers, `RemoveAll(name)` returns true exactly when the
card had a property with that name. After the call `Get(name)` is empty and the list is, up
to order, the list of the properties with other names, each as often as before. So a second
`RemoveAll(name)` returns false, and so does `RemoveAll` of a name the card never had.
`RemoveAll` never panics. -/
theorem RemoveAll_spec (v : VCard) (name : String) (hc : v.Coherent) :
    ∃ (v1 : VCard) (b : Bool), v.RemoveAll name = .done (v1, b)
      ∧ (b = true ↔ ∃ p ∈ v.Properties, p.obj.Name = name)
      ∧ v1.Get name = []
      ∧ v1.Properties.Perm (v.Properties.filter (fun p => !decide (p.obj.Name = name)))
      ∧ (∃ v2 : VCard, v1.RemoveAll name = .done (v2, false))
      ∧ ((∀ p ∈ v.Properties, p.obj.Name ≠ name) → b = false) := by
  obtain ⟨v1, b, hrun, hc1, -, hb, hperm⟩ := RemoveAll_core v name hc
  have hnone : ∀ p ∈ v1.Properties, p.obj.Name ≠ name := by
    intro p hp
    simpa using (List.mem_filter.1 (hperm.subset hp)).2
  refine ⟨v1, b, hrun, hb, ?_, hperm, ?_, ?_⟩
  · rw [Get_as_filter, List.filter_eq_nil_iff]
    intro p hp
    simpa using hnone p hp
  · obtain ⟨v2, b2, hrun2, -, -, hb2, -⟩ := RemoveAll_core v1 name hc1
    have : b2 = false := by
      cases b2 with
      | false => rfl
      | true =>
        obtain ⟨p, hp, hn⟩ := hb2.1 rfl
        exact absurd hn (hnone p hp)
    subst this
    exact ⟨v2, hrun2⟩
  · intro hall
    cases b with
    | false => rfl
    | true =>
      obtain ⟨p, hp, hn⟩ := hb.1 rfl
      exact absurd hn (hall p hp)

/-- C12 at the card `telCard` and the name `tel`. -/
theorem RemoveAll_spec_witness :
    ∃ (v1 : VCard) (b : Bool), telCard.RemoveAll "tel" = .done (v1, b)
      ∧ (b = true ↔ ∃ p ∈ telCard.Properties, p.obj.Name = "tel")
      ∧ v1.Get "tel" = []
      ∧ v1.Properties.Perm (telCard.Properties.filter (fun p => !decide (p.obj.Name = "tel")))
      ∧ (∃ v2 : VCard, v1.RemoveAll "tel" = .done (v2, false))
      ∧ ((∀ p ∈ telCard.Properties, p.obj.Name ≠ "tel") → b = false) :=
  RemoveAll_spec telCard "tel" (coherent_of_nodup telCard (by decide))

/-! ## Texts and integers -/

theorem lastChar_append (a b : String) (h : b.data ≠ []) : lastChar (a ++ b) = lastChar b := by
  unfold lastChar
  rw [String.data_append, List.getLast?_append]
  cases hb : b.data.getLast? with
  | none => exact absurd (List.getLast?_eq_none_iff.1 hb) h
  | some c => rfl

theorem append_left_cancel_str (a b c : String) (h : a ++ b = a ++ c) : b = c := by
  have := congrArg String.data h
  rw [String.data_append, String.data_append] at this
  exact String.ext (List.append_cancel_left this)

theorem append_right_cancel_str (a b c : String) (h : a ++ c = b ++ c) : a = b := by
  have := congrArg String.data h
  rw [String.data_append, String.data_append] at this
  exact String.ext (List.append_cancel_right this)

theorem digitChar_toNat (d : Nat) (h : d < 10) :
    (Nat.digitChar d).toNat - 48 = d ∧ Nat.digitChar d ≠ '-' := by
  interval_cases d <;> decide

theorem foldl_toDigitsCore :
    ∀ (fuel n : Nat) (ds : List Char), n < fuel →
      (Nat.toDigitsCore 10 fuel n ds).foldl (fun n c => n * 10 + (c.toNat - 48)) 0
        = ds.foldl (fun n c => n * 10 + (c.toNat - 48)) n
  | 0, _, _, h => by omega
  | fuel + 1, n, ds, h => by
    have hd := (digitChar_toNat (n % 10) (Nat.mod_lt _ (by decide))).1
    rw [Nat.toDigitsCore]
    split_ifs with h0
    · have hn : n % 10 = n := by omega
      rw [hn] at hd
      simp only [List.foldl_cons, Nat.zero_mul, Nat.zero_add, hn, hd]
    · rw [foldl_toDigitsCore fuel (n / 10) _ (by omega)]
      simp only [List.foldl_cons, hd]
      rw [Nat.div_add_mod']

theorem head_toDigitsCore :
    ∀ (fuel n : Nat) (ds : List Char), (Nat.toDigitsCore 10 (fuel + 1) n ds).head? ≠ some '-'
  | 0, n, ds => by
    have hd := (digitChar_toNat (n % 10) (Nat.mod_lt _ (by decide))).2
    rw [Nat.toDigitsCore]
    split_ifs with h0
    · simpa using hd
    · simp only [Nat.toDigitsCore]
      simpa using hd
  | fuel + 1, n, ds => by
    have hd := (digitChar_toNat (n % 10) (Nat.mod_lt _ (by decide))).2
    rw [Nat.toDigitsCore]
    split_ifs with h0
    · simpa using hd
    · exact head_toDigitsCore fuel (n / 10) _

theorem digitsValue_toDigits (n : Nat) : digitsValue (Nat.toDigits 10 n) = n := by
  unfold digitsValue Nat.toDigits
  rw [foldl_toDigitsCore (n + 1) n [] (by omega)]
  rfl

theorem decimalValue_Itoa (k : Int) : decimalValue (Itoa k).data = k := by
  cases k with
  | ofNat n =>
    have hh : (Nat.toDigits 10 n).head? ≠ some '-' := head_toDigitsCore n n []
    simp only [Itoa, decimalValue, hh, if_false, digitsValue_toDigits]
    rfl
  | negSucc n =>
    simp only [Itoa, decimalValue, List.head?_cons, if_true, List.tail_cons,
      digitsValue_toDigits]
    rfl

theorem Itoa_injective (a b : Int) (h : Itoa a = Itoa b) : a = b := by
  rw [← decimalValue_Itoa a, ← decimalValue_Itoa b, h]

/-! ## The error mapping -/

theorem mem_errKeys_errSet (k k0 e : String) :
    ∀ m : List (String × String), k ∈ errKeys (errSet m k0 e) ↔ k = k0 ∨ k ∈ errKeys m
  | [] => by simp [errSet, errKeys]
  | (k1, e1) :: rest => by
    have ih := mem_errKeys_errSet k k0 e rest
    unfold errKeys at ih ⊢
    by_cases h : k1 = k0
    · subst h
      simp [errSet]
    · simp only [errSet, h, if_false, List.map_cons, List.mem_cons, ih]
      tauto

/-- A loop whose body adds keys to the error mapping adds the keys of all its rounds. -/
theorem mem_errKeys_foldl {α : Type} (step : List (String × String) → α → List (String × String))
    (added : α → String → Prop)
    (hstep : ∀ m a k, k ∈ errKeys (step m a) ↔ k ∈ errKeys m ∨ added a k) :
    ∀ (l : List α) (m : List (String × String)) (k : String),
      k ∈ errKeys (l.foldl step m) ↔ k ∈ errKeys m ∨ ∃ a ∈ l, added a k
  | [], m, k => by simp
  | a :: rest, m, k => by
    rw [List.foldl_cons, mem_errKeys_foldl step added hstep rest, hstep]
    simp only [List.mem_cons, exists_eq_or_imp]
    tauto

/-! ## The passes of `Validate` -/

theorem validateMandatoryProperties_spec (v : VCard) :
    v.validateMandatoryProperties.Properties = v.Properties
      ∧ ∀ k, k ∈ errKeys v.validateMandatoryProperties.Errors ↔
          k ∈ errKeys v.Errors ∨ (k = "missing_property_version" ∧ v.GetFirst Version = none) := by
  unfold VCard.validateMandatoryProperties
  cases h : v.GetFirst Version with
  | none =>
    refine ⟨rfl, fun k => ?_⟩
    simp only [mem_errKeys_errSet]
    tauto
  | some q => exact ⟨rfl, fun k => by simp⟩

theorem validatePropertiesRange_keys :
    ∀ (l : List PropertyRef) (i : Int) (errors errors1 : List (String × String)),
      validatePropertiesRange l i errors = .done errors1 →
        ∀ k, k ∈ errKeys errors1 ↔
          k ∈ errKeys errors ∨ ∃ (n : Nat) (p : PropertyRef) (e : String),
            l[n]? = some p ∧ p.obj.Validate = .done (some e)
              ∧ k = Itoa (i + n) ++ "_" ++ p.obj.Name ++ " validationError"
  | [], i, errors, errors1, h, k => by
    simp only [validatePropertiesRange, Run.done.injEq] at h
    subst h
    simp
  | prop :: rest, i, errors, errors1, h, k => by
    rw [validatePropertiesRange] at h
    have shift : ∀ m : Nat, i + 1 + (m : Int) = i + ((m + 1 : Nat) : Int) := by
      intro m
      push_cast
      omega
    cases hv : prop.obj.Validate with
    | panic =>
      rw [hv] at h
      simp at h
    | done r =>
      cases r with
      | none =>
        rw [hv] at h
        rw [validatePropertiesRange_keys rest (i + 1) errors errors1 h k]
        constructor
        · rintro (h1 | ⟨n, p, e, hn, hp, hk⟩)
          · exact Or.inl h1
          · exact Or.inr ⟨n + 1, p, e, by simpa using hn, hp, by rw [hk, shift]⟩
        · rintro (h1 | ⟨n, p, e, hn, hp, hk⟩)
          · exact Or.inl h1
          · cases n with
            | zero =>
              simp only [List.getElem?_cons_zero, Option.some.injEq] at hn
              subst hn
              rw [hv] at hp
              simp at hp
            | succ n =>
              exact Or.inr ⟨n, p, e, by simpa using hn, hp, by rw [hk, shift]⟩
      | some err =>
        rw [hv] at h
        rw [validatePropertiesRange_keys rest (i + 1) _ errors1 h k, mem_errKeys_errSet]
        constructor
        · rintro ((h1 | h1) | ⟨n, p, e, hn, hp, hk⟩)
          · exact Or.inr ⟨0, prop, err, by simp, hv, by simpa using h1⟩
          · exact Or.inl h1
          · exact Or.inr ⟨n + 1, p, e, by simpa using hn, hp, by rw [hk, shift]⟩
        · rintro (h1 | ⟨n, p, e, hn, hp, hk⟩)
          · exact Or.inl (Or.inr h1)
          · cases n with
            | zero =>
              simp only [List.getElem?_cons_zero, Option.some.injEq] at hn
              subst hn
              exact Or.inl (Or.inl (by simpa using hk))
            | succ n =>
              exact Or.inr ⟨n, p, e, by simpa using hn, hp, by rw [hk, shift]⟩

theorem validateProperties_spec (v v1 : VCard) (h : v.validateProperties = .done v1) :
    v1.Properties = v.Properties
      ∧ ∀ k, k ∈ errKeys v1.Errors ↔
          k ∈ errKeys v.Errors ∨ ∃ (n : Nat) (p : PropertyRef) (e : String),
            v.Properties[n]? = some p ∧ p.obj.Validate = .done (some e)
              ∧ k = Itoa n ++ "_" ++ p.obj.Name ++ " validationError" := by
  unfold VCard.validateProperties at h
  cases hr : validatePropertiesRange v.Properties 0 v.Errors with
  | panic =>
    rw [hr] at h
    simp at h
  | done errors =>
    rw [hr] at h
    simp only [Run.done.injEq] at h
    subst h
    refine ⟨rfl, fun k => ?_⟩
    rw [validatePropertiesRange_keys _ _ _ _ hr k]
    simp

theorem validateMemberGroup_spec (L : Deps) (v : VCard) :
    (v.validateMemberGroup L).Properties = v.Properties
      ∧ ∀ k, k ∈ errKeys (v.validateMemberGroup L).Errors ↔
          k ∈ errKeys v.Errors
            ∨ (k = "kindIsNil" ∧ (v.Get Member).length ≠ 0 ∧ v.GetFirst Kind = none)
            ∨ (k = "kindValueNotGroup" ∧ (v.Get Member).length ≠ 0
                ∧ ∃ q, v.GetFirst Kind = some q ∧ q.obj.Value.isText "group" = false) := by
  unfold VCard.validateMemberGroup
  by_cases hm : (v.Get Member).length ≠ 0
  · rw [if_pos hm]
    cases hk : v.GetFirst Kind with
    | none =>
      refine ⟨rfl, fun k => ?_⟩
      simp only [mem_errKeys_errSet]
      simp only [hm, not_false_eq_true, true_and, reduceCtorEq, false_and, exists_false,
        and_false, or_false]
      tauto
    | some q =>
      dsimp only
      split_ifs with hg
      · refine ⟨rfl, fun k => ?_⟩
        simp only [mem_errKeys_errSet]
        simp only [hm, not_false_eq_true, true_and, reduceCtorEq, and_false, false_or,
          Option.some.injEq, exists_eq_left', hg]
        tauto
      · refine ⟨rfl, fun k => ?_⟩
        simp [hg]
  · rw [if_neg hm]
    refine ⟨rfl, fun k => ?_⟩
    simp [hm]

theorem validateCardinalityStep_keys (v : VCard) (m : List (String × String))
    (p : PropertyRef) (k : String) :
    k ∈ errKeys (validateCardinalityStep v p m) ↔
      k ∈ errKeys m ∨ (cardinalityFails v p ∧ k = p.obj.Name ++ "_cardinality") := by
  unfold validateCardinalityStep cardinalityFails
  have h12 : Many ≠ One := by decide
  have h13 : Many ≠ OneOrMany := by decide
  have h14 : Many ≠ OneOrZero := by decide
  have h23 : One ≠ OneOrMany := by decide
  have h24 : One ≠ OneOrZero := by decide
  have h34 : OneOrMany ≠ OneOrZero := by decide
  split_ifs with c1 c2 l2 c3 l3 c4 l4 <;> (try simp only [mem_errKeys_errSet]) <;>
    simp_all <;> tauto

theorem validateCardinality_spec (v : VCard) :
    v.validateCardinality.Properties = v.Properties
      ∧ ∀ k, k ∈ errKeys v.validateCardinality.Errors ↔
          k ∈ errKeys v.Errors
            ∨ ∃ p ∈ v.Properties, cardinalityFails v p ∧ k = p.obj.Name ++ "_cardinality" := by
  refine ⟨rfl, fun k => ?_⟩
  exact mem_errKeys_foldl (fun errors prop => validateCardinalityStep v prop errors)
    (fun p k => cardinalityFails v p ∧ k = p.obj.Name ++ "_cardinality")
    (fun m a k => validateCardinalityStep_keys v m a k) v.Properties v.Errors k

theorem validateClientPIDMap_spec (L : Deps) (v v1 : VCard)
    (h : v.validateClientPIDMap L = .done v1) :
    v1.Properties = v.Properties
      ∧ ∃ cpms, v.getCpms = .done cpms
        ∧ ∀ k, k ∈ errKeys v1.Errors ↔
            k ∈ errKeys v.Errors
              ∨ ∃ n ∈ v.getPIDs.map Prod.fst, cpms.lookup n = none ∧ k = pidKey n := by
  unfold VCard.validateClientPIDMap at h
  cases hc : v.getCpms with
  | panic =>
    rw [hc] at h
    simp at h
  | done cpms =>
    rw [hc] at h
    simp only [Run.done.injEq] at h
    subst h
    refine ⟨rfl, cpms, rfl, fun k => ?_⟩
    have := mem_errKeys_foldl
      (fun errors (kp : Int × PropertyRef) =>
        if (cpms.lookup kp.1).isNone then
          errSet errors ("Pid " ++ Itoa kp.1 ++ " has no ClientPIDMapping")
            (vCardError (kp.2.obj.String L))
        else errors)
      (fun kp k => cpms.lookup kp.1 = none ∧ k = pidKey kp.1)
      (by
        intro m a k
        by_cases hl : cpms.lookup a.1 = none
        · simp only [hl, Option.isNone_none, if_true, mem_errKeys_errSet, pidKey, true_and]
          tauto
        · have : (cpms.lookup a.1).isNone = false := by
            cases hx : cpms.lookup a.1 with
            | none => exact absurd hx hl
            | some _ => rfl
          simp [this, hl])
      v.getPIDs v.Errors k
    rw [this]
    simp only [List.mem_map, Prod.exists, exists_and_right, exists_eq_right]

theorem Get_congr (v w : VCard) (h : v.Properties = w.Properties) (name : String) :
    v.Get name = w.Get name := by
  simp only [VCard.Get, h]

theorem GetFirst_congr (v w : VCard) (h : v.Properties = w.Properties) (name : String) :
    v.GetFirst name = w.GetFirst name := by
  simp only [VCard.GetFirst, Get_congr v w h]

theorem getPIDs_congr (v w : VCard) (h : v.Properties = w.Properties) :
    v.getPIDs = w.getPIDs := by
  simp only [VCard.getPIDs, h]

theorem getCpms_congr (v w : VCard) (h : v.Properties = w.Properties) :
    v.getCpms = w.getCpms := by
  simp only [VCard.getCpms, Get_congr v w h]

theorem cardinalityFails_congr (v w : VCard) (h : v.Properties = w.Properties)
    (p : PropertyRef) : cardinalityFails v p ↔ cardinalityFails w p := by
  simp only [cardinalityFails, Get_congr v w h]

/-- What `Validate` leaves behind when it completes: the properties as they were, and an error
mapping whose keys are exactly the failures of the five passes on these properties. -/
theorem Validate_keys (L : Deps) (v v1 : VCard) (h : v.Validate L = .done v1) :
    v1.Properties = v.Properties
      ∧ ∃ cpms, v.getCpms = .done cpms
        ∧ ∀ k, k ∈ errKeys v1.Errors ↔
            (k = "missing_property_version" ∧ v.GetFirst Version = none)
              ∨ (∃ (n : Nat) (p : PropertyRef) (e : String),
                  v.Properties[n]? = some p ∧ p.obj.Validate = .done (some e)
                    ∧ k = Itoa n ++ "_" ++ p.obj.Name ++ " validationError")
              ∨ (k = "kindIsNil" ∧ (v.Get Member).length ≠ 0 ∧ v.GetFirst Kind = none)
              ∨ (k = "kindValueNotGroup" ∧ (v.Get Member).length ≠ 0
                  ∧ ∃ q, v.GetFirst Kind = some q ∧ q.obj.Value.isText "group" = false)
              ∨ (∃ p ∈ v.Properties, cardinalityFails v p ∧ k = p.obj.Name ++ "_cardinality")
              ∨ (∃ n ∈ v.getPIDs.map Prod.fst, cpms.lookup n = none ∧ k = pidKey n) := by
  unfold VCard.Validate at h
  cases hvp : ({ v with Errors := [] } : VCard).validateMandatoryProperties.validateProperties with
  | panic =>
    rw [hvp] at h
    simp at h
  | done v2 =>
    rw [hvp] at h
    simp only at h
    obtain ⟨hP1, hK1⟩ := validateMandatoryProperties_spec ({ v with Errors := [] } : VCard)
    obtain ⟨hP2, hK2⟩ := validateProperties_spec _ v2 hvp
    obtain ⟨hP3, hK3⟩ := validateMemberGroup_spec L v2
    obtain ⟨hP4, hK4⟩ := validateCardinality_spec (v2.validateMemberGroup L)
    obtain ⟨hP5, cpms, hC5, hK5⟩ := validateClientPIDMap_spec L _ v1 h
    have e0 : ({ v with Errors := [] } : VCard).Properties = v.Properties := rfl
    have e2 : v2.Properties = v.Properties := by rw [hP2, hP1]
    have e3 : (v2.validateMemberGroup L).Properties = v.Properties := by rw [hP3, e2]
    have e4 : (v2.validateMemberGroup L).validateCardinality.Properties = v.Properties := by
      rw [hP4, e3]
    refine ⟨by rw [hP5, e4], cpms, by rw [← hC5, getCpms_congr _ v e4], fun k => ?_⟩
    rw [hK5, hK4, hK3, hK2, hK1]
    rw [getPIDs_congr _ v e4, e3, Get_congr v2 v e2, GetFirst_congr v2 v e2, hP1,
      GetFirst_congr _ v e0]
    simp only [cardinalityFails_congr _ v e3, errKeys, List.map_nil, List.not_mem_nil,
      false_or, or_assoc]

/-! ## The keys of the five passes are apart -/

theorem ne_of_lastChar (a b : String) (h : lastChar a ≠ lastChar b) : a ≠ b :=
  fun hab => h (congrArg lastChar hab)

theorem lastChar_validation (a : String) : lastChar (a ++ " validationError") = some 'r' := by
  rw [lastChar_append _ _ (by decide)]
  rfl

theorem lastChar_cardinality (a : String) : lastChar (a ++ "_cardinality") = some 'y' := by
  rw [lastChar_append _ _ (by decide)]
  rfl

theorem lastChar_pidKey (n : Int) : lastChar (pidKey n) = some 'g' := by
  unfold pidKey
  rw [lastChar_append _ _ (by decide)]
  rfl

theorem pidKey_injective (a b : Int) (h : pidKey a = pidKey b) : a = b := by
  unfold pidKey at h
  exact Itoa_injective a b (append_left_cancel_str _ _ _ (append_right_cancel_str _ _ _ h))

theorem GetFirst_eq_find (v : VCard) (name : String) :
    v.GetFirst name = v.Properties.find? (fun p => decide (p.obj.Name = name)) := by
  have hf : ∀ l : List PropertyRef,
      (match l.filter (fun p => decide (p.obj.Name = name)) with
        | [] => none
        | p :: _ => some p) = l.find? (fun p => decide (p.obj.Name = name)) := by
    intro l
    induction l with
    | nil => rfl
    | cons a rest ih =>
      by_cases ha : a.obj.Name = name
      · simp [List.filter_cons, List.find?_cons, ha]
      · simpa [List.filter_cons, List.find?_cons, ha] using ih
  rw [VCard.GetFirst, Get_as_filter]
  exact hf v.Properties

theorem GetFirst_eq_none_iff (v : VCard) (name : String) :
    v.GetFirst name = none ↔ ∀ p ∈ v.Properties, p.obj.Name ≠ name := by
  rw [GetFirst_eq_find, List.find?_eq_none]
  simp

theorem Get_length_ne_zero_iff (v : VCard) (name : String) :
    (v.Get name).length ≠ 0 ↔ ∃ p ∈ v.Properties, p.obj.Name = name := by
  rw [Get_as_filter, Ne, List.length_eq_zero, List.filter_eq_nil_iff]
  simp

/-! ## Validation: the mandatory property -/

theorem missing_version_key_iff (L : Deps) (v v1 : VCard) (h : v.Validate L = .done v1) :
    "missing_property_version" ∈ errKeys v1.Errors ↔
      ∀ p ∈ v.Properties, p.obj.Name ≠ "version" := by
  obtain ⟨-, cpms, -, hK⟩ := Validate_keys L v v1 h
  rw [hK]
  constructor
  · rintro (⟨-, hg⟩ | ⟨n, p, e, -, -, hk⟩ | ⟨hk, -⟩ | ⟨hk, -⟩ | ⟨p, -, -, hk⟩ | ⟨n, -, -, hk⟩)
    · exact (GetFirst_eq_none_iff v Version).1 hg
    · exact absurd hk (ne_of_lastChar _ _ (by rw [lastChar_validation]; decide))
    · exact absurd hk (by decide)
    · exact absurd hk (by decide)
    · exact absurd hk (ne_of_lastChar _ _ (by rw [lastChar_cardinality]; decide))
    · exact absurd hk (ne_of_lastChar _ _ (by rw [lastChar_pidKey]; decide))
  · intro hall
    exact Or.inl ⟨rfl, (GetFirst_eq_none_iff v Version).2 hall⟩

/-- C13. After `Validate()` the error mapping has the key `missing_property_version` exactly
when the card has no property named `version`; a card without such a property has errors
after `Validate()`, so it is never valid. -/
theorem validate_missing_version (L : Deps) (v v1 : VCard) (h : v.Validate L = .done v1) :
    ("missing_property_version" ∈ errKeys v1.Errors ↔
        ∀ p ∈ v.Properties, p.obj.Name ≠ "version")
      ∧ ((∀ p ∈ v.Properties, p.obj.Name ≠ "version") → v1.hasErrors = true) := by
  refine ⟨missing_version_key_iff L v v1 h, fun hall => ?_⟩
  have hmem := (missing_version_key_iff L v v1 h).2 hall
  unfold errKeys at hmem
  unfold VCard.hasErrors
  cases hE : v1.Errors with
  | nil =>
    rw [hE] at hmem
    simp at hmem
  | cons _ _ => simp

/-- C13 at a card with the one property `fn`: `Validate()` completes and records the missing
version. -/
theorem validate_missing_version_witness :
    ∃ v1 : VCard, fnCard.Validate testDeps = .done v1
      ∧ ("missing_property_version" ∈ errKeys v1.Errors ↔
          ∀ p ∈ fnCard.Properties, p.obj.Name ≠ "version")
      ∧ ((∀ p ∈ fnCard.Properties, p.obj.Name ≠ "version") → v1.hasErrors = true) :=
  ⟨_, rfl, validate_missing_version testDeps fnCard _ rfl⟩

/-! ## Validation: cardinality -/

theorem lookup_some_mem {β : Type} (k : String) (b : β) :
    ∀ l : List (String × β), l.lookup k = some b → (k, b) ∈ l
  | [], h => by simp at h
  | (k1, b1) :: rest, h => by
    rw [List.lookup_cons] at h
    by_cases hk : k = k1
    · subst hk
      simp only [beq_self_eq_true, Option.some.injEq] at h
      subst h
      exact List.mem_cons_self _ _
    · have hb : (k == k1) = false := by simpa using hk
      rw [hb] at h
      exact List.mem_cons_of_mem _ (lookup_some_mem k b rest h)

/-- Every descriptor of the registry has one of the four cardinalities. -/
theorem registry_cardinal (L : Deps) (name : String) (info : VPropertyTypeInfo)
    (h : (addTypeInfoCases L).lookup name = some info) :
    info.Cardinal = Many ∨ info.Cardinal = One ∨ info.Cardinal = OneOrMany
      ∨ info.Cardinal = OneOrZero := by
  have hmem : info.Cardinal ∈ (addTypeInfoCases L).map (fun x => x.2.Cardinal) :=
    List.mem_map.2 ⟨(name, info), lookup_some_mem name info _ h, rfl⟩
  have hlist : (addTypeInfoCases L).map (fun x => x.2.Cardinal)
      = [1, 3, 3, 1, 1, 1, 1, 1, 1, 2, 3, 1, 1, 1, 3, 1, 1, 1, 3, 1, 1, 1, 1, 3, 1, 3, 1, 1, 1,
         1, 1, 3, 1, 4] := rfl
  rw [hlist] at hmem
  have hall : ∀ c ∈ ([1, 3, 3, 1, 1, 1, 1, 1, 1, 2, 3, 1, 1, 1, 3, 1, 1, 1, 3, 1, 1, 1, 1, 3, 1,
      3, 1, 1, 1, 1, 1, 3, 1, 4] : List Int), c = Many ∨ c = One ∨ c = OneOrMany ∨ c = OneOrZero := by
    decide
  exact hall _ hmem

/-- With registry descriptors on all properties, the cardinality failure for a name of the
card is recorded exactly when the class is `One` with a count other than 1 or `OneOrZero`
with a count above 1. -/
theorem cardinality_key_iff (L : Deps) (v v1 : VCard) (h : v.Validate L = .done v1)
    (hreg : ∀ p ∈ v.Properties, (addTypeInfoCases L).lookup p.obj.Name = some p.obj.typeInfo)
    (name : String) (info : VPropertyTypeInfo)
    (hinfo : (addTypeInfoCases L).lookup name = some info) :
    (name ++ "_cardinality") ∈ errKeys v1.Errors ↔
      (∃ p ∈ v.Properties, p.obj.Name = name)
        ∧ ((info.Cardinal = One ∧ (v.Get name).length ≠ 1)
          ∨ (info.Cardinal = OneOrZero ∧ (v.Get name).length > 1)) := by
  obtain ⟨-, cpms, -, hK⟩ := Validate_keys L v v1 h
  have hcard := registry_cardinal L name info hinfo
  have h12 : Many ≠ One := by decide
  have h13 : Many ≠ OneOrMany := by decide
  have h14 : Many ≠ OneOrZero := by decide
  have h23 : One ≠ OneOrMany := by decide
  have h24 : One ≠ OneOrZero := by decide
  have h34 : OneOrMany ≠ OneOrZero := by decide
  rw [hK]
  constructor
  · rintro (⟨hk, -⟩ | ⟨n, p, e, -, -, hk⟩ | ⟨hk, -⟩ | ⟨hk, -⟩ | ⟨p, hp, hf, hk⟩ | ⟨n, -, -, hk⟩)
    · exact absurd hk (ne_of_lastChar _ _ (by rw [lastChar_cardinality]; decide))
    · exact absurd hk (ne_of_lastChar _ _ (by
        rw [lastChar_cardinality, lastChar_validation]; decide))
    · exact absurd hk (ne_of_lastChar _ _ (by rw [lastChar_cardinality]; decide))
    · exact absurd hk (ne_of_lastChar _ _ (by rw [lastChar_cardinality]; decide))
    · have hname : name = p.obj.Name := append_right_cancel_str _ _ _ hk
      subst hname
      have hti : p.obj.typeInfo = info := by
        have := hreg p hp
        rw [hinfo] at this
        exact (Option.some.inj this).symm
      have hlen : (v.Get p.obj.Name).length ≠ 0 :=
        (Get_length_ne_zero_iff v _).2 ⟨p, hp, rfl⟩
      refine ⟨⟨p, hp, rfl⟩, ?_⟩
      unfold cardinalityFails at hf
      rw [hti] at hf
      rcases hf with hf | hf | hf | hf
      · exact Or.inl hf
      · exact absurd hf.2 hlen
      · exact Or.inr hf
      · rcases hcard with c | c | c | c
        · exact absurd c hf.1
        · exact absurd c hf.2.1
        · exact absurd c hf.2.2.1
        · exact absurd c hf.2.2.2
    · exact absurd hk (ne_of_lastChar _ _ (by
        rw [lastChar_cardinality, lastChar_pidKey]; decide))
  · rintro ⟨⟨p, hp, hn⟩, hcond⟩
    subst hn
    have hti : p.obj.typeInfo = info := by
      have := hreg p hp
      rw [hinfo] at this
      exact (Option.some.inj this).symm
    refine Or.inr (Or.inr (Or.inr (Or.inr (Or.inl ⟨p, hp, ?_, rfl⟩))))
    unfold cardinalityFails
    rw [hti]
    rcases hcond with hc | hc
    · exact Or.inl hc
    · exact Or.inr (Or.inr (Or.inl hc))

/-- C14. For a card whose properties all carry the registry descriptor of their name, after
`Validate()` the error mapping has a cardinality failure for a name that occurs in the card
exactly when the class of the name is `One` (exactly one) and its count is not 1, or the
class is `OneOrZero` and its count exceeds 1. Two `version` properties always give the
failure for `version`; one `fn` and no `n` give no failure for `fn` or for `n`. -/
theorem validate_cardinality (L : Deps) (v v1 : VCard) (h : v.Validate L = .done v1)
    (hreg : ∀ p ∈ v.Properties, (addTypeInfoCases L).lookup p.obj.Name = some p.obj.typeInfo) :
    (∀ (name : String) (info : VPropertyTypeInfo),
        (addTypeInfoCases L).lookup name = some info →
        (∃ p ∈ v.Properties, p.obj.Name = name) →
          ((name ++ "_cardinality") ∈ errKeys v1.Errors ↔
            (info.Cardinal = One ∧ (v.Get name).length ≠ 1)
              ∨ (info.Cardinal = OneOrZero ∧ (v.Get name).length > 1)))
      ∧ ((v.Get "version").length = 2 → "version_cardinality" ∈ errKeys v1.Errors)
      ∧ ((v.Get "fn").length = 1 → (v.Get "n").length = 0 →
          "fn_cardinality" ∉ errKeys v1.Errors ∧ "n_cardinality" ∉ errKeys v1.Errors) := by
  refine ⟨?_, ?_, ?_⟩
  · intro name info hinfo hocc
    rw [cardinality_key_iff L v v1 h hreg name info hinfo]
    simp [hocc]
  · intro h2
    have hocc : ∃ p ∈ v.Properties, p.obj.Name = "version" :=
      (Get_length_ne_zero_iff v _).1 (by omega)
    exact (cardinality_key_iff L v v1 h hreg "version" (versionTypeInfo L) rfl).2
      ⟨hocc, Or.inl ⟨rfl, by omega⟩⟩
  · intro hfn hn
    constructor
    · intro hmem
      have := (cardinality_key_iff L v v1 h hreg "fn" (fnTypeInfo L) rfl).1 hmem
      have hfnc : (fnTypeInfo L).Cardinal = OneOrMany := rfl
      rw [hfnc] at this
      rcases this.2 with hc | hc
      · exact absurd hc.1 (by decide)
      · exact absurd hc.1 (by decide)
    · intro hmem
      have := (cardinality_key_iff L v v1 h hreg "n" (nTypeInfo L) rfl).1 hmem
      exact (Get_length_ne_zero_iff v _).2 this.1 hn

/-- C14 at a card with two `version` properties. -/
theorem validate_cardinality_witness :
    ∃ v1 : VCard, twoVersionsCard.Validate testDeps = .done v1
      ∧ "version_cardinality" ∈ errKeys v1.Errors :=
  ⟨_, rfl,
   (validate_cardinality testDeps twoVersionsCard _ rfl (by
      intro p hp
      simp only [twoVersionsCard, List.mem_cons, List.mem_singleton, List.not_mem_nil,
        or_false] at hp
      rcases hp with rfl | rfl <;> rfl)).2.1 rfl⟩

/-- A name that no property of the card has gets no cardinality failure. -/
theorem no_cardinality_key_of_absent (L : Deps) (v v1 : VCard) (h : v.Validate L = .done v1)
    (name : String) (habs : ∀ p ∈ v.Properties, p.obj.Name ≠ name) :
    (name ++ "_cardinality") ∉ errKeys v1.Errors := by
  obtain ⟨-, cpms, -, hK⟩ := Validate_keys L v v1 h
  rw [hK]
  rintro (⟨hk, -⟩ | ⟨n, p, e, -, -, hk⟩ | ⟨hk, -⟩ | ⟨hk, -⟩ | ⟨p, hp, -, hk⟩ | ⟨n, -, -, hk⟩)
  · exact absurd hk (ne_of_lastChar _ _ (by rw [lastChar_cardinality]; decide))
  · exact absurd hk (ne_of_lastChar _ _ (by
      rw [lastChar_cardinality, lastChar_validation]; decide))
  · exact absurd hk (ne_of_lastChar _ _ (by rw [lastChar_cardinality]; decide))
  · exact absurd hk (ne_of_lastChar _ _ (by rw [lastChar_cardinality]; decide))
  · exact habs p hp (append_right_cancel_str _ _ _ hk).symm
  · exact absurd hk (ne_of_lastChar _ _ (by
      rw [lastChar_cardinality, lastChar_pidKey]; decide))

/-- C15 does not hold on the code. The card decoded from a `version` property alone has no
`fn` property, and `Validate()` completes with an empty error mapping: no cardinality failure
is recorded for `fn`, because `validateCardinality` visits the properties of the card only. -/
theorem validate_without_fn_records_nothing :
    NewVCard testDeps versionTop none = (some versionCard, none)
      ∧ (∀ p ∈ versionCard.Properties, p.obj.Name ≠ "fn")
      ∧ versionCard.Validate testDeps = .done versionCard
      ∧ "fn_cardinality" ∉ errKeys versionCard.Errors := by
  refine ⟨rfl, by decide, rfl, by decide⟩

/-! ## Validation: members and kind -/

/-- C16. After `Validate()` the error mapping has a group/member failure (`kindIsNil` or
`kindValueNotGroup`) exactly when the card has a `member` property and either has no `kind`
property or the value of its first `kind` property is not the text `group`. With a member and
a first `kind` of value `group` it has neither key, and without a member it has neither. -/
theorem validate_member_group (L : Deps) (v v1 : VCard) (h : v.Validate L = .done v1) :
    (("kindIsNil" ∈ errKeys v1.Errors ∨ "kindValueNotGroup" ∈ errKeys v1.Errors) ↔
        (∃ p ∈ v.Properties, p.obj.Name = "member")
          ∧ ((∀ p ∈ v.Properties, p.obj.Name ≠ "kind")
            ∨ ∃ q, v.Properties.find? (fun p => decide (p.obj.Name = "kind")) = some q
                ∧ q.obj.Value.isText "group" = false))
      ∧ ((∃ q, v.Properties.find? (fun p => decide (p.obj.Name = "kind")) = some q
            ∧ q.obj.Value.isText "group" = true) →
          "kindIsNil" ∉ errKeys v1.Errors ∧ "kindValueNotGroup" ∉ errKeys v1.Errors)
      ∧ ((∀ p ∈ v.Properties, p.obj.Name ≠ "member") →
          "kindIsNil" ∉ errKeys v1.Errors ∧ "kindValueNotGroup" ∉ errKeys v1.Errors) := by
  obtain ⟨-, cpms, -, hK⟩ := Validate_keys L v v1 h
  have hnil : "kindIsNil" ∈ errKeys v1.Errors ↔
      (v.Get Member).length ≠ 0 ∧ v.GetFirst Kind = none := by
    rw [hK]
    constructor
    · rintro (⟨hk, -⟩ | ⟨n, p, e, -, -, hk⟩ | ⟨-, hm⟩ | ⟨hk, -⟩ | ⟨p, -, -, hk⟩ | ⟨n, -, -, hk⟩)
      · exact absurd hk (by decide)
      · exact absurd hk (ne_of_lastChar _ _ (by rw [lastChar_validation]; decide))
      · exact hm
      · exact absurd hk (by decide)
      · exact absurd hk (ne_of_lastChar _ _ (by rw [lastChar_cardinality]; decide))
      · exact absurd hk (ne_of_lastChar _ _ (by rw [lastChar_pidKey]; decide))
    · intro hm
      exact Or.inr (Or.inr (Or.inl ⟨rfl, hm⟩))
  have hval : "kindValueNotGroup" ∈ errKeys v1.Errors ↔
      (v.Get Member).length ≠ 0
        ∧ ∃ q, v.GetFirst Kind = some q ∧ q.obj.Value.isText "group" = false := by
    rw [hK]
    constructor
    · rintro (⟨hk, -⟩ | ⟨n, p, e, -, -, hk⟩ | ⟨hk, -⟩ | ⟨-, hm⟩ | ⟨p, -, -, hk⟩ | ⟨n, -, -, hk⟩)
      · exact absurd hk (by decide)
      · exact absurd hk (ne_of_lastChar _ _ (by rw [lastChar_validation]; decide))
      · exact absurd hk (by decide)
      · exact hm
      · exact absurd hk (ne_of_lastChar _ _ (by rw [lastChar_cardinality]; decide))
      · exact absurd hk (ne_of_lastChar _ _ (by rw [lastChar_pidKey]; decide))
    · intro hm
      exact Or.inr (Or.inr (Or.inr (Or.inl ⟨rfl, hm⟩)))
  rw [hnil, hval, Get_length_ne_zero_iff, GetFirst_eq_none_iff, GetFirst_eq_find]
  have hK1 : Kind = "kind" := rfl
  have hM1 : Member = "member" := rfl
  rw [hK1, hM1]
  refine ⟨and_or_left.symm, ?_, ?_⟩
  · rintro ⟨q, hq, hg⟩
    constructor
    · rintro ⟨-, hno⟩
      have hmem := List.mem_of_find?_eq_some hq
      have hname := List.find?_some hq
      exact hno q hmem (by simpa using hname)
    · rintro ⟨-, q1, hq1, hg1⟩
      rw [hq] at hq1
      cases hq1
      rw [hg] at hg1
      cases hg1
  · intro hno
    constructor
    · rintro ⟨⟨p, hp, hn⟩, -⟩
      exact hno p hp hn
    · rintro ⟨⟨p, hp, hn⟩, -⟩
      exact hno p hp hn

/-- C16 at a card with a member and no kind (failure recorded) and at a card with a member
and a kind of value `group` (no failure). -/
theorem validate_member_group_witness :
    (∃ v1 : VCard, memberCard.Validate testDeps = .done v1
        ∧ ("kindIsNil" ∈ errKeys v1.Errors ∨ "kindValueNotGroup" ∈ errKeys v1.Errors))
      ∧ (∃ v1 : VCard, groupCard.Validate testDeps = .done v1
        ∧ "kindIsNil" ∉ errKeys v1.Errors ∧ "kindValueNotGroup" ∉ errKeys v1.Errors) :=
  ⟨⟨_, rfl, (validate_member_group testDeps memberCard _ rfl).1.2
      ⟨⟨{ addr := 1, obj := registered testDeps "member" "urn:uuid:1" },
          by simp [memberCard], rfl⟩, Or.inl (by decide)⟩⟩,
   ⟨_, rfl, (validate_member_group testDeps groupCard _ rfl).2.1 ⟨_, rfl, rfl⟩⟩⟩

/-! ## Validation: `pid` parameters and `clientpidmap` -/

theorem mem_fst_pidSet (n k : Int) (p : PropertyRef) :
    ∀ m : PidMap, n ∈ (pidSet m k p).map Prod.fst ↔ n = k ∨ n ∈ m.map Prod.fst
  | [] => by simp [pidSet]
  | (k1, p1) :: rest => by
    have ih := mem_fst_pidSet n k p rest
    by_cases h : k1 = k
    · subst h
      simp [pidSet]
    · simp only [pidSet, h, if_false, List.map_cons, List.mem_cons, ih]
      tauto

theorem lookup_int_eq_none_iff {β : Type} (k : Int) :
    ∀ l : List (Int × β), l.lookup k = none ↔ k ∉ l.map Prod.fst
  | [] => by simp
  | (k1, b) :: rest => by
    rw [List.lookup_cons]
    by_cases h : k = k1
    · simp [h]
    · have hb : (k == k1) = false := by simpa using h
      rw [hb]
      simp [lookup_int_eq_none_iff k rest, h]

theorem exists_mem_cons_iff {α : Type} (P : α → Prop) (a : α) (l : List α) :
    (∃ x ∈ a :: l, P x) ↔ P a ∨ ∃ x ∈ l, P x := by
  simp

theorem getPIDsValues_keys (p : PropertyRef) (n : Int) :
    ∀ (js : List String) (m : PidMap),
      n ∈ (getPIDsValues p js m).map Prod.fst ↔
        n ∈ m.map Prod.fst ∨ ∃ j ∈ js, ∃ a b, Split j '.' = [a, b] ∧ Atoi b = some n
  | [], m => by simp [getPIDsValues]
  | j :: rest, m => by
    have ih := getPIDsValues_keys p n rest
    rw [getPIDsValues, exists_mem_cons_iff]
    rcases hs : Split j '.' with _ | ⟨a, _ | ⟨b, _ | ⟨c, more⟩⟩⟩
    · simp [ih]
    · simp [ih]
    · have hP : (∃ a1 b1, ([a, b] : List String) = [a1, b1] ∧ Atoi b1 = some n)
          ↔ Atoi b = some n := by
        constructor
        · rintro ⟨a1, b1, h1, h2⟩
          simp only [List.cons.injEq, and_true] at h1
          rw [h1.2]
          exact h2
        · intro h2
          exact ⟨a, b, rfl, h2⟩
      rw [hP]
      cases ha : Atoi b with
      | none => simp [ih, ha]
      | some k =>
        simp only [ha, ih, mem_fst_pidSet, Option.some.injEq]
        constructor
        · rintro ((h1 | h1) | h1)
          · exact Or.inr (Or.inl h1.symm)
          · exact Or.inl h1
          · exact Or.inr (Or.inr h1)
        · rintro (h1 | h1 | h1)
          · exact Or.inl (Or.inr h1)
          · exact Or.inl (Or.inl h1.symm)
          · exact Or.inr h1
    · simp [ih]

theorem mem_fst_foldl {α : Type} (step : PidMap → α → PidMap) (added : α → Int → Prop)
    (hstep : ∀ m a n, n ∈ (step m a).map Prod.fst ↔ n ∈ m.map Prod.fst ∨ added a n) :
    ∀ (l : List α) (m : PidMap) (n : Int),
      n ∈ (l.foldl step m).map Prod.fst ↔ n ∈ m.map Prod.fst ∨ ∃ a ∈ l, added a n
  | [], m, n => by simp
  | a :: rest, m, n => by
    rw [List.foldl_cons, mem_fst_foldl step added hstep rest, hstep]
    simp only [List.mem_cons, exists_eq_or_imp]
    tauto

/-- The keys of `getPIDs`: the integers read from the second of exactly two dot-separated
components of a value of a `pid` parameter. -/
theorem getPIDs_keys (v : VCard) (n : Int) :
    n ∈ v.getPIDs.map Prod.fst ↔
      ∃ p ∈ v.Properties, ∃ j ∈ mapGet p.obj.Parameters "pid",
        ∃ a b, Split j '.' = [a, b] ∧ Atoi b = some n := by
  unfold VCard.getPIDs
  rw [mem_fst_foldl
    (fun result p => getPIDsValues p (mapGet p.obj.Parameters "pid") result)
    (fun p n => ∃ j ∈ mapGet p.obj.Parameters "pid", ∃ a b, Split j '.' = [a, b] ∧ Atoi b = some n)
    (fun m a n => getPIDsValues_keys a n _ m)]
  simp

theorem getCpmsRange_keys (n : Int) :
    ∀ (l : List PropertyRef) (m r : PidMap), getCpmsRange l m = .done r →
      (n ∈ r.map Prod.fst ↔
        n ∈ m.map Prod.fst
          ∨ ∃ c ∈ l, ∃ x y, c.obj.Value = .arr [.str x, y] ∧ Atoi x = some n)
  | [], m, r, h => by
    simp only [getCpmsRange, Run.done.injEq] at h
    subst h
    simp
  | c :: rest, m, r, h => by
    have ih := getCpmsRange_keys n rest
    rw [getCpmsRange] at h
    split at h
    · rename_i a0 a1 hv
      split at h
      · rename_i s
        split at h
        · rename_i i hi
          rw [ih _ r h, mem_fst_pidSet]
          simp only [List.mem_cons, exists_eq_or_imp, hv, Any.arr.injEq, List.cons.injEq,
            Any.str.injEq, and_true]
          constructor
          · rintro ((h1 | h1) | h1)
            · exact Or.inr (Or.inl ⟨s, a1, ⟨rfl, rfl⟩, by rw [hi, h1]⟩)
            · exact Or.inl h1
            · exact Or.inr (Or.inr h1)
          · rintro (h1 | ⟨x, y, ⟨hx, -⟩, h1⟩ | h1)
            · exact Or.inl (Or.inr h1)
            · subst hx
              rw [hi] at h1
              exact Or.inl (Or.inl (Option.some.inj h1).symm)
            · exact Or.inr h1
        · rename_i hi
          rw [ih _ r h]
          simp only [List.mem_cons, exists_eq_or_imp, hv, Any.arr.injEq, List.cons.injEq,
            Any.str.injEq, and_true]
          constructor
          · rintro (h1 | h1)
            · exact Or.inl h1
            · exact Or.inr (Or.inr h1)
          · rintro (h1 | ⟨x, y, ⟨hx, -⟩, h1⟩ | h1)
            · exact Or.inl h1
            · subst hx
              rw [hi] at h1
              cases h1
            · exact Or.inr h1
      · simp at h
    · rename_i xs hne hv
      rw [ih _ r h]
      simp only [List.mem_cons, exists_eq_or_imp, hv, Any.arr.injEq]
      constructor
      · rintro (h1 | h1)
        · exact Or.inl h1
        · exact Or.inr (Or.inr h1)
      · rintro (h1 | ⟨x, y, hxy, -⟩ | h1)
        · exact Or.inl h1
        · exact absurd hxy (hne _ _)
        · exact Or.inr h1
    · simp at h

/-- The keys of `getCpms`: the integers read from the first element of a two-element value
of a `clientpidmap` property. -/
theorem getCpms_keys (v : VCard) (cpms : PidMap) (h : v.getCpms = .done cpms) (n : Int) :
    n ∈ cpms.map Prod.fst ↔
      ∃ c ∈ v.Properties, c.obj.Name = "clientpidmap"
        ∧ ∃ x y, c.obj.Value = .arr [.str x, y] ∧ Atoi x = some n := by
  unfold VCard.getCpms at h
  rw [getCpmsRange_keys n _ _ _ h, Get_as_filter]
  simp only [List.map_nil, List.not_mem_nil, false_or, List.mem_filter, decide_eq_true_eq]
  constructor
  · rintro ⟨c, ⟨hc, hn⟩, hx⟩
    exact ⟨c, hc, hn, hx⟩
  · rintro ⟨c, hc, hn, hx⟩
    exact ⟨c, ⟨hc, hn⟩, hx⟩

theorem pid_key_iff (L : Deps) (v v1 : VCard) (h : v.Validate L = .done v1) (k : Int) :
    pidKey k ∈ errKeys v1.Errors ↔ hasPidSource v k ∧ ¬ hasClientPidMap v k := by
  obtain ⟨-, cpms, hC, hK⟩ := Validate_keys L v v1 h
  rw [hK]
  unfold hasPidSource hasClientPidMap
  rw [← getPIDs_keys, ← getCpms_keys v cpms hC, ← lookup_int_eq_none_iff]
  constructor
  · rintro (⟨hk, -⟩ | ⟨n, p, e, -, -, hk⟩ | ⟨hk, -⟩ | ⟨hk, -⟩ | ⟨p, -, -, hk⟩ | ⟨n, hn, hl, hk⟩)
    · exact absurd hk (ne_of_lastChar _ _ (by rw [lastChar_pidKey]; decide))
    · exact absurd hk (ne_of_lastChar _ _ (by
        rw [lastChar_pidKey, lastChar_validation]; decide))
    · exact absurd hk (ne_of_lastChar _ _ (by rw [lastChar_pidKey]; decide))
    · exact absurd hk (ne_of_lastChar _ _ (by rw [lastChar_pidKey]; decide))
    · exact absurd hk (ne_of_lastChar _ _ (by
        rw [lastChar_pidKey, lastChar_cardinality]; decide))
    · have := pidKey_injective k n hk
      subst this
      exact ⟨hn, hl⟩
  · rintro ⟨hn, hl⟩
    exact Or.inr (Or.inr (Or.inr (Or.inr (Or.inr ⟨k, hn, hl, rfl⟩))))

/-- C17. After `Validate()`, for every integer k, the error mapping has the PID failure for
k exactly when k is read from the second of exactly two dot-separated components of some
`pid` parameter value and no `clientpidmap` property has a two-element value whose first
element reads as k. So a `pid` of `4.2` without a `clientpidmap` for 2 gives the failure for
2; `pid` values with one or with more than two components give no failure; and adding a
`clientpidmap` property `["2", y]` takes away the failure for 2 and no other. -/
theorem validate_pid_consistency (L : Deps) :
    (∀ (v v1 : VCard), v.Validate L = .done v1 →
        (∀ k : Int, pidKey k ∈ errKeys v1.Errors ↔ hasPidSource v k ∧ ¬ hasClientPidMap v k)
          ∧ (∀ p ∈ v.Properties, "4.2" ∈ mapGet p.obj.Parameters "pid" →
              ¬ hasClientPidMap v 2 → "Pid 2 has no ClientPIDMapping" ∈ errKeys v1.Errors)
          ∧ ((∀ p ∈ v.Properties, ∀ j ∈ mapGet p.obj.Parameters "pid",
                (Split j '.').length ≠ 2) → ∀ k : Int, pidKey k ∉ errKeys v1.Errors))
      ∧ (∀ (v w v1 w1 : VCard) (c : PropertyRef) (y : Any),
          w.Properties = v.Properties ++ [c] → c.obj.Name = "clientpidmap" →
          c.obj.Value = .arr [.str "2", y] → mapGet c.obj.Parameters "pid" = [] →
          v.Validate L = .done v1 → w.Validate L = .done w1 →
            ∀ k : Int, pidKey k ∈ errKeys w1.Errors ↔ (pidKey k ∈ errKeys v1.Errors ∧ k ≠ 2)) := by
  constructor
  · intro v v1 h
    refine ⟨pid_key_iff L v v1 h, ?_, ?_⟩
    · intro p hp h42 hno
      have : pidKey 2 ∈ errKeys v1.Errors :=
        (pid_key_iff L v v1 h 2).2 ⟨⟨p, hp, "4.2", h42, "4", "2", by decide, by decide⟩, hno⟩
      exact this
    · intro hall k hmem
      obtain ⟨⟨p, hp, j, hj, a, b, hs, -⟩, -⟩ := (pid_key_iff L v v1 h k).1 hmem
      exact hall p hp j hj (by rw [hs]; rfl)
  · intro v w v1 w1 c y hw hname hval hpid hv hwv k
    rw [pid_key_iff L w w1 hwv, pid_key_iff L v v1 hv]
    have hsrc : hasPidSource w k ↔ hasPidSource v k := by
      unfold hasPidSource
      rw [hw]
      constructor
      · rintro ⟨p, hp, j, hj, rest⟩
        rcases List.mem_append.1 hp with h1 | h1
        · exact ⟨p, h1, j, hj, rest⟩
        · simp only [List.mem_singleton] at h1
          subst h1
          rw [hpid] at hj
          simp at hj
      · rintro ⟨p, hp, rest⟩
        exact ⟨p, List.mem_append.2 (Or.inl hp), rest⟩
    have hcpm : hasClientPidMap w k ↔ hasClientPidMap v k ∨ k = 2 := by
      unfold hasClientPidMap
      rw [hw]
      constructor
      · rintro ⟨c1, hc1, hn1, x, y1, hv1, hx⟩
        rcases List.mem_append.1 hc1 with h1 | h1
        · exact Or.inl ⟨c1, h1, hn1, x, y1, hv1, hx⟩
        · simp only [List.mem_singleton] at h1
          subst h1
          rw [hval] at hv1
          simp only [Any.arr.injEq, List.cons.injEq, Any.str.injEq, and_true] at hv1
          rw [← hv1.1] at hx
          have h2 : Atoi "2" = some 2 := by decide
          rw [h2] at hx
          exact Or.inr (Option.some.inj hx).symm
      · rintro (⟨c1, hc1, rest⟩ | hk)
        · exact ⟨c1, List.mem_append.2 (Or.inl hc1), rest⟩
        · subst hk
          exact ⟨c, List.mem_append.2 (Or.inr (List.mem_singleton.2 rfl)), hname, "2", y,
            hval, by decide⟩
    rw [hsrc, hcpm]
    tauto

/-- C17 at a card with a `pid` of 4.2: without a `clientpidmap` the failure for 2 is recorded,
and adding the `clientpidmap` for 2 takes exactly that failure away. -/
theorem validate_pid_consistency_witness :
    (∃ v1 : VCard, pidCard.Validate testDeps = .done v1
        ∧ "Pid 2 has no ClientPIDMapping" ∈ errKeys v1.Errors)
      ∧ (∃ w1 : VCard, pidMappedCard.Validate testDeps = .done w1
        ∧ "Pid 2 has no ClientPIDMapping" ∉ errKeys w1.Errors) :=
  ⟨⟨_, rfl, ((validate_pid_consistency testDeps).1 pidCard _ rfl).2.1
      { addr := 1, obj := pidProperty } (by simp [pidCard]) (by decide) (by
        rintro ⟨c, hc, hn, -⟩
        simp only [pidCard, List.mem_cons, List.mem_singleton, List.not_mem_nil, or_false] at hc
        rcases hc with rfl | rfl
        · exact absurd hn (by decide)
        · exact absurd hn (by decide))⟩,
   ⟨_, rfl, fun hmem =>
      (((validate_pid_consistency testDeps).2 pidCard pidMappedCard _ _
        { addr := 2, obj := cpmProperty } (.str "urn:uuid:1") rfl rfl rfl rfl rfl rfl 2).1
          hmem).2 rfl⟩⟩

/-! ## Validation: frame and restart -/

/-- C18. `Validate()` does not change the properties of the card: afterwards the property
list is the one before, so it has the same length and order and every property has the same
name, parameters, declared type, value and descriptor, at the same address. Only the error
mapping differs. -/
theorem validate_keeps_properties (L : Deps) (v v1 : VCard) (h : v.Validate L = .done v1) :
    v1.Properties = v.Properties
      ∧ v1.Properties.length = v.Properties.length
      ∧ (∀ i : Nat, v1.Properties[i]? = v.Properties[i]?)
      ∧ v1 = { v with Errors := v1.Errors } := by
  have hP := (Validate_keys L v v1 h).1
  refine ⟨hP, by rw [hP], fun i => by rw [hP], ?_⟩
  cases v1
  cases v
  simp only at hP
  subst hP
  rfl

/-- C18 at the card `pidCard`. -/
theorem validate_keeps_properties_witness :
    ∃ v1 : VCard, pidCard.Validate testDeps = .done v1
      ∧ v1.Properties = pidCard.Properties ∧ v1.Errors ≠ pidCard.Errors :=
  ⟨_, rfl, (validate_keeps_properties testDeps pidCard _ rfl).1, by decide⟩

theorem Validate_congr (L : Deps) (v w : VCard) (h : v.Properties = w.Properties) :
    v.Validate L = w.Validate L := by
  cases v
  cases w
  simp only at h
  subst h
  rfl

/-! ## Telephone numbers: the text functions -/

theorem replaceAll_single (a : Char) (new : List Char) :
    ∀ cs : List Char,
      replaceAllFrom [a] new 0 cs = cs.flatMap (fun c => if c = a then new else [c])
  | [] => rfl
  | c :: rest => by
    rw [replaceAllFrom, replaceAll_single a new rest, List.flatMap_cons]
    by_cases h : c = a
    · subst h
      simp [List.isPrefixOf, replaceAll_single c new rest]
    · have hb : (a == c) = false := by simpa using fun h1 : a = c => h h1.symm
      simp [List.isPrefixOf, h, hb]

theorem replaceAll_single_of_not_mem (a : Char) (new cs : List Char) (h : ∀ c ∈ cs, c ≠ a) :
    ReplaceAll cs [a] new = cs := by
  unfold ReplaceAll
  rw [replaceAll_single]
  induction cs with
  | nil => rfl
  | cons c rest ih =>
    rw [List.flatMap_cons, ih (fun d hd => h d (List.mem_cons_of_mem _ hd)),
      if_neg (h c (List.mem_cons_self _ _))]
    rfl

theorem mem_replaceAll_single (a : Char) (new cs : List Char) (c : Char)
    (h : c ∈ ReplaceAll cs [a] new) : c ∈ new ∨ (c ∈ cs ∧ c ≠ a) := by
  unfold ReplaceAll at h
  rw [replaceAll_single, List.mem_flatMap] at h
  obtain ⟨d, hd, hc⟩ := h
  by_cases hda : d = a
  · rw [if_pos hda] at hc
    exact Or.inl hc
  · rw [if_neg hda, List.mem_singleton] at hc
    subst hc
    exact Or.inr ⟨hd, hda⟩

theorem replaceAllFrom_skip (old new : List Char) :
    ∀ (l cs : List Char), replaceAllFrom old new l.length (l ++ cs) = replaceAllFrom old new 0 cs
  | [], cs => rfl
  | _ :: l, cs => by
    rw [List.length_cons, List.cons_append, replaceAllFrom]
    exact replaceAllFrom_skip old new l cs

/-- An occurrence of `old` at the start is replaced, and the scan goes on behind it. -/
theorem replaceAll_leading (o : Char) (old new cs : List Char) :
    ReplaceAll ((o :: old) ++ cs) (o :: old) new = new ++ ReplaceAll cs (o :: old) new := by
  unfold ReplaceAll
  rw [List.cons_append, replaceAllFrom]
  have hp : (o :: old).isPrefixOf (o :: (old ++ cs)) = true := by
    rw [List.isPrefixOf_iff_prefix, ← List.cons_append]
    exact List.prefix_append _ _
  rw [if_pos hp]
  simp only [List.length_cons, Nat.add_sub_cancel]
  rw [replaceAllFrom_skip]

/-- A text without occurrence of `old` is left as it is. -/
theorem replaceAll_of_not_infix (old new : List Char) :
    ∀ cs : List Char, ¬ old <:+: cs → ReplaceAll cs old new = cs
  | [], _ => rfl
  | c :: rest, h => by
    unfold ReplaceAll
    rw [replaceAllFrom]
    have hp : ¬ (old.isPrefixOf (c :: rest) = true) := by
      rw [List.isPrefixOf_iff_prefix]
      exact fun hpre => h hpre.isInfix
    rw [if_neg hp]
    have ih := replaceAll_of_not_infix old new rest (fun hin => h (List.infix_cons hin))
    unfold ReplaceAll at ih
    rw [ih]

theorem mem_replaceFirst (old new : List Char) (c : Char) :
    ∀ cs : List Char, c ∈ replaceFirst old new cs → c ∈ new ∨ c ∈ cs
  | [], h => by simp [replaceFirst] at h
  | d :: rest, h => by
    rw [replaceFirst] at h
    split_ifs at h
    · rcases List.mem_append.1 h with h1 | h1
      · exact Or.inl h1
      · exact Or.inr (List.mem_of_mem_drop h1)
    · rcases List.mem_cons.1 h with h1 | h1
      · exact Or.inr (by rw [h1]; exact List.mem_cons_self _ _)
      · rcases mem_replaceFirst old new c rest h1 with h2 | h2
        · exact Or.inl h2
        · exact Or.inr (List.mem_cons_of_mem _ h2)

theorem splitFirst_spec (sep : Char) :
    ∀ cs : List Char,
      sep ∉ (splitFirst sep cs).1
        ∧ (∀ s1, (splitFirst sep cs).2 = some s1 → cs = (splitFirst sep cs).1 ++ sep :: s1)
        ∧ ((splitFirst sep cs).2 = none → cs = (splitFirst sep cs).1)
  | [] => by simp [splitFirst]
  | c :: rest => by
    obtain ⟨h1, h2, h3⟩ := splitFirst_spec sep rest
    rw [splitFirst]
    by_cases hc : c = sep
    · subst hc
      simp
    · simp only [hc, if_false, List.mem_cons, not_or, List.cons_append, List.cons.injEq,
        true_and]
      exact ⟨⟨fun h => hc h.symm, h1⟩, h2, h3⟩

theorem splitFirst_of_not_mem (sep : Char) :
    ∀ a : List Char, sep ∉ a →
      (∀ b, splitFirst sep (a ++ sep :: b) = (a, some b)) ∧ splitFirst sep a = (a, none)
  | [], _ => by simp [splitFirst]
  | c :: rest, h => by
    have hc : c ≠ sep := fun hc => h (by rw [hc]; exact List.mem_cons_self _ _)
    obtain ⟨ih1, ih2⟩ := splitFirst_of_not_mem sep rest (fun hm => h (List.mem_cons_of_mem _ hm))
    constructor
    · intro b
      rw [List.cons_append, splitFirst, if_neg hc, ih1 b]
    · rw [splitFirst, if_neg hc, ih2]

theorem fieldsFrom_of_no_space :
    ∀ (cs cur : List Char), (∀ c ∈ cs, isSpace c = false) →
      fieldsFrom cur cs = if (cur.reverse ++ cs).isEmpty then [] else [cur.reverse ++ cs]
  | [], cur, _ => by simp [fieldsFrom]
  | c :: rest, cur, h => by
    have hc : isSpace c = false := h c (List.mem_cons_self _ _)
    rw [fieldsFrom, hc]
    simp only [Bool.false_eq_true, if_false]
    rw [fieldsFrom_of_no_space rest (c :: cur) (fun d hd => h d (List.mem_cons_of_mem _ hd))]
    simp

theorem mem_fieldsFrom :
    ∀ (cs cur : List Char), (∀ c ∈ cur, isSpace c = false) →
      ∀ f ∈ fieldsFrom cur cs, ∀ c ∈ f, isSpace c = false ∧ (c ∈ cur ∨ c ∈ cs)
  | [], cur, hcur, f, hf, c, hc => by
    rw [fieldsFrom] at hf
    split_ifs at hf
    · simp at hf
    · simp only [List.mem_singleton] at hf
      subst hf
      have hm : c ∈ cur := List.mem_reverse.1 hc
      exact ⟨hcur c hm, Or.inl hm⟩
  | d :: rest, cur, hcur, f, hf, c, hc => by
    rw [fieldsFrom] at hf
    have hnil : ∀ x ∈ ([] : List Char), isSpace x = false := by simp
    split_ifs at hf with hd he
    · obtain ⟨h1, h2⟩ := mem_fieldsFrom rest [] hnil f hf c hc
      rcases h2 with h2 | h2
      · simp at h2
      · exact ⟨h1, Or.inr (List.mem_cons_of_mem _ h2)⟩
    · rcases List.mem_cons.1 hf with h0 | h0
      · subst h0
        have hm : c ∈ cur := List.mem_reverse.1 hc
        exact ⟨hcur c hm, Or.inl hm⟩
      · obtain ⟨h1, h2⟩ := mem_fieldsFrom rest [] hnil f h0 c hc
        rcases h2 with h2 | h2
        · simp at h2
        · exact ⟨h1, Or.inr (List.mem_cons_of_mem _ h2)⟩
    · have hcur1 : ∀ x ∈ d :: cur, isSpace x = false := by
        intro x hx
        rcases List.mem_cons.1 hx with h0 | h0
        · rw [h0]
          simpa using hd
        · exact hcur x h0
      obtain ⟨h1, h2⟩ := mem_fieldsFrom rest (d :: cur) hcur1 f hf c hc
      rcases h2 with h2 | h2
      · rcases List.mem_cons.1 h2 with h3 | h3
        · exact ⟨h1, Or.inr (by rw [h3]; exact List.mem_cons_self _ _)⟩
        · exact ⟨h1, Or.inl h3⟩
      · exact ⟨h1, Or.inr (List.mem_cons_of_mem _ h2)⟩

theorem mem_intercalate (sep : List Char) (c : Char) :
    ∀ fs : List (List Char), c ∈ sep.intercalate fs → c ∈ sep ∨ ∃ f ∈ fs, c ∈ f
  | [], h => by simp [List.intercalate] at h
  | [f], h => by
    simp only [List.intercalate, List.intersperse_single, List.flatten_cons, List.flatten_nil,
      List.append_nil] at h
    exact Or.inr ⟨f, List.mem_singleton.2 rfl, h⟩
  | f :: g :: rest, h => by
    simp only [List.intercalate, List.intersperse_cons₂, List.flatten_cons,
      List.mem_append] at h
    rcases h with h | h | h
    · exact Or.inr ⟨f, List.mem_cons_self _ _, h⟩
    · exact Or.inl h
    · have h1 : c ∈ sep.intercalate (g :: rest) := by
        simpa only [List.intercalate] using h
      rcases mem_intercalate sep c (g :: rest) h1 with h2 | ⟨x, hx, hcx⟩
      · exact Or.inl h2
      · exact Or.inr ⟨x, List.mem_cons_of_mem _ hx, hcx⟩

theorem mem_hyphenate (s0 : List Char) (c : Char) (h : c ∈ hyphenate s0) :
    isSpace c = false ∧ (c = '-' ∨ c ∈ s0) := by
  unfold hyphenate at h
  rcases mem_replaceAll_single ' ' ['-'] _ c h with h1 | ⟨h1, h2⟩
  · simp only [List.mem_singleton] at h1
    subst h1
    exact ⟨by decide, Or.inl rfl⟩
  · rcases mem_intercalate [' '] c _ h1 with h3 | ⟨f, hf, hcf⟩
    · simp only [List.mem_singleton] at h3
      exact absurd h3 h2
    · obtain ⟨h4, h5⟩ := mem_fieldsFrom s0 [] (by simp) f hf c hcf
      rcases h5 with h5 | h5
      · simp at h5
      · exact ⟨h4, Or.inr h5⟩

theorem hyphenate_of_no_space (t : List Char) (h : ∀ c ∈ t, isSpace c = false) :
    hyphenate t = t := by
  have hsp : ∀ c ∈ t, c ≠ ' ' := by
    intro c hc hcs
    have := h c hc
    rw [hcs] at this
    revert this
    decide
  unfold hyphenate Fields
  rw [fieldsFrom_of_no_space t [] h]
  cases t with
  | nil => rfl
  | cons c rest =>
    simp only [List.reverse_nil, List.nil_append, List.isEmpty_cons, Bool.false_eq_true,
      if_false, List.intercalate, List.intersperse_single, List.flatten_cons, List.flatten_nil,
      List.append_nil]
    exact replaceAll_single_of_not_mem ' ' ['-'] _ hsp

theorem TrimSpace_id (cs : List Char) (hhead : ∀ c, cs.head? = some c → isSpace c = false)
    (hlast : ∀ c, cs.getLast? = some c → isSpace c = false) : TrimSpace cs = cs := by
  unfold TrimSpace
  have h1 : cs.dropWhile isSpace = cs := by
    cases cs with
    | nil => rfl
    | cons c rest =>
      rw [List.dropWhile_cons, hhead c rfl]
      simp
  rw [h1]
  have h2 : cs.reverse.dropWhile isSpace = cs.reverse := by
    cases hr : cs.reverse with
    | nil => rfl
    | cons c rest =>
      have hc : cs.getLast? = some c := by
        rw [← List.head?_reverse, hr]
        rfl
      rw [List.dropWhile_cons, hlast c hc]
      simp
  rw [h2, List.reverse_reverse]

/-- A normalized global number is a fixed point when it has no further `tel:` and does not
begin with two zeros. -/
theorem normalizeTel_fixed_global (t : List Char) (hns : ∀ c ∈ t, isSpace c = false)
    (hsemi : ';' ∉ t) (htel : ¬ ['t', 'e', 'l', ':'] <:+: t) (h00 : t.take 2 ≠ ['0', '0']) :
    normalizeTel (String.mk (['t', 'e', 'l', ':'] ++ t)) = String.mk (['t', 'e', 'l', ':'] ++ t) := by
  have htrim : TrimSpace (['t', 'e', 'l', ':'] ++ t) = ['t', 'e', 'l', ':'] ++ t := by
    refine TrimSpace_id _ ?_ ?_
    · intro c hc
      simp only [List.cons_append, List.head?_cons, Option.some.injEq] at hc
      subst hc
      decide
    · intro c hc
      have hm : c ∈ ['t', 'e', 'l', ':'] ++ t := List.mem_of_getLast?_eq_some hc
      rcases List.mem_append.1 hm with h1 | h1
      · simp only [List.mem_cons, List.mem_singleton, List.not_mem_nil, or_false] at h1
        rcases h1 with h1 | h1 | h1 | h1 <;> subst h1 <;> decide
      · exact hns c h1
  unfold normalizeTel
  simp only [htrim]
  rw [replaceAll_leading 't' ['e', 'l', ':'] [] t, replaceAll_of_not_infix _ _ t htel,
    List.nil_append, (splitFirst_of_not_mem ';' t hsemi).2]
  simp only
  rw [if_neg h00, hyphenate_of_no_space t hns]

/-- A normalized local number is a fixed point when it has no further `tel:` and trimming
leaves it as it is. -/
theorem normalizeTel_fixed_local (a b : List Char) (hns : ∀ c ∈ a, isSpace c = false)
    (hsemi : ';' ∉ a) (hb : ∀ c ∈ b, c ≠ ' ')
    (htrim : TrimSpace (['t', 'e', 'l', ':'] ++ (a ++ ';' :: b))
      = ['t', 'e', 'l', ':'] ++ (a ++ ';' :: b))
    (htel : ¬ ['t', 'e', 'l', ':'] <:+: (a ++ ';' :: b)) :
    normalizeTel (String.mk (['t', 'e', 'l', ':'] ++ (a ++ ';' :: b)))
      = String.mk (['t', 'e', 'l', ':'] ++ (a ++ ';' :: b)) := by
  unfold normalizeTel
  simp only [htrim]
  rw [replaceAll_leading 't' ['e', 'l', ':'] [] (a ++ ';' :: b),
    replaceAll_of_not_infix _ _ _ htel, List.nil_append,
    (splitFirst_of_not_mem ';' a hsemi).1 b]
  simp only
  rw [hyphenate_of_no_space a hns, replaceAll_single_of_not_mem ' ' [] b hb]

/-- The two shapes of a normalized number: global (no semicolon) or local. -/
theorem normalizeTel_shape (s : String) :
    (∃ t : List Char, (∀ c ∈ t, isSpace c = false) ∧ ';' ∉ t
        ∧ normalizeTel s = String.mk (['t', 'e', 'l', ':'] ++ t))
      ∨ (∃ a b : List Char, (∀ c ∈ a, isSpace c = false) ∧ ';' ∉ a ∧ (∀ c ∈ b, c ≠ ' ')
        ∧ normalizeTel s = String.mk (['t', 'e', 'l', ':'] ++ (a ++ ';' :: b))) := by
  unfold normalizeTel
  have hspec := splitFirst_spec ';' (ReplaceAll (TrimSpace s.data) ['t', 'e', 'l', ':'] [])
  rcases hsp : splitFirst ';' (ReplaceAll (TrimSpace s.data) ['t', 'e', 'l', ':'] [])
    with ⟨s0, _ | s1⟩
  · rw [hsp] at hspec
    have hs0 : ';' ∉ s0 := hspec.1
    have hglobal : ∀ u : List Char, ';' ∉ u →
        (∀ c ∈ hyphenate u, isSpace c = false) ∧ ';' ∉ hyphenate u := by
      intro u hu
      refine ⟨fun c hc => (mem_hyphenate u c hc).1, fun hc => ?_⟩
      rcases (mem_hyphenate u ';' hc).2 with h1 | h1
      · exact absurd h1 (by decide)
      · exact hu h1
    left
    simp only
    split_ifs
    · have hu : ';' ∉ replaceFirst ['(', '0', ')'] [] (replaceFirst ['0', '0'] ['+'] s0) := by
        intro hm
        rcases mem_replaceFirst _ _ _ _ hm with h1 | h1
        · simp at h1
        · rcases mem_replaceFirst _ _ _ _ h1 with h2 | h2
          · exact absurd h2 (by decide)
          · exact hs0 h2
      exact ⟨_, (hglobal _ hu).1, (hglobal _ hu).2, rfl⟩
    · exact ⟨_, (hglobal _ hs0).1, (hglobal _ hs0).2, rfl⟩
  · rw [hsp] at hspec
    have hs0 : ';' ∉ s0 := hspec.1
    right
    simp only
    refine ⟨hyphenate s0, ReplaceAll s1 [' '] [], fun c hc => (mem_hyphenate s0 c hc).1, ?_, ?_,
      rfl⟩
    · intro hc
      rcases (mem_hyphenate s0 ';' hc).2 with h1 | h1
      · exact absurd h1 (by decide)
      · exact hs0 h1
    · intro c hc
      rcases mem_replaceAll_single ' ' [] s1 c hc with h1 | h1
      · simp at h1
      · exact h1.2

/-! ## C20: normalizing a telephone number twice -/

/-- C20 (as stated, refuted): `tel: 0049 1754 4432` normalizes to `tel:0049-1754-4432`,
because the number is tested for its two leading zeros before the white space that followed
`tel:` is taken away, and normalizing that result once more gives `tel:+49-1754-4432`. -/
theorem normalizeTel_not_idempotent :
    normalizeTel "tel: 0049 1754 4432" = "tel:0049-1754-4432"
      ∧ normalizeTel "tel:0049-1754-4432" = "tel:+49-1754-4432"
      ∧ normalizeTel (normalizeTel "tel: 0049 1754 4432") ≠ normalizeTel "tel: 0049 1754 4432" := by
  decide

/-- C20 (amended): normalizing a second time changes nothing whenever the first result is
left as it is by trimming, holds no `tel:` after its leading `tel:`, and, if it has no
semicolon, does not go on with two zeros after the leading `tel:`. -/
theorem normalizeTel_idempotent_of_stable (s : String)
    (htrim : TrimSpace (normalizeTel s).data = (normalizeTel s).data)
    (htel : ¬ ['t', 'e', 'l', ':'] <:+: (normalizeTel s).data.drop 4)
    (h00 : ';' ∉ (normalizeTel s).data → ((normalizeTel s).data.drop 4).take 2 ≠ ['0', '0']) :
    normalizeTel (normalizeTel s) = normalizeTel s := by
  rcases normalizeTel_shape s with ⟨t, h1, h2, heq⟩ | ⟨a, b, h1, h2, h3, heq⟩
  · rw [heq] at htel h00 ⊢
    have hd : (['t', 'e', 'l', ':'] ++ t).drop 4 = t := rfl
    simp only [hd] at htel h00
    refine normalizeTel_fixed_global t h1 h2 htel (h00 ?_)
    intro hm
    rcases List.mem_append.1 hm with h | h
    · exact absurd h (by decide)
    · exact h2 h
  · rw [heq] at htrim htel ⊢
    have hd : (['t', 'e', 'l', ':'] ++ (a ++ ';' :: b)).drop 4 = a ++ ';' :: b := rfl
    simp only [hd] at htel
    exact normalizeTel_fixed_local a b h1 h2 h3 htrim htel

/-- C20 (amended), at the number `0049 1754 4432` of the test table: its normal form is
`tel:+49-1754-4432`, which normalizing returns unchanged. -/
theorem normalizeTel_idempotent_of_stable_witness :
    normalizeTel "0049 1754 4432" = "tel:+49-1754-4432"
      ∧ normalizeTel "tel:+49-1754-4432" = "tel:+49-1754-4432"
      ∧ normalizeTel (normalizeTel "0049 1754 4432") = normalizeTel "0049 1754 4432" :=
  ⟨by decide, by decide, normalizeTel_idempotent_of_stable "0049 1754 4432" (by decide)
    (by decide) (by decide)⟩

/-! ## Regular expressions -/

theorem inClass_single (a c : Char) : inClass [(a, a)] c = true ↔ c = a := by
  simp only [inClass, List.any_cons, List.any_nil, Bool.or_false, Bool.and_eq_true,
    decide_eq_true_eq]
  constructor
  · rintro ⟨h1, h2⟩
    exact le_antisymm h2 h1
  · rintro rfl
    exact ⟨le_refl _, le_refl _⟩

theorem mem_step_eps (st : Bool) (s s2 : List Char) :
    s2 ∈ Regex.eps.step st s ↔ s2 = s := by
  simp [Regex.step]

theorem mem_step_cls (R : List (Char × Char)) (st : Bool) (s s2 : List Char) :
    s2 ∈ (Regex.cls R).step st s ↔ ∃ c, s = c :: s2 ∧ inClass R c = true := by
  cases s with
  | nil => simp [Regex.step]
  | cons c rest =>
    simp only [Regex.step]
    split_ifs with h
    · simp only [List.mem_singleton, List.cons.injEq]
      constructor
      · rintro rfl
        exact ⟨c, ⟨rfl, rfl⟩, h⟩
      · rintro ⟨d, ⟨rfl, rfl⟩, _⟩
        rfl
    · simp only [List.not_mem_nil, List.cons.injEq, false_iff, not_exists, not_and]
      rintro d ⟨rfl, _⟩
      exact h

theorem mem_step_dot (st : Bool) (s s2 : List Char) :
    s2 ∈ Regex.dot.step st s ↔ ∃ c, s = c :: s2 ∧ c ≠ '\n' := by
  cases s with
  | nil => simp [Regex.step]
  | cons c rest =>
    simp only [Regex.step]
    split_ifs with h
    · simp only [List.mem_singleton, List.cons.injEq]
      constructor
      · rintro rfl
        exact ⟨c, ⟨rfl, rfl⟩, h⟩
      · rintro ⟨d, ⟨rfl, rfl⟩, _⟩
        rfl
    · simp only [List.not_mem_nil, List.cons.injEq, false_iff, not_exists, not_and]
      rintro d ⟨rfl, _⟩
      exact h

theorem mem_step_cat (a b : Regex) (st : Bool) (s s2 : List Char) :
    s2 ∈ (Regex.cat a b).step st s
      ↔ ∃ s1, s1 ∈ a.step st s ∧ s2 ∈ b.step (st && decide (s1.length = s.length)) s1 := by
  simp [Regex.step, List.mem_flatMap]

theorem mem_step_alt (a b : Regex) (st : Bool) (s s2 : List Char) :
    s2 ∈ (Regex.alt a b).step st s ↔ s2 ∈ a.step st s ∨ s2 ∈ b.step st s := by
  simp [Regex.step]

theorem mem_step_bot (st : Bool) (s s2 : List Char) :
    s2 ∈ Regex.bot.step st s ↔ st = true ∧ s2 = s := by
  cases st <;> simp [Regex.step]

theorem mem_step_eot (st : Bool) (s s2 : List Char) :
    s2 ∈ Regex.eot.step st s ↔ s = [] ∧ s2 = [] := by
  cases s <;> simp [Regex.step]

theorem mem_step_opt (a : Regex) (st : Bool) (s s2 : List Char) :
    s2 ∈ (Regex.opt a).step st s ↔ s2 ∈ a.step st s ∨ s2 = s := by
  simp [Regex.opt, mem_step_alt, mem_step_eps]

theorem mem_step_litChars (w : List Char) : ∀ (st : Bool) (s s2 : List Char),
    s2 ∈ (Regex.seq (w.map (fun c => Regex.cls [(c, c)]))).step st s ↔ s = w ++ s2 := by
  induction w with
  | nil =>
    intro st s s2
    simp only [List.map_nil, Regex.seq, mem_step_eps, List.nil_append]
    exact eq_comm
  | cons c rest ih =>
    intro st s s2
    cases rest with
    | nil =>
      simp only [List.map_cons, List.map_nil, Regex.seq, mem_step_cls, inClass_single,
        List.singleton_append]
      constructor
      · rintro ⟨d, rfl, rfl⟩
        rfl
      · rintro rfl
        exact ⟨c, rfl, rfl⟩
    | cons c2 rest2 =>
      simp only [List.map_cons, Regex.seq, mem_step_cat, mem_step_cls, inClass_single]
      simp only [List.map_cons] at ih
      constructor
      · rintro ⟨s1, ⟨d, rfl, rfl⟩, h2⟩
        rw [(ih _ _ _).1 h2]
        rfl
      · rintro rfl
        exact ⟨c2 :: rest2 ++ s2, ⟨c, rfl, rfl⟩, (ih _ _ _).2 rfl⟩

theorem mem_step_lit (w : String) (st : Bool) (s s2 : List Char) :
    s2 ∈ (Regex.lit w).step st s ↔ s = w.data ++ s2 :=
  mem_step_litChars w.data st s s2

theorem mem_starStep_cls (R : List (Char × Char)) : ∀ (n : Nat) (st : Bool) (s s2 : List Char),
    s.length ≤ n →
      (s2 ∈ starStep (fun st1 t => (Regex.cls R).step st1 t) n st s
        ↔ ∃ pre, s = pre ++ s2 ∧ ∀ c ∈ pre, inClass R c = true) := by
  intro n
  induction n with
  | zero =>
    intro st s s2 hn
    have hs : s = [] := List.length_eq_zero.1 (Nat.le_zero.1 hn)
    subst hs
    simp only [starStep, List.mem_singleton]
    constructor
    · rintro rfl
      exact ⟨[], rfl, by simp⟩
    · rintro ⟨pre, h, _⟩
      exact (List.append_eq_nil.1 h.symm).2
  | succ n ih =>
    intro st s s2 hn
    simp only [starStep, List.mem_cons, List.mem_flatMap, List.mem_filter, decide_eq_true_eq,
      mem_step_cls]
    constructor
    · rintro (rfl | ⟨s1, ⟨⟨c, rfl, hc⟩, _⟩, h2⟩)
      · exact ⟨[], rfl, by simp⟩
      · have hlen : s1.length ≤ n := by
          simp only [List.length_cons] at hn
          omega
        obtain ⟨pre, rfl, hpre⟩ := (ih false s1 s2 hlen).1 h2
        refine ⟨c :: pre, rfl, ?_⟩
        intro d hd
        rcases List.mem_cons.1 hd with rfl | hd
        · exact hc
        · exact hpre d hd
    · rintro ⟨pre, rfl, hpre⟩
      cases pre with
      | nil => exact Or.inl rfl
      | cons c pre =>
        right
        refine ⟨pre ++ s2, ⟨⟨c, rfl, hpre c (List.mem_cons_self _ _)⟩, by simp⟩, ?_⟩
        have hlen : (pre ++ s2).length ≤ n := by
          simp only [List.cons_append, List.length_cons] at hn
          omega
        exact (ih false _ s2 hlen).2 ⟨pre, rfl, fun d hd => hpre d (List.mem_cons_of_mem _ hd)⟩

theorem mem_step_star_cls (R : List (Char × Char)) (st : Bool) (s s2 : List Char) :
    s2 ∈ (Regex.star (.cls R)).step st s
      ↔ ∃ pre, s = pre ++ s2 ∧ ∀ c ∈ pre, inClass R c = true := by
  simp only [Regex.step]
  exact mem_starStep_cls R s.length st s s2 (le_refl _)

theorem mem_step_plus_cls (R : List (Char × Char)) (st : Bool) (s s2 : List Char) :
    s2 ∈ (Regex.plus (.cls R)).step st s
      ↔ ∃ pre, pre ≠ [] ∧ s = pre ++ s2 ∧ ∀ c ∈ pre, inClass R c = true := by
  simp only [Regex.plus, mem_step_cat, mem_step_cls, mem_step_star_cls]
  constructor
  · rintro ⟨s1, ⟨c, rfl, hc⟩, pre, rfl, hpre⟩
    refine ⟨c :: pre, by simp, rfl, ?_⟩
    intro d hd
    rcases List.mem_cons.1 hd with rfl | hd
    · exact hc
    · exact hpre d hd
  · rintro ⟨pre, hne, rfl, hpre⟩
    cases pre with
    | nil => exact absurd rfl hne
    | cons c pre =>
      exact ⟨pre ++ s2, ⟨c, rfl, hpre c (List.mem_cons_self _ _)⟩, pre, rfl,
        fun d hd => hpre d (List.mem_cons_of_mem _ hd)⟩

theorem starStep_suffix (step : Bool → List Char → List (List Char))
    (h : ∀ st s s2, s2 ∈ step st s → s2 <:+ s) :
    ∀ (n : Nat) (st : Bool) (s s2 : List Char), s2 ∈ starStep step n st s → s2 <:+ s := by
  intro n
  induction n with
  | zero =>
    intro st s s2 hm
    simp only [starStep, List.mem_singleton] at hm
    subst hm
    exact List.suffix_refl _
  | succ n ih =>
    intro st s s2 hm
    simp only [starStep, List.mem_cons, List.mem_flatMap, List.mem_filter] at hm
    rcases hm with rfl | ⟨s1, ⟨h1, _⟩, h2⟩
    · exact List.suffix_refl _
    · exact (ih false s1 s2 h2).trans (h st s s1 h1)

/-- What a pattern leaves is an end piece of the text it was matched on. -/
theorem step_suffix : ∀ (r : Regex) (st : Bool) (s s2 : List Char), s2 ∈ r.step st s → s2 <:+ s
  | .eps, st, s, s2, h => by
    rw [(mem_step_eps st s s2).1 h]
  | .cls R, st, s, s2, h => by
    obtain ⟨c, rfl, _⟩ := (mem_step_cls R st s s2).1 h
    exact List.suffix_cons _ _
  | .dot, st, s, s2, h => by
    obtain ⟨c, rfl, _⟩ := (mem_step_dot st s s2).1 h
    exact List.suffix_cons _ _
  | .cat a b, st, s, s2, h => by
    obtain ⟨s1, h1, h2⟩ := (mem_step_cat a b st s s2).1 h
    exact (step_suffix b _ s1 s2 h2).trans (step_suffix a st s s1 h1)
  | .alt a b, st, s, s2, h => by
    rcases (mem_step_alt a b st s s2).1 h with h1 | h1
    · exact step_suffix a st s s2 h1
    · exact step_suffix b st s s2 h1
  | .star a, st, s, s2, h => by
    simp only [Regex.step] at h
    exact starStep_suffix _ (fun st1 t t2 ht => step_suffix a st1 t t2 ht) _ st s s2 h
  | .bot, st, s, s2, h => by
    rw [((mem_step_bot st s s2).1 h).2]
  | .eot, st, s, s2, h => by
    obtain ⟨rfl, rfl⟩ := (mem_step_eot st s s2).1 h
    exact List.suffix_refl _

/-- The search finds a match exactly when the pattern matches at the front of some end piece
of the text. -/
theorem matchFrom_iff (r : Regex) : ∀ (st : Bool) (s : List Char),
    matchFrom r st s = true
      ↔ ∃ pre suf s2, s = pre ++ suf ∧ s2 ∈ r.step (st && pre.isEmpty) suf := by
  intro st s
  induction s generalizing st with
  | nil =>
    simp only [matchFrom, Bool.not_eq_true', List.isEmpty_eq_false]
    constructor
    · intro h
      obtain ⟨s2, h2⟩ := List.exists_mem_of_ne_nil _ h
      exact ⟨[], [], s2, rfl, by simpa using h2⟩
    · rintro ⟨pre, suf, s2, h, h2⟩
      obtain ⟨rfl, rfl⟩ := List.append_eq_nil.1 h.symm
      simp only [List.isEmpty_nil, Bool.and_true] at h2
      exact List.ne_nil_of_mem h2
  | cons c rest ih =>
    simp only [matchFrom, Bool.or_eq_true, Bool.not_eq_true', List.isEmpty_eq_false, ih]
    constructor
    · rintro (h | ⟨pre, suf, s2, rfl, h2⟩)
      · obtain ⟨s2, h2⟩ := List.exists_mem_of_ne_nil _ h
        exact ⟨[], c :: rest, s2, rfl, by simpa using h2⟩
      · exact ⟨c :: pre, suf, s2, rfl, by simpa using h2⟩
    · rintro ⟨pre, suf, s2, h, h2⟩
      cases pre with
      | nil =>
        left
        simp only [List.nil_append] at h
        subst h
        simp only [List.isEmpty_nil, Bool.and_true] at h2
        exact List.ne_nil_of_mem h2
      | cons d pre =>
        right
        simp only [List.cons_append, List.cons.injEq] at h
        obtain ⟨rfl, rfl⟩ := h
        exact ⟨pre, suf, s2, rfl, by simpa using h2⟩

/-- A pattern that begins with `^` is matched at the front of the whole text only. -/
theorem MatchString_bot (r : Regex) (s : String) :
    (Regex.cat .bot r).MatchString s = true ↔ ∃ s2, s2 ∈ r.step true s.data := by
  simp only [Regex.MatchString, matchFrom_iff, mem_step_cat, mem_step_bot, Bool.and_eq_true,
    Bool.true_and, List.isEmpty_iff]
  constructor
  · rintro ⟨pre, suf, s2, h, s1, ⟨rfl, rfl⟩, h2⟩
    simp only [List.nil_append] at h
    rw [h]
    exact ⟨s2, by simpa using h2⟩
  · rintro ⟨s2, h2⟩
    exact ⟨[], s.data, s2, rfl, s.data, ⟨rfl, rfl⟩, by simpa using h2⟩

/-! ## C21: the trunk code `(0)` -/

theorem mem_replaceAllFrom (old new : List Char) (c : Char) :
    ∀ (cs : List Char) (skip : Nat), c ∈ replaceAllFrom old new skip cs → c ∈ new ∨ c ∈ cs
  | [], skip, h => by
    cases skip <;> simp [replaceAllFrom] at h
  | d :: rest, skip + 1, h => by
    rw [replaceAllFrom] at h
    rcases mem_replaceAllFrom old new c rest skip h with h1 | h1
    · exact Or.inl h1
    · exact Or.inr (List.mem_cons_of_mem _ h1)
  | d :: rest, 0, h => by
    rw [replaceAllFrom] at h
    split_ifs at h
    · rcases List.mem_append.1 h with h1 | h1
      · exact Or.inl h1
      · rcases mem_replaceAllFrom old new c rest _ h1 with h2 | h2
        · exact Or.inl h2
        · exact Or.inr (List.mem_cons_of_mem _ h2)
    · rcases List.mem_cons.1 h with h1 | h1
      · exact Or.inr (by rw [h1]; exact List.mem_cons_self _ _)
      · rcases mem_replaceAllFrom old new c rest _ h1 with h2 | h2
        · exact Or.inl h2
        · exact Or.inr (List.mem_cons_of_mem _ h2)

theorem mem_TrimSpace (c : Char) (cs : List Char) (h : c ∈ TrimSpace cs) : c ∈ cs := by
  unfold TrimSpace at h
  have h1 : c ∈ (cs.dropWhile isSpace).reverse :=
    (List.dropWhile_sublist isSpace).subset (List.mem_reverse.1 h)
  exact (List.dropWhile_sublist isSpace).subset (List.mem_reverse.1 h1)

theorem replaceAllFrom_append_of_disjoint (old new : List Char) (hold : old ≠ []) :
    ∀ (w t : List Char), (∀ c ∈ w, c ∉ old) →
      replaceAllFrom old new 0 (w ++ t) = w ++ replaceAllFrom old new 0 t
  | [], t, _ => rfl
  | c :: w, t, hw => by
    rw [List.cons_append, replaceAllFrom]
    have hp : ¬ (old.isPrefixOf (c :: (w ++ t)) = true) := by
      rw [List.isPrefixOf_iff_prefix]
      intro hpre
      cases old with
      | nil => exact hold rfl
      | cons o old1 =>
        rw [List.cons_prefix_cons] at hpre
        exact hw c (List.mem_cons_self _ _) (by rw [hpre.1]; exact List.mem_cons_self _ _)
    rw [if_neg hp,
      replaceAllFrom_append_of_disjoint old new hold w t (fun d hd => hw d (List.mem_cons_of_mem _ hd))]
    rfl

theorem not_prefix_of_head_mem (old w : List Char) (hw : ∀ c ∈ w, c ∉ old) (hne : w ≠ [])
    (c : Char) (rest : List Char) (hc : c ∈ old) : ¬ w <+: c :: rest := by
  intro hpre
  cases w with
  | nil => exact hne rfl
  | cons d w1 =>
    rw [List.cons_prefix_cons] at hpre
    exact hw d (List.mem_cons_self _ _) (by rw [hpre.1]; exact hc)

/-- A word none of whose characters is in `old` stays where it is when every `old` is
replaced. -/
theorem infix_replaceAllFrom (old new w : List Char) (hold : old ≠ []) (hw : ∀ c ∈ w, c ∉ old)
    (hne : w ≠ []) :
    ∀ (s : List Char) (skip : Nat), (∀ c ∈ s.take skip, c ∈ old) → w <:+: s →
      w <:+: replaceAllFrom old new skip s
  | [], _, _, hinf => by
    exact absurd (List.eq_nil_of_infix_nil hinf) hne
  | c :: rest, skip + 1, htake, hinf => by
    have hc : c ∈ old := htake c (by simp)
    rw [replaceAllFrom]
    rcases List.infix_cons_iff.1 hinf with hpre | hrest
    · exact absurd hpre (not_prefix_of_head_mem old w hw hne c rest hc)
    · exact infix_replaceAllFrom old new w hold hw hne rest skip
        (fun d hd => htake d (by simp [hd])) hrest
  | c :: rest, 0, _, hinf => by
    by_cases hp : old.isPrefixOf (c :: rest) = true
    · rw [replaceAllFrom, if_pos hp]
      rw [List.isPrefixOf_iff_prefix] at hp
      cases old with
      | nil => exact absurd rfl hold
      | cons o old1 =>
        rw [List.cons_prefix_cons] at hp
        obtain ⟨rfl, hp1⟩ := hp
        rcases List.infix_cons_iff.1 hinf with hpre | hrest
        · exact absurd hpre
            (not_prefix_of_head_mem (o :: old1) w hw hne o rest (List.mem_cons_self _ _))
        · have := infix_replaceAllFrom (o :: old1) new w hold hw hne rest
            ((o :: old1).length - 1) (by
              intro d hd
              simp only [List.length_cons, Nat.add_sub_cancel] at hd
              rw [← List.prefix_iff_eq_take.1 hp1] at hd
              exact List.mem_cons_of_mem _ hd) hrest
          exact this.trans (List.suffix_append _ _).isInfix
    · rcases List.infix_cons_iff.1 hinf with hpre | hrest
      · obtain ⟨t, ht⟩ := hpre
        rw [← ht, replaceAllFrom_append_of_disjoint old new hold w t hw]
        exact (List.prefix_append _ _).isInfix
      · rw [replaceAllFrom, if_neg hp]
        exact List.infix_cons
          (infix_replaceAllFrom old new w hold hw hne rest 0 (by simp) hrest)

theorem infix_dropWhile_isSpace (w : List Char) (hw : ∀ c ∈ w, isSpace c = false)
    (hne : w ≠ []) : ∀ s : List Char, w <:+: s → w <:+: s.dropWhile isSpace
  | [], h => h
  | c :: rest, h => by
    rw [List.dropWhile_cons]
    split_ifs with hc
    · rcases List.infix_cons_iff.1 h with hpre | hrest
      · cases w with
        | nil => exact absurd rfl hne
        | cons d w1 =>
          rw [List.cons_prefix_cons] at hpre
          have := hw d (List.mem_cons_self _ _)
          rw [hpre.1, hc] at this
          exact absurd this (by decide)
      · exact infix_dropWhile_isSpace w hw hne rest hrest
    · exact h

theorem infix_TrimSpace (w : List Char) (hw : ∀ c ∈ w, isSpace c = false) (hne : w ≠ [])
    (s : List Char) (h : w <:+: s) : w <:+: TrimSpace s := by
  unfold TrimSpace
  have h1 := infix_dropWhile_isSpace w hw hne s h
  have h2 := infix_dropWhile_isSpace w.reverse (fun c hc => hw c (List.mem_reverse.1 hc))
    (fun hr => hne (List.reverse_eq_nil_iff.1 hr)) _ (List.reverse_infix.2 h1)
  rw [← List.reverse_infix] at h2
  rw [List.reverse_reverse] at h2
  exact h2

theorem prefix_of_prefix_append_cons (w a b : List Char) (c : Char) (hc : c ∉ w)
    (h : w <+: a ++ c :: b) : w <+: a := by
  by_cases hlen : w.length ≤ a.length
  · exact List.prefix_of_prefix_length_le h (List.prefix_append _ _) hlen
  · have h1 : a ++ [c] <+: w := by
      refine List.prefix_of_prefix_length_le ?_ h ?_
      · exact ⟨b, by simp⟩
      · simp only [List.length_append, List.length_singleton]
        omega
    exact absurd (h1.subset (by simp)) hc

theorem infix_of_infix_append_cons (w : List Char) (c : Char) (hc : c ∉ w) (b : List Char) :
    ∀ a : List Char, w <:+: a ++ c :: b → w <:+: a ∨ w <:+: b
  | [], h => by
    rcases List.infix_cons_iff.1 h with hpre | hrest
    · exact Or.inl (prefix_of_prefix_append_cons w [] b c hc hpre).isInfix
    · exact Or.inr hrest
  | x :: a, h => by
    rw [List.cons_append] at h
    rcases List.infix_cons_iff.1 h with hpre | hrest
    · exact Or.inl (prefix_of_prefix_append_cons w (x :: a) b c hc hpre).isInfix
    · rcases infix_of_infix_append_cons w c hc b a hrest with h1 | h1
      · exact Or.inl (List.infix_cons h1)
      · exact Or.inr h1

/-- A word without white space that occurs in a text occurs in one of its fields. -/
theorem infix_fieldsFrom (w : List Char) (hw : ∀ c ∈ w, isSpace c = false) (hne : w ≠ []) :
    ∀ (cs cur : List Char), w <:+: cur.reverse ++ cs → ∃ f ∈ fieldsFrom cur cs, w <:+: f
  | [], cur, h => by
    rw [List.append_nil] at h
    have hcur : cur.isEmpty = false := by
      cases cur with
      | nil => exact absurd (List.eq_nil_of_infix_nil h) hne
      | cons _ _ => rfl
    rw [fieldsFrom, hcur]
    exact ⟨cur.reverse, by simp, h⟩
  | c :: rest, cur, h => by
    rw [fieldsFrom]
    by_cases hc : isSpace c = true
    · rw [if_pos hc]
      have hcw : c ∉ w := by
        intro hm
        have := hw c hm
        rw [hc] at this
        exact absurd this (by decide)
      rcases infix_of_infix_append_cons w c hcw rest cur.reverse h with h1 | h1
      · have hcur : cur.isEmpty = false := by
          cases cur with
          | nil => exact absurd (List.eq_nil_of_infix_nil h1) hne
          | cons _ _ => rfl
        rw [hcur]
        exact ⟨cur.reverse, by simp, h1⟩
      · obtain ⟨f, hf, hwf⟩ := infix_fieldsFrom w hw hne rest [] (by simpa using h1)
        refine ⟨f, ?_, hwf⟩
        split_ifs
        · exact hf
        · exact List.mem_cons_of_mem _ hf
    · rw [if_neg hc]
      exact infix_fieldsFrom w hw hne rest (c :: cur) (by simpa using h)

theorem infix_intercalate (sep f : List Char) :
    ∀ fs : List (List Char), f ∈ fs → f <:+: sep.intercalate fs
  | [], h => by simp at h
  | [g], h => by
    simp only [List.mem_singleton] at h
    subst h
    simp only [List.intercalate, List.intersperse_single, List.flatten_cons, List.flatten_nil,
      List.append_nil]
    exact List.infix_refl _
  | g :: g2 :: rest, h => by
    have hrec := infix_intercalate sep f (g2 :: rest)
    simp only [List.intercalate, List.intersperse_cons₂, List.flatten_cons] at hrec ⊢
    rcases List.mem_cons.1 h with h1 | h1
    · subst h1
      exact (List.prefix_append _ _).isInfix
    · exact (hrec h1).trans ((List.suffix_append _ _).trans (List.suffix_append _ _)).isInfix

/-- A word without white space that occurs in a text still occurs after `hyphenate`. -/
theorem infix_hyphenate (w : List Char) (hw : ∀ c ∈ w, isSpace c = false) (hne : w ≠ [])
    (s0 : List Char) (h : w <:+: s0) : w <:+: hyphenate s0 := by
  obtain ⟨f, hf, hwf⟩ := infix_fieldsFrom w hw hne s0 [] (by simpa using h)
  unfold hyphenate ReplaceAll Fields
  refine infix_replaceAllFrom [' '] ['-'] w (by simp) ?_ hne _ 0 (by simp)
    (hwf.trans (infix_intercalate [' '] f _ hf))
  intro c hc hm
  simp only [List.mem_singleton] at hm
  have := hw c hc
  rw [hm] at this
  exact absurd this (by decide)

/-- C21 (as stated, refuted): on `+49 (0)175 4323456` the trunk code stays, and the result is
not the one of `0049 (0)175 4323456`; a second `(0)` behind two leading zeros stays as well. -/
theorem normalizeTel_keeps_trunk_code_counterexample :
    normalizeTel "+49 (0)175 4323456" = "tel:+49-(0)175-4323456"
      ∧ ['(', '0', ')'] <:+: (normalizeTel "+49 (0)175 4323456").data
      ∧ normalizeTel "+49 (0)175 4323456" ≠ "tel:+49-175-4323456"
      ∧ normalizeTel "0049 (0)175 4323456" = "tel:+49-175-4323456"
      ∧ normalizeTel "0049 (0)(0)175" = "tel:+49-(0)175" := by
  decide

/-- C21 (amended): `normalizeTel` takes a `(0)` out only behind two leading zeros. A global
number (no `;`) that, trimmed and without `tel:`, does not begin with two zeros keeps every
`(0)` it is written with. -/
theorem normalizeTel_keeps_trunk_code (s : String) (hsemi : ';' ∉ s.data)
    (h00 : (telBody s).take 2 ≠ ['0', '0'])
    (h : ['(', '0', ')'] <:+: s.data) :
    ['(', '0', ')'] <:+: (normalizeTel s).data := by
  have hw : ∀ c ∈ ['(', '0', ')'], isSpace c = false := by decide
  have hbody : ['(', '0', ')'] <:+: telBody s := by
    unfold telBody ReplaceAll
    refine infix_replaceAllFrom _ _ _ (by simp) (by decide) (by simp) _ 0 (by simp)
      (infix_TrimSpace _ hw (by simp) _ h)
  have hsemi2 : ';' ∉ telBody s := by
    intro hm
    unfold telBody ReplaceAll at hm
    rcases mem_replaceAllFrom _ _ _ _ _ hm with h1 | h1
    · simp at h1
    · exact hsemi (mem_TrimSpace _ _ h1)
  unfold normalizeTel
  unfold telBody at hsemi2 h00 hbody
  rw [(splitFirst_of_not_mem ';' _ hsemi2).2]
  simp only
  rw [if_neg h00]
  exact (infix_hyphenate _ hw (by simp) _ hbody).trans (List.suffix_append _ _).isInfix

/-- C21 (amended), at the number `tel: +49 (0)175 4323456`. -/
theorem normalizeTel_keeps_trunk_code_witness :
    normalizeTel "tel: +49 (0)175 4323456" = "tel:+49-(0)175-4323456"
      ∧ ['(', '0', ')'] <:+: (normalizeTel "tel: +49 (0)175 4323456").data :=
  ⟨by decide, normalizeTel_keeps_trunk_code "tel: +49 (0)175 4323456" (by decide) (by decide)
    (by decide)⟩

/-! ## C22, C24: the default parameter rules -/

theorem validateTypeParam_eq_none (value : List String) :
    validateTypeParam value = none ↔ ∀ x ∈ value, x = "work" ∨ x = "home" := by
  induction value with
  | nil => simp [validateTypeParam]
  | cons v rest ih =>
    rw [validateTypeParam]
    by_cases hv : v = "work" ∨ v = "home"
    · simp only [hv, decide_True, Bool.not_true, Bool.false_eq_true, if_false, ih,
        List.mem_cons, forall_eq_or_imp, true_and]
    · simp only [hv, decide_False, Bool.not_false, if_true, List.mem_cons, forall_eq_or_imp,
        false_and, reduceCtorEq]

theorem validateDefaultParamRange_eq_none (params : Params) :
    validateDefaultParamRange params = none
      ↔ ∀ kv ∈ params, validateDefaultParam kv.1 kv.2 = none := by
  induction params with
  | nil => simp [validateDefaultParamRange]
  | cons kv rest ih =>
    obtain ⟨k, v⟩ := kv
    rw [validateDefaultParamRange]
    cases h : validateDefaultParam k v with
    | none => simp [ih, h]
    | some e => simp [h]

/-- C22: `validatePrefParam` accepts a list exactly when it has one element, and that element
is read by `strconv.Atoi` as a number from 0 to 100; the empty list, a list of two, a text
that is no number, 200 and -1 are rejected, 55 is accepted. -/
theorem validatePrefParam_spec :
    (∀ params : List String,
        validatePrefParam params = none
          ↔ ∃ p0 n, params = [p0] ∧ Atoi p0 = some n ∧ 0 ≤ n ∧ n ≤ 100)
      ∧ validatePrefParam [] ≠ none
      ∧ validatePrefParam ["1", "2"] ≠ none
      ∧ validatePrefParam ["abc"] ≠ none
      ∧ validatePrefParam ["200"] ≠ none
      ∧ validatePrefParam ["-1"] ≠ none
      ∧ validatePrefParam ["0"] = none
      ∧ validatePrefParam ["55"] = none
      ∧ validatePrefParam ["100"] = none := by
  refine ⟨?_, by decide, by decide, by decide, by decide, by decide, by decide, by decide,
    by decide⟩
  intro params
  match params with
  | [] => simp [validatePrefParam]
  | [p0] =>
    simp only [validatePrefParam, List.cons.injEq, and_true]
    cases h : Atoi p0 with
    | none =>
      simp only [Option.isNone_none, true_or, if_true, reduceCtorEq, false_iff, not_exists,
        not_and]
      rintro q0 m rfl hm
      rw [h] at hm
      exact absurd hm (by simp)
    | some n =>
      simp only [Option.isNone_some, Bool.false_eq_true, Option.getD_some, false_or,
        ite_eq_right_iff, reduceCtorEq, imp_false, not_or, not_lt]
      constructor
      · rintro ⟨h1, h2⟩
        exact ⟨p0, n, rfl, h, h1, h2⟩
      · rintro ⟨q0, m, rfl, hm, h1, h2⟩
        rw [h] at hm
        obtain rfl := Option.some.inj hm
        exact ⟨h1, h2⟩
  | p0 :: p1 :: rest => simp [validatePrefParam]

/-- C24: under the default rules a `type` parameter passes exactly when each of its values is
`work` or `home`; a key other than `type`, `pref`, `pid` and `altid` is rejected; a property
passes when each of its parameters does; `AddEmail` with the types voice and cell fails and
leaves the card as it is, with the types home and work it appends the property. -/
theorem default_param_rules (L : Deps) :
    (∀ value : List String,
        validateDefaultParam "type" value = none ↔ ∀ x ∈ value, x = "work" ∨ x = "home")
      ∧ (∀ (key : String) (value : List String),
          key ≠ "type" → key ≠ "pref" → key ≠ "pid" → key ≠ "altid" →
            validateDefaultParam key value ≠ none)
      ∧ (∀ p : VCardPropertyData,
          p.validateDefaultParam = none
            ↔ ∀ kv ∈ p.Parameters, validateDefaultParam kv.1 kv.2 = none)
      ∧ (∀ (v : VCard) (addr : Nat), ∃ e,
          v.AddEmail L addr "test@test.de" [("type", ["voice", "cell"]), ("pref", ["55"])]
            = .done (v, some e))
      ∧ (∀ (v : VCard) (addr : Nat),
          v.AddEmail L addr "test@test.de" [("type", ["home", "work"]), ("pref", ["55"])]
            = .done ({ v with Properties := v.Properties ++ [emailCandidate L addr
                "test@test.de" [("type", ["home", "work"]), ("pref", ["55"])]] }, none)) := by
  refine ⟨?_, ?_, ?_, ?_, ?_⟩
  · intro value
    simp only [validateDefaultParam, if_true]
    exact validateTypeParam_eq_none value
  · intro key value h1 h2 h3 h4
    simp [validateDefaultParam, h1, h2, h3, h4]
  · intro p
    exact validateDefaultParamRange_eq_none p.Parameters
  · intro v addr
    exact ⟨_, rfl⟩
  · intro v addr
    rfl

/-- C24, at the key `mediatype`, which the default rules do not know. -/
theorem default_param_rules_witness :
    validateDefaultParam "mediatype" ["text/plain"] ≠ none :=
  (default_param_rules testDeps).2.1 "mediatype" ["text/plain"] (by decide) (by decide)
    (by decide) (by decide)

/-! ## C23: the pattern of a `pid` value -/

theorem inClass_digit (c : Char) : inClass [('0', '9')] c = true ↔ c.isDigit = true := by
  simp only [inClass, List.any_cons, List.any_nil, Bool.or_false, Bool.and_eq_true,
    decide_eq_true_eq, Char.isDigit, ge_iff_le]
  exact Iff.rfl

theorem self_mem_starStep (step : Bool → List Char → List (List Char)) (n : Nat) (st : Bool)
    (s : List Char) : s ∈ starStep step n st s := by
  cases n <;> simp [starStep]

/-- One iteration of `a*` that takes at least one character. -/
theorem mem_step_star_one (a : Regex) (st : Bool) (s s1 : List Char) (h1 : s1 ∈ a.step st s)
    (hlt : s1.length < s.length) : s1 ∈ (Regex.star a).step st s := by
  obtain ⟨n, hn⟩ : ∃ n, s.length = n + 1 := ⟨s.length - 1, by omega⟩
  rw [Regex.step, hn]
  simp only [starStep, List.mem_cons, List.mem_flatMap, List.mem_filter, decide_eq_true_eq]
  exact Or.inr ⟨s1, ⟨h1, hlt⟩, self_mem_starStep _ _ _ _⟩

theorem validatePidParam_single (v : String) :
    validatePidParam [v] = none ↔ validPid.MatchString v = true := by
  cases h : validPid.MatchString v <;> simp [validatePidParam, h]

/-- C23 (what the code does): between two groups of digits `validatePidParam` accepts any one
character that is not a newline, not only a dot. -/
theorem validPid_accepts_any_separator (a b : List Char) (c : Char) (ha : a ≠ [])
    (hda : ∀ x ∈ a, x.isDigit = true) (hb : b ≠ []) (hdb : ∀ x ∈ b, x.isDigit = true)
    (hc : c ≠ '\n') : validatePidParam [String.mk (a ++ c :: b)] = none := by
  rw [validatePidParam_single]
  simp only [validPid, Regex.seq, Regex.digit]
  rw [MatchString_bot]
  refine ⟨[], (mem_step_cat _ _ _ _ _).2 ⟨c :: b, ?_, (mem_step_cat _ _ _ _ _).2 ⟨[], ?_, ?_⟩⟩⟩
  · exact (mem_step_plus_cls _ _ _ _).2 ⟨a, ha, rfl, fun x hx => (inClass_digit x).2 (hda x hx)⟩
  · refine mem_step_star_one _ _ _ _ ?_ (by simp)
    exact (mem_step_cat _ _ _ _ _).2 ⟨b, (mem_step_dot _ _ _).2 ⟨c, rfl, hc⟩,
      (mem_step_plus_cls _ _ b []).2
        ⟨b, hb, (List.append_nil b).symm, fun x hx => (inClass_digit x).2 (hdb x hx)⟩⟩
  · exact (mem_step_eot _ _ _).2 ⟨rfl, rfl⟩

/-- C23, at the values `4x2` and `4 2` of the claim; the dotted values are accepted as
well, and a value that ends in a dot is not. -/
theorem validPid_accepts_any_separator_witness :
    validatePidParam ["4x2"] = none ∧ validatePidParam ["4 2"] = none
      ∧ validatePidParam ["2", "5.4", "4.1.4"] = none ∧ validatePidParam ["4."] ≠ none :=
  ⟨validPid_accepts_any_separator ['4'] ['2'] 'x' (by decide) (by decide) (by decide)
    (by decide) (by decide), by decide, by decide, by decide⟩

/-! ## C25: the pattern of a UTC offset -/

theorem inClass_nil (c : Char) : inClass [] c = false := rfl

theorem inClass_cons (a b : Char) (R : List (Char × Char)) (c : Char) :
    inClass ((a, b) :: R) c = true ↔ (a ≤ c ∧ c ≤ b) ∨ inClass R c = true := by
  simp [inClass]

theorem inClass_pair (a b c : Char) : inClass [(a, a), (b, b)] c = true ↔ c = a ∨ c = b := by
  simp only [inClass_cons, inClass_nil, Bool.false_eq_true, or_false]
  constructor
  · rintro (⟨h1, h2⟩ | ⟨h1, h2⟩)
    · exact Or.inl (le_antisymm h2 h1)
    · exact Or.inr (le_antisymm h2 h1)
  · rintro (rfl | rfl)
    · exact Or.inl ⟨le_refl _, le_refl _⟩
    · exact Or.inr ⟨le_refl _, le_refl _⟩

theorem validateUtcOffset_iff (s : String) :
    validateUtcOffset s = true ↔ utcOffsetAccepted s.data := by
  unfold validateUtcOffset Regex.MatchString utcOffsetAccepted
  rw [matchFrom_iff]
  simp only [validUtcOffset, Regex.seq, Regex.digit, mem_step_alt, mem_step_cat, mem_step_bot,
    mem_step_lit, mem_step_cls, mem_step_eot, inClass_pair, inClass_digit]
  simp only [inClass_cons, inClass_nil, Bool.false_eq_true, or_false]
  constructor
  · rintro ⟨pre, suf, s2, hs, h⟩
    rcases h with ⟨s1, ⟨hst, rfl⟩, hZ⟩ | ⟨s1, ⟨c1, rfl, h1⟩, t2, ⟨c2, rfl, h2⟩, t3,
        ⟨c3, rfl, h3⟩, t4, ⟨c4, rfl, h4⟩, t5, ⟨c5, rfl, h5⟩, rfl, rfl⟩
    · left
      simp only [Bool.true_and, List.isEmpty_iff] at hst
      subst hst
      rw [hs, hZ]
      rfl
    · right
      exact ⟨pre, c1, c2, c3, c4, c5, hs, h1, h2, h3, h4, h5⟩
  · rintro (h | ⟨pre, c1, c2, c3, c4, c5, hs, h1, h2, h3, h4, h5⟩)
    · cases hd : s.data with
      | nil => rw [hd] at h; simp at h
      | cons c rest =>
        rw [hd] at h
        simp only [List.head?_cons, Option.some.injEq] at h
        subst h
        exact ⟨[], 'Z' :: rest, rest, rfl, Or.inl ⟨'Z' :: rest, ⟨rfl, rfl⟩, rfl⟩⟩
    · exact ⟨pre, [c1, c2, c3, c4, c5], [], hs, Or.inr ⟨_, ⟨c1, rfl, h1⟩, _, ⟨c2, rfl, h2⟩, _,
        ⟨c3, rfl, h3⟩, _, ⟨c4, rfl, h4⟩, _, ⟨c5, rfl, h5⟩, rfl, rfl⟩⟩

/-- C25 (what the code does): `validateUtcOffset` accepts every text that begins with `Z`
and every text that ends in a sign, an hour from 00 to 19 and a minute from 00 to 59, and no
other: in the pattern `^` belongs to the branch `Z` only and `$` to the other branch only.
So `Zulu` and `x+1200` are accepted; `+2300` is not. -/
theorem validateUtcOffset_spec :
    (∀ s : String, validateUtcOffset s = true ↔ utcOffsetAccepted s.data)
      ∧ validateUtcOffset "Zulu" = true
      ∧ validateUtcOffset "x+1200" = true
      ∧ validateUtcOffset "+2300" = false
      ∧ validateUtcOffset "Z" = true
      ∧ validateUtcOffset "+1259" = true
      ∧ validateUtcOffset "-1200" = true
      ∧ validateUtcOffset "1200" = false
      ∧ validateUtcOffset "-12:00" = false :=
  ⟨validateUtcOffset_iff, by decide, by decide, by decide, by decide, by decide, by decide,
    by decide, by decide⟩

/-! ## C26: the pattern of a media type -/

theorem mem_step_mediaType (st : Bool) (s s2 : List Char) :
    s2 ∈ mediaType.step st s ↔ ∃ t, isMediaType t ∧ s = t ++ s2 := by
  simp only [mediaType, mediaToken, mem_step_alt, mem_step_cat, mem_step_lit,
    mem_step_plus_cls, isMediaType, isMediaToken]
  constructor
  · intro h
    rcases h with h | h | h | h | h | h | h | h | h | h | ⟨s1, rfl, x, hx, rfl, hcl⟩
    all_goals first
      | exact ⟨_, Or.inl (by simp [mediaNames]), h⟩
      | exact ⟨'x' :: '-' :: x, Or.inr ⟨x, ⟨hx, hcl⟩, rfl⟩, rfl⟩
  · rintro ⟨t, ht | ⟨x, ⟨hx, hcl⟩, rfl⟩, rfl⟩
    · simp only [mediaNames, List.map_cons, List.map_nil, List.mem_cons, List.mem_singleton,
        List.not_mem_nil, or_false] at ht
      rcases ht with rfl | rfl | rfl | rfl | rfl | rfl | rfl | rfl | rfl | rfl <;> simp
    · iterate 10 right
      exact ⟨x ++ s2, rfl, x, hx, rfl, hcl⟩

theorem validMedia_iff (s : String) :
    validMedia.MatchString s = true ↔ containsMediaPair s.data := by
  unfold Regex.MatchString containsMediaPair
  rw [matchFrom_iff]
  simp only [validMedia, Regex.seq, mediaToken, mem_step_cat, mem_step_mediaType, mem_step_lit,
    mem_step_plus_cls, isMediaToken]
  constructor
  · rintro ⟨pre, suf, s2, hs, s1, ⟨t, ht, rfl⟩, s3, rfl, sub, hsub, rfl, hcl⟩
    exact ⟨pre, t, sub, s2, hs, ht, hsub, hcl⟩
  · rintro ⟨pre, t, sub, post, hs, ht, hsub, hcl⟩
    exact ⟨pre, t ++ '/' :: (sub ++ post), post, hs, '/' :: (sub ++ post), ⟨t, ht, rfl⟩,
      sub ++ post, rfl, sub, hsub, rfl, hcl⟩

theorem validateMediatypeParam_iff (params : List String) :
    validateMediatypeParam params = none ↔ ∀ v ∈ params, validMedia.MatchString v = true := by
  induction params with
  | nil => simp [validateMediatypeParam]
  | cons v rest ih =>
    rw [validateMediatypeParam]
    cases h : validMedia.MatchString v <;> simp [h, ih]

/-- C26 (what the code does): `validateMediatypeParam` accepts a list exactly when each
element contains, somewhere, a type, a slash and a token; the pattern has no `^` and no `$`.
So `zz application/zip ??` is accepted; `invalidMediaType`, which has no slash, is not. -/
theorem validateMediatypeParam_spec :
    (∀ params : List String,
        validateMediatypeParam params = none ↔ ∀ v ∈ params, containsMediaPair v.data)
      ∧ validateMediatypeParam ["zz application/zip ??"] = none
      ∧ validateMediatypeParam ["application/xml-dtd", "application/zip"] = none
      ∧ validateMediatypeParam ["application/xml-dtd", "invalidMediaType"] ≠ none := by
  refine ⟨?_, by decide, by decide, by decide⟩
  intro params
  rw [validateMediatypeParam_iff]
  simp only [validMedia_iff]

/-! ## C27: the pattern of a geo coordinate -/

theorem inClass_cons_single (a : Char) (R : List (Char × Char)) (c : Char) :
    inClass ((a, a) :: R) c = true ↔ c = a ∨ inClass R c = true := by
  rw [inClass_cons]
  constructor
  · rintro (⟨h1, h2⟩ | h)
    · exact Or.inl (le_antisymm h2 h1)
    · exact Or.inr h
  · rintro (rfl | h)
    · exact Or.inl ⟨le_refl _, le_refl _⟩
    · exact Or.inr h

theorem inClass_space (c : Char) :
    inClass [('\t', '\t'), ('\n', '\n'), (Char.ofNat 12, Char.ofNat 12), ('\r', '\r'), (' ', ' ')] c
      = true ↔ c ∈ patternSpaces := by
  simp only [inClass_cons_single, inClass_nil, Bool.false_eq_true, or_false, patternSpaces,
    List.mem_cons, List.mem_singleton, List.not_mem_nil]

theorem mem_step_opt_lit (w : String) (st : Bool) (s s2 : List Char) :
    s2 ∈ (Regex.opt (.lit w)).step st s ↔ ∃ p, (p = [] ∨ p = w.data) ∧ s = p ++ s2 := by
  rw [mem_step_opt, mem_step_lit]
  constructor
  · rintro (h | rfl)
    · exact ⟨w.data, Or.inr rfl, h⟩
    · exact ⟨[], Or.inl rfl, rfl⟩
  · rintro ⟨p, rfl | rfl, h⟩
    · exact Or.inr h.symm
    · exact Or.inl h

theorem preferedGeo_iff (s : String) :
    preferedGeo.MatchString s = true ↔ isGeoText s.data := by
  simp only [preferedGeo, Regex.seq]
  rw [MatchString_bot]
  simp only [Regex.digit, Regex.space, mem_step_cat, mem_step_opt_lit, mem_step_lit,
    mem_step_plus_cls, mem_step_star_cls, mem_step_eot, inClass_digit, inClass_space]
  unfold isGeoText isGeoNumber
  constructor
  · rintro ⟨s2, t1, ⟨p, hp, hs⟩, t2, ⟨sg1, hsg1, rfl⟩, t3, ⟨w1, hw1, rfl, hdw1⟩, t4, rfl, t5,
      ⟨f1, hf1, rfl, hdf1⟩, t6, rfl, t7, ⟨ws, rfl, hws⟩, t8, ⟨sg2, hsg2, rfl⟩, t9,
      ⟨w2, hw2, rfl, hdw2⟩, t10, rfl, t11, ⟨f2, hf2, rfl, hdf2⟩, rfl, rfl⟩
    refine ⟨p, sg1 ++ (w1 ++ '.' :: f1), ws, sg2 ++ (w2 ++ '.' :: f2), ?_, hp,
      ⟨sg1, w1, f1, rfl, hsg1, ⟨hw1, hdw1⟩, ⟨hf1, hdf1⟩⟩, hws,
      ⟨sg2, w2, f2, rfl, hsg2, ⟨hw2, hdw2⟩, ⟨hf2, hdf2⟩⟩⟩
    rw [hs]
    simp
  · rintro ⟨p, lat, ws, lon, hs, hp, ⟨sg1, w1, f1, rfl, hsg1, ⟨hw1, hdw1⟩, ⟨hf1, hdf1⟩⟩, hws,
      ⟨sg2, w2, f2, rfl, hsg2, ⟨hw2, hdw2⟩, ⟨hf2, hdf2⟩⟩⟩
    refine ⟨[], _, ⟨p, hp, hs⟩, _, ⟨sg1, hsg1, List.append_assoc _ _ _⟩, _,
      ⟨w1, hw1, List.append_assoc _ _ _, hdw1⟩, _, rfl, _, ⟨f1, hf1, rfl, hdf1⟩, _, rfl, _,
      ⟨ws, rfl, hws⟩, _, ⟨sg2, hsg2, rfl⟩, _, ⟨w2, hw2, rfl, hdw2⟩, _, rfl, _,
      ⟨f2, hf2, (List.append_nil _).symm, hdf2⟩, rfl, rfl⟩

theorem validateGeo_eq (g : String) : validateGeo g = preferedGeo.MatchString g := by
  unfold validateGeo
  cases preferedGeo.MatchString g <;> rfl

/-- C27: `validateGeo` accepts a text exactly when it is an optional `geo:`, a coordinate, a
comma, white space or none (of the class `\s`), and a coordinate, where a coordinate is an
optional `-`, digits, a `.` and digits. A coordinate without `.`, the empty text and free text
are rejected. -/
theorem validateGeo_spec :
    (∀ g : String, validateGeo g = true ↔ isGeoText g.data)
      ∧ validateGeo "geo:37.386013,-122.082932" = true
      ∧ validateGeo "-1.5, 2.25" = true
      ∧ validateGeo "geo:37,-122" = false
      ∧ validateGeo "" = false
      ∧ validateGeo "invalid uri" = false := by
  refine ⟨?_, by decide, by decide, by decide, by decide, by decide⟩
  intro g
  rw [validateGeo_eq]
  exact preferedGeo_iff g

/-! ## C28: the pattern of an e-mail address -/

theorem inClass_mailLocal (c : Char) :
    inClass [('a', 'z'), ('A', 'Z'), ('0', '9'), ('.', '.'), ('_', '_'), ('%', '%'), ('+', '+'),
      ('-', '-')] c = true ↔ isMailLocalChar c := by
  simp only [inClass_cons (_ : Char) 'z', inClass_cons (_ : Char) 'Z', inClass_cons (_ : Char) '9',
    inClass_cons_single, inClass_nil, Bool.false_eq_true, or_false, isMailLocalChar]

theorem inClass_mailHost (c : Char) :
    inClass [('a', 'z'), ('0', '9'), ('.', '.'), ('-', '-')] c = true ↔ isMailHostChar c := by
  simp only [inClass_cons (_ : Char) 'z', inClass_cons (_ : Char) '9',
    inClass_cons_single, inClass_nil, Bool.false_eq_true, or_false, isMailHostChar]

theorem inClass_lower (c : Char) : inClass [('a', 'z')] c = true ↔ ('a' ≤ c ∧ c ≤ 'z') := by
  simp only [inClass_cons, inClass_nil, Bool.false_eq_true, or_false]

theorem validMail_shape (s : String) (h : validMail.MatchString s = true) :
    isMailText s.data := by
  simp only [validMail, Regex.seq] at h
  rw [MatchString_bot] at h
  simp only [mailLocal, mailHost, Regex.lower, mem_step_cat, mem_step_opt, mem_step_lit,
    mem_step_cls, mem_step_plus_cls, mem_step_eot, inClass_mailLocal, inClass_mailHost,
    inClass_lower] at h
  obtain ⟨s2, t1, ⟨loc, hloc, hs, hcl⟩, t2, rfl, t3, ⟨host, hhost, rfl, hch⟩, t4, rfl, t5,
    ⟨c1, rfl, h1⟩, t6, ⟨c2, rfl, h2⟩, t7, h3, t8, h4, rfl, rfl⟩ := h
  have hgoal : ∀ lab : List Char, t6 = lab → lab.length ≤ 2 → (∀ c ∈ lab, 'a' ≤ c ∧ c ≤ 'z') →
      isMailText s.data := by
    intro lab hlab hlen hall
    refine ⟨loc, host, c1 :: c2 :: lab, ?_, ⟨hloc, hcl⟩, ⟨hhost, hch⟩, ?_, ?_, ?_⟩
    · rw [hs, hlab]
      rfl
    · simp
    · simp only [List.length_cons]
      omega
    · intro c hc
      rcases List.mem_cons.1 hc with rfl | hc
      · exact h1
      · rcases List.mem_cons.1 hc with rfl | hc
        · exact h2
        · exact hall c hc
  rcases h3 with ⟨c3, rfl, h3⟩ | rfl
  · rcases h4 with ⟨c4, rfl, h4⟩ | h4
    · refine hgoal [c3, c4] rfl (by simp) ?_
      intro c hc
      simp only [List.mem_cons, List.mem_singleton, List.not_mem_nil, or_false] at hc
      rcases hc with rfl | rfl
      · exact h3
      · exact h4
    · subst h4
      refine hgoal [c3] rfl (by simp) ?_
      intro c hc
      simp only [List.mem_singleton] at hc
      subst hc
      exact h3
  · rcases h4 with ⟨c4, rfl, h4⟩ | h4
    · refine hgoal [c4] rfl (by simp) ?_
      intro c hc
      simp only [List.mem_singleton] at hc
      subst hc
      exact h4
    · subst h4
      exact hgoal [] rfl (by simp) (by simp)

theorem count_at_of_mail (s : List Char) (h : isMailText s) : s.count '@' = 1 := by
  obtain ⟨loc, host, lab, rfl, ⟨_, hcl⟩, ⟨_, hch⟩, ⟨_, _, hlab⟩⟩ := h
  have h1 : loc.count '@' = 0 := by
    rw [List.count_eq_zero]
    intro hm
    have := hcl _ hm
    revert this
    unfold isMailLocalChar
    decide
  have h2 : host.count '@' = 0 := by
    rw [List.count_eq_zero]
    intro hm
    have := hch _ hm
    revert this
    unfold isMailHostChar
    decide
  have h3 : lab.count '@' = 0 := by
    rw [List.count_eq_zero]
    intro hm
    have := hlab _ hm
    revert this
    decide
  simp [List.count_append, List.count_cons, h1, h2, h3]

theorem ValidateEmail_eq_none (L : Deps) (p : VCardPropertyData)
    (h : ValidateEmail L p = .done none) :
    validMail.MatchString (Sprint L p.Value) = true ∧ p.validateDefaultParam = none := by
  unfold ValidateEmail at h
  cases hm : validMail.MatchString (Sprint L p.Value) with
  | false => simp [hm] at h
  | true =>
    simp only [hm, Bool.not_true, Bool.false_eq_true, if_false, Run.done.injEq] at h
    exact ⟨rfl, h⟩

/-- C28: a property that `ValidateEmail` accepts has, printed with `%v`, a value of the form
local part, `@`, host: the local part is not empty and made of ASCII letters, digits and
`._%+-`; the host ends in a dot and a label of two to four lowercase letters; there is
exactly one `@`; and its parameters pass the default rules. -/
theorem ValidateEmail_shape (L : Deps) (p : VCardPropertyData)
    (h : ValidateEmail L p = .done none) :
    isMailText (Sprint L p.Value).data ∧ (Sprint L p.Value).data.count '@' = 1
      ∧ ∀ kv ∈ p.Parameters, validateDefaultParam kv.1 kv.2 = none := by
  obtain ⟨h1, h2⟩ := ValidateEmail_eq_none L p h
  have hm := validMail_shape _ h1
  exact ⟨hm, count_at_of_mail _ hm, (validateDefaultParamRange_eq_none _).1 h2⟩

/-- C28, at the address `t@test.de` of the test table, which is accepted; the values of the
table without `@`, with two `@`, without a dot in the host, with a character outside ASCII,
and the empty value are rejected. -/
theorem ValidateEmail_shape_witness :
    ValidateEmail testDeps (emailData "t@test.de" [("pref", ["55"])]) = .done none
      ∧ isMailText "t@test.de".data
      ∧ validMail.MatchString "noAt.de" = false
      ∧ validMail.MatchString "test@test@test.de" = false
      ∧ validMail.MatchString "no@dot" = false
      ∧ validMail.MatchString "test@Ã¼iu.de" = false
      ∧ validMail.MatchString "" = false :=
  ⟨rfl, (ValidateEmail_shape testDeps (emailData "t@test.de" [("pref", ["55"])]) rfl).1,
    by decide, by decide, by decide, by decide, by decide⟩

/-! ## C29: the pattern of a telephone number -/

theorem validTelNumber_shape (s : String) (h : validTelNumber.MatchString s = true) :
    ∃ rest, s.data = 't' :: 'e' :: 'l' :: ':' :: rest
      ∧ (rest.head? = some '+' ∨ ";phone-context=".data <:+: rest) := by
  simp only [validTelNumber, Regex.seq] at h
  rw [MatchString_bot] at h
  obtain ⟨s2, h⟩ := h
  obtain ⟨t1, h1, h2⟩ := (mem_step_cat _ _ _ _ _).1 h
  rw [mem_step_lit] at h1
  obtain ⟨t2, h3, _⟩ := (mem_step_cat _ _ _ _ _).1 h2
  refine ⟨t1, h1, ?_⟩
  rcases (mem_step_alt _ _ _ _ _).1 h3 with hg | hl
  · simp only [telGlobal, Regex.seq] at hg
    obtain ⟨u1, hu1, _⟩ := (mem_step_cat _ _ _ _ _).1 hg
    rw [mem_step_lit] at hu1
    left
    rw [hu1]
    rfl
  · obtain ⟨u1, hu1, hl2⟩ := (mem_step_cat _ _ _ _ _).1 hl
    obtain ⟨u2, hu2, hl3⟩ := (mem_step_cat _ _ _ _ _).1 hl2
    obtain ⟨u3, hu3, _⟩ := (mem_step_cat _ _ _ _ _).1 hl3
    rw [mem_step_lit] at hu3
    right
    have hsuf : u2 <:+ t1 := (step_suffix _ _ _ _ hu2).trans (step_suffix _ _ _ _ hu1)
    have hpre : ";phone-context=".data <:+: u2 := ⟨[], u3, by rw [hu3]; rfl⟩
    exact hpre.trans hsuf.isInfix

theorem validateTelTypes_eq_none (value : List String) :
    validateTelTypes value = none ↔ ∀ x ∈ value, x ∈ telTypes := by
  induction value with
  | nil => simp [validateTelTypes]
  | cons v rest ih =>
    rw [validateTelTypes]
    by_cases hv : v ∈ telTypes
    · simp only [hv, not_true_eq_false, if_false, ih, List.mem_cons, forall_eq_or_imp, true_and]
    · simp only [hv, not_false_eq_true, if_true, List.mem_cons, forall_eq_or_imp, false_and,
        reduceCtorEq]

theorem validateTelParams_eq_none (params : Params) :
    validateTelParams params = none
      ↔ ∀ kv ∈ params, (kv.1 = "type" → ∀ x ∈ kv.2, x ∈ telTypes)
          ∧ (kv.1 ≠ "type" → validateDefaultParam kv.1 kv.2 = none) := by
  induction params with
  | nil => simp [validateTelParams]
  | cons kv rest ih =>
    obtain ⟨k, v⟩ := kv
    rw [validateTelParams]
    by_cases hk : k = "type"
    · simp only [hk, if_true, List.mem_cons, forall_eq_or_imp, ne_eq, not_true_eq_false,
        false_implies, and_true, true_implies]
      cases h : validateTelTypes v with
      | none =>
        simp only [ih]
        rw [validateTelTypes_eq_none] at h
        exact ⟨fun h2 => ⟨h, h2⟩, fun h2 => h2.2⟩
      | some e =>
        have : ¬ ∀ x ∈ v, x ∈ telTypes := by
          rw [← validateTelTypes_eq_none, h]
          simp
        simp only [reduceCtorEq, false_iff, not_and]
        intro h2
        exact absurd h2 this
    · simp only [hk, if_false, List.mem_cons, forall_eq_or_imp, ne_eq, not_false_eq_true,
        false_implies, true_and, true_implies]
      cases h : validateDefaultParam k v with
      | none => simp only [ih, true_and, ne_eq]
      | some e => simp

theorem ValidateTel_eq_none (L : Deps) (p : VCardPropertyData)
    (h : ValidateTel L p = .done none) :
    validTelNumber.MatchString (Sprint L p.Value) = true ∧ validateTelParams p.Parameters = none := by
  unfold ValidateTel at h
  cases hm : validTelNumber.MatchString (Sprint L p.Value) with
  | false => simp [hm] at h
  | true =>
    simp only [hm, Bool.not_true, Bool.false_eq_true, if_false, Run.done.injEq] at h
    exact ⟨rfl, h⟩

/-- C29: a property that `ValidateTel` accepts has, printed with `%v`, a value that begins
with `tel:` and goes on with a `+` or holds `;phone-context=`; each value of its parameter
`type` is one of home, work, text, voice, fax, cell, video, pager and textphone, and its
other parameters pass the default rules. -/
theorem ValidateTel_shape (L : Deps) (p : VCardPropertyData)
    (h : ValidateTel L p = .done none) :
    (∃ rest, (Sprint L p.Value).data = 't' :: 'e' :: 'l' :: ':' :: rest
        ∧ (rest.head? = some '+' ∨ ";phone-context=".data <:+: rest))
      ∧ ∀ kv ∈ p.Parameters, (kv.1 = "type" → ∀ x ∈ kv.2, x ∈ telTypes)
          ∧ (kv.1 ≠ "type" → validateDefaultParam kv.1 kv.2 = none) := by
  obtain ⟨h1, h2⟩ := ValidateTel_eq_none L p h
  exact ⟨validTelNumber_shape _ h1, (validateTelParams_eq_none _).1 h2⟩

/-- C29, at the global number `tel:+49170-449` and the local number
`tel:445943;phone-context=test.de` of the test table, which are accepted; the numbers of the
table without `+` and without a phone context are rejected, and so is an unknown type. -/
theorem ValidateTel_shape_witness :
    ValidateTel testDeps (telData "tel:+49170-449" [("type", ["voice", "cell"]), ("pref", ["55"])])
        = .done none
      ∧ (∃ rest, "tel:+49170-449".data = 't' :: 'e' :: 'l' :: ':' :: rest
          ∧ (rest.head? = some '+' ∨ ";phone-context=".data <:+: rest))
      ∧ validTelNumber.MatchString "tel:445943;phone-context=test.de" = true
      ∧ validTelNumber.MatchString "tel:445943" = false
      ∧ validTelNumber.MatchString "tel:0049170-449" = false
      ∧ validateTelParams [("type", ["voice", "cell", "badType"])] ≠ none :=
  ⟨rfl,
    (ValidateTel_shape testDeps
      (telData "tel:+49170-449" [("type", ["voice", "cell"]), ("pref", ["55"])]) rfl).1,
    by decide, by decide, by decide, by decide⟩

/-! ## C30: fractional seconds -/

theorem toNat_sub_le_of_isDigit (c : Char) (h : c.isDigit = true) : c.toNat - 48 ≤ 9 := by
  simp only [Char.isDigit, ge_iff_le, Bool.and_eq_true, decide_eq_true_eq] at h
  have h2 : c.val.toNat ≤ 57 := h.2
  show c.val.toNat - 48 ≤ 9
  omega

theorem leadingInt_lt (cs : List Char) (hd : ∀ c ∈ cs, c.isDigit = true) :
    ∀ n : Nat, cs.foldl (fun x c => x * 10 + (c.toNat - 48)) n < (n + 1) * 10 ^ cs.length := by
  induction cs with
  | nil =>
    intro n
    simp
  | cons c rest ih =>
    intro n
    have hc := toNat_sub_le_of_isDigit c (hd c (List.mem_cons_self _ _))
    have := ih (fun d hdm => hd d (List.mem_cons_of_mem _ hdm)) (n * 10 + (c.toNat - 48))
    simp only [List.foldl_cons, List.length_cons]
    calc _ < (n * 10 + (c.toNat - 48) + 1) * 10 ^ rest.length := this
      _ ≤ ((n + 1) * 10) * 10 ^ rest.length := Nat.mul_le_mul_right _ (by omega)
      _ = (n + 1) * 10 ^ (rest.length + 1) := by ring

theorem getnum_append (v f : List Char) (fixed : Bool) (n : Nat) (r : List Char)
    (h : getnum v fixed = some (n, r)) :
    getnum (v ++ '.' :: f) fixed = some (n, r ++ '.' :: f) := by
  have hdot : ('.' : Char).isDigit = false := by decide
  cases v with
  | nil => simp [getnum] at h
  | cons c0 rest =>
    cases rest with
    | nil =>
      simp only [getnum] at h
      simp only [getnum, List.cons_append, List.nil_append, hdot, Bool.false_eq_true, if_false]
      split_ifs at h ⊢
      simp only [Option.some.injEq, Prod.mk.injEq] at h
      obtain ⟨rfl, rfl⟩ := h
      rfl
    | cons c1 rest1 =>
      simp only [getnum] at h
      simp only [getnum, List.cons_append]
      split_ifs at h ⊢
      · simp only [Option.some.injEq, Prod.mk.injEq] at h
        obtain ⟨rfl, rfl⟩ := h
        rfl
      · simp only [Option.some.injEq, Prod.mk.injEq] at h
        obtain ⟨rfl, rfl⟩ := h
        rfl

theorem getnum_subset (v : List Char) (fixed : Bool) (n : Nat) (r : List Char)
    (h : getnum v fixed = some (n, r)) : ∀ c ∈ r, c ∈ v := by
  cases v with
  | nil => simp [getnum] at h
  | cons c0 rest =>
    cases rest with
    | nil =>
      simp only [getnum] at h
      split_ifs at h
      simp only [Option.some.injEq, Prod.mk.injEq] at h
      obtain ⟨_, rfl⟩ := h
      simp
    | cons c1 rest1 =>
      simp only [getnum] at h
      split_ifs at h
      · simp only [Option.some.injEq, Prod.mk.injEq] at h
        obtain ⟨_, rfl⟩ := h
        intro c hc
        exact List.mem_cons_of_mem _ (List.mem_cons_of_mem _ hc)
      · simp only [Option.some.injEq, Prod.mk.injEq] at h
        obtain ⟨_, rfl⟩ := h
        intro c hc
        exact List.mem_cons_of_mem _ hc

theorem takesFraction_second (frac : List Char) (hne : frac ≠ [])
    (hd : ∀ c ∈ frac, c.isDigit = true) (hlen : frac.length ≤ 9) :
    TakesFraction frac [.stdZeroSecond] := by
  intro year month day t ht hdot
  rw [parseFrom] at ht ⊢
  cases hg : getnum t true with
  | none => simp [hg] at ht
  | some nr =>
    obtain ⟨sec, rest⟩ := nr
    have hrest : ∀ c ∈ rest, c ∈ t := getnum_subset t true sec rest hg
    rw [hg] at ht
    rw [getnum_append t frac true sec rest hg]
    simp only at ht ⊢
    split_ifs at ht with hsec
    rw [if_neg hsec]
    have hnil : rest = [] ∧ parseFrom [] year month day [] = true := by
      cases rest with
      | nil => exact ⟨rfl, ht⟩
      | cons p rest1 =>
        cases rest1 with
        | nil => simp [parseFrom] at ht
        | cons c more =>
          have hp : p ≠ '.' := by
            intro hp
            apply hdot
            rw [← hp]
            exact hrest p (List.mem_cons_self _ _)
          simp only [hp, false_and, if_false, parseFrom, List.isEmpty_cons, Bool.false_and] at ht
          exact absurd ht (by simp)
    obtain ⟨hnil, hend⟩ := hnil
    subst hnil
    cases frac with
    | nil => exact absurd rfl hne
    | cons c more =>
      have hc : c.isDigit = true := hd c (List.mem_cons_self _ _)
      have htake : (c :: more).takeWhile Char.isDigit = c :: more :=
        List.takeWhile_eq_self_iff.2 hd
      have hdrop : (c :: more).dropWhile Char.isDigit = [] :=
        List.dropWhile_eq_nil_iff.2 hd
      have hlt : leadingInt (c :: more) < 10 ^ 9 := by
        have h1 := leadingInt_lt (c :: more) hd 0
        have h2 : 10 ^ (c :: more).length ≤ 10 ^ 9 := Nat.pow_le_pow_right (by decide) hlen
        unfold leadingInt
        omega
      simp only [List.nil_append, hc, and_self, if_true, htake, hdrop, hlt, decide_True,
        Bool.true_and, hend]

theorem takesFraction_lit (frac : List Char) (c : Char) (layout : List Chunk)
    (h : TakesFraction frac layout) : TakesFraction frac (.lit c :: layout) := by
  intro year month day t ht hdot
  cases t with
  | nil => simp [parseFrom] at ht
  | cons v rest =>
    simp only [parseFrom, Bool.and_eq_true] at ht
    simp only [List.cons_append, parseFrom, Bool.and_eq_true]
    exact ⟨ht.1, h _ _ _ rest ht.2 (fun hm => hdot (List.mem_cons_of_mem _ hm))⟩

theorem takesFraction_hour (frac : List Char) (layout : List Chunk)
    (h : TakesFraction frac layout) : TakesFraction frac (.stdHour :: layout) := by
  intro year month day t ht hdot
  rw [parseFrom] at ht ⊢
  cases hg : getnum t false with
  | none => simp [hg] at ht
  | some nr =>
    obtain ⟨hour, rest⟩ := nr
    rw [hg] at ht
    rw [getnum_append t frac false hour rest hg]
    simp only [Bool.and_eq_true] at ht ⊢
    exact ⟨ht.1, h _ _ _ rest ht.2 (fun hm => hdot (getnum_subset t false hour rest hg _ hm))⟩

theorem takesFraction_minute (frac : List Char) (layout : List Chunk)
    (h : TakesFraction frac layout) : TakesFraction frac (.stdZeroMinute :: layout) := by
  intro year month day t ht hdot
  rw [parseFrom] at ht ⊢
  cases hg : getnum t true with
  | none => simp [hg] at ht
  | some nr =>
    obtain ⟨min, rest⟩ := nr
    rw [hg] at ht
    rw [getnum_append t frac true min rest hg]
    simp only [Bool.and_eq_true] at ht ⊢
    exact ⟨ht.1, h _ _ _ rest ht.2 (fun hm => hdot (getnum_subset t true min rest hg _ hm))⟩

/-- C30 (as stated, refuted): `validateTime` accepts the two times of the claim, as the table
of `TestTime` expects; a fraction behind the hour or the minute is rejected. -/
theorem validateTime_fraction_counterexample :
    validateTime "23:20:50.44" = true ∧ validateTime "-20:50.6543" = true
      ∧ validateTime "23.5" = false ∧ validateTime "23:20.5" = false := by
  decide

/-- C30 (amended): `validateTime` accepts a fractional second. A text without `.` that one of
the layouts `15:04:05`, `-04:05` and `--05` parses is still accepted when a `.` and one to
nine digits are added. -/
theorem validateTime_accepts_fraction (t frac : List Char)
    (hsec : parseChunks layoutHourMinuteSecond t = true
      ∨ parseChunks layoutMinuteSecond t = true ∨ parseChunks layoutSecond t = true)
    (hdot : '.' ∉ t) (hne : frac ≠ []) (hd : ∀ c ∈ frac, c.isDigit = true)
    (hlen : frac.length ≤ 9) :
    validateTime (String.mk (t ++ '.' :: frac)) = true := by
  have hs := takesFraction_second frac hne hd hlen
  have h1 : TakesFraction frac layoutHourMinuteSecond :=
    takesFraction_hour _ _ (takesFraction_lit _ _ _ (takesFraction_minute _ _
      (takesFraction_lit _ _ _ hs)))
  have h2 : TakesFraction frac layoutMinuteSecond :=
    takesFraction_lit _ _ _ (takesFraction_minute _ _ (takesFraction_lit _ _ _ hs))
  have h3 : TakesFraction frac layoutSecond :=
    takesFraction_lit _ _ _ (takesFraction_lit _ _ _ hs)
  simp only [validateTime, validateTemporal, List.any_cons, List.any_nil, Bool.or_false,
    Bool.or_eq_true]
  rcases hsec with h | h | h
  · exact Or.inl (h1 0 1 1 t h hdot)
  · exact Or.inr (Or.inr (Or.inr (Or.inr (Or.inl (h2 0 1 1 t h hdot)))))
  · exact Or.inr (Or.inr (Or.inr (Or.inr (Or.inr (h3 0 1 1 t h hdot)))))

/-- C30 (amended), at the time `23:20:50` with the fraction `.44`. -/
theorem validateTime_accepts_fraction_witness :
    validateTime "23:20:50" = true ∧ validateTime "23:20:50.44" = true :=
  ⟨by decide, validateTime_accepts_fraction "23:20:50".data "44".data (Or.inl (by decide))
    (by decide) (by decide) (by decide) (by decide)⟩

/-! ## C31, C32, C33: builders that choose the declared type -/

theorem append_ok (v : VCard) (prop : PropertyRef) (h : prop.obj.Validate = .done none) :
    v.append prop = .done ({ v with Properties := v.Properties ++ [prop] }, none) := by
  unfold VCard.append
  rw [h]

theorem append_err (v : VCard) (prop : PropertyRef) (err : String)
    (h : prop.obj.Validate = .done (some err)) :
    v.append prop = .done (v, some ("Adding " ++ prop.obj.Name ++ " failed: " ++ err)) := by
  unfold VCard.append
  rw [h]

theorem validateAltidParam_none : ∀ l : List String, validateAltidParam l = none
  | [] => rfl
  | v :: rest => by
    rw [validateAltidParam]
    split
    · rfl
    · exact validateAltidParam_none rest

theorem validateCalscaleParam_eq_none :
    ∀ l : List String, validateCalscaleParam l = none ↔ ∀ x ∈ l, x = "gregorian"
  | [] => by simp [validateCalscaleParam]
  | v :: rest => by
    rw [validateCalscaleParam]
    by_cases h : v = "gregorian"
    · simp [h, validateCalscaleParam_eq_none rest]
    · simp [h]

theorem validateBDateParamRange_eq_none :
    ∀ params : Params, validateBDateParamRange params = none ↔ bdateParamsAccepted params
  | [] => by simp [validateBDateParamRange, bdateParamsAccepted]
  | (k, v) :: rest => by
    have ih := validateBDateParamRange_eq_none rest
    unfold bdateParamsAccepted at ih ⊢
    rw [validateBDateParamRange]
    by_cases h1 : k = "altid"
    · simp [h1, validateAltidParam_none, ih]
    · by_cases h2 : k = "calscale"
      · cases hc : validateCalscaleParam v with
        | none =>
          have := (validateCalscaleParam_eq_none v).1 hc
          simp [h2, hc, ih]
          exact fun _ => this
        | some e =>
          have : ¬ ∀ x ∈ v, x = "gregorian" := fun h => by
            rw [(validateCalscaleParam_eq_none v).2 h] at hc
            cases hc
          simp [h2, hc, this]
      · simp [h1, h2]

theorem validateAnniversaryAndBDate_built (name : String) (svalue : String) (params : Params)
    (n : String) :
    validateAnniversaryAndBDate
        { Name := name, Parameters := params, Type_ := bdayType svalue, Value := .str svalue } n
      = .done (validateBDateParamRange params) := by
  unfold validateAnniversaryAndBDate bdayType
  cases h : validateDateAndOrTime svalue
  · simp [Text]
  · simp [h]

theorem bdayCandidate_validate (L : Deps) (addr : Nat) (svalue : String) (params : Params) :
    (bdayCandidate L addr svalue params).obj.Validate
      = .done (validateBDateParamRange params) := by
  simp only [VCardProperty.Validate, bdayCandidate, bdayTypeInfo, not_true_eq_false, if_false,
    ValidateBDay, VCardProperty.toVCardPropertyData]
  exact validateAnniversaryAndBDate_built _ _ _ _

theorem anniversaryCandidate_validate (L : Deps) (addr : Nat) (svalue : String)
    (params : Params) :
    (anniversaryCandidate L addr svalue params).obj.Validate
      = .done (validateBDateParamRange params) := by
  simp only [VCardProperty.Validate, anniversaryCandidate, anniversaryTypeInfo,
    not_true_eq_false, if_false, ValidateAnniversary, VCardProperty.toVCardPropertyData]
  exact validateAnniversaryAndBDate_built _ _ _ _

theorem validateDateAndOrTime_circa : validateDateAndOrTime "circa 1800" = false := by
  decide

/-- C31: for every string value, `AddBDay` and `AddAnniversary` build a property whose
declared type is `date-and-or-time` exactly when `validateDateAndOrTime` holds of the value
and `text` otherwise; the call appends the property exactly when the parameter loop returns
no error, whatever the value is, and that is when every key is `altid` or is `calscale` with
values `gregorian` only; `AddBDay` of `circa 1800` without parameters appends a `bday` of
type `text` with that value. -/
theorem AddBDay_type_and_outcome (L : Deps) (v : VCard) (addr : Nat) (value : String)
    (params : Params) :
    ((bdayCandidate L addr value params).obj.Type_ = "date-and-or-time"
        ↔ validateDateAndOrTime value = true)
      ∧ ((bdayCandidate L addr value params).obj.Type_ = "text"
        ↔ validateDateAndOrTime value = false)
      ∧ (anniversaryCandidate L addr value params).obj.Type_
          = (bdayCandidate L addr value params).obj.Type_
      ∧ v.AddBDay L addr (.str value) params
          = .done (match validateBDateParamRange params with
            | none =>
              ({ v with Properties := v.Properties ++ [bdayCandidate L addr value params] },
                none)
            | some err => (v, some ("Adding bday failed: " ++ err)))
      ∧ v.AddAnniversary L addr (.str value) params
          = .done (match validateBDateParamRange params with
            | none =>
              ({ v with
                  Properties := v.Properties ++ [anniversaryCandidate L addr value params] },
                none)
            | some err => (v, some ("Adding anniversary failed: " ++ err)))
      ∧ (validateBDateParamRange params = none ↔ bdateParamsAccepted params)
      ∧ v.AddBDay L addr (.str "circa 1800") []
          = .done ({ v with Properties := v.Properties ++
              [{ addr := addr,
                 obj := { Name := "bday", Type_ := "text", Parameters := [],
                          Value := .str "circa 1800", typeInfo := bdayTypeInfo L } }] },
              none) := by
  refine ⟨?_, ?_, rfl, ?_, ?_, validateBDateParamRange_eq_none params, ?_⟩
  · cases h : validateDateAndOrTime value <;> simp [bdayCandidate, bdayType, h, Text]
  · cases h : validateDateAndOrTime value <;> simp [bdayCandidate, bdayType, h, Text]
  · have h := bdayCandidate_validate L addr value params
    simp only [VCard.AddBDay]
    cases hr : validateBDateParamRange params with
    | none => rw [hr] at h; rw [append_ok v _ h]
    | some err => rw [hr] at h; rw [append_err v _ err h]; rfl
  · have h := anniversaryCandidate_validate L addr value params
    simp only [VCard.AddAnniversary]
    cases hr : validateBDateParamRange params with
    | none => rw [hr] at h; rw [append_ok v _ h]
    | some err => rw [hr] at h; rw [append_err v _ err h]; rfl
  · have h := bdayCandidate_validate L addr "circa 1800" []
    simp only [VCard.AddBDay]
    rw [append_ok v _ h]
    simp [bdayCandidate, bdayType, validateDateAndOrTime_circa, Text, BDay]

theorem tzCandidate_validate (L : Deps) (addr : Nat) (value : String) (params : Params) :
    (tzCandidate L addr value params).obj.Validate
      = .done (validateMediaParamRange params) := by
  simp [VCardProperty.Validate, tzCandidate, tzTypeInfo, ValidateTz,
    VCardProperty.toVCardPropertyData]

theorem AddTz_eq (L : Deps) (v : VCard) (addr : Nat) (value : String) (params : Params) :
    v.AddTz L addr value params
      = .done (match validateMediaParamRange params with
        | none =>
          ({ v with Properties := v.Properties ++ [tzCandidate L addr value params] }, none)
        | some err => (v, some ("Adding tz failed: " ++ err))) := by
  have h := tzCandidate_validate L addr value params
  simp only [VCard.AddTz]
  cases hr : validateMediaParamRange params with
  | none => rw [hr] at h; rw [append_ok v _ h]
  | some err => rw [hr] at h; rw [append_err v _ err h]; rfl

theorem tz_both_hold : validateURI "Zulu:x" = true ∧ validateUtcOffset "Zulu:x" = true := by
  decide

theorem validateMediaParamRange_of_accepted :
    ∀ params : Params, mediaParamsAccepted params → validateMediaParamRange params = none
  | [], _ => rfl
  | (k, v) :: rest, h => by
    have hh := h (k, v) (List.mem_cons_self _ _)
    have hr : mediaParamsAccepted rest := fun kv hkv => h kv (List.mem_cons_of_mem _ hkv)
    rw [validateMediaParamRange]
    by_cases hk : k = "mediatype"
    · simp only [hk, if_true] at hh ⊢
      exact hh
    · simp only [hk, if_false] at hh ⊢
      rw [hh]
      exact validateMediaParamRange_of_accepted rest hr

theorem accepted_of_validateMediaParamRange :
    ∀ params : Params, (params.map Prod.fst).Nodup → ¬ orderSensitive params →
      validateMediaParamRange params = none → mediaParamsAccepted params
  | [], _, _, _ => fun kv hkv => by cases hkv
  | (k, v) :: rest, hnd, hns, h => by
    simp only [List.map_cons, List.nodup_cons] at hnd
    rw [validateMediaParamRange] at h
    by_cases hk : k = "mediatype"
    · simp only [hk, if_true] at h
      intro kv hkv
      rcases List.mem_cons.1 hkv with rfl | hmem
      · simp only [hk, if_true]
        exact h
      · have hne : kv.1 ≠ "mediatype" := by
          intro he
          exact hnd.1 (by rw [hk, ← he]; exact List.mem_map_of_mem _ hmem)
        simp only [hne, if_false]
        by_contra hbad
        exact hns ⟨⟨(k, v), List.mem_cons_self _ _, hk, h⟩, ⟨kv, hkv, hne, hbad⟩⟩
    · simp only [hk, if_false] at h
      cases hd : validateDefaultParam k v with
      | some err => rw [hd] at h; cases h
      | none =>
        rw [hd] at h
        have hrest := accepted_of_validateMediaParamRange rest hnd.2
          (fun ⟨⟨a, ha, ha1, ha2⟩, ⟨b, hb, hb1, hb2⟩⟩ =>
            hns ⟨⟨a, List.mem_cons_of_mem _ ha, ha1, ha2⟩,
                 ⟨b, List.mem_cons_of_mem _ hb, hb1, hb2⟩⟩) h
        intro kv hkv
        rcases List.mem_cons.1 hkv with rfl | hmem
        · simp only [hk, if_false]
          exact hd
        · exact hrest kv hmem

/-- On a map that is not sensitive to the order, the loop that stops at `mediatype` gives
the same verdict in whatever order it visits the entries. -/
theorem validateMediaParamRange_perm (params params2 : Params) (hp : params2.Perm params)
    (hnd : (params.map Prod.fst).Nodup) (hns : ¬ orderSensitive params) :
    validateMediaParamRange params = none ↔ validateMediaParamRange params2 = none := by
  have hnd2 : (params2.map Prod.fst).Nodup := (hp.map Prod.fst).nodup_iff.2 hnd
  have hns2 : ¬ orderSensitive params2 := fun ⟨⟨a, ha, ha1, ha2⟩, ⟨b, hb, hb1, hb2⟩⟩ =>
    hns ⟨⟨a, hp.mem_iff.1 ha, ha1, ha2⟩, ⟨b, hp.mem_iff.1 hb, hb1, hb2⟩⟩
  constructor
  · intro h
    exact validateMediaParamRange_of_accepted params2
      (fun kv hkv => accepted_of_validateMediaParamRange params hnd hns h kv (hp.mem_iff.1 hkv))
  · intro h
    exact validateMediaParamRange_of_accepted params
      (fun kv hkv =>
        accepted_of_validateMediaParamRange params2 hnd2 hns2 h kv (hp.mem_iff.2 hkv))

/-- On a map that is sensitive to the order there is an order of visit in which the loop
accepts and one in which it refuses. -/
theorem validateMediaParamRange_orders (params : Params) (h : orderSensitive params) :
    ∃ p1 p2 : Params, p1.Perm params ∧ p2.Perm params
      ∧ validateMediaParamRange p1 = none ∧ validateMediaParamRange p2 ≠ none := by
  obtain ⟨⟨a, ha, ha1, ha2⟩, ⟨b, hb, hb1, hb2⟩⟩ := h
  obtain ⟨s1, t1, rfl⟩ := List.append_of_mem ha
  obtain ⟨s2, t2, e2⟩ := List.append_of_mem hb
  refine ⟨a :: (s1 ++ t1), b :: (s2 ++ t2), List.perm_middle.symm,
    by rw [e2]; exact List.perm_middle.symm, ?_, ?_⟩
  · obtain ⟨k, v⟩ := a
    simp only at ha1 ha2
    rw [validateMediaParamRange]
    simp only [ha1, if_true]
    exact ha2
  · obtain ⟨k, v⟩ := b
    simp only at hb1 hb2
    rw [validateMediaParamRange]
    simp only [hb1, if_false]
    cases hd : validateDefaultParam k v with
    | none => exact absurd hd hb2
    | some err => simp

theorem AddTz_refused_iff (L : Deps) (v : VCard) (addr : Nat) (value : String)
    (params : Params) :
    (∃ e, v.AddTz L addr value params = .done (v, some e))
      ↔ validateMediaParamRange params ≠ none := by
  rw [AddTz_eq L v addr value params]
  cases hr : validateMediaParamRange params with
  | none =>
    have hne : ({ v with Properties := v.Properties ++ [tzCandidate L addr value params] }
        : VCard) ≠ v := by
      intro hq
      have := congrArg (fun c : VCard => c.Properties.length) hq
      simp at this
    constructor
    · rintro ⟨e, he⟩
      simp only [Run.done.injEq, Prod.mk.injEq] at he
      exact absurd he.1 hne
    · intro h
      exact absurd rfl h
  | some err => exact ⟨fun _ => by simp, fun _ => ⟨_, rfl⟩⟩

/-- C32, as the code has it. A list of parameters stands for the map and for the order in
which the call visits it. For every string value, `AddTz` builds a property whose declared
type is `uri` if `validateURI` holds of the value, otherwise `utc-offset` if
`validateUtcOffset` holds, otherwise `text`; `uri` wins when both hold, as for the value
`Zulu:x`. The call appends the property exactly when the parameter loop, in the order of its
visit, returns no error; the value is not looked at. When the map is not sensitive to the
order, every value and every order of visit give the same outcome; when it is, there are an
order in which the property is appended and an order in which it is refused. -/
theorem AddTz_type_and_outcome (L : Deps) (v : VCard) (addr : Nat) (value : String)
    (params : Params) :
    (tzCandidate L addr value params).obj.Type_
        = (if validateURI value = true then "uri"
           else if validateUtcOffset value = true then "utc-offset" else "text")
      ∧ (validateURI "Zulu:x" = true ∧ validateUtcOffset "Zulu:x" = true
          ∧ (tzCandidate L addr "Zulu:x" params).obj.Type_ = "uri")
      ∧ v.AddTz L addr value params
          = .done (match validateMediaParamRange params with
            | none =>
              ({ v with Properties := v.Properties ++ [tzCandidate L addr value params] },
                none)
            | some err => (v, some ("Adding tz failed: " ++ err)))
      ∧ ((params.map Prod.fst).Nodup → ¬ orderSensitive params →
          ∀ (value2 : String) (params2 : Params), params2.Perm params →
            ((∃ e, v.AddTz L addr value params = .done (v, some e))
              ↔ (∃ e, v.AddTz L addr value2 params2 = .done (v, some e))))
      ∧ (orderSensitive params →
          ∃ p1 p2 : Params, p1.Perm params ∧ p2.Perm params
            ∧ v.AddTz L addr value p1
                = .done ({ v with Properties := v.Properties ++ [tzCandidate L addr value p1] },
                    none)
            ∧ ∃ e, v.AddTz L addr value p2 = .done (v, some e)) := by
  refine ⟨rfl, ⟨tz_both_hold.1, tz_both_hold.2, ?_⟩, AddTz_eq L v addr value params, ?_, ?_⟩
  · simp [tzCandidate, tzType, tz_both_hold.1, URI]
  · intro hnd hns value2 params2 hp
    rw [AddTz_refused_iff, AddTz_refused_iff]
    exact not_congr (validateMediaParamRange_perm params params2 hp hnd hns)
  · intro hs
    obtain ⟨p1, p2, h1, h2, hv1, hv2⟩ := validateMediaParamRange_orders params hs
    refine ⟨p1, p2, h1, h2, ?_, (AddTz_refused_iff L v addr value p2).2 hv2⟩
    rw [AddTz_eq L v addr value p1, hv1]

/-- The witness of `AddTz_type_and_outcome`: with the parameters `pref` and `altid` the
value `Zulu` is appended in both orders of visit; with the parameters `mediatype` and
`unknown` there are two orders of visit, one in which `Zulu` is appended and one in which it
is refused. -/
theorem AddTz_type_and_outcome_witness :
    ((∃ e, emptyCard.AddTz testDeps 0 "Zulu" [("pref", ["1"]), ("altid", ["1"])]
          = .done (emptyCard, some e))
        ↔ (∃ e, emptyCard.AddTz testDeps 0 "-0500" [("altid", ["1"]), ("pref", ["1"])]
          = .done (emptyCard, some e)))
      ∧ ∃ p1 p2 : Params,
          p1.Perm [("mediatype", ["text/calendar"]), ("unknown", ["0"])]
            ∧ p2.Perm [("mediatype", ["text/calendar"]), ("unknown", ["0"])]
            ∧ emptyCard.AddTz testDeps 0 "Zulu" p1
                = .done ({ emptyCard with
                    Properties := emptyCard.Properties ++ [tzCandidate testDeps 0 "Zulu" p1] },
                    none)
            ∧ ∃ e, emptyCard.AddTz testDeps 0 "Zulu" p2 = .done (emptyCard, some e) :=
  ⟨(AddTz_type_and_outcome testDeps emptyCard 0 "Zulu"
      [("pref", ["1"]), ("altid", ["1"])]).2.2.2.1 (by decide)
      (fun h => by
        obtain ⟨⟨a, ha, ha1, -⟩, -⟩ := h
        simp only [List.mem_cons, List.mem_singleton, List.not_mem_nil, or_false] at ha
        rcases ha with rfl | rfl <;> simp at ha1)
      "-0500" [("altid", ["1"]), ("pref", ["1"])] (List.Perm.swap _ _ _),
   (AddTz_type_and_outcome testDeps emptyCard 0 "Zulu"
      [("mediatype", ["text/calendar"]), ("unknown", ["0"])]).2.2.2.2
      ⟨⟨("mediatype", ["text/calendar"]), by simp, rfl, by decide⟩,
       ⟨("unknown", ["0"]), by simp, by decide, by decide⟩⟩⟩

/-- The two orders of visit of the map with the entries `mediatype` and `unknown`: `AddTz`
appends the value `Zulu` when `mediatype` is visited first and refuses it when `unknown`
is. -/
theorem AddTz_depends_on_order :
    emptyCard.AddTz testDeps 0 "Zulu" [("mediatype", ["text/calendar"]), ("unknown", ["0"])]
        = .done ({ Properties := [tzCandidate testDeps 0 "Zulu"
                      [("mediatype", ["text/calendar"]), ("unknown", ["0"])]],
                   Errors := [] }, none)
      ∧ emptyCard.AddTz testDeps 0 "Zulu"
          [("unknown", ["0"]), ("mediatype", ["text/calendar"])]
        = .done (emptyCard,
            some "Adding tz failed: jCard error: unknown parameter type: unknown") :=
  ⟨rfl, rfl⟩

theorem uidCandidate_validate_nil (L : Deps) (addr : Nat) (svalue : String) :
    (uidCandidate L addr svalue []).obj.Validate = .done none := by
  simp only [VCardProperty.Validate, uidCandidate, uidTypeInfo, not_true_eq_false, if_false,
    ValidateUID, VCardProperty.toVCardPropertyData, uidType]
  cases h : validateURI svalue <;> simp [URI, Text]

theorem uidCandidate_validate_cons (L : Deps) (addr : Nat) (svalue : String) (params : Params)
    (h : params ≠ []) :
    (uidCandidate L addr svalue params).obj.Validate
      = .done (some (vCardError
          ("UID must not have parameter, but got " ++ SprintParams params))) := by
  have hl : params.length ≠ 0 := by
    cases params with
    | nil => exact absurd rfl h
    | cons a l => simp
  simp [VCardProperty.Validate, uidCandidate, uidTypeInfo, ValidateUID,
    VCardProperty.toVCardPropertyData, hl]

/-- C33: for every string value, the empty string included, `AddUID` without parameters
returns no error and appends a `uid` property whose declared type is `uri` if `validateURI`
holds of the value and `text` otherwise; with a parameter mapping that is not empty it
returns an error and leaves the card as it was. -/
theorem AddUID_type_and_outcome (L : Deps) (v : VCard) (addr : Nat) (value : String) :
    v.AddUID L addr (.str value) []
        = .done ({ v with Properties := v.Properties ++
            [{ addr := addr,
               obj := { Name := "uid",
                        Type_ := (if validateURI value = true then "uri" else "text"),
                        Parameters := [], Value := .str value, typeInfo := uidTypeInfo L } }] },
            none)
      ∧ v.AddUID L addr (.str "") []
        = .done ({ v with Properties := v.Properties ++
            [{ addr := addr,
               obj := { Name := "uid", Type_ := "text", Parameters := [], Value := .str "",
                        typeInfo := uidTypeInfo L } }] },
            none)
      ∧ ∀ params : Params, params ≠ [] →
          ∃ e, v.AddUID L addr (.str value) params = .done (v, some e) := by
  refine ⟨?_, ?_, ?_⟩
  · simp only [VCard.AddUID]
    rw [append_ok v _ (uidCandidate_validate_nil L addr value)]
    rfl
  · simp only [VCard.AddUID]
    rw [append_ok v _ (uidCandidate_validate_nil L addr "")]
    have : validateURI "" = false := by decide
    simp [uidCandidate, uidType, this, Text, UID]
  · intro params hp
    simp only [VCard.AddUID]
    rw [append_err v _ _ (uidCandidate_validate_cons L addr value params hp)]
    exact ⟨_, rfl⟩

/-- The witness of `AddUID_type_and_outcome`: the third value of the test `TestAddUID` is
refused with the parameter `pref`. -/
theorem AddUID_type_and_outcome_witness :
    ∃ e, emptyCard.AddUID testDeps 0 (.str "Ein text") [("pref", ["1"])]
      = .done (emptyCard, some e) :=
  (AddUID_type_and_outcome testDeps emptyCard 0 "Ein text").2.2 [("pref", ["1"])] (by simp)

/-! ## C35: the parameter loop that stops at `mediatype` -/

/-- C35: when the loop over the parameters visits the key `mediatype` first and its values
are media types, `ValidateFburl`, `ValidateCaladruri`, `ValidateCaluri`, `ValidateTz` and
`ValidateGeo` accept the property whatever the other parameters are: they return what
`validateMediatypeParam` returns and visit no further entry. -/
theorem mediatype_ends_the_parameter_loop (L : Deps) (name ty url geo : String)
    (m : List String) (rest : Params)
    (hu : validateURI url = true) (hg : validateGeo geo = true)
    (hm : validateMediatypeParam m = none) :
    ValidateFburl { Name := name, Parameters := ("mediatype", m) :: rest, Type_ := ty,
                    Value := .str url } = .done none
      ∧ ValidateCaladruri { Name := name, Parameters := ("mediatype", m) :: rest, Type_ := ty,
                            Value := .str url } = .done none
      ∧ ValidateCaluri { Name := name, Parameters := ("mediatype", m) :: rest, Type_ := ty,
                         Value := .str url } = .done none
      ∧ ValidateTz { Name := name, Parameters := ("mediatype", m) :: rest, Type_ := ty,
                     Value := .str url } = .done none
      ∧ ValidateGeo L { Name := name, Parameters := ("mediatype", m) :: rest, Type_ := ty,
                        Value := .str geo } = .done none := by
  simp [ValidateFburl, ValidateCaladruri, ValidateCaluri, ValidateTz, ValidateGeo, hu, hg,
    validateMediaParamRange, hm]

/-- The witness of `mediatype_ends_the_parameter_loop`: a free/busy URL with the parameters
`mediatype` and `unknown`, visited in this order, is accepted; visited in the other order
it is refused. -/
theorem mediatype_ends_the_parameter_loop_witness :
    ValidateFburl { Name := FbURL,
                    Parameters := [("mediatype", ["text/calendar"]), ("unknown", ["0"])],
                    Type_ := URI, Value := .str "http://www.example.com/busy/janedoe" }
        = .done none
      ∧ validateMediaParamRange [("unknown", ["0"]), ("mediatype", ["text/calendar"])]
        = some (vCardError "unknown parameter type: unknown") :=
  ⟨(mediatype_ends_the_parameter_loop testDeps FbURL URI "http://www.example.com/busy/janedoe"
      "geo:37.386013,-122.082932" ["text/calendar"] [("unknown", ["0"])]
      (by decide) (by decide) (by decide)).1, by decide⟩

/-- The call of `AddFburl` of the test `TestAddFburl` with the parameter `unknown`, when the
parameter `mediatype` stands in front of it: the property is appended and no error is
returned. -/
theorem AddFburl_appends_with_unknown_parameter :
    emptyCard.AddFburl testDeps 0 "http://www.example.com/busy/janedoe"
        [("mediatype", ["text/calendar"]), ("unknown", ["0"])]
      = .done ({ Properties := [fburlCandidate testDeps 0 "http://www.example.com/busy/janedoe"
                    [("mediatype", ["text/calendar"]), ("unknown", ["0"])]],
                 Errors := [] }, none) :=
  rfl

/-! ## C37: the order of the properties after `Remove` -/

theorem indexFrom_at (value q : PropertyRef) (l2 : List PropertyRef)
    (hq : q.addr = value.addr) :
    ∀ (l1 : List PropertyRef) (pos : Int), (∀ x ∈ l1, x.addr ≠ value.addr) →
      indexFrom value (l1 ++ q :: l2) pos = pos + (l1.length : Int)
  | [], pos, _ => by simp [indexFrom, hq]
  | x :: l1, pos, h => by
    have hx : x.addr ≠ value.addr := h x (List.mem_cons_self _ _)
    have ih := indexFrom_at value q l2 hq l1 (pos + 1)
      (fun y hy => h y (List.mem_cons_of_mem _ hy))
    rw [List.cons_append, indexFrom, if_neg hx, ih]
    simp only [List.length_cons, Nat.cast_add, Nat.cast_one]
    omega

theorem Remove_at (v : VCard) (p q : PropertyRef) (l1 l2 : List PropertyRef)
    (last : PropertyRef) (hq : q.addr = p.addr) (h1 : ∀ x ∈ l1, x.addr ≠ p.addr)
    (hl : v.Properties = l1 ++ q :: l2) (hlast : (l1 ++ q :: l2).getLast? = some last) :
    v.Remove p
      = .done ({ v with Properties := (l1 ++ last :: l2).dropLast }, true) := by
  have hidx : v.index p = (l1.length : Int) := by
    rw [VCard.index, hl, indexFrom_at p q l2 hq l1 0 h1]
    simp
  have hlen : l1.length < v.Properties.length := by
    rw [hl]
    simp
  have hneg : ¬ ((l1.length : Int) = -1) := by omega
  have hset : (l1 ++ q :: l2).set l1.length last = l1 ++ last :: l2 := by
    simp [List.set_append]
  simp only [VCard.Remove, hidx, hneg, if_false, hl, hlast, Int.toNat_ofNat, hset]
  rw [if_pos ⟨by omega, by simp⟩]

/-- C37, as the code has it. `Remove(p)` writes the last property over the first occurrence
of `p` and cuts the list by one: when `p` is the last property the others stay as they were,
and otherwise the properties before `p` keep their places, the last property takes the place
of `p`, and the properties between `p` and the last one follow it in their old order. -/
theorem Remove_moves_last (v : VCard) (p q : PropertyRef) (l1 l2 : List PropertyRef)
    (hq : q.addr = p.addr) (h1 : ∀ x ∈ l1, x.addr ≠ p.addr) :
    (v.Properties = l1 ++ [q] → v.Remove p = .done ({ v with Properties := l1 }, true))
      ∧ ∀ last : PropertyRef, v.Properties = l1 ++ q :: (l2 ++ [last]) →
          v.Remove p = .done ({ v with Properties := l1 ++ last :: l2 }, true) := by
  constructor
  · intro hl
    rw [Remove_at v p q l1 [] q hq h1 hl (by simp)]
    simp
  · intro last hl
    have hlast : (l1 ++ q :: (l2 ++ [last])).getLast? = some last := by
      rw [show l1 ++ q :: (l2 ++ [last]) = (l1 ++ q :: l2) ++ [last] by simp,
        List.getLast?_concat]
    rw [Remove_at v p q l1 (l2 ++ [last]) last hq h1 hl hlast]
    have : (l1 ++ last :: (l2 ++ [last])).dropLast = l1 ++ last :: l2 := by
      have e : l1 ++ last :: (l2 ++ [last]) = (l1 ++ last :: l2) ++ [last] := by simp
      rw [e, List.dropLast_concat]
    rw [this]

/-- The witness of `Remove_moves_last`: removing the first of three `tel` properties puts
the third in front of the second, and removing the third leaves the first two in place. -/
theorem Remove_moves_last_witness :
    threeTels.Remove (telAt 0 "tel:+1")
        = .done ({ threeTels with Properties := [telAt 2 "tel:+3", telAt 1 "tel:+2"] }, true)
      ∧ threeTels.Remove (telAt 2 "tel:+3")
        = .done ({ threeTels with Properties := [telAt 0 "tel:+1", telAt 1 "tel:+2"] }, true) :=
  ⟨(Remove_moves_last threeTels (telAt 0 "tel:+1") (telAt 0 "tel:+1") [] [telAt 1 "tel:+2"]
      rfl (by simp)).2 (telAt 2 "tel:+3") rfl,
   (Remove_moves_last threeTels (telAt 2 "tel:+3") (telAt 2 "tel:+3")
      [telAt 0 "tel:+1", telAt 1 "tel:+2"] [] rfl (by simp [telAt])).1 rfl⟩

/-- C37 fails as stated: on a card with three `tel` properties inserted at the addresses
0, 1, 2, `Remove` of the first leaves the third before the second, so the remaining
properties are not in their old relative order and `Get` returns them in the order 2, 1. -/
theorem Remove_order_counterexample :
    (threeTels.Get Tel).map (fun q => q.addr) = [0, 1, 2]
      ∧ threeTels.Remove (telAt 0 "tel:+1")
          = .done ({ Properties := [telAt 2 "tel:+3", telAt 1 "tel:+2"], Errors := [] }, true)
      ∧ (({ Properties := [telAt 2 "tel:+3", telAt 1 "tel:+2"], Errors := [] } : VCard).Get
            Tel).map (fun q => q.addr) = [2, 1]
      ∧ ¬ List.Sublist [2, 1] [0, 1, 2] := by
  refine ⟨by decide, rfl, by decide, by decide⟩

/-! ## C38: the registry and its names -/

theorem registry_descriptor_names (L : Deps) :
    (addTypeInfoCases L).map (fun kv => kv.2.Name) = (addTypeInfoCases L).map Prod.fst :=
  rfl

theorem registry_lookup_name (L : Deps) (name : String) (info : VPropertyTypeInfo)
    (h : (addTypeInfoCases L).lookup name = some info) : info.Name = name := by
  have hmem := lookup_some_mem name info _ h
  have hall : ∀ kv ∈ addTypeInfoCases L, kv.2.Name = kv.1 := by
    intro kv hkv
    simp only [addTypeInfoCases, List.mem_cons, List.mem_singleton, List.not_mem_nil,
      or_false] at hkv
    rcases hkv with h | h | h | h | h | h | h | h | h | h | h | h | h | h | h | h | h | h | h
      | h | h | h | h | h | h | h | h | h | h | h | h | h | h | h <;> subst h <;> rfl
  exact hall _ hmem

theorem registry_lookup_validate (L : Deps) (name : String) (info : VPropertyTypeInfo)
    (h : (addTypeInfoCases L).lookup name = some info) : info.Validate ≠ none := by
  have hmem := lookup_some_mem name info _ h
  have hall : ∀ kv ∈ addTypeInfoCases L, kv.2.Validate ≠ none := by
    intro kv hkv
    simp only [addTypeInfoCases, List.mem_cons, List.mem_singleton, List.not_mem_nil,
      or_false] at hkv
    rcases hkv with h | h | h | h | h | h | h | h | h | h | h | h | h | h | h | h | h | h | h
      | h | h | h | h | h | h | h | h | h | h | h | h | h | h | h <;> subst h <;>
      exact Option.some_ne_none _
  exact hall _ hmem

theorem NewVCard_some (L : Deps) (top : List Any) (err : GoError) (v : VCard)
    (h : (NewVCard L top err).1 = some v) :
    ∃ v0 : VCard, newVCardImpl (.arr top) = (some v0, none)
      ∧ v = { v0 with Properties :=
          v0.Properties.map (fun p => { p with obj := (p.obj.addTypeInfo L).1 }) } := by
  unfold NewVCard at h
  cases err with
  | some e => simp at h
  | none =>
    rcases newVCardImpl_total (.arr top) with ⟨v0, h0⟩ | ⟨e, h0⟩
    · rw [h0] at h
      simp only [Option.some.injEq] at h
      exact ⟨v0, h0, h.symm⟩
    · rw [h0] at h
      simp at h

theorem addTypeInfo_known (L : Deps) (p : VCardProperty) (h : p.Name ∈ registryNames) :
    ∃ info, (addTypeInfoCases L).lookup p.Name = some info
      ∧ p.addTypeInfo L = ({ p with typeInfo := info }, none) := by
  cases hl : (addTypeInfoCases L).lookup p.Name with
  | none =>
    rw [lookup_eq_none_iff_not_mem, addTypeInfoCases_names L] at hl
    exact absurd h hl
  | some info =>
    refine ⟨info, rfl, ?_⟩
    unfold VCardProperty.addTypeInfo
    rw [hl]

/-- C38, with the count of the code. The switch of `addTypeInfo` has 34 case labels. For a
property with one of these names `addTypeInfo` returns no error and attaches a descriptor
whose name is the property's name and whose validator is set, so that
`VCardProperty.Validate` passes its name test and returns what the validator returns. For
every other name `addTypeInfo` returns an error and leaves the property as it was. In a card
that `NewVCard` returns, a property with a registered name has a descriptor of its name and
a property with another name has the zero descriptor. -/
theorem addTypeInfo_registry (L : Deps) (p : VCardProperty) :
    registryNames.length = 34
      ∧ (addTypeInfoCases L).map Prod.fst = registryNames
      ∧ (p.Name ∈ registryNames →
          (p.addTypeInfo L).2 = none
            ∧ (p.addTypeInfo L).1.typeInfo.Name = p.Name
            ∧ (p.addTypeInfo L).1.toVCardPropertyData = p.toVCardPropertyData
            ∧ ∃ validate, (p.addTypeInfo L).1.typeInfo.Validate = some validate
                ∧ (p.addTypeInfo L).1.Validate = validate p.toVCardPropertyData)
      ∧ (p.Name ∉ registryNames →
          (p.addTypeInfo L).2 = some (vCardError ("unknown property name " ++ p.Name))
            ∧ (p.addTypeInfo L).1 = p)
      ∧ ∀ (top : List Any) (err : GoError) (v : VCard), (NewVCard L top err).1 = some v →
          ∀ q ∈ v.Properties,
            (q.obj.Name ∈ registryNames → q.obj.typeInfo.Name = q.obj.Name)
              ∧ (q.obj.Name ∉ registryNames → q.obj.typeInfo = VPropertyTypeInfo.zero) := by
  refine ⟨rfl, addTypeInfoCases_names L, ?_, ?_, ?_⟩
  · intro h
    obtain ⟨info, hl, he⟩ := addTypeInfo_known L p h
    have hn := registry_lookup_name L p.Name info hl
    have hv := registry_lookup_validate L p.Name info hl
    rw [he]
    refine ⟨rfl, hn, rfl, ?_⟩
    cases hval : info.Validate with
    | none => exact absurd hval hv
    | some validate =>
      refine ⟨validate, rfl, ?_⟩
      simp [VCardProperty.Validate, hn, hval, VCardProperty.toVCardPropertyData]
  · intro h
    have h1 := addTypeInfo_unknown L p h
    refine ⟨?_, h1⟩
    rw [← addTypeInfoCases_names L, ← lookup_eq_none_iff_not_mem] at h
    unfold VCardProperty.addTypeInfo
    rw [h]
  · intro top err v hv q hq
    obtain ⟨v0, h0, rfl⟩ := NewVCard_some L top err v hv
    simp only [List.mem_map] at hq
    obtain ⟨q0, hq0, rfl⟩ := hq
    have hd : (q0.obj.addTypeInfo L).1.Name = q0.obj.Name :=
      congrArg VCardPropertyData.Name (addTypeInfo_data L q0.obj)
    simp only
    rw [hd]
    constructor
    · intro h
      obtain ⟨info, hl, he⟩ := addTypeInfo_known L q0.obj h
      rw [he]
      exact registry_lookup_name L _ info hl
    · intro h
      rw [addTypeInfo_unknown L q0.obj h]
      exact newVCardImpl_typeInfo_zero _ v0 h0 q0 hq0

/-- The witness of `addTypeInfo_registry`: a property named `tel` gets the descriptor of
`tel`, and the property `mixed` of the test data gets an error and keeps the zero
descriptor. -/
theorem addTypeInfo_registry_witness :
    ((telAt 0 "tel:+1").obj.addTypeInfo testDeps).2 = none
      ∧ ((telAt 0 "tel:+1").obj.addTypeInfo testDeps).1.typeInfo.Name = "tel"
      ∧ (mixedProperty.addTypeInfo testDeps).2
          = some (vCardError "unknown property name mixed")
      ∧ (mixedProperty.addTypeInfo testDeps).1 = mixedProperty :=
  ⟨((addTypeInfo_registry testDeps (telAt 0 "tel:+1").obj).2.2.1 (by decide)).1,
   ((addTypeInfo_registry testDeps (telAt 0 "tel:+1").obj).2.2.1 (by decide)).2.1,
   ((addTypeInfo_registry testDeps mixedProperty).2.2.2.1 (by decide)).1,
   ((addTypeInfo_registry testDeps mixedProperty).2.2.2.1 (by decide)).2⟩

/-- C38 fails in its count: the switch of `addTypeInfo` has 34 case labels, all different,
and each of the 34 names gets a descriptor; the registered names are not 33. -/
theorem registry_size_counterexample :
    (addTypeInfoCases testDeps).length = 34
      ∧ ((addTypeInfoCases testDeps).map Prod.fst).Nodup
      ∧ (addTypeInfoCases testDeps).map Prod.fst = registryNames
      ∧ ((addTypeInfoCases testDeps).map Prod.fst).length ≠ 33 := by
  refine ⟨rfl, ?_, rfl, by decide⟩
  rw [addTypeInfoCases_names]
  decide

/-! ## C34: the card of a directory entry -/

theorem telCandidate_validate (L : Deps) (addr : Nat) (value : String) (params : Params) :
    (telCandidate L addr value params).obj.Validate
      = ValidateTel L { Name := "tel", Parameters := params, Type_ := "uri",
                        Value := .str (normalizeTel value) } := by
  simp [VCardProperty.Validate, telCandidate, telTypeInfo, VCardProperty.toVCardPropertyData,
    Tel, URI]

theorem telPasses_eq (L : Deps) (number : String) (params : Params)
    (hp : validateTelParams params = none) :
    telPasses L number params = validTelNumber.MatchString (normalizeTel number) := by
  unfold telPasses ValidateTel
  cases h : validTelNumber.MatchString (normalizeTel number) <;> simp [Sprint, h, hp]

theorem AddTel_eq (L : Deps) (v : VCard) (addr : Nat) (value : String) (params : Params)
    (hp : validateTelParams params = none) :
    (telPasses L value params = true
        ∧ v.AddTel L addr value params
          = .done ({ v with Properties := v.Properties ++ [telCandidate L addr value params] },
              none))
      ∨ (telPasses L value params = false
        ∧ ∃ e, v.AddTel L addr value params = .done (v, some e)) := by
  have hv := telCandidate_validate L addr value params
  rw [telPasses_eq L value params hp]
  unfold ValidateTel at hv
  simp only [Sprint] at hv
  cases h : validTelNumber.MatchString (normalizeTel value)
  · right
    simp only [h, Bool.not_false, if_true] at hv
    exact ⟨rfl, _, append_err v _ _ hv⟩
  · left
    simp only [h, Bool.not_true, Bool.false_eq_true, if_false, hp] at hv
    exact ⟨rfl, append_ok v _ hv⟩

theorem telPasses_empty (L : Deps) (params : Params) : telPasses L "" params = false := by
  have h : validTelNumber.MatchString (normalizeTel "") = false := by decide
  simp [telPasses, ValidateTel, Sprint, h]

theorem ldapTelData_of_candidate (L : Deps) (addr : Nat) (value : String) (params : Params)
    (h : telPasses L value params = true) :
    [(telCandidate L addr value params).obj.toVCardPropertyData]
      = ldapTelData L value params := by
  simp [ldapTelData, h, telCandidate, VCardProperty.toVCardPropertyData, Tel, URI]

theorem ldapTelData_of_refused (L : Deps) (value : String) (params : Params)
    (h : telPasses L value params = false) : ldapTelData L value params = [] := by
  simp [ldapTelData, h]

/-- What `NewVCardFromLdap` returns, with the references of the card: the three properties
written at the start and then the candidates of the three calls of `AddTel` that were
accepted. -/
theorem NewVCardFromLdap_eq (L : Deps) (person : InetOrgPerson) :
    ∃ t1 t2 t3 : List PropertyRef,
      NewVCardFromLdap L person
          = .done ({ Properties := [ldapVersion, ldapFn person, ldapEmail person]
                        ++ t1 ++ t2 ++ t3, Errors := [] }, none)
        ∧ t1.map (fun q => q.obj.toVCardPropertyData)
            = ldapTelData L person.Mobile [("type", ["voice", "cell"]), ("pref", ["1"])]
        ∧ t2.map (fun q => q.obj.toVCardPropertyData)
            = ldapTelData L person.TelephoneNumber [("type", ["work", "voice"]), ("pref", ["2"])]
        ∧ t3.map (fun q => q.obj.toVCardPropertyData)
            = ldapTelData L person.FacsimileTelephoneNumber
                [("type", ["work", "fax"]), ("pref", ["3"])]
        ∧ (∀ q ∈ t1 ++ t2 ++ t3, q.obj.Name = "tel" ∧ q.obj.typeInfo = telTypeInfo L
            ∧ q.obj.Validate = .done none) := by
  have hp1 : validateTelParams [("type", ["voice", "cell"]), ("pref", ["1"])] = none := by
    decide
  have hp2 : validateTelParams [("type", ["work", "voice"]), ("pref", ["2"])] = none := by
    decide
  have hp3 : validateTelParams [("type", ["work", "fax"]), ("pref", ["3"])] = none := by
    decide
  have hcand : ∀ (addr : Nat) (value : String) (params : Params),
      validateTelParams params = none → telPasses L value params = true →
      (telCandidate L addr value params).obj.Name = "tel"
        ∧ (telCandidate L addr value params).obj.typeInfo = telTypeInfo L
        ∧ (telCandidate L addr value params).obj.Validate = .done none := by
    intro addr value params hp ht
    refine ⟨rfl, rfl, ?_⟩
    rw [telCandidate_validate]
    rw [telPasses_eq L value params hp] at ht
    simp [ValidateTel, Sprint, ht, hp]
  have step : ∀ (v : VCard) (addr : Nat) (value : String) (params : Params),
      validateTelParams params = none →
      ∃ (t : List PropertyRef) (e : GoError),
        v.AddTel L addr value params = .done ({ v with Properties := v.Properties ++ t }, e)
          ∧ t.map (fun q => q.obj.toVCardPropertyData) = ldapTelData L value params
          ∧ ∀ q ∈ t, q.obj.Name = "tel" ∧ q.obj.typeInfo = telTypeInfo L
              ∧ q.obj.Validate = .done none := by
    intro v addr value params hp
    rcases AddTel_eq L v addr value params hp with ⟨ht, ha⟩ | ⟨ht, e, ha⟩
    · refine ⟨[telCandidate L addr value params], none, ha, ?_, ?_⟩
      · exact ldapTelData_of_candidate L addr value params ht
      · intro q hq
        rw [List.mem_singleton] at hq
        subst hq
        exact hcand addr value params hp ht
    · refine ⟨[], some e, ?_, ?_, ?_⟩
      · rw [ha, List.append_nil]
      · rw [ldapTelData_of_refused L value params ht]
        rfl
      · intro q hq
        cases hq
  obtain ⟨t1, e1, ha1, hd1, hq1⟩ := step (ldapStart person) 3 person.Mobile _ hp1
  obtain ⟨t2, e2, ha2, hd2, hq2⟩ :=
    step { ldapStart person with Properties := (ldapStart person).Properties ++ t1 } 4
      person.TelephoneNumber _ hp2
  obtain ⟨t3, e3, ha3, hd3, hq3⟩ :=
    step { ldapStart person with Properties := (ldapStart person).Properties ++ t1 ++ t2 } 5
      person.FacsimileTelephoneNumber _ hp3
  refine ⟨t1, t2, t3, ?_, hd1, hd2, hd3, ?_⟩
  · unfold NewVCardFromLdap
    rw [ha1]
    simp only
    rw [ha2]
    simp only
    rw [ha3]
    rfl
  · intro q hq
    simp only [List.mem_append] at hq
    rcases hq with (hq | hq) | hq
    · exact hq1 q hq
    · exact hq2 q hq
    · exact hq3 q hq

theorem ldapTelData_length (L : Deps) (number : String) (params : Params) :
    (ldapTelData L number params).length ≤ 1 := by
  unfold ldapTelData
  split <;> simp

/-- C34: for every person record `NewVCardFromLdap` returns a card and no error. The card's
first three properties are `version` with the value `4.0`, `fn` with the display name and
`email` with the mail address, type `work` and pref 1; they are followed, in the order
mobile, work number, fax number, by one `tel` property for each number whose normalized form
passes `ValidateTel`, with the types voice and cell and pref 1, work and voice and pref 2,
work and fax and pref 3. So the card has between three and six properties, and an empty
number adds no `tel` property. -/
theorem NewVCardFromLdap_card (L : Deps) (person : InetOrgPerson) :
    ∃ card : VCard, NewVCardFromLdap L person = .done (card, none)
      ∧ card.Properties.map (fun q => q.obj.toVCardPropertyData)
          = [{ Name := "version", Parameters := [], Type_ := "text", Value := .str "4.0" },
             { Name := "fn", Parameters := [], Type_ := "text",
               Value := .str person.DisplayName },
             { Name := "email", Parameters := [("type", ["work"]), ("pref", ["1"])],
               Type_ := "text", Value := .str person.Mail }]
            ++ ldapTelData L person.Mobile [("type", ["voice", "cell"]), ("pref", ["1"])]
            ++ ldapTelData L person.TelephoneNumber
                [("type", ["work", "voice"]), ("pref", ["2"])]
            ++ ldapTelData L person.FacsimileTelephoneNumber
                [("type", ["work", "fax"]), ("pref", ["3"])]
      ∧ 3 ≤ card.Properties.length ∧ card.Properties.length ≤ 6
      ∧ ∀ params : Params, ldapTelData L "" params = [] := by
  obtain ⟨t1, t2, t3, hr, h1, h2, h3, -⟩ := NewVCardFromLdap_eq L person
  have hmap : ([ldapVersion, ldapFn person, ldapEmail person] ++ t1 ++ t2 ++ t3).map
        (fun q => q.obj.toVCardPropertyData)
      = [{ Name := "version", Parameters := [], Type_ := "text", Value := .str "4.0" },
         { Name := "fn", Parameters := [], Type_ := "text",
           Value := .str person.DisplayName },
         { Name := "email", Parameters := [("type", ["work"]), ("pref", ["1"])],
           Type_ := "text", Value := .str person.Mail }]
        ++ ldapTelData L person.Mobile [("type", ["voice", "cell"]), ("pref", ["1"])]
        ++ ldapTelData L person.TelephoneNumber
            [("type", ["work", "voice"]), ("pref", ["2"])]
        ++ ldapTelData L person.FacsimileTelephoneNumber
            [("type", ["work", "fax"]), ("pref", ["3"])] := by
    rw [List.map_append, List.map_append, List.map_append, h1, h2, h3]
    rfl
  have hlen := congrArg List.length hmap
  simp only [List.length_map, List.length_append, List.length_cons, List.length_nil] at hlen
  have l1 := ldapTelData_length L person.Mobile [("type", ["voice", "cell"]), ("pref", ["1"])]
  have l2 := ldapTelData_length L person.TelephoneNumber
    [("type", ["work", "voice"]), ("pref", ["2"])]
  have l3 := ldapTelData_length L person.FacsimileTelephoneNumber
    [("type", ["work", "fax"]), ("pref", ["3"])]
  refine ⟨_, hr, hmap, ?_, ?_, ?_⟩
  · simp only [List.length_append, List.length_cons, List.length_nil]
    omega
  · simp only [List.length_append, List.length_cons, List.length_nil]
    omega
  · intro params
    exact ldapTelData_of_refused L "" params (telPasses_empty L params)

/-- The witness of `NewVCardFromLdap_card`: the person of the test `TestNewVcardFromLdap`
gives a card of five properties, the fax number being empty. -/
theorem NewVCardFromLdap_card_witness :
    ∃ card : VCard, NewVCardFromLdap testDeps arthur = .done (card, none)
      ∧ card.Properties.map (fun q => q.obj.toVCardPropertyData)
          = [{ Name := "version", Parameters := [], Type_ := "text", Value := .str "4.0" },
             { Name := "fn", Parameters := [], Type_ := "text", Value := .str "Arthur Dent" },
             { Name := "email", Parameters := [("type", ["work"]), ("pref", ["1"])],
               Type_ := "text", Value := .str "arthur@dent.de" },
             { Name := "tel", Parameters := [("type", ["voice", "cell"]), ("pref", ["1"])],
               Type_ := "uri", Value := .str "tel:+49-170-1895281" },
             { Name := "tel", Parameters := [("type", ["work", "voice"]), ("pref", ["2"])],
               Type_ := "uri", Value := .str "tel:+49-3866-307" }] := by
  obtain ⟨card, h, hm, -⟩ := NewVCardFromLdap_card testDeps arthur
  refine ⟨card, h, ?_⟩
  rw [hm]
  rfl

/-! ## When `Validate` completes -/

theorem validatePropertiesRange_completes :
    ∀ (l : List PropertyRef) (i : Int) (errors : List (String × String)),
      (∀ q ∈ l, q.obj.Validate ≠ .panic) →
        ∃ errors1, validatePropertiesRange l i errors = .done errors1
  | [], _, errors, _ => ⟨errors, rfl⟩
  | prop :: rest, i, errors, h => by
    have hp := h prop (List.mem_cons_self _ _)
    have hr : ∀ q ∈ rest, q.obj.Validate ≠ .panic :=
      fun q hq => h q (List.mem_cons_of_mem _ hq)
    rw [validatePropertiesRange]
    cases hv : prop.obj.Validate with
    | panic => exact absurd hv hp
    | done e =>
      cases e with
      | none => exact validatePropertiesRange_completes rest (i + 1) errors hr
      | some err => exact validatePropertiesRange_completes rest (i + 1) _ hr

theorem validatePropertiesRange_panics :
    ∀ (l : List PropertyRef) (i : Int) (errors : List (String × String)),
      (∃ q ∈ l, q.obj.Validate = .panic) → validatePropertiesRange l i errors = .panic
  | [], _, _, h => by simp at h
  | prop :: rest, i, errors, h => by
    rw [validatePropertiesRange]
    cases hv : prop.obj.Validate with
    | panic => rfl
    | done e =>
      have hr : ∃ q ∈ rest, q.obj.Validate = .panic := by
        obtain ⟨q, hq, hqv⟩ := h
        rcases List.mem_cons.1 hq with rfl | hq1
        · rw [hv] at hqv
          cases hqv
        · exact ⟨q, hq1, hqv⟩
      cases e with
      | none => exact validatePropertiesRange_panics rest (i + 1) errors hr
      | some err => exact validatePropertiesRange_panics rest (i + 1) _ hr

/-- The method `Validate` aborts when the validator of one of the properties does. -/
theorem Validate_panics_of_property (L : Deps) (v : VCard)
    (h : ∃ q ∈ v.Properties, q.obj.Validate = .panic) : v.Validate L = .panic := by
  have hm := (validateMandatoryProperties_spec ({ v with Errors := [] } : VCard)).1
  have hr := validatePropertiesRange_panics
    (({ v with Errors := [] } : VCard).validateMandatoryProperties).Properties 0
    (({ v with Errors := [] } : VCard).validateMandatoryProperties).Errors (by rw [hm]; exact h)
  simp only [VCard.Validate, VCard.validateProperties, hr]

/-- The method `Validate` completes when no validator of a property aborts and `getCpms`
does not abort. -/
theorem Validate_completes (L : Deps) (v : VCard)
    (h1 : ∀ q ∈ v.Properties, q.obj.Validate ≠ .panic) (h2 : v.getCpms ≠ .panic) :
    ∃ v1, v.Validate L = .done v1 := by
  have hm := (validateMandatoryProperties_spec ({ v with Errors := [] } : VCard)).1
  obtain ⟨errors1, hr⟩ := validatePropertiesRange_completes
    (({ v with Errors := [] } : VCard).validateMandatoryProperties).Properties 0
    (({ v with Errors := [] } : VCard).validateMandatoryProperties).Errors (by rw [hm]; exact h1)
  simp only [VCard.Validate, VCard.validateProperties, hr]
  have hprops : (({ ({ v with Errors := [] } : VCard).validateMandatoryProperties with
      Errors := errors1 } : VCard).validateMemberGroup L).validateCardinality.Properties
        = v.Properties := by
    rw [(validateCardinality_spec _).1, (validateMemberGroup_spec L _).1]
    exact hm
  have hc : ((({ ({ v with Errors := [] } : VCard).validateMandatoryProperties with
      Errors := errors1 } : VCard).validateMemberGroup L).validateCardinality).getCpms
        = v.getCpms := by
    simp only [VCard.getCpms, Get_congr _ v hprops]
  unfold VCard.validateClientPIDMap
  rw [hc]
  cases hg : v.getCpms with
  | panic => exact absurd hg h2
  | done cpms => exact ⟨_, rfl⟩

/-! ## C40: the card of a directory entry is never valid -/

theorem filter_name_eq_nil (l : List PropertyRef) (name other : String) (hne : other ≠ name)
    (h : ∀ q ∈ l, q.obj.Name = other) :
    l.filter (fun p => decide (p.obj.Name = name)) = [] := by
  rw [List.filter_eq_nil_iff]
  intro q hq
  simp [h q hq, hne]

/-- C40: for every person record, `NewVCardFromLdap` returns a card whose first three
properties, `version`, `fn` and `email`, have the zero descriptor; `Validate` on this card
completes, and its error mapping holds for each of the three the key of the per-property
failure, which is the mismatch of the property's name and the descriptor's empty name, and
the key of the cardinality failure, the cardinality 0 being none of the four known; so the
error mapping is not empty. -/
theorem NewVCardFromLdap_never_valid (L : Deps) (person : InetOrgPerson) :
    ∃ card v1 : VCard, NewVCardFromLdap L person = .done (card, none)
      ∧ (∃ rest, card.Properties = ldapVersion :: ldapFn person :: ldapEmail person :: rest)
      ∧ ldapVersion.obj.typeInfo = VPropertyTypeInfo.zero
      ∧ (ldapFn person).obj.typeInfo = VPropertyTypeInfo.zero
      ∧ (ldapEmail person).obj.typeInfo = VPropertyTypeInfo.zero
      ∧ ldapVersion.obj.Validate
          = .done (some (vCardError "Property 'version' has bad typeInfo ''"))
      ∧ (ldapFn person).obj.Validate
          = .done (some (vCardError "Property 'fn' has bad typeInfo ''"))
      ∧ (ldapEmail person).obj.Validate
          = .done (some (vCardError "Property 'email' has bad typeInfo ''"))
      ∧ card.Validate L = .done v1
      ∧ v1.Properties = card.Properties
      ∧ (∀ k ∈ ["0_version validationError", "1_fn validationError",
                "2_email validationError", "version_cardinality", "fn_cardinality",
                "email_cardinality"], k ∈ errKeys v1.Errors)
      ∧ v1.hasErrors = true := by
  obtain ⟨t1, t2, t3, hr, -, -, -, ht⟩ := NewVCardFromLdap_eq L person
  have hv0 : ldapVersion.obj.Validate
      = .done (some (vCardError "Property 'version' has bad typeInfo ''")) := rfl
  have hv1 : (ldapFn person).obj.Validate
      = .done (some (vCardError "Property 'fn' has bad typeInfo ''")) := rfl
  have hv2 : (ldapEmail person).obj.Validate
      = .done (some (vCardError "Property 'email' has bad typeInfo ''")) := rfl
  have hprops : ([ldapVersion, ldapFn person, ldapEmail person] ++ t1 ++ t2 ++ t3)
      = ldapVersion :: ldapFn person :: ldapEmail person :: (t1 ++ t2 ++ t3) := by simp
  rw [hprops] at hr
  have hnp : ∀ q ∈ ldapVersion :: ldapFn person :: ldapEmail person :: (t1 ++ t2 ++ t3),
      q.obj.Validate ≠ .panic := by
    intro q hq
    simp only [List.mem_cons] at hq
    rcases hq with rfl | rfl | rfl | hq
    · rw [hv0]; exact fun h => by cases h
    · rw [hv1]; exact fun h => by cases h
    · rw [hv2]; exact fun h => by cases h
    · rw [(ht q hq).2.2]; exact fun h => by cases h
  have hcpm : (⟨ldapVersion :: ldapFn person :: ldapEmail person :: (t1 ++ t2 ++ t3),
      []⟩ : VCard).getCpms = .done [] := by
    have hf := filter_name_eq_nil (t1 ++ t2 ++ t3) ClientPIDMap "tel" (by decide)
      (fun q hq => (ht q hq).1)
    have hg : (⟨ldapVersion :: ldapFn person :: ldapEmail person :: (t1 ++ t2 ++ t3),
        []⟩ : VCard).Get ClientPIDMap = [] := by
      rw [Get_as_filter]
      simp only [List.filter_cons]
      rw [hf]
      rfl
    rw [VCard.getCpms, hg]
    rfl
  obtain ⟨v1, hval⟩ := Validate_completes L _ hnp (by rw [hcpm]; exact fun h => by cases h)
  obtain ⟨hp1, cpms, -, hkeys⟩ := Validate_keys L _ v1 hval
  have hk : ∀ k ∈ ["0_version validationError", "1_fn validationError",
      "2_email validationError", "version_cardinality", "fn_cardinality",
      "email_cardinality"], k ∈ errKeys v1.Errors := by
    have hcard : ∀ p : PropertyRef, p.obj.typeInfo = VPropertyTypeInfo.zero →
        cardinalityFails (⟨ldapVersion :: ldapFn person :: ldapEmail person :: (t1 ++ t2 ++ t3),
          []⟩ : VCard) p := by
      intro p hp
      refine Or.inr (Or.inr (Or.inr ?_))
      rw [hp]
      decide
    intro k hk
    simp only [List.mem_cons, List.mem_singleton, List.not_mem_nil, or_false] at hk
    rw [hkeys]
    rcases hk with rfl | rfl | rfl | rfl | rfl | rfl
    · exact Or.inr (Or.inl ⟨0, ldapVersion, _, rfl, hv0, by decide⟩)
    · exact Or.inr (Or.inl ⟨1, ldapFn person, _, rfl, hv1, by
        show _ = Itoa 1 ++ "_" ++ "fn" ++ " validationError"
        decide⟩)
    · exact Or.inr (Or.inl ⟨2, ldapEmail person, _, by simp, hv2, by
        show _ = Itoa 2 ++ "_" ++ "email" ++ " validationError"
        decide⟩)
    · exact Or.inr (Or.inr (Or.inr (Or.inr (Or.inl
        ⟨ldapVersion, by simp, hcard _ rfl, by decide⟩))))
    · exact Or.inr (Or.inr (Or.inr (Or.inr (Or.inl
        ⟨ldapFn person, by simp, hcard _ rfl, by
          show _ = "fn" ++ "_cardinality"
          decide⟩))))
    · exact Or.inr (Or.inr (Or.inr (Or.inr (Or.inl
        ⟨ldapEmail person, by simp, hcard _ rfl, by
          show _ = "email" ++ "_cardinality"
          decide⟩))))
  refine ⟨_, v1, hr, ⟨_, rfl⟩, rfl, rfl, rfl, hv0, hv1, hv2, hval, hp1, hk, ?_⟩
  have hmem := hk "0_version validationError" (by simp)
  unfold VCard.hasErrors
  cases hE : v1.Errors with
  | nil => rw [hE] at hmem; simp [errKeys] at hmem
  | cons a l => simp

/-! ## C36: `Validate` on decoded cards -/

/-- The descriptor of a property of a card that `NewVCard` returns: the one that the table
of `addTypeInfo` has for its name, and the zero descriptor when the table has none. -/
theorem NewVCard_typeInfo (L : Deps) (top : List Any) (err : GoError) (v : VCard)
    (h : (NewVCard L top err).1 = some v) (q : PropertyRef) (hq : q ∈ v.Properties) :
    (∀ info, (addTypeInfoCases L).lookup q.obj.Name = some info → q.obj.typeInfo = info)
      ∧ (q.obj.Name ∉ registryNames → q.obj.typeInfo = VPropertyTypeInfo.zero) := by
  obtain ⟨v0, h0, rfl⟩ := NewVCard_some L top err v h
  simp only [List.mem_map] at hq
  obtain ⟨q0, hq0, rfl⟩ := hq
  have hd : (q0.obj.addTypeInfo L).1.Name = q0.obj.Name :=
    congrArg VCardPropertyData.Name (addTypeInfo_data L q0.obj)
  simp only
  rw [hd]
  constructor
  · intro info hl
    unfold VCardProperty.addTypeInfo
    rw [hl]
  · intro hn
    rw [addTypeInfo_unknown L q0.obj hn]
    exact newVCardImpl_typeInfo_zero _ v0 h0 q0 hq0

/-- C36, as the code has it: `Validate` aborts on a card that `NewVCard` returned when the
card has a property with the empty name, whose descriptor has no validator; a `version`
without parameters whose value is not a string; a `photo` whose value is not a string; or a
`clientpidmap` without parameters whose value is not a sequence. -/
theorem Validate_aborts_on_decoded_cards (L : Deps) (top : List Any) (err : GoError)
    (v : VCard) (h : (NewVCard L top err).1 = some v) (q : PropertyRef)
    (hq : q ∈ v.Properties)
    (hcase : q.obj.Name = ""
      ∨ (q.obj.Name = "version" ∧ q.obj.Parameters = [] ∧ q.obj.Value.isStr = false)
      ∨ (q.obj.Name = "photo" ∧ q.obj.Value.isStr = false)
      ∨ (q.obj.Name = "clientpidmap" ∧ q.obj.Parameters = []
          ∧ q.obj.Value.isArr = false)) :
    q.obj.Validate = .panic ∧ v.Validate L = .panic := by
  have hinfo := NewVCard_typeInfo L top err v h q hq
  have hp : q.obj.Validate = .panic := by
    rcases hcase with hn | ⟨hn, hpar, hv⟩ | ⟨hn, hv⟩ | ⟨hn, hpar, hv⟩
    · have hz := hinfo.2 (by rw [hn]; decide)
      simp [VCardProperty.Validate, hz, hn, VPropertyTypeInfo.zero]
    · have hi := hinfo.1 (versionTypeInfo L) (by rw [hn]; rfl)
      simp only [VCardProperty.Validate, hi, hn, versionTypeInfo, Version, not_true_eq_false,
        if_false, ValidateVersion, VCardProperty.toVCardPropertyData, hpar, List.length_nil,
        ne_eq]
      cases hval : q.obj.Value <;> simp_all [Any.isStr]
    · have hi := hinfo.1 (photoTypeInfo L) (by rw [hn]; rfl)
      simp only [VCardProperty.Validate, hi, hn, photoTypeInfo, Photo, not_true_eq_false,
        if_false, ValidatePhoto, VCardProperty.toVCardPropertyData]
      cases hval : q.obj.Value <;> simp_all [Any.isStr]
    · have hi := hinfo.1 (clientPIDMapTypeInfo L) (by rw [hn]; rfl)
      simp only [VCardProperty.Validate, hi, hn, clientPIDMapTypeInfo, ClientPIDMap,
        not_true_eq_false, if_false, ValidateClientPIDMap, VCardProperty.toVCardPropertyData,
        hpar, List.length_nil, ne_eq]
      cases hval : q.obj.Value <;> simp_all [Any.isArr]
  exact ⟨hp, Validate_panics_of_property L v ⟨q, hq, hp⟩⟩

/-- The witness of `Validate_aborts_on_decoded_cards`: four inputs that `NewVCard` decodes
without error and on which `Validate` aborts, with a numeric `version`, a `clientpidmap`
whose value is a text, a `photo` whose value is a sequence, and a property with the empty
name. -/
theorem Validate_aborts_on_decoded_cards_witness :
    (∃ v, NewVCard testDeps numericVersionTop none = (some v, none)
        ∧ v.Validate testDeps = .panic)
      ∧ (∃ v, NewVCard testDeps textClientPidMapTop none = (some v, none)
        ∧ v.Validate testDeps = .panic)
      ∧ (∃ v, NewVCard testDeps photoSequenceTop none = (some v, none)
        ∧ v.Validate testDeps = .panic)
      ∧ (∃ v, NewVCard testDeps emptyNameTop none = (some v, none)
        ∧ v.Validate testDeps = .panic) := by
  refine ⟨?_, ?_, ?_, ?_⟩
  · obtain ⟨v, hv⟩ : ∃ v, v = (NewVCard testDeps numericVersionTop none).1.getD emptyCard :=
      ⟨_, rfl⟩
    have h : NewVCard testDeps numericVersionTop none = (some v, none) := by rw [hv]; rfl
    refine ⟨v, h, ?_⟩
    have hq : (⟨0, (⟨⟨"version", [], "text", .num ⟨0x4010000000000000⟩⟩,
        versionTypeInfo testDeps⟩ : VCardProperty)⟩ : PropertyRef) ∈ v.Properties := by
      rw [hv]
      exact List.Mem.head _
    exact (Validate_aborts_on_decoded_cards testDeps numericVersionTop none v
      (by rw [h]) _ hq (Or.inr (Or.inl ⟨rfl, rfl, rfl⟩))).2
  · obtain ⟨v, hv⟩ : ∃ v, v = (NewVCard testDeps textClientPidMapTop none).1.getD emptyCard :=
      ⟨_, rfl⟩
    have h : NewVCard testDeps textClientPidMapTop none = (some v, none) := by rw [hv]; rfl
    refine ⟨v, h, ?_⟩
    have hq : (⟨1, (⟨⟨"clientpidmap", [], "text",
        .str "1;urn:uuid:3df403f4-5924-4bb7-b077-3c711d9eb34b"⟩,
        clientPIDMapTypeInfo testDeps⟩ : VCardProperty)⟩ : PropertyRef) ∈ v.Properties := by
      rw [hv]
      exact List.Mem.tail _ (List.Mem.head _)
    exact (Validate_aborts_on_decoded_cards testDeps textClientPidMapTop none v
      (by rw [h]) _ hq (Or.inr (Or.inr (Or.inr ⟨rfl, rfl, rfl⟩)))).2
  · obtain ⟨v, hv⟩ : ∃ v, v = (NewVCard testDeps photoSequenceTop none).1.getD emptyCard :=
      ⟨_, rfl⟩
    have h : NewVCard testDeps photoSequenceTop none = (some v, none) := by rw [hv]; rfl
    refine ⟨v, h, ?_⟩
    have hq : (⟨1, (⟨⟨"photo", [], "uri",
        .arr [.str "http://www.example.com/a.jpg", .str "http://www.example.com/b.jpg"]⟩,
        photoTypeInfo testDeps⟩ : VCardProperty)⟩ : PropertyRef) ∈ v.Properties := by
      rw [hv]
      exact List.Mem.tail _ (List.Mem.head _)
    exact (Validate_aborts_on_decoded_cards testDeps photoSequenceTop none v
      (by rw [h]) _ hq (Or.inr (Or.inr (Or.inl ⟨rfl, rfl⟩)))).2
  · obtain ⟨v, hv⟩ : ∃ v, v = (NewVCard testDeps emptyNameTop none).1.getD emptyCard :=
      ⟨_, rfl⟩
    have h : NewVCard testDeps emptyNameTop none = (some v, none) := by rw [hv]; rfl
    refine ⟨v, h, ?_⟩
    have hq : (⟨1, (⟨⟨"", [], "text", .str "x"⟩, VPropertyTypeInfo.zero⟩ : VCardProperty)⟩
        : PropertyRef) ∈ v.Properties := by
      rw [hv]
      exact List.Mem.tail _ (List.Mem.head _)
    exact (Validate_aborts_on_decoded_cards testDeps emptyNameTop none v
      (by rw [h]) _ hq (Or.inl rfl)).2

/-! ## C39: a decoded `adr` -/

theorem mapSet_entries (k : String) (v : List String) (hv : v ≠ []) :
    ∀ m : Params, (∀ kv ∈ m, kv.2 ≠ []) → ∀ kv ∈ mapSet m k v, kv.2 ≠ []
  | [], _, kv, hkv => by
    simp only [mapSet, List.mem_singleton] at hkv
    subst hkv
    exact hv
  | (k1, v1) :: rest, hm, kv, hkv => by
    rw [mapSet] at hkv
    split at hkv
    · rcases List.mem_cons.1 hkv with rfl | h
      · exact hv
      · exact hm kv (List.mem_cons_of_mem _ h)
    · rcases List.mem_cons.1 hkv with rfl | h
      · exact hm _ (List.mem_cons_self _ _)
      · exact mapSet_entries k v hv rest (fun x hx => hm x (List.mem_cons_of_mem _ hx)) kv h

theorem readParametersArr_entries (k : String) :
    ∀ (xs : List Any) (params : Params), (∀ kv ∈ params, kv.2 ≠ []) →
      ∀ kv ∈ readParametersArr k xs params, kv.2 ≠ []
  | [], params, h => by simpa [readParametersArr] using h
  | x :: rest, params, h => by
    have ih := readParametersArr_entries k rest
    cases x <;> simp only [readParametersArr] <;>
      first
        | exact ih _ h
        | exact ih _ (mapSet_entries k _ (by simp) params h)

theorem readParametersRange_entries :
    ∀ (kvs : List (String × Any)) (params : Params), (∀ kv ∈ params, kv.2 ≠ []) →
      ∀ kv ∈ readParametersRange kvs params, kv.2 ≠ []
  | [], params, h => by simpa [readParametersRange] using h
  | (k, x) :: rest, params, h => by
    have ih := readParametersRange_entries rest
    cases x <;> simp only [readParametersRange] <;>
      first
        | exact ih _ h
        | exact ih _ (mapSet_entries k _ (by simp) params h)
        | exact ih _ (readParametersArr_entries k _ params h)

theorem validateAdrParamRange_completes (L : Deps) :
    ∀ params : Params, (∀ kv ∈ params, kv.2 ≠ []) →
      ∃ e, validateAdrParamRange L params = .done e
  | [], _ => ⟨none, rfl⟩
  | (k, v) :: rest, h => by
    have ih := validateAdrParamRange_completes L rest
      (fun x hx => h x (List.mem_cons_of_mem _ hx))
    have hv : v ≠ [] := h (k, v) (List.mem_cons_self _ _)
    cases v with
    | nil => exact absurd rfl hv
    | cons v0 vs =>
      simp only [validateAdrParamRange]
      split_ifs <;>
        first
          | exact ih
          | exact ⟨_, rfl⟩
          | (split <;> first | exact ih | exact ⟨_, rfl⟩)

/-- What the decoder leaves in a property of a card that `NewVCard` returns: the parameters
read by `readParameters` and a value that `readValue` accepts. -/
theorem NewVCard_decoded (L : Deps) (top : List Any) (err : GoError) (v : VCard)
    (h : (NewVCard L top err).1 = some v) (q : PropertyRef) (hq : q ∈ v.Properties) :
    ∃ name kvs ty a3 rest,
      q.obj.toVCardPropertyData
          = { Name := name, Parameters := readParametersRange kvs [], Type_ := ty,
              Value := valueSource a3 rest }
        ∧ (readValue (valueSource a3 rest) 0).2 = none := by
  obtain ⟨v0, h0, rfl⟩ := NewVCard_some L top err v h
  simp only [List.mem_map] at hq
  obtain ⟨q0, hq0, rfl⟩ := hq
  simp only
  rw [addTypeInfo_data]
  obtain ⟨ps, hps⟩ := newVCardImpl_ok_shape _ v0 h0
  rw [hps] at h0
  obtain ⟨hlen, hget⟩ := newVCardImpl_ok_get ps v0 h0
  obtain ⟨i, hi, hiq⟩ := List.mem_iff_getElem.1 hq0
  have hi2 : i < ps.length := by rw [← hlen]; exact hi
  have hp := hget i ps[i] q0 (List.getElem?_eq_getElem hi2)
    (by rw [List.getElem?_eq_getElem hi, hiq])
  obtain ⟨name, kvs, ty, a3, rest, -, hrv, hq⟩ := newVCardImplProperty_ok _ _ hp.1
  exact ⟨name, kvs, ty, a3, rest, by rw [hq], hrv⟩

theorem valueSource_not_strs (a3 : Any) (rest : List Any)
    (h : (readValue (valueSource a3 rest) 0).2 = none) (sa : List String) :
    valueSource a3 rest ≠ .strs sa := by
  intro hs
  rw [hs] at h
  simp [readValue] at h

theorem ValidateAdr_fails (L : Deps) (p : VCardPropertyData)
    (hparams : ∀ kv ∈ p.Parameters, kv.2 ≠ []) (hval : ∀ sa, p.Value ≠ .strs sa) :
    ∃ e, ValidateAdr L p = .done (some e) := by
  obtain ⟨e, he⟩ := validateAdrParamRange_completes L p.Parameters hparams
  unfold ValidateAdr
  rw [he]
  cases e with
  | some err => exact ⟨_, rfl⟩
  | none =>
    simp only
    split
    · exact ⟨_, rfl⟩
    · cases hv : p.Value with
      | strs sa => exact absurd hv (hval sa)
      | null => exact ⟨_, rfl⟩
      | bool b => exact ⟨_, rfl⟩
      | num x => exact ⟨_, rfl⟩
      | str s => exact ⟨_, rfl⟩
      | arr a => exact ⟨_, rfl⟩
      | obj o => exact ⟨_, rfl⟩

theorem adr_key (a : String) :
    a ++ "_" ++ "adr" ++ " validationError" = a ++ "_adr validationError" := by
  rw [String.append_assoc, String.append_assoc]
  rfl

/-- C39, as the code has it: in a card that `NewVCard` returned, the value of an `adr`
property is never a `[]string`, every parameter has a value, and `ValidateAdr` returns an
error on the property; when `Validate` completes, its error mapping has the key of the
per-property failure of that `adr`. -/
theorem decoded_adr_fails (L : Deps) (top : List Any) (err : GoError) (v : VCard)
    (h : (NewVCard L top err).1 = some v) (n : Nat) (q : PropertyRef)
    (hn : v.Properties[n]? = some q) (hq : q.obj.Name = "adr") :
    (∀ sa, q.obj.Value ≠ .strs sa)
      ∧ (∃ e, ValidateAdr L q.obj.toVCardPropertyData = .done (some e)
          ∧ q.obj.Validate = .done (some e))
      ∧ ∀ v1, v.Validate L = .done v1 →
          (Itoa n ++ "_adr validationError") ∈ errKeys v1.Errors := by
  have hmem : q ∈ v.Properties := List.getElem?_mem hn
  obtain ⟨name, kvs, ty, a3, rest, hdata, hrv⟩ := NewVCard_decoded L top err v h q hmem
  have hinfo := (NewVCard_typeInfo L top err v h q hmem).1 (adrTypeInfo L)
    (by rw [hq]; rfl)
  have hvalue : ∀ sa, q.obj.Value ≠ .strs sa := by
    intro sa
    have : q.obj.Value = valueSource a3 rest := congrArg VCardPropertyData.Value hdata
    rw [this]
    exact valueSource_not_strs a3 rest hrv sa
  have hparams : ∀ kv ∈ q.obj.Parameters, kv.2 ≠ [] := by
    have : q.obj.Parameters = readParametersRange kvs [] :=
      congrArg VCardPropertyData.Parameters hdata
    rw [this]
    exact readParametersRange_entries kvs [] (by simp)
  obtain ⟨e, he⟩ := ValidateAdr_fails L q.obj.toVCardPropertyData hparams hvalue
  have hval : q.obj.Validate = .done (some e) := by
    simp only [VCardProperty.Validate, hinfo, hq, adrTypeInfo, Adr, not_true_eq_false,
      if_false]
    exact he
  refine ⟨hvalue, ⟨e, he, hval⟩, ?_⟩
  intro v1 hv1
  obtain ⟨-, cpms, -, hkeys⟩ := Validate_keys L v v1 hv1
  rw [hkeys]
  exact Or.inr (Or.inl ⟨n, q, e, hn, hval, by rw [hq, adr_key]⟩)

/-- The witness of `decoded_adr_fails`: a card with a version and an `adr` of seven text
components without parameters; `Validate` completes and records the failure of the `adr`. -/
theorem decoded_adr_fails_witness :
    ∃ v v1 : VCard, NewVCard testDeps adrTop none = (some v, none)
      ∧ v.Validate testDeps = .done v1
      ∧ "1_adr validationError" ∈ errKeys v1.Errors := by
  obtain ⟨v, hv⟩ : ∃ v, v = (NewVCard testDeps adrTop none).1.getD emptyCard := ⟨_, rfl⟩
  have h : NewVCard testDeps adrTop none = (some v, none) := by rw [hv]; rfl
  obtain ⟨v1, hv1⟩ : ∃ v1, v.Validate testDeps = .done v1 := by rw [hv]; exact ⟨_, rfl⟩
  have hn : v.Properties[1]? = some ⟨1, (⟨⟨"adr", [], "text",
      .arr [.str "", .str "", .str "123 Main Street", .str "Any Town", .str "CA",
            .str "91921-1234", .str "U.S.A."]⟩, adrTypeInfo testDeps⟩ : VCardProperty)⟩ := by
    rw [hv]
    rfl
  exact ⟨v, v1, h, hv1,
    (decoded_adr_fails testDeps adrTop none v (by rw [h]) 1 _ hn rfl).2.2 v1 hv1⟩

/-- A decoded card on which no failure of the `adr` is recorded: with a numeric `version`
in front of the `adr`, `Validate` aborts in `ValidateVersion` and returns no error
mapping. -/
theorem decoded_adr_unrecorded :
    ∃ v : VCard, NewVCard testDeps numericVersionAdrTop none = (some v, none)
      ∧ (v.Properties.map (fun q => q.obj.Name)) = ["version", "adr"]
      ∧ v.Validate testDeps = .panic :=
  ⟨_, rfl, rfl, rfl⟩

/-! ## C5: a well-formed input decodes, property by property -/

mutual
theorem fits_iff :
    ∀ (v : Any) (n : Nat), v.fits n = true ↔ ¬ v.Unreadable n
  | .null, n => by
    simpa [Any.fits] using not_unreadable_of_leaf .null n rfl rfl
  | .bool b, n => by
    simpa [Any.fits] using not_unreadable_of_leaf (.bool b) n rfl rfl
  | .num x, n => by
    simpa [Any.fits] using not_unreadable_of_leaf (.num x) n rfl rfl
  | .str s, n => by
    simpa [Any.fits] using not_unreadable_of_leaf (.str s) n rfl rfl
  | .obj kvs, n => by
    simpa [Any.fits] using unreadable_of_unknown (.obj kvs) n rfl
  | .strs xs, n => by
    simpa [Any.fits] using unreadable_of_unknown (.strs xs) n rfl
  | .arr xs, 0 => by
    simpa [Any.fits] using unreadable_arr_zero xs
  | .arr xs, n + 1 => by
    rw [Any.fits, unreadable_arr_succ, allFit_iff xs n]
    simp
theorem allFit_iff :
    ∀ (vs : List Any) (n : Nat), Any.allFit vs n = true ↔ ∀ x ∈ vs, ¬ x.Unreadable n
  | [], n => by simp [Any.allFit]
  | v :: rest, n => by
    rw [Any.allFit, Bool.and_eq_true, fits_iff v n, allFit_iff rest n]
    simp
end

/-- A well-formed value is one that `readValue` accepts at depth 0. -/
theorem fits_iff_readValue (v : Any) : v.fits 3 = true ↔ (readValue v 0).2 = none := by
  rw [fits_iff, ← readValue_err_iff v 0 3 rfl]
  simp

/-- The body of the decoding loop returns a property exactly on a well-formed element. -/
theorem wellFormedProperty_iff (p : Any) :
    wellFormedProperty p = true ↔ ∃ q, newVCardImplProperty p = (some q, none) := by
  constructor
  · intro h
    unfold wellFormedProperty at h
    split at h
    · rename_i a0 a1 a2 a3 rest
      simp only [Bool.and_eq_true] at h
      obtain ⟨⟨⟨h0, h1⟩, h2⟩, h3⟩ := h
      cases a0 <;> simp [Any.isStr] at h0
      cases a1 <;> simp [Any.isObj] at h1
      cases a2 <;> simp [Any.isStr] at h2
      rename_i name kvs ty
      have hv := (fits_iff_readValue _).1 h3
      have he : (newVCardImplProperty
          (.arr (.str name :: .obj kvs :: .str ty :: a3 :: rest))).2 = none := by
        by_contra hne
        exact ((newVCardImplProperty_err_iff name kvs ty a3 rest).1 hne) hv
      rcases newVCardImplProperty_total
          (.arr (.str name :: .obj kvs :: .str ty :: a3 :: rest)) with ⟨q, hq⟩ | ⟨e, hq⟩
      · exact ⟨q, hq⟩
      · rw [hq] at he
        simp at he
    · simp at h
  · rintro ⟨q, hq⟩
    obtain ⟨name, kvs, ty, a3, rest, rfl, hv, -⟩ := newVCardImplProperty_ok p q (by rw [hq])
    simp [wellFormedProperty, Any.isStr, Any.isObj, (fits_iff_readValue _).2 hv]

theorem newVCardImplRange_wellFormed :
    ∀ (ps : List Any) (v : VCard), (∀ p ∈ ps, wellFormedProperty p = true) →
      ∃ v1, newVCardImplRange ps v = (some v1, none)
  | [], v, _ => ⟨v, rfl⟩
  | p :: rest, v, h => by
    obtain ⟨q, hq⟩ := (wellFormedProperty_iff p).1 (h p (List.mem_cons_self _ _))
    rw [newVCardImplRange, hq]
    exact newVCardImplRange_wellFormed rest _ (fun x hx => h x (List.mem_cons_of_mem _ hx))

/-- What a successful decoding gives, index by index. -/
theorem decoded_in_order (ps : List Any) (v : VCard)
    (h : newVCardImpl (.arr [.str "vcard", .arr ps]) = (some v, none)) :
    v.Properties.length = ps.length
      ∧ ∀ i : Nat, i < ps.length →
          ∃ (q : PropertyRef) (a : List Any),
            v.Properties[i]? = some q ∧ q.addr = i ∧ ps[i]? = some (.arr a)
              ∧ a[0]? = some (.str q.obj.Name) ∧ a[2]? = some (.str q.obj.Type_)
              ∧ (a.length = 4 → a[3]? = some q.obj.Value) := by
  obtain ⟨hlen, hget⟩ := newVCardImpl_ok_get ps v h
  refine ⟨hlen, ?_⟩
  intro i hi
  have hi2 : i < v.Properties.length := by omega
  obtain ⟨hdec, haddr⟩ := hget i ps[i] v.Properties[i] (List.getElem?_eq_getElem hi)
    (List.getElem?_eq_getElem hi2)
  obtain ⟨name, kvs, ty, a3, rest, hp, -, hq⟩ := newVCardImplProperty_ok _ _ hdec
  refine ⟨v.Properties[i], _, List.getElem?_eq_getElem hi2, haddr,
    by rw [List.getElem?_eq_getElem hi, hp], ?_, ?_, ?_⟩
  · simp [hq]
  · simp [hq]
  · intro h4
    have hr : rest = [] := by
      simp only [List.length_cons] at h4
      exact List.length_eq_zero.1 (by omega)
    subst hr
    simp [hq, valueSource]

/-- C5. Every input `["vcard", [p_1, ..., p_k]]` whose elements are well-formed properties
decodes: `newVCardImpl` returns a card and no error, and so does `NewVCard`, with the same
properties at the same addresses. The card has exactly k properties in input order; the i-th
property has the name `p_i[0]`, the declared type `p_i[2]` and, when `p_i` has exactly four
elements, the value `p_i[3]`. The same holds of every card that the decoder returns, and the
decoder returns a card only when every element is a well-formed property. The property `n`
of the end-to-end example decodes to a property that flattens to the six expected
strings. -/
theorem decode_properties_in_order :
    (∀ ps : List Any, (∀ p ∈ ps, wellFormedProperty p = true) →
        ∃ v : VCard, newVCardImpl (.arr [.str "vcard", .arr ps]) = (some v, none)
          ∧ (∀ L : Deps, ∃ v1 : VCard,
              NewVCard L [.str "vcard", .arr ps] none = (some v1, none)
                ∧ v1.Properties.map (fun q => (q.addr, q.obj.toVCardPropertyData))
                    = v.Properties.map (fun q => (q.addr, q.obj.toVCardPropertyData)))
          ∧ v.Properties.length = ps.length
          ∧ ∀ i : Nat, i < ps.length →
              ∃ (q : PropertyRef) (a : List Any),
                v.Properties[i]? = some q ∧ q.addr = i ∧ ps[i]? = some (.arr a)
                  ∧ a[0]? = some (.str q.obj.Name) ∧ a[2]? = some (.str q.obj.Type_)
                  ∧ (a.length = 4 → a[3]? = some q.obj.Value))
      ∧ (∀ (ps : List Any) (v : VCard),
          newVCardImpl (.arr [.str "vcard", .arr ps]) = (some v, none) →
            (∀ p ∈ ps, wellFormedProperty p = true)
              ∧ v.Properties.length = ps.length
              ∧ ∀ i : Nat, i < ps.length →
                  ∃ (q : PropertyRef) (a : List Any),
                    v.Properties[i]? = some q ∧ ps[i]? = some (.arr a)
                      ∧ a[0]? = some (.str q.obj.Name) ∧ a[2]? = some (.str q.obj.Type_)
                      ∧ (a.length = 4 → a[3]? = some q.obj.Value))
      ∧ (∀ L : Deps, ∃ v : VCard, newVCardImpl nExample = (some v, none)
          ∧ v.Properties.map (fun q => q.obj.Values L)
              = [.done ["Perreault", "Simon", "", "", "ing. jr", "M.Sc."]]) := by
  refine ⟨?_, ?_, fun L => ⟨_, rfl, rfl⟩⟩
  · intro ps hwf
    obtain ⟨v, hv⟩ := newVCardImplRange_wellFormed ps { Properties := [], Errors := [] } hwf
    rw [← newVCardImpl_vcard] at hv
    obtain ⟨hlen, hidx⟩ := decoded_in_order ps v hv
    refine ⟨v, hv, ?_, hlen, hidx⟩
    intro L
    refine ⟨{ v with Properties :=
        v.Properties.map (fun p => { p with obj := (p.obj.addTypeInfo L).1 }) },
      by simp only [NewVCard, hv], ?_⟩
    simp only [List.map_map]
    refine List.map_congr_left ?_
    intro q _
    simp [addTypeInfo_data]
  · intro ps v h
    obtain ⟨hlen, hidx⟩ := decoded_in_order ps v h
    refine ⟨?_, hlen, ?_⟩
    · intro p hp
      obtain ⟨i, hi, rfl⟩ := List.mem_iff_getElem.1 hp
      have hi2 : i < v.Properties.length := by omega
      obtain ⟨hdec, -⟩ := (newVCardImpl_ok_get ps v h).2 i ps[i] v.Properties[i]
        (List.getElem?_eq_getElem hi) (List.getElem?_eq_getElem hi2)
      rcases newVCardImplProperty_total ps[i] with ⟨q, hq⟩ | ⟨e, hq⟩
      · exact (wellFormedProperty_iff _).2 ⟨q, hq⟩
      · rw [hq] at hdec
        simp at hdec
    · intro i hi
      obtain ⟨q, a, h1, -, h2, h3, h4, h5⟩ := hidx i hi
      exact ⟨q, a, h1, h2, h3, h4, h5⟩

/-- C5 at three properties of the card of the test `TestVCardExample`: they are well formed,
so the input decodes to a card of three properties, which are `version`, `n` and `tel` in
this order, at the addresses 0, 1 and 2. -/
theorem decode_properties_in_order_witness :
    (∀ p ∈ exampleProperties, wellFormedProperty p = true)
      ∧ ∃ v : VCard, newVCardImpl (.arr [.str "vcard", .arr exampleProperties]) = (some v, none)
          ∧ v.Properties.length = 3
          ∧ v.Properties.map (fun q => (q.addr, q.obj.Name, q.obj.Type_))
              = [(0, "version", "text"), (1, "n", "text"), (2, "tel", "uri")] := by
  have hwf : ∀ p ∈ exampleProperties, wellFormedProperty p = true := by decide
  obtain ⟨v, hv, -, hlen, -⟩ := decode_properties_in_order.1 exampleProperties hwf
  refine ⟨hwf, v, hv, hlen, ?_⟩
  obtain ⟨v0, hv0, hn⟩ : ∃ v0 : VCard,
      newVCardImpl (.arr [.str "vcard", .arr exampleProperties]) = (some v0, none)
        ∧ v0.Properties.map (fun q => (q.addr, q.obj.Name, q.obj.Type_))
            = [(0, "version", "text"), (1, "n", "text"), (2, "tel", "uri")] :=
    ⟨_, rfl, rfl⟩
  rw [hv] at hv0
  simp only [Prod.mk.injEq, Option.some.injEq, and_true] at hv0
  rw [hv0]
  exact hn

/-! ## C19: two runs of `Validate` -/

theorem verdict_done (a b : GoError) (h : a = none ↔ b = none) :
    verdict (.done a) = verdict (.done b) := by
  cases a with
  | none =>
    have hb := h.1 rfl
    rw [hb]
  | some x =>
    cases b with
    | none => exact absurd (h.2 rfl) (by simp)
    | some y => rfl

theorem visited_self (p : VCardProperty) : p.visited p.Parameters = p := rfl

theorem visited_visited (p : VCardProperty) (a b : Params) :
    (p.visited a).visited b = p.visited b := rfl

theorem sameObject_symm (p q : PropertyRef) (h : sameObject p q) : sameObject q p := by
  obtain ⟨ha, ho, hp⟩ := h
  refine ⟨ha.symm, ?_, hp.symm⟩
  rw [ho, visited_visited, visited_self]

theorem sameObject_fields (p q : PropertyRef) (h : sameObject p q) :
    q.obj.Name = p.obj.Name ∧ q.obj.Type_ = p.obj.Type_ ∧ q.obj.Value = p.obj.Value
      ∧ q.obj.typeInfo = p.obj.typeInfo := by
  have h1 := congrArg (fun o : VCardProperty => o.Name) h.2.1
  have h2 := congrArg (fun o : VCardProperty => o.Type_) h.2.1
  have h3 := congrArg (fun o : VCardProperty => o.Value) h.2.1
  have h4 := congrArg (fun o : VCardProperty => o.typeInfo) h.2.1
  exact ⟨h1, h2, h3, h4⟩

theorem sameObject_verdict (p q : PropertyRef) (h : sameObject p q) (hof : orderFree p.obj) :
    verdict q.obj.Validate = verdict p.obj.Validate := by
  rw [h.2.1]
  exact hof q.obj.Parameters h.2.2

theorem sameObject_orderFree (p q : PropertyRef) (h : sameObject p q)
    (hof : orderFree p.obj) : orderFree q.obj := by
  intro params2 hp
  have h1 : q.obj.visited params2 = p.obj.visited params2 := by
    rw [h.2.1, visited_visited]
  rw [h1, hof params2 (hp.trans h.2.2), sameObject_verdict p q h hof]

theorem pairwise_symm_of {α : Type} (R : α → α → Prop) (hR : ∀ a b, R a b → R b a) :
    ∀ l1 l2 : List α, List.Forall₂ R l1 l2 → List.Forall₂ R l2 l1
  | _, _, .nil => .nil
  | _, _, .cons h t => .cons (hR _ _ h) (pairwise_symm_of R hR _ _ t)

theorem pairwise_get {α : Type} (R : α → α → Prop) :
    ∀ (l1 l2 : List α), List.Forall₂ R l1 l2 → ∀ (n : Nat) (a : α), l1[n]? = some a →
      ∃ b, l2[n]? = some b ∧ R a b
  | _, _, .nil, n, a, h => by simp at h
  | _, _, .cons (a := x) (b := y) h t, n, a, hn => by
    cases n with
    | zero =>
      simp only [List.getElem?_cons_zero, Option.some.injEq] at hn
      subst hn
      exact ⟨y, by simp, h⟩
    | succ m =>
      simp only [List.getElem?_cons_succ] at hn
      obtain ⟨b, hb, hr⟩ := pairwise_get R _ _ t m a hn
      exact ⟨b, by simpa using hb, hr⟩

theorem pairwise_mem {α : Type} (R : α → α → Prop) :
    ∀ (l1 l2 : List α), List.Forall₂ R l1 l2 → ∀ a ∈ l1, ∃ b ∈ l2, R a b
  | _, _, .nil, a, h => by cases h
  | _, _, .cons (a := x) (b := y) h t, a, ha => by
    rcases List.mem_cons.1 ha with rfl | hm
    · exact ⟨y, List.mem_cons_self _ _, h⟩
    · obtain ⟨b, hb, hr⟩ := pairwise_mem R _ _ t a hm
      exact ⟨b, List.mem_cons_of_mem _ hb, hr⟩

theorem pairwise_filter {α : Type} (R : α → α → Prop) (f : α → Bool)
    (hf : ∀ a b, R a b → f a = f b) :
    ∀ (l1 l2 : List α), List.Forall₂ R l1 l2 → List.Forall₂ R (l1.filter f) (l2.filter f)
  | _, _, .nil => .nil
  | _, _, .cons (a := x) (b := y) h t => by
    have ih := pairwise_filter R f hf _ _ t
    simp only [List.filter_cons, ← hf x y h]
    cases f x
    · exact ih
    · exact .cons h ih

theorem sameCard_symm (v w : VCard) (h : sameCard v w) : sameCard w v :=
  pairwise_symm_of sameObject sameObject_symm _ _ h

theorem sameCard_Get (v w : VCard) (h : sameCard v w) (name : String) :
    List.Forall₂ sameObject (v.Get name) (w.Get name) := by
  rw [Get_as_filter, Get_as_filter]
  refine pairwise_filter sameObject _ ?_ _ _ h
  intro a b hab
  rw [(sameObject_fields a b hab).1]

theorem sameCard_Get_length (v w : VCard) (h : sameCard v w) (name : String) :
    (w.Get name).length = (v.Get name).length :=
  (sameCard_Get v w h name).length_eq.symm

theorem sameCard_GetFirst_none (v w : VCard) (h : sameCard v w) (name : String)
    (hn : v.GetFirst name = none) : w.GetFirst name = none := by
  have hf := sameCard_Get v w h name
  unfold VCard.GetFirst at hn ⊢
  generalize v.Get name = l1 at hf hn
  generalize w.Get name = l2 at hf
  cases hf with
  | nil => rfl
  | cons hab t => cases hn

theorem sameCard_GetFirst_some (v w : VCard) (h : sameCard v w) (name : String)
    (p : PropertyRef) (hn : v.GetFirst name = some p) :
    ∃ q, w.GetFirst name = some q ∧ sameObject p q := by
  have hf := sameCard_Get v w h name
  unfold VCard.GetFirst at hn ⊢
  generalize v.Get name = l1 at hf hn
  generalize w.Get name = l2 at hf
  cases hf with
  | nil => cases hn
  | cons hab t =>
    simp only [Option.some.injEq] at hn
    subst hn
    exact ⟨_, rfl, hab⟩

theorem lookup_of_mem_nodup {β : Type} (k : String) (b : β) :
    ∀ l : List (String × β), (l.map Prod.fst).Nodup → (k, b) ∈ l → l.lookup k = some b
  | [], _, h => by cases h
  | (k1, b1) :: rest, hnd, h => by
    simp only [List.map_cons, List.nodup_cons] at hnd
    rw [List.lookup_cons]
    rcases List.mem_cons.1 h with heq | hm
    · simp only [Prod.mk.injEq] at heq
      simp [heq.1, heq.2]
    · have hne : k ≠ k1 := by
        intro he
        exact hnd.1 (by rw [← he]; exact List.mem_map_of_mem Prod.fst hm)
      have hb : (k == k1) = false := by simpa using hne
      rw [hb]
      exact lookup_of_mem_nodup k b rest hnd.2 hm

theorem mapGet_perm (a b : Params) (h : b.Perm a) (hnd : (a.map Prod.fst).Nodup)
    (k : String) : mapGet b k = mapGet a k := by
  have hndb : (b.map Prod.fst).Nodup := (h.map Prod.fst).nodup_iff.2 hnd
  unfold mapGet
  cases ha : a.lookup k with
  | none =>
    have : b.lookup k = none := by
      rw [lookup_eq_none_iff_not_mem] at ha ⊢
      exact fun hm => ha ((h.map Prod.fst).mem_iff.1 hm)
    rw [this]
  | some x =>
    have hm := lookup_some_mem k x a ha
    rw [lookup_of_mem_nodup k x b hndb (h.mem_iff.2 hm)]

theorem forall_mem_perm {α : Type} (a b : List α) (h : a.Perm b) (P : α → Prop) :
    (∀ x ∈ a, P x) ↔ ∀ x ∈ b, P x :=
  ⟨fun H x hx => H x (h.mem_iff.2 hx), fun H x hx => H x (h.mem_iff.1 hx)⟩

theorem sameCard_refl (v : VCard) : sameCard v v := by
  unfold sameCard
  induction v.Properties with
  | nil => exact .nil
  | cons p rest ih => exact .cons ⟨rfl, rfl, List.Perm.refl _⟩ ih

theorem sameCard_hyps (v w : VCard) (hs : sameCard v w)
    (hof : ∀ p ∈ v.Properties, orderFree p.obj)
    (hnd : ∀ p ∈ v.Properties, (p.obj.Parameters.map Prod.fst).Nodup) :
    (∀ q ∈ w.Properties, orderFree q.obj)
      ∧ ∀ q ∈ w.Properties, (q.obj.Parameters.map Prod.fst).Nodup := by
  have hsym := sameCard_symm v w hs
  constructor
  · intro q hq
    obtain ⟨p, hp, hqp⟩ := pairwise_mem sameObject _ _ hsym q hq
    exact sameObject_orderFree p q (sameObject_symm q p hqp) (hof p hp)
  · intro q hq
    obtain ⟨p, hp, hqp⟩ := pairwise_mem sameObject _ _ hsym q hq
    exact ((hqp.2.2.symm.map Prod.fst).nodup_iff).2 (hnd p hp)

theorem hasClientPidMap_of_same (v w : VCard) (hs : sameCard v w) (n : Int)
    (h : hasClientPidMap v n) : hasClientPidMap w n := by
  obtain ⟨c, hc, hname, x, y, hval, hx⟩ := h
  obtain ⟨d, hd, hcd⟩ := pairwise_mem sameObject _ _ hs c hc
  obtain ⟨h1, -, h3, -⟩ := sameObject_fields c d hcd
  exact ⟨d, hd, by rw [h1, hname], x, y, by rw [h3, hval], hx⟩

theorem hasPidSource_of_same (v w : VCard) (hs : sameCard v w)
    (hnd : ∀ p ∈ v.Properties, (p.obj.Parameters.map Prod.fst).Nodup) (n : Int)
    (h : hasPidSource v n) : hasPidSource w n := by
  obtain ⟨p, hp, j, hj, a, b, hsplit, hb⟩ := h
  obtain ⟨q, hq, hpq⟩ := pairwise_mem sameObject _ _ hs p hp
  refine ⟨q, hq, j, ?_, a, b, hsplit, hb⟩
  rw [mapGet_perm p.obj.Parameters q.obj.Parameters hpq.2.2 (hnd p hp)]
  exact hj

theorem cardinalityFails_of_same (v w : VCard) (hs : sameCard v w) (p q : PropertyRef)
    (hpq : sameObject p q) (h : cardinalityFails v p) : cardinalityFails w q := by
  obtain ⟨h1, -, -, h4⟩ := sameObject_fields p q hpq
  unfold cardinalityFails at h ⊢
  rw [h1, h4, sameCard_Get_length v w hs]
  exact h

/-- The keys that a run of `Validate` records are recorded by every other run on the same
card, when the verdict of no validator depends on the order of its visit. -/
theorem Validate_keys_transfer (L : Deps) (v w v1 w1 : VCard) (hs : sameCard v w)
    (hof : ∀ p ∈ v.Properties, orderFree p.obj)
    (hnd : ∀ p ∈ v.Properties, (p.obj.Parameters.map Prod.fst).Nodup)
    (hv : v.Validate L = .done v1) (hw : w.Validate L = .done w1) (k : String)
    (hk : k ∈ errKeys v1.Errors) : k ∈ errKeys w1.Errors := by
  obtain ⟨-, cv, hcv, hkv⟩ := Validate_keys L v v1 hv
  obtain ⟨-, cw, hcw, hkw⟩ := Validate_keys L w w1 hw
  rw [hkv] at hk
  rw [hkw]
  rcases hk with ⟨hk, hg⟩ | ⟨n, p, e, hn, hp, hk⟩ | ⟨hk, hm, hg⟩ | ⟨hk, hm, q, hg, hq⟩
    | ⟨p, hp, hc, hk⟩ | ⟨n, hn, hl, hk⟩
  · exact Or.inl ⟨hk, sameCard_GetFirst_none v w hs _ hg⟩
  · obtain ⟨q, hq, hpq⟩ := pairwise_get sameObject _ _ hs n p hn
    have hver := sameObject_verdict p q hpq (hof p (List.getElem?_mem hn))
    rw [hp] at hver
    have : ∃ e2, q.obj.Validate = .done (some e2) := by
      cases hqv : q.obj.Validate with
      | panic => rw [hqv] at hver; cases hver
      | done r =>
        cases r with
        | none => rw [hqv] at hver; cases hver
        | some e2 => exact ⟨e2, rfl⟩
    obtain ⟨e2, he2⟩ := this
    exact Or.inr (Or.inl ⟨n, q, e2, hq, he2, by rw [hk, (sameObject_fields p q hpq).1]⟩)
  · refine Or.inr (Or.inr (Or.inl ⟨hk, ?_, sameCard_GetFirst_none v w hs _ hg⟩))
    rw [sameCard_Get_length v w hs]
    exact hm
  · obtain ⟨q2, hq2, hqq⟩ := sameCard_GetFirst_some v w hs _ q hg
    refine Or.inr (Or.inr (Or.inr (Or.inl ⟨hk, ?_, q2, hq2, ?_⟩)))
    · rw [sameCard_Get_length v w hs]
      exact hm
    · rw [(sameObject_fields q q2 hqq).2.2.1]
      exact hq
  · obtain ⟨q, hq, hpq⟩ := pairwise_mem sameObject _ _ hs p hp
    exact Or.inr (Or.inr (Or.inr (Or.inr (Or.inl
      ⟨q, hq, cardinalityFails_of_same v w hs p q hpq hc,
        by rw [hk, (sameObject_fields p q hpq).1]⟩))))
  · refine Or.inr (Or.inr (Or.inr (Or.inr (Or.inr ⟨n, ?_, ?_, hk⟩))))
    · rw [getPIDs_keys] at hn ⊢
      exact hasPidSource_of_same v w hs hnd n hn
    · rw [lookup_int_eq_none_iff, getCpms_keys w cw hcw] at *
      rw [getCpms_keys v cv hcv] at hl
      exact fun hcm => hl (hasClientPidMap_of_same w v (sameCard_symm v w hs) n hcm)

theorem getCpmsRange_completes_of_same :
    ∀ (l1 l2 : List PropertyRef), List.Forall₂ sameObject l1 l2 →
      ∀ (m1 m2 r1 : PidMap), getCpmsRange l1 m1 = .done r1 →
        ∃ r2, getCpmsRange l2 m2 = .done r2
  | _, _, .nil, _, m2, _, _ => ⟨m2, rfl⟩
  | _, _, .cons (a := p) (b := q) hab t, m1, m2, r1, h => by
    have ih := getCpmsRange_completes_of_same _ _ t
    have hval := (sameObject_fields p q hab).2.2.1
    rw [getCpmsRange] at h ⊢
    rw [hval]
    cases hv : p.obj.Value with
    | arr xs =>
      rw [hv] at h
      match xs, h with
      | [], h => exact ih _ _ _ h
      | [a], h => exact ih _ _ _ h
      | a :: b :: c :: r, h => exact ih _ _ _ h
      | [a0, a1], h =>
        cases a0 with
        | str s =>
          simp only at h ⊢
          cases ha : Atoi s with
          | none => rw [ha] at h; exact ih _ _ _ h
          | some i => rw [ha] at h; exact ih _ _ _ h
        | null => cases h
        | bool b => cases h
        | num x => cases h
        | arr a => cases h
        | obj o => cases h
        | strs o => cases h
    | null => rw [hv] at h; cases h
    | bool b => rw [hv] at h; cases h
    | num x => rw [hv] at h; cases h
    | str s => rw [hv] at h; cases h
    | obj o => rw [hv] at h; cases h
    | strs o => rw [hv] at h; cases h

/-- When a run of `Validate` completes, so does every other run on the same card, if the
verdict of no validator depends on the order of its visit. -/
theorem Validate_completes_of_same (L : Deps) (v w v1 : VCard) (hs : sameCard v w)
    (hof : ∀ p ∈ v.Properties, orderFree p.obj) (hv : v.Validate L = .done v1) :
    ∃ w1, w.Validate L = .done w1 := by
  obtain ⟨-, cv, hcv, -⟩ := Validate_keys L v v1 hv
  refine Validate_completes L w ?_ ?_
  · intro q hq hpanic
    obtain ⟨p, hp, hqp⟩ := pairwise_mem sameObject _ _ (sameCard_symm v w hs) q hq
    have hver := sameObject_verdict p q (sameObject_symm q p hqp) (hof p hp)
    rw [hpanic] at hver
    have hpp : p.obj.Validate = .panic := by
      cases hpv : p.obj.Validate with
      | panic => rfl
      | done r => rw [hpv] at hver; cases r <;> cases hver
    rw [Validate_panics_of_property L v ⟨p, hp, hpp⟩] at hv
    cases hv
  · unfold VCard.getCpms at hcv ⊢
    obtain ⟨r2, hr2⟩ := getCpmsRange_completes_of_same _ _ (sameCard_Get v w hs ClientPIDMap)
      [] [] cv hcv
    rw [hr2]
    exact fun h => by cases h

theorem orderFree_of_validator (p : VCardProperty) (f : Validator)
    (hT : p.typeInfo.Validate = some f)
    (hf : ∀ ps : Params, ps.Perm p.Parameters →
      verdict (f { p.toVCardPropertyData with Parameters := ps })
        = verdict (f p.toVCardPropertyData)) : orderFree p := by
  intro ps hps
  have e1 : (p.visited ps).Name = p.Name := rfl
  have e2 : (p.visited ps).typeInfo = p.typeInfo := rfl
  have e3 : (p.visited ps).toVCardPropertyData
      = { p.toVCardPropertyData with Parameters := ps } := rfl
  unfold VCardProperty.Validate
  simp only [e1, e2, e3, hT]
  split
  · rfl
  · exact hf ps hps

theorem verdict_ValidateVersion (d : VCardPropertyData) (ps : Params)
    (h : ps.Perm d.Parameters) :
    verdict (ValidateVersion { d with Parameters := ps }) = verdict (ValidateVersion d) := by
  unfold ValidateVersion
  simp only [h.length_eq]
  split_ifs <;> rfl

theorem verdict_ValidateKind (L : Deps) (d : VCardPropertyData) (ps : Params)
    (h : ps.Perm d.Parameters) :
    verdict (ValidateKind L { d with Parameters := ps }) = verdict (ValidateKind L d) := by
  unfold ValidateKind
  simp only [h.length_eq]
  split_ifs <;> rfl

theorem verdict_ValidateUID (d : VCardPropertyData) (ps : Params)
    (h : ps.Perm d.Parameters) :
    verdict (ValidateUID { d with Parameters := ps }) = verdict (ValidateUID d) := by
  unfold ValidateUID
  simp only [h.length_eq]
  split_ifs <;> rfl

theorem verdict_ValidateTel (L : Deps) (d : VCardPropertyData) (ps : Params)
    (h : ps.Perm d.Parameters) :
    verdict (ValidateTel L { d with Parameters := ps }) = verdict (ValidateTel L d) := by
  unfold ValidateTel
  simp only
  split
  · rfl
  · refine verdict_done _ _ ?_
    rw [validateTelParams_eq_none, validateTelParams_eq_none]
    exact forall_mem_perm _ _ h _

theorem verdict_ValidateEmail (L : Deps) (d : VCardPropertyData) (ps : Params)
    (h : ps.Perm d.Parameters) :
    verdict (ValidateEmail L { d with Parameters := ps }) = verdict (ValidateEmail L d) := by
  unfold ValidateEmail
  simp only
  split
  · rfl
  · refine verdict_done _ _ ?_
    unfold VCardPropertyData.validateDefaultParam
    rw [validateDefaultParamRange_eq_none, validateDefaultParamRange_eq_none]
    exact forall_mem_perm _ _ h _

theorem verdict_validateAnniversaryAndBDate (d : VCardPropertyData) (ps : Params)
    (name : String) (h : ps.Perm d.Parameters) :
    verdict (validateAnniversaryAndBDate { d with Parameters := ps } name)
      = verdict (validateAnniversaryAndBDate d name) := by
  have hr : validateBDateParamRange ps = none ↔ validateBDateParamRange d.Parameters = none := by
    rw [validateBDateParamRange_eq_none, validateBDateParamRange_eq_none]
    exact forall_mem_perm _ _ h _
  unfold validateAnniversaryAndBDate
  simp only
  split
  · split
    · split
      · rfl
      · exact verdict_done _ _ hr
    · rfl
  · split
    · rfl
    · exact verdict_done _ _ hr

theorem verdict_ValidateTz (d : VCardPropertyData) (ps : Params) (h : ps.Perm d.Parameters)
    (hnd : (d.Parameters.map Prod.fst).Nodup) (hns : ¬ orderSensitive d.Parameters) :
    verdict (ValidateTz { d with Parameters := ps }) = verdict (ValidateTz d) := by
  unfold ValidateTz
  exact verdict_done _ _ (validateMediaParamRange_perm d.Parameters ps h hnd hns).symm

theorem verdict_ValidateGeo (L : Deps) (d : VCardPropertyData) (ps : Params)
    (h : ps.Perm d.Parameters)
    (hnd : (d.Parameters.map Prod.fst).Nodup) (hns : ¬ orderSensitive d.Parameters) :
    verdict (ValidateGeo L { d with Parameters := ps }) = verdict (ValidateGeo L d) := by
  unfold ValidateGeo
  simp only
  split
  · split
    · rfl
    · exact verdict_done _ _ (validateMediaParamRange_perm d.Parameters ps h hnd hns).symm
  · rfl

theorem verdict_ValidateFburl (d : VCardPropertyData) (ps : Params)
    (h : ps.Perm d.Parameters)
    (hnd : (d.Parameters.map Prod.fst).Nodup) (hns : ¬ orderSensitive d.Parameters) :
    verdict (ValidateFburl { d with Parameters := ps }) = verdict (ValidateFburl d) := by
  unfold ValidateFburl
  simp only
  split
  · split
    · rfl
    · exact verdict_done _ _ (validateMediaParamRange_perm d.Parameters ps h hnd hns).symm
  · rfl

theorem verdict_ValidateCaladruri (d : VCardPropertyData) (ps : Params)
    (h : ps.Perm d.Parameters)
    (hnd : (d.Parameters.map Prod.fst).Nodup) (hns : ¬ orderSensitive d.Parameters) :
    verdict (ValidateCaladruri { d with Parameters := ps }) = verdict (ValidateCaladruri d) := by
  unfold ValidateCaladruri
  simp only
  split
  · split
    · rfl
    · exact verdict_done _ _ (validateMediaParamRange_perm d.Parameters ps h hnd hns).symm
  · rfl

theorem verdict_ValidateCaluri (d : VCardPropertyData) (ps : Params)
    (h : ps.Perm d.Parameters)
    (hnd : (d.Parameters.map Prod.fst).Nodup) (hns : ¬ orderSensitive d.Parameters) :
    verdict (ValidateCaluri { d with Parameters := ps }) = verdict (ValidateCaluri d) := by
  unfold ValidateCaluri
  simp only
  split
  · split
    · rfl
    · exact verdict_done _ _ (validateMediaParamRange_perm d.Parameters ps h hnd hns).symm
  · rfl

/-- The validators of `version`, `kind`, `email`, `tel`, `uid`, `bday` and `anniversary`
give the same verdict in whatever order they visit the parameters. -/
theorem orderFree_plain (L : Deps) (p : VCardProperty)
    (h : p.typeInfo ∈ [versionTypeInfo L, kindTypeInfo L, emailTypeInfo L, telTypeInfo L,
      uidTypeInfo L, bdayTypeInfo L, anniversaryTypeInfo L]) : orderFree p := by
  simp only [List.mem_cons, List.mem_singleton, List.not_mem_nil, or_false] at h
  rcases h with h | h | h | h | h | h | h
  · exact orderFree_of_validator p ValidateVersion (by rw [h]; rfl)
      (fun ps hps => verdict_ValidateVersion _ ps hps)
  · exact orderFree_of_validator p (ValidateKind L) (by rw [h]; rfl)
      (fun ps hps => verdict_ValidateKind L _ ps hps)
  · exact orderFree_of_validator p (ValidateEmail L) (by rw [h]; rfl)
      (fun ps hps => verdict_ValidateEmail L _ ps hps)
  · exact orderFree_of_validator p (ValidateTel L) (by rw [h]; rfl)
      (fun ps hps => verdict_ValidateTel L _ ps hps)
  · exact orderFree_of_validator p ValidateUID (by rw [h]; rfl)
      (fun ps hps => verdict_ValidateUID _ ps hps)
  · exact orderFree_of_validator p ValidateBDay (by rw [h]; rfl)
      (fun ps hps => verdict_validateAnniversaryAndBDate _ ps _ hps)
  · exact orderFree_of_validator p ValidateAnniversary (by rw [h]; rfl)
      (fun ps hps => verdict_validateAnniversaryAndBDate _ ps _ hps)

/-- The validators of `tz`, `geo`, `fburl`, `caladruri` and `caluri` give the same verdict
in whatever order they visit the parameters when the map is not sensitive to the order. -/
theorem orderFree_media (L : Deps) (p : VCardProperty)
    (h : p.typeInfo ∈ [tzTypeInfo L, geoTypeInfo L, fburlTypeInfo L, caladruriTypeInfo L,
      caluriTypeInfo L])
    (hnd : (p.Parameters.map Prod.fst).Nodup) (hns : ¬ orderSensitive p.Parameters) :
    orderFree p := by
  simp only [List.mem_cons, List.mem_singleton, List.not_mem_nil, or_false] at h
  rcases h with h | h | h | h | h
  · exact orderFree_of_validator p ValidateTz (by rw [h]; rfl)
      (fun ps hps => verdict_ValidateTz _ ps hps hnd hns)
  · exact orderFree_of_validator p (ValidateGeo L) (by rw [h]; rfl)
      (fun ps hps => verdict_ValidateGeo L _ ps hps hnd hns)
  · exact orderFree_of_validator p ValidateFburl (by rw [h]; rfl)
      (fun ps hps => verdict_ValidateFburl _ ps hps hnd hns)
  · exact orderFree_of_validator p ValidateCaladruri (by rw [h]; rfl)
      (fun ps hps => verdict_ValidateCaladruri _ ps hps hnd hns)
  · exact orderFree_of_validator p ValidateCaluri (by rw [h]; rfl)
      (fun ps hps => verdict_ValidateCaluri _ ps hps hnd hns)

/-- The verdict of the validator of a `tz` property depends on the order of the visit when
the map is sensitive to the order. -/
theorem not_orderFree_tz (L : Deps) (p : VCardProperty) (hT : p.typeInfo = tzTypeInfo L)
    (hN : p.Name = "tz") (hs : orderSensitive p.Parameters) : ¬ orderFree p := by
  intro hof
  obtain ⟨p1, p2, h1, h2, hv1, hv2⟩ := validateMediaParamRange_orders p.Parameters hs
  have key : ∀ ps : Params, (p.visited ps).Validate = .done (validateMediaParamRange ps) := by
    intro ps
    simp [VCardProperty.Validate, hN, hT, tzTypeInfo, Tz, ValidateTz,
      VCardProperty.toVCardPropertyData, VCardProperty.visited]
  have a1 := hof p1 h1
  have a2 := hof p2 h2
  rw [key p1, hv1] at a1
  rw [key p2, ← a1] at a2
  cases hr : validateMediaParamRange p2 with
  | none => exact hv2 hr
  | some err => rw [hr] at a2; cases a2

/-- C19, as the code has it. `Validate()` starts from an empty error mapping: two cards with
the same list of properties, visited in the same orders, give the same outcome whatever
their error mappings held before. A list of parameters stands for the map and for the order
in which a run visits it, and another run on the same card may visit every map in another
order. When the verdict of no validator of the card depends on the order of its visit, a
second run completes if the first does and records the same set of error keys. This is so
for the validators of `version`, `kind`, `email`, `tel`, `uid`, `bday` and `anniversary`,
and for those of `tz`, `geo`, `fburl`, `caladruri` and `caluri` on a map that is not
sensitive to the order; it is not so for a `tz` whose map is sensitive to the order. Once a
property named `version` has been added, no run has the key `missing_property_version` that
an earlier run recorded. -/
theorem validate_from_scratch (L : Deps) :
    (∀ v w : VCard, v.Properties = w.Properties → v.Validate L = w.Validate L)
      ∧ (∀ v w v1 : VCard, sameCard v w →
          (∀ p ∈ v.Properties, orderFree p.obj) →
          (∀ p ∈ v.Properties, (p.obj.Parameters.map Prod.fst).Nodup) →
          v.Validate L = .done v1 →
            ∃ w1, w.Validate L = .done w1
              ∧ ∀ k, k ∈ errKeys v1.Errors ↔ k ∈ errKeys w1.Errors)
      ∧ (∀ p : VCardProperty,
          p.typeInfo ∈ [versionTypeInfo L, kindTypeInfo L, emailTypeInfo L, telTypeInfo L,
            uidTypeInfo L, bdayTypeInfo L, anniversaryTypeInfo L] → orderFree p)
      ∧ (∀ p : VCardProperty,
          p.typeInfo ∈ [tzTypeInfo L, geoTypeInfo L, fburlTypeInfo L, caladruriTypeInfo L,
            caluriTypeInfo L] →
          (p.Parameters.map Prod.fst).Nodup → ¬ orderSensitive p.Parameters → orderFree p)
      ∧ (∀ p : VCardProperty, p.typeInfo = tzTypeInfo L → p.Name = "tz" →
          orderSensitive p.Parameters → ¬ orderFree p)
      ∧ (∀ (v v1 w w1 : VCard) (p : PropertyRef),
          v.Validate L = .done v1 → "missing_property_version" ∈ errKeys v1.Errors →
          p.obj.Name = "version" →
          sameCard { v1 with Properties := v1.Properties ++ [p] } w →
          w.Validate L = .done w1 →
            "missing_property_version" ∉ errKeys w1.Errors) := by
  refine ⟨Validate_congr L, ?_, orderFree_plain L, orderFree_media L, not_orderFree_tz L, ?_⟩
  · intro v w v1 hs hof hnd hv
    obtain ⟨w1, hw⟩ := Validate_completes_of_same L v w v1 hs hof hv
    obtain ⟨hofw, hndw⟩ := sameCard_hyps v w hs hof hnd
    exact ⟨w1, hw, fun k =>
      ⟨Validate_keys_transfer L v w v1 w1 hs hof hnd hv hw k,
       Validate_keys_transfer L w v w1 v1 (sameCard_symm v w hs) hofw hndw hw hv k⟩⟩
  · intro v v1 w w1 p _ _ hp hs hw hmem
    obtain ⟨q, hq, hpq⟩ := pairwise_mem sameObject _ _ hs p
      (List.mem_append.2 (Or.inr (List.mem_singleton.2 rfl)))
    have := (missing_version_key_iff L w w1 hw).1 hmem q hq
    exact this (by rw [(sameObject_fields p q hpq).1, hp])

/-- C19 at concrete cards: keys left in the error mapping by something else are gone after
`Validate()`; a card with a version and a telephone number gives the same error keys in a
run that visits the parameter `type` first and in a run that visits `pref` first; and
adding a version removes the failure of the missing version. -/
theorem validate_from_scratch_witness :
    staleCard.Validate testDeps = fnCard.Validate testDeps
      ∧ (∃ v1 w1 : VCard, telCardTypeFirst.Validate testDeps = .done v1
          ∧ telCardPrefFirst.Validate testDeps = .done w1
          ∧ ∀ k, k ∈ errKeys v1.Errors ↔ k ∈ errKeys w1.Errors)
      ∧ (∃ v1 : VCard, staleCard.Validate testDeps = .done v1
          ∧ errKeys v1.Errors = ["missing_property_version"]
          ∧ ∃ w1 : VCard,
              VCard.Validate testDeps { v1 with Properties := v1.Properties
                ++ [{ addr := 1, obj := registered testDeps "version" "4.0" }] } = .done w1
              ∧ "missing_property_version" ∉ errKeys w1.Errors) := by
  refine ⟨(validate_from_scratch testDeps).1 staleCard fnCard rfl, ?_, ?_⟩
  · obtain ⟨v1, hv1⟩ : ∃ v1, telCardTypeFirst.Validate testDeps = .done v1 := ⟨_, rfl⟩
    have hs : sameCard telCardTypeFirst telCardPrefFirst :=
      .cons ⟨rfl, rfl, List.Perm.refl _⟩ (.cons ⟨rfl, rfl, List.Perm.swap _ _ _⟩ .nil)
    have hof : ∀ p ∈ telCardTypeFirst.Properties, orderFree p.obj := by
      intro p hp
      simp only [telCardTypeFirst, List.mem_cons, List.mem_singleton, List.not_mem_nil,
        or_false] at hp
      rcases hp with rfl | rfl
      · exact (validate_from_scratch testDeps).2.2.1 _ (List.Mem.head _)
      · exact (validate_from_scratch testDeps).2.2.1 _
          (List.Mem.tail _ (List.Mem.tail _ (List.Mem.tail _ (List.Mem.head _))))
    have hnd : ∀ p ∈ telCardTypeFirst.Properties, (p.obj.Parameters.map Prod.fst).Nodup := by
      intro p hp
      simp only [telCardTypeFirst, List.mem_cons, List.mem_singleton, List.not_mem_nil,
        or_false] at hp
      rcases hp with rfl | rfl <;> decide
    obtain ⟨w1, hw1, hk⟩ := (validate_from_scratch testDeps).2.1
      telCardTypeFirst telCardPrefFirst v1 hs hof hnd hv1
    exact ⟨v1, w1, hv1, hw1, hk⟩
  · refine ⟨_, rfl, by decide, _, rfl, ?_⟩
    exact (validate_from_scratch testDeps).2.2.2.2.2 staleCard _ _ _
      { addr := 1, obj := registered testDeps "version" "4.0" } rfl (by decide) rfl
      (sameCard_refl _) rfl

/-- Two runs of `Validate()` on one card that record different keys: the card decoded from
`tzTop` has a time zone with the parameters `mediatype` and `unknown`; the run that visits
`mediatype` first records nothing, and the run that visits `unknown` first records the
failure of the time zone. -/
theorem validate_twice_differs :
    NewVCard testDeps tzTop none = (some tzCardMediatypeFirst, none)
      ∧ sameCard tzCardMediatypeFirst tzCardUnknownFirst
      ∧ ∃ v1 w1 : VCard, tzCardMediatypeFirst.Validate testDeps = .done v1
          ∧ tzCardUnknownFirst.Validate testDeps = .done w1
          ∧ errKeys v1.Errors = []
          ∧ errKeys w1.Errors = ["1_tz validationError"] :=
  ⟨rfl, .cons ⟨rfl, rfl, List.Perm.refl _⟩ (.cons ⟨rfl, rfl, List.Perm.swap _ _ _⟩ .nil),
   _, _, rfl, rfl, by decide, by decide⟩

end JCard
